import Mathlib

/-!
# FreeHeroes random map generator: tile-region algebra and zone topology

A shallow embedding of `MapTileArea.cpp` (edge derivation and refinement,
flood-fill split, k-split, centroid, collision shift, footprint codec), of the
`MapDraft` / `TileZone` part of `FHTemplateProcessor.cpp` (exclave repair, zone
regrowth) and of `FHMap::DisableConfig`, followed by the properties proved
about them.

Conventions of the embedding:
* a `MapTilePtr` is the position of the tile it points to, a nullable pointer is
  an `Option`; the container the tile lives in is passed explicitly;
* C++ exceptions and undefined reads are values of `Thrown` in `Except`;
* `while` loops run on a loop budget; the budget the embedding supplies is shown
  to be sufficient where a result is claimed.
-/

namespace FreeHeroes

/-! ## Definitions -/

/-- Modelled from the spec: the position type `FHPos` (`FHPos.hpp` is not part
of the sources), "integer (x, y, z) coordinate", with the member names the
sources use. -/
structure FHPos where
  m_x : Int
  m_y : Int
  m_z : Int
deriving DecidableEq

/-- Modelled from the spec: the member-wise difference `FHPos::operator-`. -/
def FHPos.sub (a b : FHPos) : FHPos :=
  { m_x := a.m_x - b.m_x, m_y := a.m_y - b.m_y, m_z := a.m_z - b.m_z }

/-- The helper `neighbour(point, dx, dy)` of FHTemplateProcessor.cpp. -/
def neighbour (point : FHPos) (dx dy : Int) : FHPos :=
  { point with m_x := point.m_x + dx, m_y := point.m_y + dy }

/-- Failures of the embedded code: thrown exceptions and invalid reads. -/
inductive Thrown where
  | invalidTileHint
  | tileIndexMiss
  | nullTile
  | emptyRegionIndex
  | stringIndex
  | emptyVectorBack
  | assertion
  | divisionByZero
  | loopBudget
deriving DecidableEq

/-- The dimensions of `MapTileContainer` (`m_width`, `m_height`, `m_depth`). -/
structure MapTileContainer where
  m_width : Int
  m_height : Int
  m_depth : Int
deriving DecidableEq

/-- Modelled from the spec: the tile set built by `MapTileContainer::init`
(its body is not part of the sources): the rectangular grid of positions
`0 ≤ x < width`, `0 ≤ y < height`, `0 ≤ z < depth`. -/
def MapTileContainer.hasTile (c : MapTileContainer) (p : FHPos) : Bool :=
  decide (0 ≤ p.m_x) && decide (p.m_x < c.m_width)
    && decide (0 ≤ p.m_y) && decide (p.m_y < c.m_height)
    && decide (0 ≤ p.m_z) && decide (p.m_z < c.m_depth)

/-- Modelled from the spec: the lookup `m_tileIndex.find(pos)` in the index that
`MapTileContainer::init` fills: the tile at a position, if the grid has one. -/
def MapTileContainer.tileIndexFind (c : MapTileContainer) (p : FHPos) : Option FHPos :=
  if c.hasTile p then some p else none

/-- Modelled from the spec: the lookup `m_tileIndex.at(pos)` in the index that
`MapTileContainer::init` fills; it throws when the position has no tile. -/
def MapTileContainer.tileIndexAt (c : MapTileContainer) (p : FHPos) : Except Thrown FHPos :=
  if c.hasTile p then .ok p else .error .tileIndexMiss

/-- Modelled from the spec: the cached neighbour pointers of a tile
(`MapTile.hpp` is not part of the sources): the tile shifted by `(dx, dy)` on
the same level, null when that position is off the grid. -/
def MapTileContainer.neighborPtr (c : MapTileContainer) (cell : FHPos) (dx dy : Int) :
    Option FHPos :=
  c.tileIndexFind (neighbour cell dx dy)

/-- Pointer m_neighborT, the tile above (y - 1). -/
def MapTileContainer.m_neighborT (c : MapTileContainer) (cell : FHPos) : Option FHPos :=
  c.neighborPtr cell 0 (-1)

/-- Pointer m_neighborL, the tile on the left (x - 1). -/
def MapTileContainer.m_neighborL (c : MapTileContainer) (cell : FHPos) : Option FHPos :=
  c.neighborPtr cell (-1) 0

/-- Pointer m_neighborR, the tile on the right (x + 1). -/
def MapTileContainer.m_neighborR (c : MapTileContainer) (cell : FHPos) : Option FHPos :=
  c.neighborPtr cell 1 0

/-- Pointer m_neighborB, the tile below (y + 1). -/
def MapTileContainer.m_neighborB (c : MapTileContainer) (cell : FHPos) : Option FHPos :=
  c.neighborPtr cell 0 1

/-- Pointer m_neighborTL. -/
def MapTileContainer.m_neighborTL (c : MapTileContainer) (cell : FHPos) : Option FHPos :=
  c.neighborPtr cell (-1) (-1)

/-- Pointer m_neighborTR. -/
def MapTileContainer.m_neighborTR (c : MapTileContainer) (cell : FHPos) : Option FHPos :=
  c.neighborPtr cell 1 (-1)

/-- Pointer m_neighborBL. -/
def MapTileContainer.m_neighborBL (c : MapTileContainer) (cell : FHPos) : Option FHPos :=
  c.neighborPtr cell (-1) 1

/-- Pointer m_neighborBR. -/
def MapTileContainer.m_neighborBR (c : MapTileContainer) (cell : FHPos) : Option FHPos :=
  c.neighborPtr cell 1 1

/-- The non-null pointers of a list of nullable tile pointers. -/
def presentTiles (ptrs : List (Option FHPos)) : List FHPos :=
  ptrs.filterMap id

/-- Modelled from the spec: `m_orthogonalNeighbours`, the existing ones of the
four orthogonal neighbours. -/
def MapTileContainer.m_orthogonalNeighbours (c : MapTileContainer) (cell : FHPos) :
    List FHPos :=
  presentTiles [c.m_neighborT cell, c.m_neighborL cell, c.m_neighborR cell, c.m_neighborB cell]

/-- Modelled from the spec: `m_allNeighboursWithDiag`, the existing ones of the
eight neighbours. -/
def MapTileContainer.m_allNeighboursWithDiag (c : MapTileContainer) (cell : FHPos) :
    List FHPos :=
  presentTiles [c.m_neighborT cell, c.m_neighborL cell, c.m_neighborR cell, c.m_neighborB cell,
    c.m_neighborTL cell, c.m_neighborTR cell, c.m_neighborBL cell, c.m_neighborBR cell]

/-- Accessor `MapTile::neighboursList(useDiag)`. -/
def MapTileContainer.neighboursList (c : MapTileContainer) (useDiag : Bool) (cell : FHPos) :
    List FHPos :=
  if useDiag then c.m_allNeighboursWithDiag cell else c.m_orthogonalNeighbours cell

/-- Modelled from the spec: `MapTileRegion` (`MapTileRegion.hpp` is not part of
the sources), "an unordered set of tile identities; no ordering invariant;
supports duplicate-free insertion". The list gives the iteration order; the
operations below never create a duplicate, and two regions are the same region
when they have the same tiles (`MapTileRegion.same`). -/
abbrev MapTileRegion := List FHPos

/-- Modelled from the spec: membership test `region.contains(tile)`. -/
def MapTileRegion.contains (r : MapTileRegion) (t : FHPos) : Bool :=
  decide (t ∈ r)

/-- Modelled from the spec: the membership test on a nullable pointer; a null
pointer is in no region. -/
def MapTileRegion.containsPtr (r : MapTileRegion) (t : Option FHPos) : Bool :=
  match t with
  | some p => MapTileRegion.contains r p
  | none => false

/-- Modelled from the spec: duplicate-free insertion `region.insert(tile)`. -/
def MapTileRegion.insert (r : MapTileRegion) (t : FHPos) : MapTileRegion :=
  if MapTileRegion.contains r t then r else r ++ [t]

/-- Modelled from the spec: insertion of a list of tiles, `region.insert(list)`. -/
def MapTileRegion.insertList (r : MapTileRegion) (ts : List FHPos) : MapTileRegion :=
  ts.foldl MapTileRegion.insert r

/-- Modelled from the spec: construction of a region from a tile list, `MapTileRegion(list)`. -/
def MapTileRegion.ofList (ts : List FHPos) : MapTileRegion :=
  MapTileRegion.insertList [] ts

/-- Modelled from the spec: removal of one tile, `region.erase(tile)`. -/
def MapTileRegion.erase (r : MapTileRegion) (t : FHPos) : MapTileRegion :=
  r.filter (fun x => !decide (x = t))

/-- Modelled from the spec: removal of a set of tiles, `region.erase(list)`. -/
def MapTileRegion.eraseList (r : MapTileRegion) (ts : List FHPos) : MapTileRegion :=
  r.filter (fun x => !decide (x ∈ ts))

/-- Modelled from the spec: set intersection `region.intersectWith(other)`. -/
def MapTileRegion.intersectWith (r other : MapTileRegion) : MapTileRegion :=
  r.filter (fun x => MapTileRegion.contains other x)

/-- Modelled from the spec: set difference `region.diffWith(other)`. -/
def MapTileRegion.diffWith (r other : MapTileRegion) : MapTileRegion :=
  r.filter (fun x => !MapTileRegion.contains other x)

/-- Modelled from the spec: region equality `a == b`: the two regions have the same tiles. -/
def MapTileRegion.same (a b : MapTileRegion) : Bool :=
  a.all (fun x => MapTileRegion.contains b x) && b.all (fun x => MapTileRegion.contains a x)

/-- Modelled from the spec: the data members of `MapTileArea` (`MapTileArea.hpp`
is not part of the sources): the diagonal-growth flag, the tile set and the two
derived edges, "inner-edge and outside-edge regions (derived caches)"; a fresh
area grows orthogonally. -/
structure MapTileArea where
  m_diagonalGrowth : Bool := false
  m_innerArea : MapTileRegion := []
  m_innerEdge : MapTileRegion := []
  m_outsideEdge : MapTileRegion := []
deriving DecidableEq

/-- Method `MapTileArea::makeOutsideEdge`. -/
def MapTileArea.makeOutsideEdge (c : MapTileContainer) (a : MapTileArea) : MapTileArea :=
  { a with
    m_outsideEdge :=
      a.m_innerEdge.foldl
        (fun edge cell =>
          (c.neighboursList a.m_diagonalGrowth cell).foldl
            (fun edge2 ncell =>
              if !MapTileRegion.contains a.m_innerArea ncell then MapTileRegion.insert edge2 ncell
              else edge2)
            edge)
        [] }

/-- The erase test of `removeNonInnerFromInnerEdge`: all neighbours that count
for the growth mode are in the inner area. -/
def MapTileArea.isInnerCell (c : MapTileContainer) (a : MapTileArea) (cell : FHPos) : Bool :=
  if a.m_diagonalGrowth then
    MapTileRegion.containsPtr a.m_innerArea (c.m_neighborB cell)
      && MapTileRegion.containsPtr a.m_innerArea (c.m_neighborT cell)
      && MapTileRegion.containsPtr a.m_innerArea (c.m_neighborR cell)
      && MapTileRegion.containsPtr a.m_innerArea (c.m_neighborL cell)
      && MapTileRegion.containsPtr a.m_innerArea (c.m_neighborTL cell)
      && MapTileRegion.containsPtr a.m_innerArea (c.m_neighborTR cell)
      && MapTileRegion.containsPtr a.m_innerArea (c.m_neighborBL cell)
      && MapTileRegion.containsPtr a.m_innerArea (c.m_neighborBR cell)
  else
    MapTileRegion.containsPtr a.m_innerArea (c.m_neighborB cell)
      && MapTileRegion.containsPtr a.m_innerArea (c.m_neighborT cell)
      && MapTileRegion.containsPtr a.m_innerArea (c.m_neighborR cell)
      && MapTileRegion.containsPtr a.m_innerArea (c.m_neighborL cell)

/-- Method `MapTileArea::removeNonInnerFromInnerEdge`. -/
def MapTileArea.removeNonInnerFromInnerEdge (c : MapTileContainer) (a : MapTileArea) :
    MapTileArea :=
  let forErase := a.m_innerEdge.filter (fun cell => MapTileArea.isInnerCell c a cell)
  MapTileArea.makeOutsideEdge c
    { a with m_innerEdge := MapTileRegion.eraseList a.m_innerEdge forErase }

/-- Method `MapTileArea::makeEdgeFromInnerArea`. -/
def MapTileArea.makeEdgeFromInnerArea (c : MapTileContainer) (a : MapTileArea) : MapTileArea :=
  MapTileArea.removeNonInnerFromInnerEdge c { a with m_innerEdge := a.m_innerArea }

/-- The locals of `splitByFloodFill` that the lambda `addToCurrent` captures by
reference. -/
structure FloodState where
  currentBuffer : List FHPos
  visited : MapTileRegion
  currentEdge : List FHPos

/-- The lambda `addToCurrent` of `splitByFloodFill`. -/
def addToCurrent (innerArea : MapTileRegion) (s : FloodState) (cell : FHPos) : FloodState :=
  if MapTileRegion.contains s.visited cell then s
  else if !MapTileRegion.contains innerArea cell then s
  else
    { currentBuffer := s.currentBuffer ++ [cell]
      visited := MapTileRegion.insert s.visited cell
      currentEdge := s.currentEdge ++ [cell] }

/-- One round of the inner loop of `splitByFloodFill`: the edge is moved out and
every neighbour of every moved cell is offered to `addToCurrent`. -/
def floodRound (c : MapTileContainer) (innerArea : MapTileRegion) (useDiag : Bool)
    (s : FloodState) : FloodState :=
  s.currentEdge.foldl
    (fun st edgeCell => (c.neighboursList useDiag edgeCell).foldl (addToCurrent innerArea) st)
    { s with currentEdge := [] }

/-- The inner loop `while (!currentEdge.empty())` of `splitByFloodFill`. -/
def floodGrow (c : MapTileContainer) (innerArea : MapTileRegion) (useDiag : Bool) :
    Nat → FloodState → Option FloodState
  | 0, s => if s.currentEdge.isEmpty then some s else none
  | fuel + 1, s =>
    if s.currentEdge.isEmpty then some s
    else floodGrow c innerArea useDiag fuel (floodRound c innerArea useDiag s)

/-- The outer loop `while (!remain.empty())` of `splitByFloodFill`. -/
def splitLoop (c : MapTileContainer) (innerArea : MapTileRegion) (useDiag : Bool) :
    Nat → MapTileRegion → Option FHPos → MapTileRegion → List MapTileArea →
      Option (List MapTileArea)
  | _, [], _, _, result => some result
  | 0, _ :: _, _, _, _ => none
  | fuel + 1, first :: rest, hint, visited, result =>
    let startCell := match hint with
      | some h => h
      | none => first
    let s0 := addToCurrent innerArea
      { currentBuffer := [], visited := visited, currentEdge := [] } startCell
    match floodGrow c innerArea useDiag (innerArea.length + 1) s0 with
    | none => none
    | some s =>
      let current := MapTileArea.makeEdgeFromInnerArea c
        { m_innerArea := MapTileRegion.ofList s.currentBuffer }
      splitLoop c innerArea useDiag fuel
        (MapTileRegion.eraseList (first :: rest) current.m_innerArea) none s.visited
        (result ++ [current])

/-- Method `MapTileArea::splitByFloodFill(useDiag, hint)`. -/
def MapTileArea.splitByFloodFill (c : MapTileContainer) (a : MapTileArea) (useDiag : Bool)
    (hint : Option FHPos) : Except Thrown (List MapTileArea) :=
  if a.m_innerArea.isEmpty then .ok []
  else
    let badHint := match hint with
      | some h => !MapTileRegion.contains a.m_innerArea h
      | none => false
    if badHint then .error .invalidTileHint
    else
      match splitLoop c a.m_innerArea useDiag a.m_innerArea.length a.m_innerArea hint [] [] with
      | some result => .ok result
      | none => .error .loopBudget

/-- A cluster of `KMeansSegmentation` as `splitByK` reads it: the centroid and
the tiles of the points assigned to it. -/
structure KMeansCluster where
  m_centroid : FHPos
  m_points : List FHPos
deriving DecidableEq

/-- Index that `std::max_element(first, last, comp)` returns, scanning from
`best` (the largest so far, at index `bestIdx`) over the rest of the range. -/
def maxElementFrom {α : Type} (comp : α → α → Bool) : α → Nat → Nat → List α → Nat
  | _, bestIdx, _, [] => bestIdx
  | best, bestIdx, i, x :: xs =>
    if comp best x then maxElementFrom comp x i (i + 1) xs
    else maxElementFrom comp best bestIdx (i + 1) xs

/-- Index of `std::max_element` over a whole vector (0 on an empty one, where
the iterator is `end()`). -/
def maxElementIndex {α : Type} (comp : α → α → Bool) : List α → Nat
  | [] => 0
  | x :: xs => maxElementFrom comp x 0 1 xs

/-- Element that `std::min_element(first, last, comp)` returns, scanning from
`best` over the rest of the range. -/
def minElementFrom {α : Type} (comp : α → α → Bool) : α → List α → α
  | best, [] => best
  | best, x :: xs => if comp x best then minElementFrom comp x xs else minElementFrom comp best xs

/-- The loop `while (!clusters.empty())` of the `repulse` branch of `splitByK`:
the cluster farthest from the current one is moved to the sorted list. Every
round removes one cluster, so the budget `clusters.length` is never exhausted. -/
def repulseLoop (posDistance : FHPos → FHPos → Int) :
    Nat → KMeansCluster → List KMeansCluster → List KMeansCluster → List KMeansCluster
  | 0, _, _, clustersSorted => clustersSorted
  | fuel + 1, curr, clusters, clustersSorted =>
    let it := maxElementIndex
      (fun l r => decide (posDistance curr.m_centroid l.m_centroid
        < posDistance curr.m_centroid r.m_centroid)) clusters
    match clusters[it]? with
    | none => clustersSorted
    | some next =>
      repulseLoop posDistance fuel next (clusters.eraseIdx it) (clustersSorted ++ [next])

/-- Method `MapTileArea::splitByK(os, k, repulse)`. The clustering itself
(`KMeansSegmentation::initEqualCentoids` and `run`, whose bodies are not part of
the sources) is the parameter `kmeans`: the clusters computed for the points of
the area and `k`; `posDistance` is the distance of `MapTile.hpp`. -/
def MapTileArea.splitByK (kmeans : List FHPos → Nat → List KMeansCluster)
    (posDistance : FHPos → FHPos → Int) (c : MapTileContainer) (a : MapTileArea) (k : Nat)
    (repulse : Bool) : Except Thrown (List MapTileArea) :=
  let zoneArea := a.m_innerArea.length
  if zoneArea = 0 then .ok []
  else if k = 1 then
    .ok ([a].map (MapTileArea.makeEdgeFromInnerArea c))
  else
    let clusters := kmeans a.m_innerArea k
    let ordered : Except Thrown (List KMeansCluster) :=
      if repulse then
        match clusters.getLast? with
        | none => .error .emptyVectorBack
        | some curr => .ok (repulseLoop posDistance clusters.length curr clusters.dropLast [curr])
      else .ok clusters
    match ordered with
    | .error e => .error e
    | .ok clusters2 =>
      let segs := clusters2.map (fun cluster => MapTileRegion.insertList [] cluster.m_points)
      if segs.any (fun zoneSeg => zoneSeg.isEmpty) then .error .assertion
      else
        .ok ((segs.map (fun zoneSeg => ({ m_innerArea := zoneSeg } : MapTileArea))).map
          (MapTileArea.makeEdgeFromInnerArea c))

/-- The local `k` of `splitByMaxArea`, `(zoneArea + maxArea + 1) / maxArea` in
`size_t` arithmetic (64 bits wide): the sum wraps around at `2 ^ 64`. -/
def MapTileArea.splitByMaxAreaK (zoneArea maxArea : Nat) : Nat :=
  ((zoneArea + maxArea + 1) % 2 ^ 64) / maxArea

/-- Method `MapTileArea::splitByMaxArea(os, maxArea, repulse)`; a zero `maxArea`
is an integer division by zero. -/
def MapTileArea.splitByMaxArea (kmeans : List FHPos → Nat → List KMeansCluster)
    (posDistance : FHPos → FHPos → Int) (c : MapTileContainer) (a : MapTileArea) (maxArea : Nat)
    (repulse : Bool) : Except Thrown (List MapTileArea) :=
  let zoneArea := a.m_innerArea.length
  if zoneArea = 0 then .ok []
  else if maxArea = 0 then .error .divisionByZero
  else
    MapTileArea.splitByK kmeans posDistance c a (MapTileArea.splitByMaxAreaK zoneArea maxArea)
      repulse

/-- The lambda `estimateAvgDistance` of `makeCentroid`. -/
def estimateAvgDistance (posDistance : FHPos → FHPos → Int → Int) (region : MapTileRegion)
    (centerTile : FHPos) : Int :=
  region.foldl (fun result cell => result + posDistance centerTile cell 100) 0

/-- Method `MapTileArea::makeCentroid(region, ensureInbounds)`; `none` is the
null pointer returned for an empty region. `posDistance` is the scaled tile
distance of `MapTile.hpp`, which is not part of the sources. The 64-bit sums
are unbounded integers (they stay far below 2^63 on any grid of `int` size). -/
def MapTileArea.makeCentroid (posDistance : FHPos → FHPos → Int → Int) (c : MapTileContainer)
    (region : MapTileRegion) (ensureInbounds : Bool) : Except Thrown (Option FHPos) :=
  match region with
  | [] => .ok none
  | first :: _ =>
    let sumX := region.foldl (fun s cell => s + cell.m_x) 0
    let sumY := region.foldl (fun s cell => s + cell.m_y) 0
    let size : Int := region.length
    let pos : FHPos := { m_x := sumX.tdiv size, m_y := sumY.tdiv size, m_z := first.m_z }
    match c.tileIndexAt pos with
    | .error e => .error e
    | .ok mean =>
      let start :=
        if ensureInbounds && !MapTileRegion.contains region mean then
          minElementFrom
            (fun l r => decide (posDistance mean l 100 < posDistance mean r 100)) first region
        else mean
      let best :=
        (c.m_allNeighboursWithDiag start).foldl
          (fun acc tile =>
            if ensureInbounds && !MapTileRegion.contains region tile then acc
            else
              let altResult := estimateAvgDistance posDistance region tile
              if altResult < acc.2 then (tile, altResult) else acc)
          (start, estimateAvgDistance posDistance region start)
      .ok (some best.1)

/-- The enumeration `MapTileArea::CollisionResult`, with the four values the
code returns. -/
inductive CollisionResult where
  | InvalidInputs
  | NoCollision
  | ImpossibleShift
  | HasShift
deriving DecidableEq

/-- Modelled from the spec: the value-initialised position `FHPos{}`. -/
def FHPos.zero : FHPos := { m_x := 0, m_y := 0, m_z := 0 }

/-- The bounding box loop of `getCollisionShiftForObject`: the pair
`(topLeftBoundary, rightBottomBoundary)` after visiting every tile. -/
def objectBoundary (first : FHPos) (object : MapTileRegion) : FHPos × FHPos :=
  object.foldl
    (fun b tile =>
      ({ b.1 with m_x := min b.1.m_x tile.m_x, m_y := min b.1.m_y tile.m_y },
       { b.2 with m_x := max b.2.m_x tile.m_x, m_y := max b.2.m_y tile.m_y }))
    (first, first)

/-- The four sign-flip statements at the end of `getCollisionShiftForObject`,
executed in sequence on `(cx, cy)`. -/
def shiftCorrection (horRadius vertRadius cx cy : Int) : Int × Int :=
  let cx1 := if cx > 0 then (if horRadius > 1 then horRadius - cx + 1 else cx) else cx
  let cx2 := if cx1 < 0 then (if horRadius > 1 then -horRadius - cx1 - 1 else cx1) else cx1
  let cy1 := if cy > 0 then (if vertRadius > 1 then vertRadius - cy + 1 else cy) else cy
  let cy2 := if cy1 < 0 then (if horRadius > 1 then -vertRadius - cy1 - 1 else cy1) else cy1
  (cx2, cy2)

/-- Method `MapTileArea::getCollisionShiftForObject(object, obstacle,
invertObstacle)`. Dereferencing the null centroid of an empty region is
`Thrown.nullTile`, indexing an empty region is `Thrown.emptyRegionIndex`. -/
def MapTileArea.getCollisionShiftForObject (posDistance : FHPos → FHPos → Int → Int)
    (c : MapTileContainer) (object obstacle : MapTileRegion) (invertObstacle : Bool) :
    Except Thrown (CollisionResult × FHPos) :=
  if object.isEmpty || obstacle.isEmpty then .ok (CollisionResult.InvalidInputs, FHPos.zero)
  else
    let intersection :=
      if invertObstacle then MapTileRegion.diffWith object obstacle
      else MapTileRegion.intersectWith object obstacle
    if intersection.isEmpty then .ok (CollisionResult.NoCollision, FHPos.zero)
    else if MapTileRegion.same intersection object then
      .ok (CollisionResult.ImpossibleShift, FHPos.zero)
    else
      match MapTileArea.makeCentroid posDistance c intersection false with
      | .error e => .error e
      | .ok none => .error .nullTile
      | .ok (some collisionCentroid) =>
        let objectWithoutObstacle := MapTileRegion.erase object collisionCentroid
        match object with
        | [] => .error .emptyRegionIndex
        | first :: _ =>
          let boundary := objectBoundary first object
          let diff := boundary.2.sub boundary.1
          let width := diff.m_x + 1
          let height := diff.m_y + 1
          let horRadius := width.tdiv 2
          let vertRadius := height.tdiv 2
          match MapTileArea.makeCentroid posDistance c objectWithoutObstacle false with
          | .error e => .error e
          | .ok none => .error .nullTile
          | .ok (some objectCentroid) =>
            let collisionOffset := objectCentroid.sub collisionCentroid
            let cx := collisionOffset.m_x
            let cy := collisionOffset.m_y
            if cx = 0 ∧ cy = 0 then .ok (CollisionResult.ImpossibleShift, FHPos.zero)
            else
              let shift := shiftCorrection horRadius vertRadius cx cy
              .ok (CollisionResult.HasShift, { m_x := shift.1, m_y := shift.2, m_z := 0 })

/-- The read `serialized[testOffset]` of a `std::string`: a character of the
string, the terminating null character at offset `size()`, undefined beyond. -/
def stringAt (serialized : List Char) (testOffset : Nat) : Except Thrown Char :=
  match serialized[testOffset]? with
  | some ch => .ok ch
  | none => if testOffset = serialized.length then .ok (Char.ofNat 0) else .error .stringIndex

/-- Body of the inner loop of `decompose` for the tile `(x, y)`. -/
def decomposeCell (c : MapTileContainer) (serialized : List Char) (width : Int)
    (acc : MapTileRegion × MapTileRegion) (x y : Nat) :
    Except Thrown (MapTileRegion × MapTileRegion) :=
  match c.tileIndexAt { m_x := x, m_y := y, m_z := 0 } with
  | .error e => .error e
  | .ok tile =>
    match stringAt serialized ((x : Int) + width * (y : Int)).toNat with
    | .error e => .error e
    | .ok ch =>
      let objectOccupied := ch = 'O' || ch = 'X'
      let obstacleOccupied := ch = '-' || ch = 'X'
      let object := if objectOccupied then MapTileRegion.insert acc.1 tile else acc.1
      let obstacle := if obstacleOccupied then MapTileRegion.insert acc.2 tile else acc.2
      .ok (object, obstacle)

/-- Method `MapTileArea::decompose(tileContainer, object, obstacle, serialized,
width, height)`; the result is the pair of output regions. -/
def MapTileArea.decompose (c : MapTileContainer) (object obstacle : MapTileRegion)
    (serialized : List Char) (width height : Int) :
    Except Thrown (MapTileRegion × MapTileRegion) :=
  (List.range height.toNat).foldlM
    (fun acc y => (List.range width.toNat).foldlM
      (fun acc2 x => decomposeCell c serialized width acc2 x y) acc)
    (object, obstacle)

/-- The character chosen by `compose` for one tile. -/
def composeChar (object obstacle : MapTileRegion) (obstacleInverted : Bool) (tile : FHPos) :
    Char :=
  let objectOccupied := MapTileRegion.contains object tile
  let obstacleOccupied :=
    if obstacleInverted then !MapTileRegion.contains obstacle tile
    else MapTileRegion.contains obstacle tile
  if objectOccupied && obstacleOccupied then 'X'
  else if objectOccupied then 'O'
  else if obstacleOccupied then '-'
  else '.'

/-- One row of the outer loop of `compose`. -/
def composeRow (c : MapTileContainer) (object obstacle : MapTileRegion)
    (obstacleInverted printable : Bool) (z : Int) (serialized : List Char) (y : Nat) :
    Except Thrown (List Char) :=
  let opened := if printable then serialized ++ ['"'] else serialized
  let cells : Except Thrown (List Char) :=
    (List.range c.m_width.toNat).foldlM
      (fun (s : List Char) (x : Nat) =>
        match c.tileIndexAt { m_x := x, m_y := y, m_z := z } with
        | .error e => Except.error e
        | .ok tile => Except.ok (s ++ [composeChar object obstacle obstacleInverted tile]))
      opened
  match cells with
  | .error e => .error e
  | .ok filled => .ok (if printable then filled ++ ['"', '\n'] else filled)

/-- Method `MapTileArea::compose(object, obstacle, serialized, obstacleInverted,
printable)`: the value of `serialized` on return. The container is the one the
tiles of the two regions point to; with both regions empty there is none and
`serialized` is returned untouched. -/
def MapTileArea.compose (c : MapTileContainer) (object obstacle : MapTileRegion)
    (serialized : List Char) (obstacleInverted printable : Bool) : Except Thrown (List Char) :=
  match object, obstacle with
  | [], [] => .ok serialized
  | _, _ =>
    let z := match object with
      | [] => (match obstacle with
        | [] => 0
        | o :: _ => o.m_z)
      | o :: _ => o.m_z
    (List.range c.m_height.toNat).foldlM
      (fun s y => composeRow c object obstacle obstacleInverted printable z s y) []

/-- The struct `MapDraft::Tile`. -/
structure MapDraft.Tile where
  m_zoned : Bool := false
  m_zoneIndex : Int := -1
  m_exFix : Bool := false
deriving DecidableEq

/-- The struct `MapDraft`: `m_tiles` is the `std::map<FHPos, Tile>` as the list
of its entries in iteration order, `m_edge` the `std::set<FHPos>`. -/
structure MapDraft where
  m_tiles : List (FHPos × MapDraft.Tile) := []
  m_edge : List FHPos := []
deriving DecidableEq

/-- Key order of the `std::map`; `FHPos::operator<` is not part of the sources
and is taken to compare the members in declaration order. -/
def FHPos.lt (a b : FHPos) : Bool :=
  decide (a.m_x < b.m_x) || (decide (a.m_x = b.m_x)
    && (decide (a.m_y < b.m_y) || (decide (a.m_y = b.m_y) && decide (a.m_z < b.m_z))))

/-- Lookup `m_tiles.find(pos)`. -/
def tilesFind : List (FHPos × MapDraft.Tile) → FHPos → Option MapDraft.Tile
  | [], _ => none
  | (k, t) :: rest, pos => if k = pos then some t else tilesFind rest pos

/-- Assignment `m_tiles[pos] = tile`: replaces the entry of an existing key,
inserts a new key at its place in the key order. -/
def tilesAssign : List (FHPos × MapDraft.Tile) → FHPos → MapDraft.Tile →
    List (FHPos × MapDraft.Tile)
  | [], pos, tile => [(pos, tile)]
  | (k, t) :: rest, pos, tile =>
    if k = pos then (pos, tile) :: rest
    else if FHPos.lt pos k then (pos, tile) :: (k, t) :: rest
    else (k, t) :: tilesAssign rest pos tile

/-- Test `m_tiles.contains(pos)`. -/
def MapDraft.contains (d : MapDraft) (pos : FHPos) : Bool :=
  (tilesFind d.m_tiles pos).isSome

/-- Method `MapDraft::init(width, height, depth)`. -/
def MapDraft.init (d : MapDraft) (width height depth : Int) : MapDraft :=
  (List.range depth.toNat).foldl
    (fun d1 z =>
      let d3 := (List.range height.toNat).foldl
        (fun d2 y =>
          let filled := (List.range width.toNat).foldl
            (fun (t : List (FHPos × MapDraft.Tile)) (x : Nat) =>
              tilesAssign t { m_x := x, m_y := y, m_z := z } {})
            d2.m_tiles
          { m_tiles := filled
            m_edge := MapTileRegion.insert
              (MapTileRegion.insert d2.m_edge { m_x := 0, m_y := y, m_z := z })
              { m_x := width - 1, m_y := y, m_z := z } })
        d1
      (List.range width.toNat).foldl
        (fun d2 x =>
          { d2 with
            m_edge := MapTileRegion.insert
              (MapTileRegion.insert d2.m_edge { m_x := x, m_y := 0, m_z := z })
              { m_x := x, m_y := height - 1, m_z := z } })
        d3)
    d

/-- Method `MapDraft::checkOrphans`: throws unless every tile is zoned; the
result is `true` when it returns normally. -/
def MapDraft.checkOrphans (d : MapDraft) : Bool :=
  d.m_tiles.all (fun e => e.2.m_zoned)

/-- The lambda `processTile` of `fixExclaves` on the zone indices of the tile
and of its four sides: the returned flag (`true` = nothing to do) and the zone
index of the tile afterwards. -/
def processTile (zX zT zL zR zB : Int) : Bool × Int :=
  let eT := decide (zX = zT)
  let eL := decide (zX = zL)
  let eR := decide (zX = zR)
  let eB := decide (zX = zB)
  let sameCount := eT.toNat + eL.toNat + eR.toNat + eB.toNat
  if sameCount ≥ 3 then (true, zX)
  else
    let two : Option (Bool × Int) :=
      if sameCount = 2 then
        if (eT && eL) || (eT && eR) || (eB && eL) || (eB && eR) then some (true, zX)
        else if eT && eB then some (false, zL)
        else if eR && eL then some (false, zT)
        else none
      else none
    match two with
    | some r => r
    | none =>
      if sameCount = 1 then
        if eT then (false, zB)
        else if eL then (false, zR)
        else if eR then (false, zL)
        else if eB then (false, zT)
        else (false, zX)
      else if zT = zL then (false, zT)
      else if zT = zR then (false, zT)
      else if zB = zR then (false, zB)
      else if zB = zL then (false, zB)
      else (false, zT)

/-- The reference `m_tiles.contains(p) ? m_tiles[p] : cell` to a side of a tile. -/
def MapDraft.sideTile (d : MapDraft) (cell : MapDraft.Tile) (p : FHPos) : MapDraft.Tile :=
  match tilesFind d.m_tiles p with
  | some t => t
  | none => cell

/-- The flag and zone index that `processTile` yields for the tile at `pos`. -/
def MapDraft.processAt (d : MapDraft) (pos : FHPos) (cell : MapDraft.Tile) : Bool × Int :=
  processTile cell.m_zoneIndex
    (d.sideTile cell (neighbour pos 0 (-1))).m_zoneIndex
    (d.sideTile cell (neighbour pos (-1) 0)).m_zoneIndex
    (d.sideTile cell (neighbour pos 1 0)).m_zoneIndex
    (d.sideTile cell (neighbour pos 0 1)).m_zoneIndex

/-- One iteration of the loop of `fixExclaves`, for the key `pos`, on the pair
of the draft and `fixedCount`. -/
def MapDraft.fixTile (acc : MapDraft × Int) (pos : FHPos) : MapDraft × Int :=
  match tilesFind acc.1.m_tiles pos with
  | none => acc
  | some cell =>
    let r := acc.1.processAt pos cell
    if r.1 then acc
    else
      ({ acc.1 with
          m_tiles := tilesAssign acc.1.m_tiles pos
            { cell with m_zoneIndex := r.2, m_exFix := true } },
        acc.2 + 1)

/-- Method `MapDraft::fixExclaves`: the draft after the pass and the returned
flag (`true` = nothing to fix). -/
def MapDraft.fixExclaves (d : MapDraft) : MapDraft × Bool :=
  let r := (d.m_tiles.map Prod.fst).foldl MapDraft.fixTile (d, 0)
  (r.1, decide (r.2 = 0))

/-- The data members of `TileZone` that the zone growth uses; `m_map` is passed
explicitly and a `TileRegion` (`std::set<FHPos>`) is a duplicate-free list. -/
structure TileZone where
  m_index : Int := 0
  m_startTile : FHPos := FHPos.zero
  m_innerArea : MapTileRegion := []
  m_innerEdge : MapTileRegion := []
  m_outsideEdge : MapTileRegion := []
  m_relativeArea : Int := 0
  m_absoluteArea : Int := 0
  m_absoluteRadius : Int := 0
deriving DecidableEq

/-- Method `TileZone::makeEdgeFromInnerArea`. -/
def TileZone.makeEdgeFromInnerArea (z : TileZone) : TileZone :=
  { z with
    m_innerEdge :=
      z.m_innerArea.foldl
        (fun edge pos =>
          if MapTileRegion.contains z.m_innerArea (neighbour pos 1 0)
              && MapTileRegion.contains z.m_innerArea (neighbour pos (-1) 0)
              && MapTileRegion.contains z.m_innerArea (neighbour pos 0 1)
              && MapTileRegion.contains z.m_innerArea (neighbour pos 0 (-1)) then edge
          else MapTileRegion.insert edge pos)
        [] }

/-- Method `TileZone::addIf`. -/
def TileZone.addIf (reg : MapTileRegion) (point : FHPos) (predicate : FHPos → Bool) :
    MapTileRegion :=
  if !predicate point then reg else MapTileRegion.insert reg point

/-- Method `TileZone::growOnce(predicate)`. -/
def TileZone.growOnce (z : TileZone) (predicate : FHPos → Bool) : TileZone :=
  { z with
    m_outsideEdge :=
      z.m_innerEdge.foldl
        (fun reg pos =>
          TileZone.addIf
            (TileZone.addIf
              (TileZone.addIf
                (TileZone.addIf reg (neighbour pos 1 0) predicate)
                (neighbour pos (-1) 0) predicate)
              (neighbour pos 0 1) predicate)
            (neighbour pos 0 (-1)) predicate)
        [] }

/-- The predicate that `readFromMap` passes to `growOnce`. -/
def TileZone.readPredicate (d : MapDraft) (z : TileZone) (pos : FHPos) : Bool :=
  if !d.contains pos then false
  else if MapTileRegion.contains z.m_innerArea pos then false
  else
    match tilesFind d.m_tiles pos with
    | some cell => cell.m_zoned && decide (cell.m_zoneIndex = z.m_index)
    | none => false

/-- Body of the loop of `readFromMap`. -/
def TileZone.readStep (d : MapDraft) (z : TileZone) : TileZone :=
  let z1 := { z with m_innerArea := z.m_innerEdge.foldl MapTileRegion.insert z.m_innerArea }
  let z2 := TileZone.growOnce z1 (TileZone.readPredicate d z1)
  { z2 with m_innerEdge := z2.m_outsideEdge }

/-- The loop `while (!m_innerEdge.empty())` of `readFromMap`. -/
def TileZone.readLoop (d : MapDraft) : Nat → TileZone → Option TileZone
  | 0, z => if z.m_innerEdge.isEmpty then some z else none
  | fuel + 1, z =>
    if z.m_innerEdge.isEmpty then some z else TileZone.readLoop d fuel (TileZone.readStep d z)

/-- Method `TileZone::readFromMap`; `none` only if the loop budget (one round
per tile of the map, plus one) were exhausted. -/
def TileZone.readFromMap (d : MapDraft) (z : TileZone) : Option TileZone :=
  let z0 := TileZone.makeEdgeFromInnerArea
    { z with m_innerArea := MapTileRegion.insert [] z.m_startTile }
  match TileZone.readLoop d (d.m_tiles.length + 1) z0 with
  | none => none
  | some z1 => some (TileZone.makeEdgeFromInnerArea z1)

/-- The final loop of `FHTemplateProcessor::run`: every zone in turn is re-read
from the map and its tile list is appended to `map.m_zones`; the result is the
list of the appended tile lists. -/
def runOutputZones (d : MapDraft) : List TileZone → Option (List (List FHPos))
  | [] => some []
  | tileZone :: rest =>
    match TileZone.readFromMap d tileZone with
    | none => none
    | some z =>
      match runOutputZones d rest with
      | none => none
      | some zones => some (z.m_innerArea :: zones)

/-- A concrete scaled distance (Manhattan) used to instantiate the distance
parameter of the centroid and collision code on examples. -/
def sampleDistance (a b : FHPos) (mult : Int) : Int :=
  mult * ((a.m_x - b.m_x).natAbs + (a.m_y - b.m_y).natAbs)

/-- A concrete unscaled distance used to instantiate the distance parameter of
`splitByK` on examples. -/
def samplePosDistance (a b : FHPos) : Int :=
  sampleDistance a b 1

/-- A clustering that returns no cluster, used to instantiate the clustering
parameter of `splitByK` where no clustering is run. -/
def noClusters (_points : List FHPos) (_k : Nat) : List KMeansCluster :=
  []

/-- Tile `(x, y)` on level 0. -/
def tileXY (x y : Int) : FHPos :=
  { m_x := x, m_y := y, m_z := 0 }

/-- The flag `eT`, `eL`, `eR` or `eB` of `processTile` for the side at `p`:
whether the tile on that side (the tile itself when the side is off the grid)
carries the zone index of `cell`. -/
def MapDraft.sideMatches (d : MapDraft) (cell : MapDraft.Tile) (p : FHPos) : Bool :=
  decide (cell.m_zoneIndex = (d.sideTile cell p).m_zoneIndex)

/-- Two positions are orthogonal neighbours. -/
def orthogonallyAdjacent (a b : FHPos) : Prop :=
  b = neighbour a 1 0 ∨ b = neighbour a (-1) 0 ∨ b = neighbour a 0 1 ∨ b = neighbour a 0 (-1)

/-- The tiles of the draft that carry the zone index `i`. -/
def MapDraft.zoneTiles (d : MapDraft) (i : Int) : List FHPos :=
  (d.m_tiles.filter (fun e => decide (e.2.m_zoneIndex = i))).map Prod.fst

/-- A tile set is a single 4-connected component: any two of its tiles are
joined by a chain of orthogonal steps through tiles of the set. -/
def fourConnected (s : List FHPos) : Prop :=
  ∀ a ∈ s, ∀ b ∈ s, Relation.ReflTransGen (fun u v => v ∈ s ∧ orthogonallyAdjacent u v) a b

/-- A zoned tile with the given zone index. -/
def zonedTile (zoneIndex : Int) : MapDraft.Tile :=
  { m_zoned := true, m_zoneIndex := zoneIndex }

/-- The 4×2 grid of `init(4, 2, 1)` whose four columns are tagged `0 1 1 0`. -/
def draftSplitZone : MapDraft :=
  { m_tiles := [(tileXY 0 0, zonedTile 0), (tileXY 0 1, zonedTile 0),
      (tileXY 1 0, zonedTile 1), (tileXY 1 1, zonedTile 1),
      (tileXY 2 0, zonedTile 1), (tileXY 2 1, zonedTile 1),
      (tileXY 3 0, zonedTile 0), (tileXY 3 1, zonedTile 0)]
    m_edge := (MapDraft.init {} 4 2 1).m_edge }

/-- The 3×3 grid of `init(3, 3, 1)` with every tile in zone 0. -/
def draftUniform : MapDraft :=
  { m_tiles := [(tileXY 0 0, zonedTile 0), (tileXY 0 1, zonedTile 0), (tileXY 0 2, zonedTile 0),
      (tileXY 1 0, zonedTile 0), (tileXY 1 1, zonedTile 0), (tileXY 1 2, zonedTile 0),
      (tileXY 2 0, zonedTile 0), (tileXY 2 1, zonedTile 0), (tileXY 2 2, zonedTile 0)]
    m_edge := (MapDraft.init {} 3 3 1).m_edge }

/-- The position `t` is a tile of the draft that is zoned with index `i`. -/
def MapDraft.zonedWith (d : MapDraft) (t : FHPos) (i : Int) : Prop :=
  ∃ cell, tilesFind d.m_tiles t = some cell ∧ cell.m_zoned = true ∧ cell.m_zoneIndex = i

/-- The 4×2 grid of `init(4, 2, 1)` whose four columns are tagged `1 1 1 0`. -/
def draftSeedRetagged : MapDraft :=
  { m_tiles := [(tileXY 0 0, zonedTile 1), (tileXY 0 1, zonedTile 1),
      (tileXY 1 0, zonedTile 1), (tileXY 1 1, zonedTile 1),
      (tileXY 2 0, zonedTile 1), (tileXY 2 1, zonedTile 1),
      (tileXY 3 0, zonedTile 0), (tileXY 3 1, zonedTile 0)]
    m_edge := (MapDraft.init {} 4 2 1).m_edge }

/-- Two zones: zone 0 seeded at `(0,0)`, zone 1 seeded at `(1,0)`. -/
def zonesSeedRetagged : List TileZone :=
  [{ m_index := 0, m_startTile := tileXY 0 0 }, { m_index := 1, m_startTile := tileXY 1 0 }]

/-- Invariant of the growth of one component in `splitByFloodFill`, relative to
the tiles `visited0` that were visited when the component was started: the
buffer has no duplicate, holds tiles of the area that were not visited before,
and `visited` is `visited0` together with the buffer. -/
def FloodState.Grown (inner visited0 : MapTileRegion) (s : FloodState) : Prop :=
  s.currentBuffer.Nodup
    ∧ (∀ t ∈ s.currentBuffer, t ∈ inner ∧ t ∉ visited0)
    ∧ ∀ t, t ∈ s.visited ↔ t ∈ visited0 ∨ t ∈ s.currentBuffer

/-- Invariant of the outer loop of `splitByFloodFill`: `visited` is the union of
the components found so far, `remain` is the rest of the area, and the
components are duplicate-free, inside the area and pairwise disjoint. -/
def SplitInvariant (inner remain visited : MapTileRegion) (result : List MapTileArea) : Prop :=
  (∀ t, t ∈ visited ↔ ∃ a ∈ result, t ∈ a.m_innerArea)
    ∧ (∀ t, t ∈ remain ↔ t ∈ inner ∧ t ∉ visited)
    ∧ result.Pairwise (fun x y => ∀ t, t ∈ x.m_innerArea → t ∉ y.m_innerArea)
    ∧ ∀ a ∈ result, a.m_innerArea.Nodup ∧ ∀ t ∈ a.m_innerArea, t ∈ inner

/-- The exceptions that `FHTemplateProcessor::run` throws, in the order of the
`throw` statements of its body, followed by the undefined integer division by a
zero radius, the undefined signed overflow of the `int` arithmetic of
`pointDistance`, and the exhausted loop budget of the embedding. -/
inductive RunError where
  | needTwoZones
  | nonpositiveRelativeSize (zone : Nat)
  | totalRelativeAreaZero
  | orphanTiles
  | exclavesNotFixed (i : Nat)
  | divisionByZero
  | intOverflow
  | loopBudget
deriving DecidableEq

/-- Modelled from the spec: the members of `FHRngZone` that `run` reads (the
declaration in the sources is of another revision): the seed position and the
"target relative area (int weight)". -/
structure FHRngZone where
  m_center : FHPos
  m_relativeSize : Int
deriving DecidableEq

/-- The record `DistanceRecord` of FHTemplateProcessor.cpp. -/
structure DistanceRecord where
  m_zoneIndex : Int := 0
  m_distance : Int := 0
  m_zoneRadius : Int := 0
deriving DecidableEq

/-- Method `DistanceRecord::dbr`, the distance by radius; the caller makes sure
that the radius is not zero. -/
def DistanceRecord.dbr (r : DistanceRecord) : Int :=
  (r.m_distance * 1000).tdiv r.m_zoneRadius

/-- Upward search of the integer square root: the largest `r` with `r * r ≤ n`,
found from below within `fuel` steps. -/
def intSqrtFrom (n : Nat) : Nat → Nat → Nat
  | 0, r => r
  | fuel + 1, r => if (r + 1) * (r + 1) ≤ n then intSqrtFrom n fuel (r + 1) else r

/-- The integer part of the square root, `static_cast<int64_t>(std::sqrt(n))`. -/
def intSqrt (n : Nat) : Nat :=
  intSqrtFrom n n 0

/-- Whether a value fits the 32-bit type `int`. -/
def fitsInt (v : Int) : Bool :=
  decide (-2147483648 ≤ v) && decide (v ≤ 2147483647)

/-- Function `pointDistance`. The differences `dx`, `dy`, their squares and the
sum of the squares are computed in `int`; when one of them does not fit, the
signed overflow is undefined (`RunError.intOverflow`). Otherwise the result is
the truncated square root, computed in `double`, of the `int` sum of squares
(exact, the sum being below `2 ^ 31`). -/
def pointDistance (fromPos toPos : FHPos) : Except RunError Int :=
  let dx := fromPos.m_x - toPos.m_x
  let dy := fromPos.m_y - toPos.m_y
  if fitsInt dx && fitsInt dy && fitsInt (dx * dx) && fitsInt (dy * dy)
      && fitsInt (dx * dx + dy * dy) then
    .ok (intSqrt (dx * dx + dy * dy).toNat : Nat)
  else .error .intOverflow

/-- The expression `static_cast<int64_t>(sqrt(absoluteArea) / M_PI)`: the
integer part of the square root of the area divided by pi, computed as the
integer square root of the integer part of the area divided by pi squared (pi
squared taken to 30 decimals). -/
def radiusOfArea (absoluteArea : Int) : Int :=
  (intSqrt (absoluteArea.toNat * 10 ^ 30 / 9869604401089358618834490999876) : Nat)

/-- Insertion of one element into a range sorted by `lt`, behind the elements
that are not greater. -/
def insertSorted {α : Type} (lt : α → α → Bool) (x : α) : List α → List α
  | [] => [x]
  | y :: ys => if lt x y then x :: y :: ys else y :: insertSorted lt x ys

/-- The call `std::sort(first, last, lt)` as an insertion sort, which is what
libstdc++ runs on ranges of at most 16 elements; elements that compare equal
keep their order. On longer ranges the library may leave equal elements in
another order, so the properties of the tagging pass that depend on the sorted
order are stated for every routine with the guarantee of `std::sort`
(`SortsByDbr`), of which this one is an instance. -/
def stdSort {α : Type} (lt : α → α → Bool) (l : List α) : List α :=
  l.foldl (fun sorted x => insertSorted lt x sorted) []

/-- Method `TileZone::getPlacedArea`. -/
def TileZone.getPlacedArea (z : TileZone) : Int :=
  z.m_innerArea.length

/-- Method `TileZone::getAreaDeficit`. -/
def TileZone.getAreaDeficit (z : TileZone) : Int :=
  z.m_absoluteArea - z.getPlacedArea

/-- Method `TileZone::writeToMap`. -/
def TileZone.writeToMap (d : MapDraft) (z : TileZone) : MapDraft :=
  z.m_innerArea.foldl
    (fun (d1 : MapDraft) pos =>
      let cell : MapDraft.Tile := (tilesFind d1.m_tiles pos).getD {}
      { d1 with
        m_tiles := tilesAssign d1.m_tiles pos
          { cell with m_zoneIndex := z.m_index, m_zoned := true } })
    d

/-- The predicate that `growOnceToUnzoned` passes to `growOnce`. -/
def TileZone.unzonedPredicate (d : MapDraft) (z : TileZone) (allowConsumingNeighbours : Bool)
    (pos : FHPos) : Bool :=
  match tilesFind d.m_tiles pos with
  | none => false
  | some cell =>
    !cell.m_zoned || (allowConsumingNeighbours && !decide (cell.m_zoneIndex = z.m_index))

/-- Method `TileZone::growOnceToUnzoned(allowConsumingNeighbours)` on the pair of
the map and the zone. -/
def TileZone.growOnceToUnzoned (allowConsumingNeighbours : Bool) (s : MapDraft × TileZone) :
    MapDraft × TileZone :=
  let z1 := TileZone.growOnce s.2 (TileZone.unzonedPredicate s.1 s.2 allowConsumingNeighbours)
  let z2 := { z1 with m_innerEdge := z1.m_outsideEdge }
  z2.m_innerEdge.foldl
    (fun (acc : MapDraft × TileZone) pos =>
      let cell : MapDraft.Tile := (tilesFind acc.1.m_tiles pos).getD {}
      ({ acc.1 with
          m_tiles := tilesAssign acc.1.m_tiles pos
            { cell with m_zoned := true, m_zoneIndex := z2.m_index } },
        { acc.2 with m_innerArea := MapTileRegion.insert acc.2.m_innerArea pos }))
    (s.1, z2)

/-- The loop of `fillDeficit`. -/
def TileZone.fillDeficitLoop (allowedDeficitThreshold : Int) (allowConsumingNeighbours : Bool) :
    Nat → MapDraft × TileZone → Option (MapDraft × TileZone)
  | 0, s =>
    if s.2.m_innerEdge.isEmpty then some s
    else if s.2.getAreaDeficit < allowedDeficitThreshold then some s
    else none
  | fuel + 1, s =>
    if s.2.m_innerEdge.isEmpty then some s
    else if s.2.getAreaDeficit < allowedDeficitThreshold then some s
    else
      TileZone.fillDeficitLoop allowedDeficitThreshold allowConsumingNeighbours fuel
        (TileZone.growOnceToUnzoned allowConsumingNeighbours s)

/-- Method `TileZone::fillDeficit(thresholdPercent, allowConsumingNeighbours)`;
`none` only if the loop budget (one round per tile of the map, plus one) were
exhausted. -/
def TileZone.fillDeficit (thresholdPercent : Int) (allowConsumingNeighbours : Bool)
    (s : MapDraft × TileZone) : Option (MapDraft × TileZone) :=
  let allowedDeficitThreshold := (s.2.m_absoluteArea * thresholdPercent).tdiv 100
  match TileZone.fillDeficitLoop allowedDeficitThreshold allowConsumingNeighbours
      (s.1.m_tiles.length + 1) s with
  | none => none
  | some r => some (r.1, TileZone.makeEdgeFromInnerArea r.2)

/-- The loop of `fillTheRest`. -/
def TileZone.fillTheRestLoop : Nat → MapDraft × TileZone → Option (MapDraft × TileZone)
  | 0, s => if s.2.m_innerEdge.isEmpty then some s else none
  | fuel + 1, s =>
    if s.2.m_innerEdge.isEmpty then some s
    else TileZone.fillTheRestLoop fuel (TileZone.growOnceToUnzoned false s)

/-- Method `TileZone::fillTheRest`; `none` only if the loop budget were
exhausted. -/
def TileZone.fillTheRest (s : MapDraft × TileZone) : Option (MapDraft × TileZone) :=
  match TileZone.fillTheRestLoop (s.1.m_tiles.length + 1) s with
  | none => none
  | some r => some (r.1, TileZone.makeEdgeFromInnerArea r.2)

/-- The locals of `run` that the stages share: the map draft, the vector
`tileZones`, and `tileZonesPtrs` as the list of the indices pointed to. -/
structure RunState where
  mapDraft : MapDraft
  tileZones : List TileZone
  tileZonesPtrs : List Nat

/-- The loop of `run` over `map.m_rngZones` that fills `tileZones`: `i` is the
running index, `totalRelativeArea` the running sum; a relative size that is not
positive throws. -/
def runSetupLoop : List FHRngZone → Nat → Int → List TileZone →
    Except RunError (Int × List TileZone)
  | [], _, totalRelativeArea, tileZones => .ok (totalRelativeArea, tileZones)
  | rngZone :: rest, i, totalRelativeArea, tileZones =>
    let tileZone : TileZone :=
      { m_index := i, m_startTile := rngZone.m_center, m_relativeArea := rngZone.m_relativeSize }
    if rngZone.m_relativeSize ≤ 0 then .error (.nonpositiveRelativeSize i)
    else
      runSetupLoop rest (i + 1) (totalRelativeArea + rngZone.m_relativeSize)
        (tileZones ++ [tileZone])

/-- The first part of `run`, up to the absolute areas and radii: the zone count
check, the set-up of `tileZones` with the checks of the relative sizes, the
check of the total, and the absolute area and radius of every zone. The `int`
product `w * h` is taken without overflow. -/
def runSetup (w h : Int) (rngZones : List FHRngZone) : Except RunError (List TileZone) :=
  let area := w * h
  let regionCount := rngZones.length
  if regionCount ≤ 1 then .error .needTwoZones
  else
    match runSetupLoop rngZones 0 0 [] with
    | .error e => .error e
    | .ok r =>
      let totalRelativeArea := r.1
      if totalRelativeArea = 0 then .error .totalRelativeAreaZero
      else
        .ok (r.2.map (fun tileZone =>
          let absoluteArea := (tileZone.m_relativeArea * area).tdiv totalRelativeArea
          { tileZone with
            m_absoluteArea := absoluteArea
            m_absoluteRadius := radiusOfArea absoluteArea }))

/-- The guarantee of `std::sort` with the comparator `l.dbr() < r.dbr()` of the
tagging pass, for a routine `sort`: on records of non-zero radius the result is
a rearrangement of the input in which no record has a smaller distance by
radius than a record before it. The order of records with the same distance by
radius is left open. -/
def SortsByDbr (sort : List DistanceRecord → List DistanceRecord) : Prop :=
  ∀ l : List DistanceRecord, (∀ r ∈ l, r.m_zoneRadius ≠ 0) →
    (sort l).Perm l ∧ (sort l).Pairwise (fun a b => a.dbr ≤ b.dbr)

/-- The loop of the tagging pass that fills the vector `distances` for one tile,
one record per zone in the order of `tileZones`. -/
def distanceRecords (tileZones : List TileZone) (pos : FHPos) :
    Except RunError (List DistanceRecord) :=
  match tileZones with
  | [] => .ok []
  | tileZone :: rest =>
    match pointDistance pos tileZone.m_startTile with
    | .error e => .error e
    | .ok distance =>
      match distanceRecords rest pos with
      | .error e => .error e
      | .ok distances =>
        .ok ({ m_zoneIndex := tileZone.m_index, m_distance := distance,
               m_zoneRadius := tileZone.m_absoluteRadius } :: distances)

/-- The local `distanceDiff` of the tagging loop of `run`, computed from the two
best records with the truncating integer division of C++. -/
def distanceDiff (first second : DistanceRecord) : Int :=
  let zonesTotalRadius := first.m_zoneRadius + second.m_zoneRadius
  let totalDistance := first.m_distance + second.m_distance
  let totalDistanceInRadiuses := (totalDistance * 100).tdiv zonesTotalRadius
  (totalDistanceInRadiuses * first.m_zoneRadius).tdiv 100 - first.m_distance

/-- The body of the initial tagging loop of `run` for one tile, with the call of
`std::sort` by distance by radius as the parameter `sort`: the zone index the
tile is given, `none` when it is left unzoned. The integer divisions by a zero
radius are `RunError.divisionByZero`. -/
def tagTileWith (sort : List DistanceRecord → List DistanceRecord)
    (tileZones : List TileZone) (pos : FHPos) : Except RunError (Option Int) :=
  match distanceRecords tileZones pos with
  | .error e => .error e
  | .ok distances =>
    if distances.any (fun r => decide (r.m_zoneRadius = 0)) then .error .divisionByZero
    else
      match sort distances with
      | first :: second :: _ =>
        let zonesTotalRadius := first.m_zoneRadius + second.m_zoneRadius
        let totalDistance := first.m_distance + second.m_distance
        if zonesTotalRadius = 0 then .error .divisionByZero
        else
          let totalDistanceInRadiuses := (totalDistance * 100).tdiv zonesTotalRadius
          let distanceDiff :=
            (totalDistanceInRadiuses * first.m_zoneRadius).tdiv 100 - first.m_distance
          if distanceDiff < 2 then .ok none else .ok (some first.m_zoneIndex)
      | _ => .error .needTwoZones

/-- The body of the initial tagging loop of `run` for one tile, sorted by
`stdSort`. -/
def tagTile (tileZones : List TileZone) (pos : FHPos) : Except RunError (Option Int) :=
  tagTileWith (stdSort (fun l r => decide (l.dbr < r.dbr))) tileZones pos

/-- The initial tagging loop of `run` over the tiles of the map, with the call
of `std::sort` as the parameter `sort`. -/
def runInitialTaggingWith (sort : List DistanceRecord → List DistanceRecord) (d : MapDraft)
    (tileZones : List TileZone) : Except RunError MapDraft :=
  (d.m_tiles.map Prod.fst).foldlM
    (fun (d1 : MapDraft) pos =>
      match tagTileWith sort tileZones pos with
      | .error e => Except.error e
      | .ok none => Except.ok d1
      | .ok (some zoneIndex) =>
        let cell : MapDraft.Tile := (tilesFind d1.m_tiles pos).getD {}
        Except.ok { d1 with
          m_tiles := tilesAssign d1.m_tiles pos
            { cell with m_zoned := true, m_zoneIndex := zoneIndex } })
    d

/-- The initial tagging loop of `run` over the tiles of the map, sorted by
`stdSort`. -/
def runInitialTagging (d : MapDraft) (tileZones : List TileZone) : Except RunError MapDraft :=
  runInitialTaggingWith (stdSort (fun l r => decide (l.dbr < r.dbr))) d tileZones

/-- The loop `for (auto& tileZone : tileZones) tileZone.readFromMap()`. -/
def readAllFromMap (d : MapDraft) : List TileZone → Option (List TileZone)
  | [] => some []
  | tileZone :: rest =>
    match TileZone.readFromMap d tileZone with
    | none => none
    | some z =>
      match readAllFromMap d rest with
      | none => none
      | some zs => some (z :: zs)

/-- The lambda `fillDeficitIteraction` of `run`. -/
def fillDeficitIteraction (thresholdPercent : Int) (allowConsumingNeighbours : Bool)
    (s : RunState) : Option RunState :=
  let deficit := fun (i : Nat) => ((s.tileZones[i]?).getD {}).getAreaDeficit
  let ptrs := stdSort (fun l r => decide (deficit l > deficit r)) s.tileZonesPtrs
  ptrs.foldlM
    (fun (s1 : RunState) i =>
      match TileZone.fillDeficit thresholdPercent allowConsumingNeighbours
          (s1.mapDraft, (s1.tileZones[i]?).getD {}) with
      | none => none
      | some r =>
        let zones := s1.tileZones.set i r.2
        if allowConsumingNeighbours then
          match readAllFromMap r.1 zones with
          | none => none
          | some zones2 => some { s1 with mapDraft := r.1, tileZones := zones2 }
        else some { s1 with mapDraft := r.1, tileZones := zones })
    { s with tileZonesPtrs := ptrs }

/-- The loop `for (TileZone* zone : tileZonesPtrs) zone->fillTheRest()`. -/
def fillTheRestAll (s : RunState) : Option RunState :=
  s.tileZonesPtrs.foldlM
    (fun (s1 : RunState) i =>
      match TileZone.fillTheRest (s1.mapDraft, (s1.tileZones[i]?).getD {}) with
      | none => none
      | some r => some { s1 with mapDraft := r.1, tileZones := s1.tileZones.set i r.2 })
    s

/-- The repair loop `for (int i = 0, limit = 10; i <= limit; ++i)` of `run`,
entered at index `i` with `limit - i = remaining`, after `passes` passes of
`fixExclaves`: the draft on leaving the loop, or the exception thrown at
`i == limit`, together with the number of passes of `fixExclaves` made so far. -/
def repairLoop : Nat → Nat → Nat → MapDraft → Except RunError MapDraft × Nat
  | i, 0, passes, d =>
    if d.fixExclaves.2 then (.ok d.fixExclaves.1, passes + 1)
    else (.error (.exclavesNotFixed i), passes + 1)
  | i, remaining + 1, passes, d =>
    if d.fixExclaves.2 then (.ok d.fixExclaves.1, passes + 1)
    else repairLoop (i + 1) remaining (passes + 1) d.fixExclaves.1

/-- The repair stage of `run`: `checkOrphans`, one pass of `fixExclaves` whose
result is ignored, then the repair loop; the outcome and the total number of
passes of `fixExclaves` that were made. -/
def runRepair (d : MapDraft) : Except RunError MapDraft × Nat :=
  if !d.checkOrphans then (.error .orphanTiles, 0)
  else repairLoop 0 10 1 d.fixExclaves.1

/-- Method `FHTemplateProcessor::run` on the dimensions of the tile map and the
zones of `map.m_rngZones` in key order: the tile lists of the zones appended to
`map.m_zones`. -/
def FHTemplateProcessor.run (w h depth : Int) (rngZones : List FHRngZone) :
    Except RunError (List (List FHPos)) :=
  match runSetup w h rngZones with
  | .error e => .error e
  | .ok tileZones =>
    match runInitialTagging (MapDraft.init {} w h depth) tileZones with
    | .error e => .error e
    | .ok tagged =>
      match readAllFromMap tagged tileZones with
      | none => .error .loopBudget
      | some zones1 =>
        let cleared : MapDraft :=
          { tagged with m_tiles := tagged.m_tiles.map (fun e => (e.1, { e.2 with m_zoned := false })) }
        let written := zones1.foldl TileZone.writeToMap cleared
        let s0 : RunState :=
          { mapDraft := written, tileZones := zones1, tileZonesPtrs := List.range zones1.length }
        match (fillDeficitIteraction 20 false s0).bind
            (fun s1 => (fillDeficitIteraction 10 true s1).bind
              (fun s2 => (fillDeficitIteraction 0 true s2).bind fillTheRestAll)) with
        | none => .error .loopBudget
        | some s4 =>
          match (runRepair s4.mapDraft).1 with
          | .error e => .error e
          | .ok repaired =>
            match runOutputZones repaired s4.tileZones with
            | none => .error .loopBudget
            | some zones => .ok zones

/-- The draft after `k` passes of `fixExclaves`. -/
def MapDraft.afterPasses (d : MapDraft) : Nat → MapDraft
  | 0 => d
  | k + 1 => (d.afterPasses k).fixExclaves.1

/-- The offsets of the neighbour positions that count for a growth mode: the
four orthogonal ones, and the four diagonal ones with the diagonal flag. -/
def neighbourOffsets (diagonal : Bool) : List (Int × Int) :=
  if diagonal then [(0, 1), (0, -1), (1, 0), (-1, 0), (-1, -1), (1, -1), (-1, 1), (1, 1)]
  else [(0, 1), (0, -1), (1, 0), (-1, 0)]

/-- The 3×3 grid of `init(3, 3, 1)` tagged, row by row, `0 0 1`, `1 0 1`,
`1 0 0`. -/
def draftOscillating : MapDraft :=
  { m_tiles := [(tileXY 0 0, zonedTile 0), (tileXY 0 1, zonedTile 1), (tileXY 0 2, zonedTile 1),
      (tileXY 1 0, zonedTile 0), (tileXY 1 1, zonedTile 0), (tileXY 1 2, zonedTile 0),
      (tileXY 2 0, zonedTile 1), (tileXY 2 1, zonedTile 1), (tileXY 2 2, zonedTile 0)]
    m_edge := (MapDraft.init {} 3 3 1).m_edge }

/-- The tile zones that `run` sets up for the 5×4 grid and two zones of equal
relative size seeded at `(0,0)` and `(4,3)`: absolute area 10 and radius 1. -/
def sampleTileZones : List TileZone :=
  [{ m_index := 0, m_startTile := tileXY 0 0, m_relativeArea := 1, m_absoluteArea := 10,
     m_absoluteRadius := 1 },
   { m_index := 1, m_startTile := tileXY 4 3, m_relativeArea := 1, m_absoluteArea := 10,
     m_absoluteRadius := 1 }]

/-- The draft of the 5×4 grid after the initial tagging pass for
`sampleTileZones` (the empty draft if the pass failed). -/
def sampleTagged : MapDraft :=
  match runInitialTagging (MapDraft.init {} 5 4 1) sampleTileZones with
  | .ok d => d
  | .error _ => {}

/-- Invariant of the growth of one component in `splitByFloodFill`, started at
`start` when `visited0` was visited; `todo` are the cells of the edge moved out
that the current round has still to expand. Every tile of the buffer is reached
from `start` by steps to neighbours in the area that were not visited before;
the edge and the cells to expand are in the buffer; every tile of the buffer is
still to expand, in the edge, or has all its neighbours in the area visited. -/
def FloodState.Reached (c : MapTileContainer) (inner visited0 : MapTileRegion) (useDiag : Bool)
    (start : FHPos) (todo : List FHPos) (s : FloodState) : Prop :=
  (∀ t ∈ s.currentBuffer,
      Relation.ReflTransGen
        (fun u v => v ∈ c.neighboursList useDiag u ∧ v ∈ inner ∧ v ∉ visited0) start t)
    ∧ (∀ t ∈ s.currentEdge, t ∈ s.currentBuffer)
    ∧ (∀ t ∈ todo, t ∈ s.currentBuffer)
    ∧ ∀ t ∈ s.currentBuffer, t ∈ todo ∨ t ∈ s.currentEdge
        ∨ ∀ n ∈ c.neighboursList useDiag t, n ∈ inner → n ∈ s.visited

/-- The 3×3 grid of `init(3, 3, 1)`, fully zoned, with the zone indices of its
tiles listed in key order: column `x = 0` from top to bottom, then `x = 1`,
then `x = 2`. -/
def draft3x3 (t00 t01 t02 t10 t11 t12 t20 t21 t22 : Int) : MapDraft :=
  { m_tiles := [(tileXY 0 0, zonedTile t00), (tileXY 0 1, zonedTile t01),
      (tileXY 0 2, zonedTile t02), (tileXY 1 0, zonedTile t10), (tileXY 1 1, zonedTile t11),
      (tileXY 1 2, zonedTile t12), (tileXY 2 0, zonedTile t20), (tileXY 2 1, zonedTile t21),
      (tileXY 2 2, zonedTile t22)]
    m_edge := (MapDraft.init {} 3 3 1).m_edge }

/-- A clustering that puts every point in a cluster of its own, with the point
as centroid, used to instantiate the clustering parameter of `splitByK` on
examples. -/
def singletonClusters (points : List FHPos) (_k : Nat) : List KMeansCluster :=
  points.map (fun p => { m_centroid := p, m_points := [p] })

/-- The region `m_outsideEdge` that `growOnce` computes inside
`growOnceToUnzoned`, which becomes the inner edge of the zone. -/
def TileZone.unzonedEdge (allowConsumingNeighbours : Bool) (s : MapDraft × TileZone) :
    MapTileRegion :=
  (TileZone.growOnce s.2 (TileZone.unzonedPredicate s.1 s.2 allowConsumingNeighbours)).m_outsideEdge

/-- The column of six tiles `(0,0)` to `(0,5)`, an object with a bounding box of
width 1 and height 6. -/
def sampleColumn : MapTileRegion :=
  [tileXY 0 0, tileXY 0 1, tileXY 0 2, tileXY 0 3, tileXY 0 4, tileXY 0 5]

/-- The row of four tiles `(0,0)` to `(3,0)`. -/
def sampleRow : MapTileRegion :=
  [tileXY 0 0, tileXY 1 0, tileXY 2 0, tileXY 3 0]

/-- A connected object on the 5×3 grid: the middle row `(0,1)` to `(4,1)` with
the tiles `(3,0)`, `(4,0)`, `(3,2)`, `(4,2)` above and below its right end. -/
def sampleTee : MapTileRegion :=
  [tileXY 0 1, tileXY 1 1, tileXY 2 1, tileXY 3 1, tileXY 4 1,
    tileXY 3 0, tileXY 4 0, tileXY 3 2, tileXY 4 2]

/-- A stand-in clustering that returns as many clusters as it is asked for, each
holding all the points, used to make the requested `k` of `splitByK` visible on
examples. -/
def repeatClusters (points : List FHPos) (k : Nat) : List KMeansCluster :=
  (List.range k).map (fun _ => { m_centroid := points.headD FHPos.zero, m_points := points })

/-- Whether the map has the tile at `pos` zoned with the zone index `i`. -/
def MapDraft.isZonedWith (d : MapDraft) (i : Int) (pos : FHPos) : Bool :=
  (tilesFind d.m_tiles pos).any (fun cell => cell.m_zoned && decide (cell.m_zoneIndex = i))

/-- The enumeration `MapTileArea::RefineTask`, with the three tasks that
`refineEdge` tests for. -/
inductive RefineTask where
  | RemoveHollows
  | RemoveSpikes
  | Expand
deriving DecidableEq

/-- The local `adjucent` of `refineEdge`: how many of the four orthogonal
neighbour pointers of the cell are in the inner area. -/
def MapTileArea.adjucent (c : MapTileContainer) (a : MapTileArea) (cell : FHPos) : Nat :=
  (MapTileRegion.containsPtr a.m_innerArea (c.m_neighborB cell)).toNat
    + (MapTileRegion.containsPtr a.m_innerArea (c.m_neighborT cell)).toNat
    + (MapTileRegion.containsPtr a.m_innerArea (c.m_neighborR cell)).toNat
    + (MapTileRegion.containsPtr a.m_innerArea (c.m_neighborL cell)).toNat

/-- The test of `refineEdge` that skips a tile of the outside edge: the tile is
not allowed, or belongs to another segment. -/
def refineSkips (segmentIndex : FHPos → Nat) (allowedArea : MapTileRegion) (index : Nat)
    (cell : FHPos) : Bool :=
  !MapTileRegion.contains allowedArea cell
    || (decide (segmentIndex cell > 0) && decide (segmentIndex cell ≠ index))

/-- Method `MapTileArea::refineEdge(task, allowedArea, index)`. Modelled from
the spec: the "segment index" of a tile, `MapTile::m_segmentIndex`
(`MapTile.hpp` is not part of the sources), is the map `segmentIndex` from tiles
to indices, which the method updates. The result is the new map, the area, and
the returned flag. -/
def MapTileArea.refineEdge (c : MapTileContainer) (segmentIndex : FHPos → Nat)
    (a : MapTileArea) (task : RefineTask) (allowedArea : MapTileRegion) (index : Nat) :
    (FHPos → Nat) × MapTileArea × Bool :=
  let s1 : (FHPos → Nat) × MapTileArea :=
    if task = RefineTask.RemoveHollows then
      let r := a.m_outsideEdge.foldl
        (fun (acc : (FHPos → Nat) × List FHPos) cell =>
          if refineSkips acc.1 allowedArea index cell then acc
          else if MapTileArea.adjucent c a cell ≥ 3 then
            (Function.update acc.1 cell index, acc.2 ++ [cell])
          else acc)
        (segmentIndex, [])
      (r.1, { a with m_innerArea := MapTileRegion.insertList a.m_innerArea r.2 })
    else (segmentIndex, a)
  let s2 : (FHPos → Nat) × MapTileArea :=
    if task = RefineTask.RemoveSpikes then
      let r := s1.2.m_innerEdge.foldl
        (fun (acc : (FHPos → Nat) × List FHPos) cell =>
          if MapTileArea.adjucent c s1.2 cell ≤ 1 then
            (Function.update acc.1 cell 0, acc.2 ++ [cell])
          else acc)
        (s1.1, [])
      (r.1, { s1.2 with m_innerArea := MapTileRegion.eraseList s1.2.m_innerArea r.2 })
    else s1
  let s3 : (FHPos → Nat) × MapTileArea :=
    if task = RefineTask.Expand then
      let r := s2.2.m_outsideEdge.foldl
        (fun (acc : (FHPos → Nat) × List FHPos) cell =>
          if refineSkips acc.1 allowedArea index cell then acc
          else (Function.update acc.1 cell index, acc.2 ++ [cell]))
        (s2.1, [])
      (r.1, { s2.2 with m_innerArea := MapTileRegion.insertList s2.2.m_innerArea r.2 })
    else s2
  (s3.1, MapTileArea.makeEdgeFromInnerArea c s3.2, true)

/-- The members of a library record that `FHMap::DisableConfig` reads through
its `Ptr`. -/
structure LibraryFlags where
  isWaterContent : Bool
  isEnabledByDefault : Bool
deriving DecidableEq

/-- The struct `FHMap::DisableConfig<Ptr>`: `m_data` is the `std::map<Ptr, bool>`
as the list of its entries in key order; a non-null `Ptr` is the address of a
library record. -/
structure DisableConfig where
  m_data : List (Nat × Bool) := []
deriving DecidableEq

/-- Lookup `m_data.find(obj)`. -/
def dataFind : List (Nat × Bool) → Nat → Option Bool
  | [], _ => none
  | (k, v) :: rest, obj => if k = obj then some v else dataFind rest obj

/-- Assignment `m_data[obj] = state`: replaces the entry of an existing key,
inserts a new key at its place in the key order. -/
def dataAssign : List (Nat × Bool) → Nat → Bool → List (Nat × Bool)
  | [], obj, state => [(obj, state)]
  | (k, v) :: rest, obj, state =>
    if k = obj then (obj, state) :: rest
    else if obj < k then (obj, state) :: (k, v) :: rest
    else (k, v) :: dataAssign rest obj state

/-- Method `DisableConfig::isDisabled(isWater, obj)` for a non-null `obj`;
`library` gives the record that a pointer points to. -/
def DisableConfig.isDisabled (library : Nat → LibraryFlags) (cfg : DisableConfig)
    (isWater : Bool) (obj : Nat) : Bool :=
  match dataFind cfg.m_data obj with
  | some state => state
  | none =>
    if !isWater && (library obj).isWaterContent then true
    else !(library obj).isEnabledByDefault

/-- Method `DisableConfig::setDisabled(isWater, obj, state)`; `none` is the null
pointer. -/
def DisableConfig.setDisabled (library : Nat → LibraryFlags) (cfg : DisableConfig)
    (isWater : Bool) (obj : Option Nat) (state : Bool) : DisableConfig :=
  match obj with
  | none => cfg
  | some p =>
    if state then
      if !(library p).isEnabledByDefault then cfg
      else if !isWater && (library p).isWaterContent then cfg
      else { cfg with m_data := dataAssign cfg.m_data p true }
    else
      if !isWater && !(library p).isWaterContent && (library p).isEnabledByDefault then cfg
      else { cfg with m_data := dataAssign cfg.m_data p false }

/-! ## Properties -/

/-! ### Regions -/

theorem MapTileRegion.contains_iff (r : MapTileRegion) (t : FHPos) :
    MapTileRegion.contains r t = true ↔ t ∈ r := by
  simp [MapTileRegion.contains]

theorem MapTileRegion.contains_false_iff (r : MapTileRegion) (t : FHPos) :
    MapTileRegion.contains r t = false ↔ t ∉ r := by
  simp [MapTileRegion.contains]

theorem MapTileRegion.mem_insert (r : MapTileRegion) (x t : FHPos) :
    t ∈ MapTileRegion.insert r x ↔ t ∈ r ∨ t = x := by
  unfold MapTileRegion.insert
  by_cases h : x ∈ r
  · simp only [MapTileRegion.contains, h, decide_True, if_true]
    constructor
    · intro ht; exact Or.inl ht
    · rintro (ht | ht)
      · exact ht
      · exact ht ▸ h
  · simp [MapTileRegion.contains, h]

theorem MapTileRegion.nodup_insert (r : MapTileRegion) (x : FHPos) (h : r.Nodup) :
    (MapTileRegion.insert r x).Nodup := by
  unfold MapTileRegion.insert
  by_cases hx : x ∈ r
  · simpa [MapTileRegion.contains, hx] using h
  · simp only [MapTileRegion.contains, hx, decide_False, Bool.false_eq_true, if_false]
    rw [List.nodup_append]
    refine ⟨h, List.nodup_singleton x, ?_⟩
    intro a ha hb
    have : a = x := by simpa using hb
    exact hx (this ▸ ha)

theorem MapTileRegion.mem_insertList (ts : List FHPos) (r : MapTileRegion) (t : FHPos) :
    t ∈ MapTileRegion.insertList r ts ↔ t ∈ r ∨ t ∈ ts := by
  induction ts generalizing r with
  | nil => simp [MapTileRegion.insertList]
  | cons x xs ih =>
    have step : MapTileRegion.insertList r (x :: xs)
        = MapTileRegion.insertList (MapTileRegion.insert r x) xs := rfl
    rw [step, ih, MapTileRegion.mem_insert]
    simp only [List.mem_cons]
    tauto

theorem MapTileRegion.nodup_insertList (ts : List FHPos) (r : MapTileRegion) (h : r.Nodup) :
    (MapTileRegion.insertList r ts).Nodup := by
  induction ts generalizing r with
  | nil => simpa [MapTileRegion.insertList] using h
  | cons x xs ih =>
    have step : MapTileRegion.insertList r (x :: xs)
        = MapTileRegion.insertList (MapTileRegion.insert r x) xs := rfl
    rw [step]
    exact ih _ (MapTileRegion.nodup_insert r x h)

theorem MapTileRegion.mem_ofList (ts : List FHPos) (t : FHPos) :
    t ∈ MapTileRegion.ofList ts ↔ t ∈ ts := by
  simp [MapTileRegion.ofList, MapTileRegion.mem_insertList]

theorem MapTileRegion.mem_erase (r : MapTileRegion) (x t : FHPos) :
    t ∈ MapTileRegion.erase r x ↔ t ∈ r ∧ t ≠ x := by
  simp [MapTileRegion.erase, List.mem_filter]

theorem MapTileRegion.mem_eraseList (r : MapTileRegion) (ts : List FHPos) (t : FHPos) :
    t ∈ MapTileRegion.eraseList r ts ↔ t ∈ r ∧ t ∉ ts := by
  simp [MapTileRegion.eraseList, List.mem_filter]

theorem MapTileRegion.mem_intersectWith (r other : MapTileRegion) (t : FHPos) :
    t ∈ MapTileRegion.intersectWith r other ↔ t ∈ r ∧ t ∈ other := by
  simp [MapTileRegion.intersectWith, MapTileRegion.contains, List.mem_filter]

theorem MapTileRegion.mem_diffWith (r other : MapTileRegion) (t : FHPos) :
    t ∈ MapTileRegion.diffWith r other ↔ t ∈ r ∧ t ∉ other := by
  simp [MapTileRegion.diffWith, MapTileRegion.contains, List.mem_filter]

theorem MapTileRegion.same_iff (a b : MapTileRegion) :
    MapTileRegion.same a b = true ↔ ∀ t, t ∈ a ↔ t ∈ b := by
  simp only [MapTileRegion.same, MapTileRegion.contains, Bool.and_eq_true, List.all_eq_true,
    decide_eq_true_eq]
  constructor
  · rintro ⟨h1, h2⟩ t
    exact ⟨h1 t, h2 t⟩
  · intro h
    exact ⟨fun t ht => (h t).1 ht, fun t ht => (h t).2 ht⟩

/-! ### Inner and outside edge -/

theorem outsideEdge_inner_fold (A : MapTileRegion) (l : List FHPos) (e : MapTileRegion)
    (t : FHPos)
    (h : t ∈ l.foldl (fun edge2 ncell =>
      if !MapTileRegion.contains A ncell then MapTileRegion.insert edge2 ncell else edge2) e) :
    t ∈ e ∨ (t ∈ l ∧ t ∉ A) := by
  induction l generalizing e with
  | nil => exact Or.inl h
  | cons x xs ih =>
    simp only [List.foldl_cons] at h
    rcases ih _ h with h1 | ⟨h1, h2⟩
    · by_cases hx : x ∈ A
      · simp only [MapTileRegion.contains, hx, decide_True, Bool.not_true, Bool.false_eq_true,
          if_false] at h1
        exact Or.inl h1
      · simp only [MapTileRegion.contains, hx, decide_False, Bool.not_false, if_true] at h1
        rcases (MapTileRegion.mem_insert _ _ _).1 h1 with h3 | h3
        · exact Or.inl h3
        · exact Or.inr ⟨by simp [h3], h3 ▸ hx⟩
    · exact Or.inr ⟨List.mem_cons_of_mem _ h1, h2⟩

theorem outsideEdge_outer_fold (A : MapTileRegion) (nb : FHPos → List FHPos) (l : List FHPos)
    (e : MapTileRegion) (t : FHPos)
    (h : t ∈ l.foldl (fun edge cell => (nb cell).foldl (fun edge2 ncell =>
      if !MapTileRegion.contains A ncell then MapTileRegion.insert edge2 ncell else edge2) edge)
      e) :
    t ∈ e ∨ ((∃ cell ∈ l, t ∈ nb cell) ∧ t ∉ A) := by
  induction l generalizing e with
  | nil => exact Or.inl h
  | cons x xs ih =>
    simp only [List.foldl_cons] at h
    rcases ih _ h with h1 | ⟨⟨cell, hc, hn⟩, h2⟩
    · rcases outsideEdge_inner_fold A (nb x) e t h1 with h3 | ⟨h3, h4⟩
      · exact Or.inl h3
      · exact Or.inr ⟨⟨x, by simp, h3⟩, h4⟩
    · exact Or.inr ⟨⟨cell, List.mem_cons_of_mem _ hc, hn⟩, h2⟩

theorem MapTileArea.makeOutsideEdge_spec (c : MapTileContainer) (a : MapTileArea) :
    (MapTileArea.makeOutsideEdge c a).m_innerArea = a.m_innerArea
      ∧ (MapTileArea.makeOutsideEdge c a).m_innerEdge = a.m_innerEdge
      ∧ (MapTileArea.makeOutsideEdge c a).m_diagonalGrowth = a.m_diagonalGrowth
      ∧ ∀ t ∈ (MapTileArea.makeOutsideEdge c a).m_outsideEdge, t ∉ a.m_innerArea := by
  refine ⟨rfl, rfl, rfl, ?_⟩
  intro t ht
  rcases outsideEdge_outer_fold a.m_innerArea (c.neighboursList a.m_diagonalGrowth)
    a.m_innerEdge [] t ht with h | ⟨_, h⟩
  · simp at h
  · exact h

theorem MapTileArea.makeEdgeFromInnerArea_innerArea (c : MapTileContainer) (a : MapTileArea) :
    (MapTileArea.makeEdgeFromInnerArea c a).m_innerArea = a.m_innerArea := rfl

/-- C2. For every area and either value of the diagonal-growth flag, after
`makeEdgeFromInnerArea` the tile set is unchanged, every tile of the stored
inner edge is a tile of the area and no tile of the stored outside edge is. -/
theorem makeEdgeFromInnerArea_edges (c : MapTileContainer) (a : MapTileArea) :
    (MapTileArea.makeEdgeFromInnerArea c a).m_innerArea = a.m_innerArea
      ∧ (∀ t ∈ (MapTileArea.makeEdgeFromInnerArea c a).m_innerEdge, t ∈ a.m_innerArea)
      ∧ (∀ t ∈ (MapTileArea.makeEdgeFromInnerArea c a).m_outsideEdge, t ∉ a.m_innerArea) := by
  refine ⟨rfl, ?_, ?_⟩
  · intro t ht
    have h : t ∈ MapTileRegion.eraseList a.m_innerArea
        (a.m_innerArea.filter (fun cell =>
          MapTileArea.isInnerCell c { a with m_innerEdge := a.m_innerArea } cell)) := ht
    exact ((MapTileRegion.mem_eraseList _ _ _).1 h).1
  · intro t ht
    exact (MapTileArea.makeOutsideEdge_spec c
      { a with m_innerEdge := (MapTileRegion.eraseList a.m_innerArea
          (a.m_innerArea.filter (fun cell =>
            MapTileArea.isInnerCell c { a with m_innerEdge := a.m_innerArea } cell))) }).2.2.2 t ht

/-! ### Split by k -/

/-- C4. For every non-empty area, `splitByK` with `k = 1` returns exactly one
area, with the tile set of the input, whatever the clustering would compute. -/
theorem splitByK_one (kmeans : List FHPos → Nat → List KMeansCluster)
    (posDistance : FHPos → FHPos → Int) (c : MapTileContainer) (a : MapTileArea)
    (repulse : Bool) (h : a.m_innerArea ≠ []) :
    ∃ area, MapTileArea.splitByK kmeans posDistance c a 1 repulse = .ok [area]
      ∧ area.m_innerArea = a.m_innerArea
      ∧ area = MapTileArea.makeEdgeFromInnerArea c a := by
  refine ⟨MapTileArea.makeEdgeFromInnerArea c a, ?_, rfl, rfl⟩
  have hlen : a.m_innerArea.length ≠ 0 := by
    intro h0
    exact h (List.length_eq_zero.1 h0)
  simp [MapTileArea.splitByK, hlen]

/-- The `k = 1` split of a two-tile area of the 2×1 grid. -/
theorem splitByK_one_witness :
    ({ m_innerArea := [tileXY 0 0, tileXY 1 0] } : MapTileArea).m_innerArea ≠ []
      ∧ ∃ area, MapTileArea.splitByK noClusters samplePosDistance
          { m_width := 2, m_height := 1, m_depth := 1 }
          { m_innerArea := [tileXY 0 0, tileXY 1 0] } 1 true = .ok [area]
        ∧ area.m_innerArea
          = ({ m_innerArea := [tileXY 0 0, tileXY 1 0] } : MapTileArea).m_innerArea
        ∧ area = MapTileArea.makeEdgeFromInnerArea { m_width := 2, m_height := 1, m_depth := 1 }
          { m_innerArea := [tileXY 0 0, tileXY 1 0] } :=
  ⟨by decide,
    splitByK_one noClusters samplePosDistance { m_width := 2, m_height := 1, m_depth := 1 }
      { m_innerArea := [tileXY 0 0, tileXY 1 0] } true (by decide)⟩

/-! ### Collision shift -/

theorem MapTileArea.makeCentroid_ne_none (posDistance : FHPos → FHPos → Int → Int)
    (c : MapTileContainer) (region : MapTileRegion) (b : Bool) (h : region ≠ []) :
    MapTileArea.makeCentroid posDistance c region b ≠ .ok none := by
  obtain ⟨o, os, rfl⟩ := List.exists_cons_of_ne_nil h
  unfold MapTileArea.makeCentroid
  simp only
  split
  · simp
  · simp

/-- C5. An object that is not empty and lies entirely inside the obstacle
cannot be shifted: the collision check without inversion returns
`ImpossibleShift`. -/
theorem getCollisionShiftForObject_contained (posDistance : FHPos → FHPos → Int → Int)
    (c : MapTileContainer) (object obstacle : MapTileRegion) (hne : object ≠ [])
    (hsub : ∀ t ∈ object, t ∈ obstacle) :
    MapTileArea.getCollisionShiftForObject posDistance c object obstacle false
      = .ok (CollisionResult.ImpossibleShift, FHPos.zero) := by
  obtain ⟨o, os, rfl⟩ := List.exists_cons_of_ne_nil hne
  have hob : obstacle ≠ [] := by
    intro h
    have := hsub o (by simp)
    simp [h] at this
  obtain ⟨b, bs, rfl⟩ := List.exists_cons_of_ne_nil hob
  have hint : MapTileRegion.intersectWith (o :: os) (b :: bs) = o :: os := by
    unfold MapTileRegion.intersectWith
    rw [List.filter_eq_self]
    intro t ht
    exact (MapTileRegion.contains_iff _ _).2 (hsub t ht)
  have hsame : MapTileRegion.same (o :: os) (o :: os) = true :=
    (MapTileRegion.same_iff _ _).2 (fun _ => Iff.rfl)
  unfold MapTileArea.getCollisionShiftForObject
  simp [hint, hsame]

/-- The collision check of a two-tile object against itself on the 2×1 grid. -/
theorem getCollisionShiftForObject_contained_witness :
    [tileXY 0 0, tileXY 1 0] ≠ []
      ∧ (∀ t ∈ [tileXY 0 0, tileXY 1 0], t ∈ [tileXY 0 0, tileXY 1 0])
      ∧ MapTileArea.getCollisionShiftForObject sampleDistance
          { m_width := 2, m_height := 1, m_depth := 1 }
          [tileXY 0 0, tileXY 1 0] [tileXY 0 0, tileXY 1 0] false
        = .ok (CollisionResult.ImpossibleShift, FHPos.zero) :=
  ⟨by decide, fun _ h => h,
    getCollisionShiftForObject_contained sampleDistance
      { m_width := 2, m_height := 1, m_depth := 1 }
      [tileXY 0 0, tileXY 1 0] [tileXY 0 0, tileXY 1 0] (by decide) (fun _ h => h)⟩

/-- C6, as the code has it. A collision check against the empty obstacle is
rejected as invalid input: the result is `InvalidInputs` for every object. -/
theorem getCollisionShiftForObject_empty_obstacle (posDistance : FHPos → FHPos → Int → Int)
    (c : MapTileContainer) (object : MapTileRegion) (invertObstacle : Bool) :
    MapTileArea.getCollisionShiftForObject posDistance c object [] invertObstacle
      = .ok (CollisionResult.InvalidInputs, FHPos.zero) := by
  unfold MapTileArea.getCollisionShiftForObject
  simp

/-- C6, counterexample. For the one-tile object at the origin and the empty
obstacle the check returns `InvalidInputs`, not `NoCollision`. -/
theorem getCollisionShiftForObject_empty_obstacle_not_noCollision :
    MapTileArea.getCollisionShiftForObject sampleDistance
        { m_width := 2, m_height := 1, m_depth := 1 } [tileXY 0 0] [] false
      = .ok (CollisionResult.InvalidInputs, FHPos.zero)
    ∧ Except.map Prod.fst (MapTileArea.getCollisionShiftForObject sampleDistance
        { m_width := 2, m_height := 1, m_depth := 1 } [tileXY 0 0] [] false)
      ≠ .ok CollisionResult.NoCollision := by
  constructor
  · rfl
  · intro h
    have h2 : MapTileArea.getCollisionShiftForObject sampleDistance
        { m_width := 2, m_height := 1, m_depth := 1 } [tileXY 0 0] [] false
        = .ok (CollisionResult.InvalidInputs, FHPos.zero) := rfl
    rw [h2] at h
    simp [Except.map] at h

theorem erase_ne_nil_of_proper (object inter : MapTileRegion) (x : FHPos)
    (hsub : ∀ t ∈ inter, t ∈ object) (hne : inter ≠ [])
    (hns : MapTileRegion.same inter object = false) :
    MapTileRegion.erase object x ≠ [] := by
  obtain ⟨u, us, rfl⟩ := List.exists_cons_of_ne_nil hne
  have hu : u ∈ object := hsub u (by simp)
  have hex : ∃ t, t ∈ object ∧ t ∉ u :: us := by
    by_contra hcon
    push_neg at hcon
    have : MapTileRegion.same (u :: us) object = true :=
      (MapTileRegion.same_iff _ _).2 (fun t => ⟨hsub t, hcon t⟩)
    rw [this] at hns
    exact Bool.noConfusion hns
  obtain ⟨t, ht, htn⟩ := hex
  have htu : t ≠ u := by
    intro h
    exact htn (by simp [h])
  intro hnil
  by_cases hx : u = x
  · have : t ∈ MapTileRegion.erase object x :=
      (MapTileRegion.mem_erase _ _ _).2 ⟨ht, fun h => htu (h.trans hx.symm)⟩
    rw [hnil] at this
    simp at this
  · have : u ∈ MapTileRegion.erase object x := (MapTileRegion.mem_erase _ _ _).2 ⟨hu, hx⟩
    rw [hnil] at this
    simp at this

theorem MapTileArea.makeCentroid_error (posDistance : FHPos → FHPos → Int → Int)
    (c : MapTileContainer) (region : MapTileRegion) (b : Bool) (e : Thrown)
    (h : MapTileArea.makeCentroid posDistance c region b = .error e) : e = .tileIndexMiss := by
  unfold MapTileArea.makeCentroid at h
  split at h
  · simp at h
  · simp only at h
    split at h
    · rename_i e2 he
      unfold MapTileContainer.tileIndexAt at he
      split at he
      · simp at he
      · simp at he
        simp at h
        rw [← h, ← he]
    · simp at h

theorem collisionShift_tail_cases (posDistance : FHPos → FHPos → Int → Int)
    (c : MapTileContainer) (o : FHPos) (os inter : MapTileRegion)
    (hsub : ∀ t ∈ inter, t ∈ o :: os) :
    let r : Except Thrown (CollisionResult × FHPos) :=
      if inter.isEmpty then .ok (CollisionResult.NoCollision, FHPos.zero)
      else if MapTileRegion.same inter (o :: os) then
        .ok (CollisionResult.ImpossibleShift, FHPos.zero)
      else
        match MapTileArea.makeCentroid posDistance c inter false with
        | .error e => .error e
        | .ok none => .error .nullTile
        | .ok (some collisionCentroid) =>
          match MapTileArea.makeCentroid posDistance c
              (MapTileRegion.erase (o :: os) collisionCentroid) false with
          | .error e => .error e
          | .ok none => .error .nullTile
          | .ok (some objectCentroid) =>
            if (objectCentroid.sub collisionCentroid).m_x = 0
                ∧ (objectCentroid.sub collisionCentroid).m_y = 0 then
              .ok (CollisionResult.ImpossibleShift, FHPos.zero)
            else
              .ok (CollisionResult.HasShift,
                { m_x := (shiftCorrection
                    ((((objectBoundary o (o :: os)).2.sub (objectBoundary o (o :: os)).1).m_x
                      + 1).tdiv 2)
                    ((((objectBoundary o (o :: os)).2.sub (objectBoundary o (o :: os)).1).m_y
                      + 1).tdiv 2)
                    (objectCentroid.sub collisionCentroid).m_x
                    (objectCentroid.sub collisionCentroid).m_y).1,
                  m_y := (shiftCorrection
                    ((((objectBoundary o (o :: os)).2.sub (objectBoundary o (o :: os)).1).m_x
                      + 1).tdiv 2)
                    ((((objectBoundary o (o :: os)).2.sub (objectBoundary o (o :: os)).1).m_y
                      + 1).tdiv 2)
                    (objectCentroid.sub collisionCentroid).m_x
                    (objectCentroid.sub collisionCentroid).m_y).2,
                  m_z := 0 })
    r = .error .tileIndexMiss ∨ ∃ k p, r = .ok (k, p) ∧ k ≠ CollisionResult.InvalidInputs := by
  intro r
  show r = _ ∨ _
  simp only [r]
  split
  · exact Or.inr ⟨_, _, rfl, by simp⟩
  · rename_i hne
    split
    · exact Or.inr ⟨_, _, rfl, by simp⟩
    · rename_i hsame
      split
      · rename_i e he
        exact Or.inl (by rw [MapTileArea.makeCentroid_error _ _ _ _ _ he])
      · rename_i he
        exact absurd he (MapTileArea.makeCentroid_ne_none _ _ _ _ (by simpa using hne))
      · rename_i cc hcc
        split
        · rename_i e he
          exact Or.inl (by rw [MapTileArea.makeCentroid_error _ _ _ _ _ he])
        · rename_i he
          refine absurd he (MapTileArea.makeCentroid_ne_none _ _ _ _ ?_)
          exact erase_ne_nil_of_proper (o :: os) inter cc hsub (by simpa using hne)
            (by simpa using hsame)
        · split
          · exact Or.inr ⟨_, _, rfl, by simp⟩
          · exact Or.inr ⟨_, _, rfl, by simp⟩

theorem getCollisionShiftForObject_cases (posDistance : FHPos → FHPos → Int → Int)
    (c : MapTileContainer) (object obstacle : MapTileRegion) (invertObstacle : Bool)
    (ho : object ≠ []) (hb : obstacle ≠ []) :
    MapTileArea.getCollisionShiftForObject posDistance c object obstacle invertObstacle
        = .error .tileIndexMiss
      ∨ ∃ r p, MapTileArea.getCollisionShiftForObject posDistance c object obstacle invertObstacle
          = .ok (r, p) ∧ r ≠ CollisionResult.InvalidInputs := by
  obtain ⟨o, os, rfl⟩ := List.exists_cons_of_ne_nil ho
  obtain ⟨b, bs, rfl⟩ := List.exists_cons_of_ne_nil hb
  cases invertObstacle
  · exact collisionShift_tail_cases posDistance c o os
      (MapTileRegion.intersectWith (o :: os) (b :: bs))
      (fun t ht => ((MapTileRegion.mem_intersectWith _ _ _).1 ht).1)
  · exact collisionShift_tail_cases posDistance c o os
      (MapTileRegion.diffWith (o :: os) (b :: bs))
      (fun t ht => ((MapTileRegion.mem_diffWith _ _ _).1 ht).1)

/-- C7. The collision check returns `InvalidInputs` exactly when the object or
the obstacle is empty, it returns it (rather than failing) in that case, and on
no input does it index an empty region or dereference the null centroid of an
empty region. -/
theorem getCollisionShiftForObject_invalidInputs_iff
    (posDistance : FHPos → FHPos → Int → Int) (c : MapTileContainer)
    (object obstacle : MapTileRegion) (invertObstacle : Bool) :
    ((∃ p, MapTileArea.getCollisionShiftForObject posDistance c object obstacle invertObstacle
          = .ok (CollisionResult.InvalidInputs, p))
        ↔ object = [] ∨ obstacle = [])
      ∧ MapTileArea.getCollisionShiftForObject posDistance c object obstacle invertObstacle
          ≠ .error .emptyRegionIndex
      ∧ MapTileArea.getCollisionShiftForObject posDistance c object obstacle invertObstacle
          ≠ .error .nullTile := by
  by_cases h : object = [] ∨ obstacle = []
  · have hr : MapTileArea.getCollisionShiftForObject posDistance c object obstacle invertObstacle
        = .ok (CollisionResult.InvalidInputs, FHPos.zero) := by
      unfold MapTileArea.getCollisionShiftForObject
      rcases h with h | h <;> simp [h]
    rw [hr]
    exact ⟨⟨fun _ => h, fun _ => ⟨_, rfl⟩⟩, by simp, by simp⟩
  · push_neg at h
    rcases getCollisionShiftForObject_cases posDistance c object obstacle invertObstacle h.1 h.2
      with hr | ⟨k, p, hr, hk⟩
    · rw [hr]
      refine ⟨⟨?_, fun h2 => ?_⟩, by simp, by simp⟩
      · rintro ⟨p, hp⟩
        simp at hp
      · rcases h2 with h2 | h2
        · exact absurd h2 h.1
        · exact absurd h2 h.2
    · rw [hr]
      refine ⟨⟨?_, fun h2 => ?_⟩, by simp, by simp⟩
      · rintro ⟨q, hq⟩
        simp only [Except.ok.injEq, Prod.mk.injEq] at hq
        exact absurd hq.1 hk
      · rcases h2 with h2 | h2
        · exact absurd h2 h.1
        · exact absurd h2 h.2

/-! ### Exclave repair -/

theorem processTile_keeps (zX zT zL zR zB : Int) (h : (processTile zX zT zL zR zB).1 = true) :
    (processTile zX zT zL zR zB).2 = zX
      ∧ 2 ≤ (decide (zX = zT)).toNat + (decide (zX = zL)).toNat + (decide (zX = zR)).toNat
          + (decide (zX = zB)).toNat
      ∧ ((decide (zX = zT)).toNat + (decide (zX = zL)).toNat + (decide (zX = zR)).toNat
          + (decide (zX = zB)).toNat = 2 →
        ((decide (zX = zT) && decide (zX = zL)) || (decide (zX = zT) && decide (zX = zR))
          || (decide (zX = zB) && decide (zX = zL)) || (decide (zX = zB) && decide (zX = zR)))
          = true) := by
  unfold processTile at h ⊢
  simp only at h ⊢
  generalize decide (zX = zT) = eT at h ⊢
  generalize decide (zX = zL) = eL at h ⊢
  generalize decide (zX = zR) = eR at h ⊢
  generalize decide (zX = zB) = eB at h ⊢
  cases eT <;> cases eL <;> cases eR <;> cases eB <;> simp at h ⊢
  split_ifs at h

theorem MapDraft.fixTile_count (acc : MapDraft × Int) (pos : FHPos) :
    acc.2 ≤ (MapDraft.fixTile acc pos).2
      ∧ ((MapDraft.fixTile acc pos).2 = acc.2 →
        MapDraft.fixTile acc pos = acc
          ∧ ∀ cell, tilesFind acc.1.m_tiles pos = some cell →
            (acc.1.processAt pos cell).1 = true) := by
  unfold MapDraft.fixTile
  split
  · rename_i hnone
    refine ⟨le_refl _, fun _ => ⟨rfl, ?_⟩⟩
    intro cell hc
    rw [hnone] at hc
    simp at hc
  · rename_i cell hsome
    simp only
    split
    · rename_i hkeep
      refine ⟨le_refl _, fun _ => ⟨rfl, ?_⟩⟩
      intro cell2 hc
      rw [hsome] at hc
      simp only [Option.some.injEq] at hc
      rw [← hc]
      exact hkeep
    · refine ⟨by simp, fun h => ?_⟩
      simp at h

theorem MapDraft.fixTile_fold (keys : List FHPos) (acc : MapDraft × Int) :
    acc.2 ≤ (keys.foldl MapDraft.fixTile acc).2
      ∧ ((keys.foldl MapDraft.fixTile acc).2 = acc.2 →
        keys.foldl MapDraft.fixTile acc = acc
          ∧ ∀ pos ∈ keys, ∀ cell, tilesFind acc.1.m_tiles pos = some cell →
            (acc.1.processAt pos cell).1 = true) := by
  induction keys generalizing acc with
  | nil => simp
  | cons k ks ih =>
    simp only [List.foldl_cons]
    have h1 := MapDraft.fixTile_count acc k
    have h2 := ih (MapDraft.fixTile acc k)
    refine ⟨le_trans h1.1 h2.1, fun heq => ?_⟩
    have hk : (MapDraft.fixTile acc k).2 = acc.2 := by
      have := h2.1
      have := h1.1
      omega
    have h3 := h1.2 hk
    have h4 := h2.2 (by rw [heq, hk])
    rw [h3.1] at h4
    refine ⟨by rw [h3.1]; exact h4.1, ?_⟩
    intro pos hpos cell hc
    rcases List.mem_cons.1 hpos with hp | hp
    · rw [hp] at hc ⊢
      exact h3.2 cell hc
    · exact h4.2 pos hp cell hc

theorem tilesFind_mem_keys (l : List (FHPos × MapDraft.Tile)) (pos : FHPos)
    (cell : MapDraft.Tile) (h : tilesFind l pos = some cell) : pos ∈ l.map Prod.fst := by
  induction l with
  | nil => simp [tilesFind] at h
  | cons e es ih =>
    obtain ⟨k, t⟩ := e
    unfold tilesFind at h
    by_cases hk : k = pos
    · simp [hk]
    · simp only [hk, if_false] at h
      simp only [List.map_cons, List.mem_cons]
      exact Or.inr (ih h)

/-- A pass of `fixExclaves` that returns `true` changed nothing, and on the
draft `processTile` answers "nothing to do" for every tile. -/
theorem MapDraft.fixExclaves_true (d : MapDraft) (h : d.fixExclaves.2 = true) :
    d.fixExclaves.1 = d
      ∧ ∀ pos cell, tilesFind d.m_tiles pos = some cell → (d.processAt pos cell).1 = true := by
  unfold MapDraft.fixExclaves at h ⊢
  simp only [decide_eq_true_eq] at h
  have hf := (MapDraft.fixTile_fold (d.m_tiles.map Prod.fst) (d, 0)).2 h
  refine ⟨by rw [hf.1], ?_⟩
  intro pos cell hc
  exact hf.2 pos (tilesFind_mem_keys _ _ _ hc) cell hc

/-- C9. When `fixExclaves` returns `true` the draft is unchanged and every tile
has at least two sides carrying its zone index (a side off the grid counts as
matching); when exactly two sides match they are adjacent sides (a corner). -/
theorem fixExclaves_fixed_point_sides (d : MapDraft) (h : d.fixExclaves.2 = true) :
    d.fixExclaves.1 = d
      ∧ ∀ pos cell, tilesFind d.m_tiles pos = some cell →
        2 ≤ (d.sideMatches cell (neighbour pos 0 (-1))).toNat
            + (d.sideMatches cell (neighbour pos (-1) 0)).toNat
            + (d.sideMatches cell (neighbour pos 1 0)).toNat
            + (d.sideMatches cell (neighbour pos 0 1)).toNat
          ∧ ((d.sideMatches cell (neighbour pos 0 (-1))).toNat
              + (d.sideMatches cell (neighbour pos (-1) 0)).toNat
              + (d.sideMatches cell (neighbour pos 1 0)).toNat
              + (d.sideMatches cell (neighbour pos 0 1)).toNat = 2 →
            ((d.sideMatches cell (neighbour pos 0 (-1))
                && d.sideMatches cell (neighbour pos (-1) 0))
              || (d.sideMatches cell (neighbour pos 0 (-1))
                && d.sideMatches cell (neighbour pos 1 0))
              || (d.sideMatches cell (neighbour pos 0 1)
                && d.sideMatches cell (neighbour pos (-1) 0))
              || (d.sideMatches cell (neighbour pos 0 1)
                && d.sideMatches cell (neighbour pos 1 0))) = true) := by
  have hf := MapDraft.fixExclaves_true d h
  refine ⟨hf.1, ?_⟩
  intro pos cell hc
  have hk := processTile_keeps _ _ _ _ _ (hf.2 pos cell hc)
  exact ⟨hk.2.1, hk.2.2⟩

set_option maxRecDepth 4096 in
/-- The uniformly zoned 3×3 grid is a fixed point and has the side property. -/
theorem fixExclaves_fixed_point_sides_witness :
    draftUniform.fixExclaves.2 = true
      ∧ draftUniform.fixExclaves.1 = draftUniform
      ∧ ∀ pos cell, tilesFind draftUniform.m_tiles pos = some cell →
        2 ≤ (draftUniform.sideMatches cell (neighbour pos 0 (-1))).toNat
            + (draftUniform.sideMatches cell (neighbour pos (-1) 0)).toNat
            + (draftUniform.sideMatches cell (neighbour pos 1 0)).toNat
            + (draftUniform.sideMatches cell (neighbour pos 0 1)).toNat
          ∧ ((draftUniform.sideMatches cell (neighbour pos 0 (-1))).toNat
              + (draftUniform.sideMatches cell (neighbour pos (-1) 0)).toNat
              + (draftUniform.sideMatches cell (neighbour pos 1 0)).toNat
              + (draftUniform.sideMatches cell (neighbour pos 0 1)).toNat = 2 →
            ((draftUniform.sideMatches cell (neighbour pos 0 (-1))
                && draftUniform.sideMatches cell (neighbour pos (-1) 0))
              || (draftUniform.sideMatches cell (neighbour pos 0 (-1))
                && draftUniform.sideMatches cell (neighbour pos 1 0))
              || (draftUniform.sideMatches cell (neighbour pos 0 1)
                && draftUniform.sideMatches cell (neighbour pos (-1) 0))
              || (draftUniform.sideMatches cell (neighbour pos 0 1)
                && draftUniform.sideMatches cell (neighbour pos 1 0))) = true) :=
  ⟨by decide, fixExclaves_fixed_point_sides draftUniform (by decide)⟩

theorem MapDraft.sideMatches_cases (d : MapDraft) (cell : MapDraft.Tile) (p : FHPos) :
    (d.contains p = false ∧ d.sideMatches cell p = true)
      ∨ (d.contains p = true ∧ (d.sideMatches cell p = true →
          ∃ cell2, tilesFind d.m_tiles p = some cell2 ∧ cell2.m_zoneIndex = cell.m_zoneIndex)) := by
  unfold MapDraft.contains MapDraft.sideMatches MapDraft.sideTile
  rcases hf : tilesFind d.m_tiles p with _ | cell2
  · exact Or.inl ⟨rfl, by simp⟩
  · refine Or.inr ⟨rfl, fun hm => ⟨cell2, rfl, ?_⟩⟩
    simp only [decide_eq_true_eq] at hm
    exact hm.symm

/-- C8, as the code guarantees it. When `fixExclaves` returns `true`, every
tile that has at most one of its four sides off the grid has an in-grid
orthogonal neighbour with its own zone index: away from the corners of the grid
no one-tile exclave remains. -/
theorem fixExclaves_fixed_point_no_single_exclave (d : MapDraft)
    (h : d.fixExclaves.2 = true) (pos : FHPos) (cell : MapDraft.Tile)
    (hc : tilesFind d.m_tiles pos = some cell)
    (hgrid : 3 ≤ (d.contains (neighbour pos 0 (-1))).toNat
      + (d.contains (neighbour pos (-1) 0)).toNat
      + (d.contains (neighbour pos 1 0)).toNat
      + (d.contains (neighbour pos 0 1)).toNat) :
    ∃ p ∈ [neighbour pos 0 (-1), neighbour pos (-1) 0, neighbour pos 1 0, neighbour pos 0 1],
      ∃ cell2, tilesFind d.m_tiles p = some cell2 ∧ cell2.m_zoneIndex = cell.m_zoneIndex := by
  have hk := (processTile_keeps _ _ _ _ _ ((MapDraft.fixExclaves_true d h).2 pos cell hc)).2.1
  have hT := MapDraft.sideMatches_cases d cell (neighbour pos 0 (-1))
  have hL := MapDraft.sideMatches_cases d cell (neighbour pos (-1) 0)
  have hR := MapDraft.sideMatches_cases d cell (neighbour pos 1 0)
  have hB := MapDraft.sideMatches_cases d cell (neighbour pos 0 1)
  change 2 ≤ (d.sideMatches cell (neighbour pos 0 (-1))).toNat
      + (d.sideMatches cell (neighbour pos (-1) 0)).toNat
      + (d.sideMatches cell (neighbour pos 1 0)).toNat
      + (d.sideMatches cell (neighbour pos 0 1)).toNat at hk
  by_cases mT : d.sideMatches cell (neighbour pos 0 (-1)) = true
      ∧ d.contains (neighbour pos 0 (-1)) = true
  · rcases hT with hT | hT
    · rw [hT.1] at mT
      simp at mT
    · obtain ⟨c2, h1, h2⟩ := hT.2 mT.1
      exact ⟨_, by simp, c2, h1, h2⟩
  by_cases mL : d.sideMatches cell (neighbour pos (-1) 0) = true
      ∧ d.contains (neighbour pos (-1) 0) = true
  · rcases hL with hL | hL
    · rw [hL.1] at mL
      simp at mL
    · obtain ⟨c2, h1, h2⟩ := hL.2 mL.1
      exact ⟨_, by simp, c2, h1, h2⟩
  by_cases mR : d.sideMatches cell (neighbour pos 1 0) = true
      ∧ d.contains (neighbour pos 1 0) = true
  · rcases hR with hR | hR
    · rw [hR.1] at mR
      simp at mR
    · obtain ⟨c2, h1, h2⟩ := hR.2 mR.1
      exact ⟨_, by simp, c2, h1, h2⟩
  by_cases mB : d.sideMatches cell (neighbour pos 0 1) = true
      ∧ d.contains (neighbour pos 0 1) = true
  · rcases hB with hB | hB
    · rw [hB.1] at mB
      simp at mB
    · obtain ⟨c2, h1, h2⟩ := hB.2 mB.1
      exact ⟨_, by simp, c2, h1, h2⟩
  exfalso
  revert hk hgrid mT mL mR mB
  generalize d.sideMatches cell (neighbour pos 0 (-1)) = a1
  generalize d.sideMatches cell (neighbour pos (-1) 0) = a2
  generalize d.sideMatches cell (neighbour pos 1 0) = a3
  generalize d.sideMatches cell (neighbour pos 0 1) = a4
  generalize d.contains (neighbour pos 0 (-1)) = b1
  generalize d.contains (neighbour pos (-1) 0) = b2
  generalize d.contains (neighbour pos 1 0) = b3
  generalize d.contains (neighbour pos 0 1) = b4
  cases a1 <;> cases a2 <;> cases a3 <;> cases a4 <;> cases b1 <;> cases b2 <;> cases b3
    <;> cases b4 <;> simp

set_option maxRecDepth 4096 in
/-- The centre tile of the uniformly zoned 3×3 grid has a same-zone neighbour. -/
theorem fixExclaves_fixed_point_no_single_exclave_witness :
    draftUniform.fixExclaves.2 = true
      ∧ tilesFind draftUniform.m_tiles (tileXY 1 1) = some (zonedTile 0)
      ∧ ∃ p ∈ [neighbour (tileXY 1 1) 0 (-1), neighbour (tileXY 1 1) (-1) 0,
            neighbour (tileXY 1 1) 1 0, neighbour (tileXY 1 1) 0 1],
          ∃ cell2, tilesFind draftUniform.m_tiles p = some cell2
            ∧ cell2.m_zoneIndex = (zonedTile 0).m_zoneIndex :=
  ⟨by decide, by decide,
    fixExclaves_fixed_point_no_single_exclave draftUniform (by decide) (tileXY 1 1) (zonedTile 0)
      (by decide) (by decide)⟩

theorem reach_within (s : List FHPos) (P : FHPos → Prop) (a b : FHPos) (ha : P a)
    (hstep : ∀ u v, P u → v ∈ s → orthogonallyAdjacent u v → P v)
    (h : Relation.ReflTransGen (fun u v => v ∈ s ∧ orthogonallyAdjacent u v) a b) : P b := by
  induction h with
  | refl => exact ha
  | tail _ hlast ih => exact hstep _ _ ih hlast.1 hlast.2

set_option maxRecDepth 8192 in
/-- C8, counterexample. The fully zoned 4×2 grid whose columns are tagged
`0 1 1 0` is a fixed point of `fixExclaves`, yet the tiles of zone 0, the
columns `x = 0` and `x = 3`, are not a single 4-connected component: no chain of
orthogonal steps through zone 0 leaves the column `x = 0`. -/
theorem fixExclaves_fixed_point_not_connected :
    (draftSplitZone.m_tiles.map Prod.fst = (MapDraft.init {} 4 2 1).m_tiles.map Prod.fst
        ∧ draftSplitZone.checkOrphans = true)
      ∧ draftSplitZone.fixExclaves = (draftSplitZone, true)
      ∧ draftSplitZone.zoneTiles 0 = [tileXY 0 0, tileXY 0 1, tileXY 3 0, tileXY 3 1]
      ∧ ¬ fourConnected (draftSplitZone.zoneTiles 0) := by
  refine ⟨⟨by decide, by decide⟩, by decide, by decide, ?_⟩
  intro hcon
  have hz : draftSplitZone.zoneTiles 0 = [tileXY 0 0, tileXY 0 1, tileXY 3 0, tileXY 3 1] := by
    decide
  rw [hz] at hcon
  have hreach := hcon (tileXY 0 0) (by simp) (tileXY 3 0) (by simp)
  have hx : (tileXY 3 0).m_x = 0 :=
    reach_within _ (fun v => v.m_x = 0) _ _ rfl
      (by
        intro u v hu hv hadj
        simp only [List.mem_cons, List.mem_singleton, List.not_mem_nil, or_false] at hv
        unfold orthogonallyAdjacent neighbour at hadj
        rcases hv with hv | hv | hv | hv
        · rw [hv]; rfl
        · rw [hv]; rfl
        · exfalso
          rw [hv] at hadj
          have h3 : (tileXY 3 0).m_x = 3 := rfl
          rcases hadj with h | h | h | h <;>
            · have := congrArg FHPos.m_x h
              simp only [h3] at this
              omega
        · exfalso
          rw [hv] at hadj
          have h3 : (tileXY 3 1).m_x = 3 := rfl
          rcases hadj with h | h | h | h <;>
            · have := congrArg FHPos.m_x h
              simp only [h3] at this
              omega)
      hreach
  exact absurd hx (by decide)

/-! ### Zone regrowth -/

theorem filter_length_lt_of_witness (keys : List FHPos) (p q : FHPos → Bool)
    (himp : ∀ k, p k = true → q k = true) (t : FHPos) (ht : t ∈ keys) (hq : q t = true)
    (hp : p t = false) : (keys.filter p).length < (keys.filter q).length := by
  induction keys with
  | nil => simp at ht
  | cons k ks ih =>
    have hle : (ks.filter p).length ≤ (ks.filter q).length := by
      rw [← List.countP_eq_length_filter, ← List.countP_eq_length_filter]
      exact List.countP_mono_left (fun x _ hx => himp x hx)
    rcases List.mem_cons.1 ht with hk | hk
    · subst hk
      simp only [List.filter_cons, hq, hp, if_true, List.length_cons]
      simp only [Bool.false_eq_true, if_false]
      omega
    · have := ih hk
      cases hpk : p k
      · cases hqk : q k
        · simp only [List.filter_cons, hpk, hqk, Bool.false_eq_true, if_false]
          exact this
        · simp only [List.filter_cons, hpk, hqk, Bool.false_eq_true, if_false, if_true,
            List.length_cons]
          omega
      · simp only [List.filter_cons, hpk, himp k hpk, if_true, List.length_cons]
        omega

theorem TileZone.mem_addIf (reg : MapTileRegion) (point : FHPos) (predicate : FHPos → Bool)
    (t : FHPos) (h : t ∈ TileZone.addIf reg point predicate) :
    t ∈ reg ∨ (t = point ∧ predicate t = true) := by
  unfold TileZone.addIf at h
  by_cases hp : predicate point = true
  · simp only [hp, Bool.not_true, Bool.false_eq_true, if_false] at h
    rcases (MapTileRegion.mem_insert _ _ _).1 h with h1 | h1
    · exact Or.inl h1
    · exact Or.inr ⟨h1, h1 ▸ hp⟩
  · simp only [hp, Bool.not_false, if_true] at h
    exact Or.inl h

theorem TileZone.growOnce_fold (predicate : FHPos → Bool) (l : List FHPos) (e : MapTileRegion)
    (t : FHPos)
    (h : t ∈ l.foldl
        (fun reg pos =>
          TileZone.addIf
            (TileZone.addIf
              (TileZone.addIf
                (TileZone.addIf reg (neighbour pos 1 0) predicate)
                (neighbour pos (-1) 0) predicate)
              (neighbour pos 0 1) predicate)
            (neighbour pos 0 (-1)) predicate) e) :
    t ∈ e ∨ predicate t = true := by
  induction l generalizing e with
  | nil => exact Or.inl h
  | cons x xs ih =>
    simp only [List.foldl_cons] at h
    rcases ih _ h with h1 | h1
    · rcases TileZone.mem_addIf _ _ _ _ h1 with h2 | h2
      · rcases TileZone.mem_addIf _ _ _ _ h2 with h3 | h3
        · rcases TileZone.mem_addIf _ _ _ _ h3 with h4 | h4
          · rcases TileZone.mem_addIf _ _ _ _ h4 with h5 | h5
            · exact Or.inl h5
            · exact Or.inr h5.2
          · exact Or.inr h4.2
        · exact Or.inr h3.2
      · exact Or.inr h2.2
    · exact Or.inr h1

theorem TileZone.readPredicate_spec (d : MapDraft) (z : TileZone) (t : FHPos)
    (h : TileZone.readPredicate d z t = true) :
    t ∈ d.m_tiles.map Prod.fst ∧ t ∉ z.m_innerArea ∧ d.zonedWith t z.m_index := by
  unfold TileZone.readPredicate at h
  split_ifs at h with h1 h2
  rcases hf : tilesFind d.m_tiles t with _ | cell
  · rw [hf] at h
    simp at h
  · rw [hf] at h
    simp only [Bool.and_eq_true, decide_eq_true_eq] at h
    refine ⟨tilesFind_mem_keys _ _ _ hf, ?_, cell, hf, h.1, h.2⟩
    intro hmem
    exact h2 ((MapTileRegion.contains_iff _ _).2 hmem)

theorem TileZone.readStep_spec (d : MapDraft) (z : TileZone) :
    (TileZone.readStep d z).m_index = z.m_index
      ∧ (TileZone.readStep d z).m_startTile = z.m_startTile
      ∧ (TileZone.readStep d z).m_innerArea = MapTileRegion.insertList z.m_innerArea z.m_innerEdge
      ∧ ∀ t ∈ (TileZone.readStep d z).m_innerEdge,
          t ∈ d.m_tiles.map Prod.fst ∧ t ∉ (TileZone.readStep d z).m_innerArea
            ∧ d.zonedWith t z.m_index := by
  refine ⟨rfl, rfl, rfl, ?_⟩
  intro t ht
  have h : t ∈ ([] : MapTileRegion) ∨ TileZone.readPredicate d
      { z with m_innerArea := z.m_innerEdge.foldl MapTileRegion.insert z.m_innerArea } t = true :=
    TileZone.growOnce_fold _ _ _ _ ht
  rcases h with h | h
  · simp at h
  · exact TileZone.readPredicate_spec d _ t h

/-- A round of `readFromMap` whose edge holds a tile of the draft outside the
inner area lowers the number of tiles of the draft that are outside it. -/
theorem TileZone.readStep_measure (d : MapDraft) (z : TileZone) (t : FHPos)
    (ht : t ∈ z.m_innerEdge) (hk : t ∈ d.m_tiles.map Prod.fst) (hn : t ∉ z.m_innerArea) :
    ((d.m_tiles.map Prod.fst).filter
        (fun k => !MapTileRegion.contains (TileZone.readStep d z).m_innerArea k)).length
      < ((d.m_tiles.map Prod.fst).filter
        (fun k => !MapTileRegion.contains z.m_innerArea k)).length := by
  apply filter_length_lt_of_witness _ _ _ _ t hk
  · simp only [Bool.not_eq_true', MapTileRegion.contains_false_iff]
    exact hn
  · simp only [Bool.not_eq_false', MapTileRegion.contains_iff]
    rw [(TileZone.readStep_spec d z).2.2.1, MapTileRegion.mem_insertList]
    exact Or.inr ht
  · intro k hkk
    simp only [Bool.not_eq_true', MapTileRegion.contains_false_iff] at hkk ⊢
    intro hin
    apply hkk
    rw [(TileZone.readStep_spec d z).2.2.1, MapTileRegion.mem_insertList]
    exact Or.inl hin

theorem TileZone.readLoop_terminates (d : MapDraft) (fuel : Nat) (z : TileZone)
    (hB : ∀ t ∈ z.m_innerEdge, t ∈ d.m_tiles.map Prod.fst ∧ t ∉ z.m_innerArea)
    (hfuel : ((d.m_tiles.map Prod.fst).filter
        (fun k => !MapTileRegion.contains z.m_innerArea k)).length ≤ fuel) :
    ∃ z2, TileZone.readLoop d fuel z = some z2 := by
  induction fuel generalizing z with
  | zero =>
    unfold TileZone.readLoop
    rcases hedge : z.m_innerEdge with _ | ⟨t, ts⟩
    · exact ⟨z, by simp⟩
    · exfalso
      have ht := hB t (by rw [hedge]; simp)
      have hmem : t ∈ (d.m_tiles.map Prod.fst).filter
          (fun k => !MapTileRegion.contains z.m_innerArea k) := by
        rw [List.mem_filter]
        refine ⟨ht.1, ?_⟩
        simp only [Bool.not_eq_true', MapTileRegion.contains_false_iff]
        exact ht.2
      have hpos := List.length_pos_of_mem hmem
      omega
  | succ n ih =>
    unfold TileZone.readLoop
    rcases hedge : z.m_innerEdge with _ | ⟨t, ts⟩
    · exact ⟨z, by simp⟩
    · simp only [List.isEmpty_cons, Bool.false_eq_true, if_false]
      have ht := hB t (by rw [hedge]; simp)
      have hlt := TileZone.readStep_measure d z t (by rw [hedge]; simp) ht.1 ht.2
      apply ih
      · intro u hu
        have := (TileZone.readStep_spec d z).2.2.2 u hu
        exact ⟨this.1, this.2.1⟩
      · omega

theorem TileZone.readLoop_spec (d : MapDraft) (fuel : Nat) (z z2 : TileZone)
    (h : TileZone.readLoop d fuel z = some z2)
    (hA : ∀ t ∈ z.m_innerArea, t = z.m_startTile ∨ d.zonedWith t z.m_index)
    (hE : ∀ t ∈ z.m_innerEdge, t = z.m_startTile ∨ d.zonedWith t z.m_index) :
    z2.m_index = z.m_index ∧ z2.m_startTile = z.m_startTile
      ∧ (∀ t ∈ z.m_innerArea, t ∈ z2.m_innerArea)
      ∧ ∀ t ∈ z2.m_innerArea, t = z.m_startTile ∨ d.zonedWith t z.m_index := by
  induction fuel generalizing z with
  | zero =>
    unfold TileZone.readLoop at h
    split_ifs at h
    simp only [Option.some.injEq] at h
    subst h
    exact ⟨rfl, rfl, fun _ ht => ht, hA⟩
  | succ n ih =>
    unfold TileZone.readLoop at h
    split_ifs at h
    · simp only [Option.some.injEq] at h
      subst h
      exact ⟨rfl, rfl, fun _ ht => ht, hA⟩
    · have hs := TileZone.readStep_spec d z
      have := ih (TileZone.readStep d z) h
        (by
          intro t ht
          rw [hs.2.2.1, MapTileRegion.mem_insertList] at ht
          rw [hs.1, hs.2.1]
          rcases ht with ht | ht
          · exact hA t ht
          · exact hE t ht)
        (by
          intro t ht
          rw [hs.1, hs.2.1]
          exact Or.inr (hs.2.2.2 t ht).2.2)
      rw [hs.1, hs.2.1] at this
      refine ⟨this.1, this.2.1, ?_, this.2.2.2⟩
      intro t ht
      apply this.2.2.1
      rw [hs.2.2.1, MapTileRegion.mem_insertList]
      exact Or.inl ht

theorem TileZone.makeEdge_fold (A : MapTileRegion) (l : List FHPos) (e : MapTileRegion)
    (t : FHPos)
    (h : t ∈ l.foldl
        (fun edge pos =>
          if MapTileRegion.contains A (neighbour pos 1 0)
              && MapTileRegion.contains A (neighbour pos (-1) 0)
              && MapTileRegion.contains A (neighbour pos 0 1)
              && MapTileRegion.contains A (neighbour pos 0 (-1)) then edge
          else MapTileRegion.insert edge pos) e) :
    t ∈ e ∨ t ∈ l := by
  induction l generalizing e with
  | nil => exact Or.inl h
  | cons x xs ih =>
    simp only [List.foldl_cons] at h
    rcases ih _ h with h1 | h1
    · split_ifs at h1
      · exact Or.inl h1
      · rcases (MapTileRegion.mem_insert _ _ _).1 h1 with h2 | h2
        · exact Or.inl h2
        · exact Or.inr (by simp [h2])
    · exact Or.inr (List.mem_cons_of_mem _ h1)

theorem TileZone.makeEdgeFromInnerArea_spec (z : TileZone) :
    (TileZone.makeEdgeFromInnerArea z).m_index = z.m_index
      ∧ (TileZone.makeEdgeFromInnerArea z).m_startTile = z.m_startTile
      ∧ (TileZone.makeEdgeFromInnerArea z).m_innerArea = z.m_innerArea
      ∧ ∀ t ∈ (TileZone.makeEdgeFromInnerArea z).m_innerEdge, t ∈ z.m_innerArea := by
  refine ⟨rfl, rfl, rfl, ?_⟩
  intro t ht
  rcases TileZone.makeEdge_fold z.m_innerArea z.m_innerArea [] t ht with h | h
  · simp at h
  · exact h

/-- Method `readFromMap` always returns within its loop budget; the rebuilt area
contains the seed, and every tile of it is the seed or a tile of the draft that
is zoned with the index of the zone. -/
theorem TileZone.readFromMap_spec (d : MapDraft) (z : TileZone) :
    ∃ z2, TileZone.readFromMap d z = some z2
      ∧ z2.m_index = z.m_index ∧ z2.m_startTile = z.m_startTile
      ∧ z.m_startTile ∈ z2.m_innerArea
      ∧ ∀ t ∈ z2.m_innerArea, t = z.m_startTile ∨ d.zonedWith t z.m_index := by
  have h0 := TileZone.makeEdgeFromInnerArea_spec
    { z with m_innerArea := MapTileRegion.insert [] z.m_startTile }
  have harea : (MapTileRegion.insert [] z.m_startTile) = [z.m_startTile] := by
    simp [MapTileRegion.insert, MapTileRegion.contains]
  simp only [harea] at h0
  have hterm : ∃ z1, TileZone.readLoop d (d.m_tiles.length + 1)
      (TileZone.makeEdgeFromInnerArea { z with m_innerArea := [z.m_startTile] }) = some z1 := by
    unfold TileZone.readLoop
    split_ifs
    · exact ⟨_, rfl⟩
    · apply TileZone.readLoop_terminates
      · intro t ht
        have := (TileZone.readStep_spec d _).2.2.2 t ht
        exact ⟨this.1, this.2.1⟩
      · calc _ ≤ (d.m_tiles.map Prod.fst).length := List.length_filter_le _ _
          _ = d.m_tiles.length := List.length_map _ _
  obtain ⟨z1, hz1⟩ := hterm
  have hspec := TileZone.readLoop_spec d _ _ z1 hz1
    (by
      intro t ht
      rw [h0.2.2.1] at ht
      rw [h0.2.1]
      exact Or.inl (by simpa using ht))
    (by
      intro t ht
      have := h0.2.2.2 t ht
      rw [h0.2.1]
      exact Or.inl (by simpa using this))
  rw [h0.1, h0.2.1] at hspec
  refine ⟨TileZone.makeEdgeFromInnerArea z1, ?_, ?_, ?_, ?_, ?_⟩
  · unfold TileZone.readFromMap
    simp only [harea, hz1]
  · exact hspec.1
  · exact hspec.2.1
  · apply hspec.2.2.1
    rw [h0.2.2.1]
    simp
  · exact hspec.2.2.2

theorem runOutputZones_spec (d : MapDraft) (tileZones : List TileZone) :
    ∃ areas, runOutputZones d tileZones = some areas
      ∧ List.Forall₂
        (fun (z : TileZone) (area : List FHPos) =>
          z.m_startTile ∈ area ∧ ∀ t ∈ area, t = z.m_startTile ∨ d.zonedWith t z.m_index)
        tileZones areas := by
  induction tileZones with
  | nil => exact ⟨[], rfl, List.Forall₂.nil⟩
  | cons z zs ih =>
    obtain ⟨areas, hrun, hall⟩ := ih
    obtain ⟨z2, hz2, _, _, hseed, harea⟩ := TileZone.readFromMap_spec d z
    refine ⟨z2.m_innerArea :: areas, ?_, List.Forall₂.cons ⟨hseed, harea⟩ hall⟩
    unfold runOutputZones
    simp only [hz2, hrun]

theorem MapDraft.zonedWith_index (d : MapDraft) (t : FHPos) (i j : Int)
    (hi : d.zonedWith t i) (hj : d.zonedWith t j) : i = j := by
  obtain ⟨c1, h1, _, h1i⟩ := hi
  obtain ⟨c2, h2, _, h2j⟩ := hj
  rw [h1] at h2
  simp only [Option.some.injEq] at h2
  rw [← h1i, ← h2j, h2]

/-- C10, as the code guarantees it. The final loop of `run` re-reads every zone
within its loop budget; each rebuilt tile list contains the seed of its zone and
otherwise only tiles of the draft zoned with the index of that zone, so the
lists of two zones with different indices can share no tile other than one of
the two seeds. -/
theorem runOutputZones_areas (d : MapDraft) (tileZones : List TileZone) :
    ∃ areas, runOutputZones d tileZones = some areas
      ∧ areas.length = tileZones.length
      ∧ (∀ (i : Nat) (z : TileZone) (area : List FHPos),
          tileZones[i]? = some z → areas[i]? = some area →
          z.m_startTile ∈ area ∧ ∀ t ∈ area, t = z.m_startTile ∨ d.zonedWith t z.m_index)
      ∧ ∀ (i j : Nat) (zi zj : TileZone) (ai aj : List FHPos),
          tileZones[i]? = some zi → tileZones[j]? = some zj →
          areas[i]? = some ai → areas[j]? = some aj → zi.m_index ≠ zj.m_index →
          ∀ t, t ∈ ai → t ∈ aj → t = zi.m_startTile ∨ t = zj.m_startTile := by
  obtain ⟨areas, hrun, hall⟩ := runOutputZones_spec d tileZones
  have hget : ∀ (i : Nat) (z : TileZone) (area : List FHPos),
      tileZones[i]? = some z → areas[i]? = some area →
      z.m_startTile ∈ area ∧ ∀ t ∈ area, t = z.m_startTile ∨ d.zonedWith t z.m_index := by
    intro i z area hz ha
    rw [List.forall₂_iff_get] at hall
    obtain ⟨h1, h2⟩ := List.getElem?_eq_some_iff.1 hz
    obtain ⟨h3, h4⟩ := List.getElem?_eq_some_iff.1 ha
    have := hall.2 i h1 h3
    simp only [List.get_eq_getElem, h2, h4] at this
    exact this
  refine ⟨areas, hrun, hall.length_eq.symm, hget, ?_⟩
  intro i j zi zj ai aj hzi hzj hai haj hne t hti htj
  rcases (hget i zi ai hzi hai).2 t hti with h1 | h1
  · exact Or.inl h1
  · rcases (hget j zj aj hzj haj).2 t htj with h2 | h2
    · exact Or.inr h2
    · exact absurd (MapDraft.zonedWith_index d t _ _ h1 h2) hne

set_option maxRecDepth 8192 in
/-- C10, counterexample. On the fully zoned 4×2 grid whose columns are tagged
`1 1 1 0`, a fixed point of `fixExclaves`, with zone 0 seeded at `(0,0)` and
zone 1 at `(1,0)`, the rebuilt tile list of zone 0 is `[(0,0)]` and that of
zone 1 holds the six tiles of the first three columns: tile `(0,0)` is in both
lists and tile `(3,0)` is in none. -/
theorem runOutputZones_not_partition :
    (draftSeedRetagged.m_tiles.map Prod.fst = (MapDraft.init {} 4 2 1).m_tiles.map Prod.fst
        ∧ draftSeedRetagged.checkOrphans = true)
      ∧ draftSeedRetagged.fixExclaves = (draftSeedRetagged, true)
      ∧ runOutputZones draftSeedRetagged zonesSeedRetagged
          = some [[tileXY 0 0],
            [tileXY 1 0, tileXY 2 0, tileXY 0 0, tileXY 1 1, tileXY 2 1, tileXY 0 1]]
      ∧ (tileXY 0 0 ∈ [tileXY 0 0]
          ∧ tileXY 0 0 ∈ [tileXY 1 0, tileXY 2 0, tileXY 0 0, tileXY 1 1, tileXY 2 1, tileXY 0 1])
      ∧ (tileXY 3 0 ∈ draftSeedRetagged.m_tiles.map Prod.fst
          ∧ tileXY 3 0 ∉ [tileXY 0 0]
          ∧ tileXY 3 0 ∉ [tileXY 1 0, tileXY 2 0, tileXY 0 0, tileXY 1 1, tileXY 2 1, tileXY 0 1]) := by
  refine ⟨⟨by decide, by decide⟩, by decide, by decide, ⟨by decide, by decide⟩,
    by decide, by decide, by decide⟩

/-! ### Footprint codec -/

theorem foldlM_ok_of_steps {α β : Type} (f : β → α → Except Thrown β) (g : β → α → β)
    (xs : List α) (acc : β) (h : ∀ x ∈ xs, ∀ a, f a x = .ok (g a x)) :
    xs.foldlM f acc = .ok (xs.foldl g acc) := by
  induction xs generalizing acc with
  | nil => rfl
  | cons x xs ih =>
    rw [List.foldlM_cons, h x (by simp) acc]
    exact ih _ (fun y hy a => h y (List.mem_cons_of_mem _ hy) a)

theorem rows_getElem (W : Nat) (ch : Nat → Nat → Char) (H : Nat) :
    ((List.range H).foldl (fun s y => s ++ (List.range W).map (fun x => ch x y)) []).length
        = W * H
      ∧ ∀ y, y < H → ∀ x, x < W →
        ((List.range H).foldl (fun s y => s ++ (List.range W).map (fun x => ch x y)) [])[x + W * y]?
          = some (ch x y) := by
  induction H with
  | zero => simp
  | succ n ih =>
    rw [List.range_succ, List.foldl_append]
    simp only [List.foldl_cons, List.foldl_nil]
    refine ⟨?_, ?_⟩
    · rw [List.length_append, ih.1, List.length_map, List.length_range, Nat.mul_succ]
    · intro y hy x hx
      by_cases hyn : y < n
      · rw [List.getElem?_append_left]
        · exact ih.2 y hyn x hx
        · rw [ih.1]
          calc x + W * y < W + W * y := by omega
            _ = W * (y + 1) := by rw [Nat.mul_succ, Nat.add_comm]
            _ ≤ W * n := Nat.mul_le_mul_left W hyn
      · have hy2 : y = n := by omega
        subst hy2
        rw [List.getElem?_append_right (by rw [ih.1]; omega), ih.1]
        have : x + W * y - W * y = x := by omega
        rw [this, List.getElem?_map, List.getElem?_range hx]
        rfl

theorem composeChar_object (object obstacle : MapTileRegion) (tile : FHPos) :
    (decide (composeChar object obstacle false tile = 'O')
        || decide (composeChar object obstacle false tile = 'X'))
      = MapTileRegion.contains object tile := by
  unfold composeChar
  cases MapTileRegion.contains object tile <;> cases MapTileRegion.contains obstacle tile
    <;> simp

theorem composeChar_obstacle (object obstacle : MapTileRegion) (tile : FHPos) :
    (decide (composeChar object obstacle false tile = '-')
        || decide (composeChar object obstacle false tile = 'X'))
      = MapTileRegion.contains obstacle tile := by
  unfold composeChar
  cases MapTileRegion.contains object tile <;> cases MapTileRegion.contains obstacle tile
    <;> simp

theorem MapTileContainer.hasTile_cell (c : MapTileContainer) (x y : Nat)
    (hx : x < c.m_width.toNat) (hy : y < c.m_height.toNat) (hd : 0 < c.m_depth) :
    c.hasTile { m_x := x, m_y := y, m_z := 0 } = true := by
  unfold MapTileContainer.hasTile
  simp only [Bool.and_eq_true, decide_eq_true_eq]
  omega

theorem compose_plain (c : MapTileContainer) (object obstacle : MapTileRegion)
    (serialized : List Char) (hne : object ≠ [] ∨ obstacle ≠ [])
    (hobj : ∀ t ∈ object, t.m_z = 0) (hobs : ∀ t ∈ obstacle, t.m_z = 0) (hd : 0 < c.m_depth) :
    MapTileArea.compose c object obstacle serialized false false
      = .ok ((List.range c.m_height.toNat).foldl
          (fun (s : List Char) (y : Nat) => s ++ (List.range c.m_width.toNat).map
            (fun (x : Nat) =>
              composeChar object obstacle false { m_x := x, m_y := y, m_z := 0 })) []) := by
  have hz : (match object with
      | [] => (match obstacle with
        | [] => (0 : Int)
        | o :: _ => o.m_z)
      | o :: _ => o.m_z) = 0 := by
    cases object with
    | nil =>
      cases obstacle with
      | nil => rfl
      | cons b bs => exact hobs b (by simp)
    | cons o os => exact hobj o (by simp)
  have hrow : ∀ y ∈ List.range c.m_height.toNat, ∀ s : List Char,
      composeRow c object obstacle false false 0 s y
        = .ok (s ++ (List.range c.m_width.toNat).map
            (fun (x : Nat) =>
              composeChar object obstacle false { m_x := x, m_y := y, m_z := 0 })) := by
    intro y hy s
    unfold composeRow
    simp only [Bool.false_eq_true, if_false]
    rw [foldlM_ok_of_steps _
      (fun (s : List Char) (x : Nat) =>
        s ++ [composeChar object obstacle false { m_x := x, m_y := y, m_z := 0 }])]
    · simp only
      congr 1
      generalize List.range c.m_width.toNat = xs
      induction xs generalizing s with
      | nil => simp
      | cons x xs ih =>
        simp only [List.foldl_cons, List.map_cons]
        rw [ih]
        simp
    · intro x hx a
      unfold MapTileContainer.tileIndexAt
      rw [MapTileContainer.hasTile_cell c x y (List.mem_range.1 hx) (List.mem_range.1 hy) hd]
      rfl
  unfold MapTileArea.compose
  cases object with
  | nil =>
    cases obstacle with
    | nil => simp at hne
    | cons b bs =>
      simp only at hz ⊢
      rw [hz]
      exact foldlM_ok_of_steps _ _ _ _ hrow
  | cons o os =>
    simp only at hz ⊢
    rw [hz]
    exact foldlM_ok_of_steps _ _ _ _ hrow

theorem foldl_pair {α β γ : Type} (g1 : β → α → β) (g2 : γ → α → γ) (xs : List α)
    (acc : β × γ) :
    xs.foldl (fun (a : β × γ) x => (g1 a.1 x, g2 a.2 x)) acc
      = (xs.foldl g1 acc.1, xs.foldl g2 acc.2) := by
  induction xs generalizing acc with
  | nil => rfl
  | cons x xs ih => simp only [List.foldl_cons, ih]

theorem cells_row_fold (R : MapTileRegion) (y : Nat) (xs : List Nat) (a : MapTileRegion) :
    (a.Nodup → (xs.foldl (fun (r : MapTileRegion) (x : Nat) =>
        if MapTileRegion.contains R { m_x := x, m_y := y, m_z := 0 } then
          MapTileRegion.insert r { m_x := x, m_y := y, m_z := 0 }
        else r) a).Nodup)
      ∧ ∀ t, t ∈ xs.foldl (fun (r : MapTileRegion) (x : Nat) =>
          if MapTileRegion.contains R { m_x := x, m_y := y, m_z := 0 } then
            MapTileRegion.insert r { m_x := x, m_y := y, m_z := 0 }
          else r) a
        ↔ t ∈ a ∨ ∃ x ∈ xs, t = ({ m_x := x, m_y := y, m_z := 0 } : FHPos) ∧ t ∈ R := by
  induction xs generalizing a with
  | nil => simp
  | cons x xs ih =>
    simp only [List.foldl_cons]
    by_cases hx : ({ m_x := x, m_y := y, m_z := 0 } : FHPos) ∈ R
    · simp only [(MapTileRegion.contains_iff _ _).2 hx, if_true]
      refine ⟨fun hn => (ih _).1 (MapTileRegion.nodup_insert _ _ hn), fun t => ?_⟩
      rw [(ih _).2 t, MapTileRegion.mem_insert]
      constructor
      · rintro ((h | h) | ⟨x2, hx2, h⟩)
        · exact Or.inl h
        · exact Or.inr ⟨x, by simp, h, h ▸ hx⟩
        · exact Or.inr ⟨x2, List.mem_cons_of_mem _ hx2, h⟩
      · rintro (h | ⟨x2, hx2, h⟩)
        · exact Or.inl (Or.inl h)
        · rcases List.mem_cons.1 hx2 with h2 | h2
          · subst h2
            exact Or.inl (Or.inr h.1)
          · exact Or.inr ⟨x2, h2, h⟩
    · simp only [(MapTileRegion.contains_false_iff _ _).2 hx, Bool.false_eq_true, if_false]
      refine ⟨fun hn => (ih _).1 hn, fun t => ?_⟩
      rw [(ih _).2 t]
      constructor
      · rintro (h | ⟨x2, hx2, h⟩)
        · exact Or.inl h
        · exact Or.inr ⟨x2, List.mem_cons_of_mem _ hx2, h⟩
      · rintro (h | ⟨x2, hx2, h⟩)
        · exact Or.inl h
        · rcases List.mem_cons.1 hx2 with h2 | h2
          · subst h2
            exact absurd (h.1 ▸ h.2) hx
          · exact Or.inr ⟨x2, h2, h⟩

theorem cells_grid_fold (R : MapTileRegion) (xs ys : List Nat) (a : MapTileRegion) :
    (a.Nodup → (ys.foldl (fun (r0 : MapTileRegion) (y : Nat) =>
        xs.foldl (fun (r : MapTileRegion) (x : Nat) =>
          if MapTileRegion.contains R { m_x := x, m_y := y, m_z := 0 } then
            MapTileRegion.insert r { m_x := x, m_y := y, m_z := 0 }
          else r) r0) a).Nodup)
      ∧ ∀ t, t ∈ ys.foldl (fun (r0 : MapTileRegion) (y : Nat) =>
          xs.foldl (fun (r : MapTileRegion) (x : Nat) =>
            if MapTileRegion.contains R { m_x := x, m_y := y, m_z := 0 } then
              MapTileRegion.insert r { m_x := x, m_y := y, m_z := 0 }
            else r) r0) a
        ↔ t ∈ a ∨ ∃ y ∈ ys, ∃ x ∈ xs, t = ({ m_x := x, m_y := y, m_z := 0 } : FHPos) ∧ t ∈ R := by
  induction ys generalizing a with
  | nil => simp
  | cons y ys ih =>
    simp only [List.foldl_cons]
    refine ⟨fun hn => (ih _).1 ((cells_row_fold R y xs a).1 hn), fun t => ?_⟩
    rw [(ih _).2 t, (cells_row_fold R y xs a).2 t]
    constructor
    · rintro ((h | ⟨x, hx, h⟩) | ⟨y2, hy2, h⟩)
      · exact Or.inl h
      · exact Or.inr ⟨y, by simp, x, hx, h⟩
      · exact Or.inr ⟨y2, List.mem_cons_of_mem _ hy2, h⟩
    · rintro (h | ⟨y2, hy2, x, hx, h⟩)
      · exact Or.inl (Or.inl h)
      · rcases List.mem_cons.1 hy2 with h2 | h2
        · subst h2
          exact Or.inl (Or.inr ⟨x, hx, h⟩)
        · exact Or.inr ⟨y2, h2, x, hx, h⟩

theorem decomposeCell_ok (c : MapTileContainer) (object obstacle : MapTileRegion)
    (serialized : List Char) (x y : Nat) (acc : MapTileRegion × MapTileRegion)
    (hx : x < c.m_width.toNat) (hy : y < c.m_height.toNat) (hd : 0 < c.m_depth)
    (hs : serialized[x + c.m_width.toNat * y]?
      = some (composeChar object obstacle false { m_x := x, m_y := y, m_z := 0 })) :
    decomposeCell c serialized c.m_width acc x y
      = .ok
        (if MapTileRegion.contains object { m_x := x, m_y := y, m_z := 0 } then
            MapTileRegion.insert acc.1 { m_x := x, m_y := y, m_z := 0 }
          else acc.1,
          if MapTileRegion.contains obstacle { m_x := x, m_y := y, m_z := 0 } then
            MapTileRegion.insert acc.2 { m_x := x, m_y := y, m_z := 0 }
          else acc.2) := by
  have hoff : ((x : Int) + c.m_width * (y : Int)).toNat = x + c.m_width.toNat * y := by
    have hw : c.m_width = ((c.m_width.toNat : Nat) : Int) := by
      rw [Int.toNat_of_nonneg]
      omega
    have : ((x : Int) + c.m_width * (y : Int)) = ((x + c.m_width.toNat * y : Nat) : Int) := by
      push_cast
      rw [← hw]
    rw [this]
    exact Int.toNat_natCast _
  unfold decomposeCell
  unfold MapTileContainer.tileIndexAt
  rw [MapTileContainer.hasTile_cell c x y hx hy hd]
  simp only [if_true]
  unfold stringAt
  rw [hoff, hs]
  simp only
  rw [composeChar_object, composeChar_obstacle]

theorem decompose_of_rows (c : MapTileContainer) (object obstacle : MapTileRegion)
    (serialized : List Char) (hd : 0 < c.m_depth)
    (hs : ∀ y, y < c.m_height.toNat → ∀ x, x < c.m_width.toNat →
      serialized[x + c.m_width.toNat * y]?
        = some (composeChar object obstacle false { m_x := x, m_y := y, m_z := 0 })) :
    MapTileArea.decompose c [] [] serialized c.m_width c.m_height
      = .ok
        ((List.range c.m_height.toNat).foldl (fun (r0 : MapTileRegion) (y : Nat) =>
            (List.range c.m_width.toNat).foldl (fun (r : MapTileRegion) (x : Nat) =>
              if MapTileRegion.contains object { m_x := x, m_y := y, m_z := 0 } then
                MapTileRegion.insert r { m_x := x, m_y := y, m_z := 0 }
              else r) r0) [],
          (List.range c.m_height.toNat).foldl (fun (r0 : MapTileRegion) (y : Nat) =>
            (List.range c.m_width.toNat).foldl (fun (r : MapTileRegion) (x : Nat) =>
              if MapTileRegion.contains obstacle { m_x := x, m_y := y, m_z := 0 } then
                MapTileRegion.insert r { m_x := x, m_y := y, m_z := 0 }
              else r) r0) []) := by
  have hrow : ∀ y ∈ List.range c.m_height.toNat, ∀ acc : MapTileRegion × MapTileRegion,
      (List.range c.m_width.toNat).foldlM
          (fun acc2 x => decomposeCell c serialized c.m_width acc2 x y) acc
        = .ok
          ((List.range c.m_width.toNat).foldl (fun (r : MapTileRegion) (x : Nat) =>
              if MapTileRegion.contains object { m_x := x, m_y := y, m_z := 0 } then
                MapTileRegion.insert r { m_x := x, m_y := y, m_z := 0 }
              else r) acc.1,
            (List.range c.m_width.toNat).foldl (fun (r : MapTileRegion) (x : Nat) =>
              if MapTileRegion.contains obstacle { m_x := x, m_y := y, m_z := 0 } then
                MapTileRegion.insert r { m_x := x, m_y := y, m_z := 0 }
              else r) acc.2) := by
    intro y hy acc
    rw [← foldl_pair]
    apply foldlM_ok_of_steps
    intro x hx a
    exact decomposeCell_ok c object obstacle serialized x y a (List.mem_range.1 hx)
      (List.mem_range.1 hy) hd (hs y (List.mem_range.1 hy) x (List.mem_range.1 hx))
  unfold MapTileArea.decompose
  have hpair := foldl_pair
    (fun (r0 : MapTileRegion) (y : Nat) =>
      (List.range c.m_width.toNat).foldl (fun (r : MapTileRegion) (x : Nat) =>
        if MapTileRegion.contains object { m_x := x, m_y := y, m_z := 0 } then
          MapTileRegion.insert r { m_x := x, m_y := y, m_z := 0 }
        else r) r0)
    (fun (r0 : MapTileRegion) (y : Nat) =>
      (List.range c.m_width.toNat).foldl (fun (r : MapTileRegion) (x : Nat) =>
        if MapTileRegion.contains obstacle { m_x := x, m_y := y, m_z := 0 } then
          MapTileRegion.insert r { m_x := x, m_y := y, m_z := 0 }
        else r) r0)
    (List.range c.m_height.toNat) (([], []) : MapTileRegion × MapTileRegion)
  simp only at hpair
  rw [← hpair]
  exact foldlM_ok_of_steps _ _ _ _ hrow

theorem cell_of_tile (c : MapTileContainer) (t : FHPos) (h : c.hasTile t = true)
    (hz : t.m_z = 0) :
    t.m_y.toNat < c.m_height.toNat ∧ t.m_x.toNat < c.m_width.toNat
      ∧ t = ({ m_x := (t.m_x.toNat : Nat), m_y := (t.m_y.toNat : Nat), m_z := 0 } : FHPos) := by
  unfold MapTileContainer.hasTile at h
  simp only [Bool.and_eq_true, decide_eq_true_eq] at h
  obtain ⟨⟨⟨⟨⟨h1, h2⟩, h3⟩, h4⟩, _⟩, _⟩ := h
  refine ⟨by omega, by omega, ?_⟩
  cases t with
  | mk x y z =>
    simp only at h1 h3 hz ⊢
    rw [Int.toNat_of_nonneg h1, Int.toNat_of_nonneg h3, hz]

/-- C3, as the code guarantees it. For two regions that are not both empty and
whose tiles all lie on level 0 of the container grid, `compose` (plain, not
inverted) produces a string of `width * height` characters and `decompose` of
that string into empty regions, with the grid width and height, succeeds and
yields duplicate-free regions with exactly the tiles of the object and of the
obstacle. -/
theorem decompose_compose_roundtrip (c : MapTileContainer) (object obstacle : MapTileRegion)
    (serialized : List Char) (hne : object ≠ [] ∨ obstacle ≠ [])
    (hobj : ∀ t ∈ object, c.hasTile t = true ∧ t.m_z = 0)
    (hobs : ∀ t ∈ obstacle, c.hasTile t = true ∧ t.m_z = 0) :
    ∃ str object2 obstacle2,
      MapTileArea.compose c object obstacle serialized false false = .ok str
        ∧ str.length = c.m_width.toNat * c.m_height.toNat
        ∧ MapTileArea.decompose c [] [] str c.m_width c.m_height = .ok (object2, obstacle2)
        ∧ (∀ t, t ∈ object2 ↔ t ∈ object) ∧ (∀ t, t ∈ obstacle2 ↔ t ∈ obstacle)
        ∧ object2.Nodup ∧ obstacle2.Nodup
        ∧ MapTileRegion.same object2 object = true
        ∧ MapTileRegion.same obstacle2 obstacle = true := by
  have hd : 0 < c.m_depth := by
    have htile : ∃ t, c.hasTile t = true := by
      rcases hne with h | h
      · obtain ⟨o, os, rfl⟩ := List.exists_cons_of_ne_nil h
        exact ⟨o, (hobj o (by simp)).1⟩
      · obtain ⟨o, os, rfl⟩ := List.exists_cons_of_ne_nil h
        exact ⟨o, (hobs o (by simp)).1⟩
    obtain ⟨t, ht⟩ := htile
    unfold MapTileContainer.hasTile at ht
    simp only [Bool.and_eq_true, decide_eq_true_eq] at ht
    omega
  have hcomp := compose_plain c object obstacle serialized hne (fun t ht => (hobj t ht).2)
    (fun t ht => (hobs t ht).2) hd
  have hrows := rows_getElem c.m_width.toNat
    (fun (x y : Nat) => composeChar object obstacle false { m_x := x, m_y := y, m_z := 0 })
    c.m_height.toNat
  have hdec := decompose_of_rows c object obstacle _ hd hrows.2
  have hmem : ∀ (R : MapTileRegion), (∀ t ∈ R, c.hasTile t = true ∧ t.m_z = 0) → ∀ t,
      (t ∈ ([] : MapTileRegion) ∨ ∃ y ∈ List.range c.m_height.toNat,
          ∃ x ∈ List.range c.m_width.toNat,
            t = ({ m_x := x, m_y := y, m_z := 0 } : FHPos) ∧ t ∈ R) ↔ t ∈ R := by
    intro R hR t
    constructor
    · rintro (h | ⟨y, _, x, _, _, h⟩)
      · simp at h
      · exact h
    · intro h
      obtain ⟨h1, h2, h3⟩ := cell_of_tile c t (hR t h).1 (hR t h).2
      exact Or.inr ⟨_, List.mem_range.2 h1, _, List.mem_range.2 h2, h3, h⟩
  have ho := cells_grid_fold object (List.range c.m_width.toNat) (List.range c.m_height.toNat) []
  have hb := cells_grid_fold obstacle (List.range c.m_width.toNat)
    (List.range c.m_height.toNat) []
  have ho2 : ∀ t, t ∈ _ ↔ t ∈ object := fun t => (ho.2 t).trans (hmem object hobj t)
  have hb2 : ∀ t, t ∈ _ ↔ t ∈ obstacle := fun t => (hb.2 t).trans (hmem obstacle hobs t)
  exact ⟨_, _, _, hcomp, hrows.1, hdec, ho2, hb2, ho.1 List.nodup_nil, hb.1 List.nodup_nil,
    (MapTileRegion.same_iff _ _).2 ho2, (MapTileRegion.same_iff _ _).2 hb2⟩

/-- The round trip of a one-tile object and a two-tile obstacle on the 2×1 grid. -/
theorem decompose_compose_roundtrip_witness :
    (([tileXY 0 0] : MapTileRegion) ≠ [] ∨ ([tileXY 1 0, tileXY 0 0] : MapTileRegion) ≠ [])
      ∧ (∀ t ∈ ([tileXY 0 0] : MapTileRegion),
          MapTileContainer.hasTile { m_width := 2, m_height := 1, m_depth := 1 } t = true
            ∧ t.m_z = 0)
      ∧ (∀ t ∈ ([tileXY 1 0, tileXY 0 0] : MapTileRegion),
          MapTileContainer.hasTile { m_width := 2, m_height := 1, m_depth := 1 } t = true
            ∧ t.m_z = 0)
      ∧ ∃ str object2 obstacle2,
        MapTileArea.compose { m_width := 2, m_height := 1, m_depth := 1 } [tileXY 0 0]
            [tileXY 1 0, tileXY 0 0] [] false false = .ok str
          ∧ str.length = (2 : Int).toNat * (1 : Int).toNat
          ∧ MapTileArea.decompose { m_width := 2, m_height := 1, m_depth := 1 } [] [] str 2 1
            = .ok (object2, obstacle2)
          ∧ (∀ t, t ∈ object2 ↔ t ∈ ([tileXY 0 0] : MapTileRegion))
          ∧ (∀ t, t ∈ obstacle2 ↔ t ∈ ([tileXY 1 0, tileXY 0 0] : MapTileRegion))
          ∧ object2.Nodup ∧ obstacle2.Nodup
          ∧ MapTileRegion.same object2 [tileXY 0 0] = true
          ∧ MapTileRegion.same obstacle2 [tileXY 1 0, tileXY 0 0] = true :=
  ⟨by decide, by decide, by decide,
    decompose_compose_roundtrip { m_width := 2, m_height := 1, m_depth := 1 } [tileXY 0 0]
      [tileXY 1 0, tileXY 0 0] [] (by decide) (by decide) (by decide)⟩

/-- C3, counterexample. For the pair of empty regions over the 2×1 grid
`compose` returns the string it was given untouched: from an empty string
`decompose` then reads past the end of the string, and from the stale string
`XX` it produces two non-empty regions instead of the two empty ones. (On a
container with two levels, a region on level 1 is likewise not reproduced:
`decompose` always rebuilds on level 0.) -/
theorem decompose_compose_empty_pair :
    (MapTileArea.compose { m_width := 2, m_height := 1, m_depth := 1 } [] [] [] false false
        = .ok []
      ∧ MapTileArea.decompose { m_width := 2, m_height := 1, m_depth := 1 } [] [] [] 2 1
        = .error .stringIndex)
      ∧ (MapTileArea.compose { m_width := 2, m_height := 1, m_depth := 1 } [] [] ['X', 'X']
          false false = .ok ['X', 'X']
        ∧ MapTileArea.decompose { m_width := 2, m_height := 1, m_depth := 1 } [] [] ['X', 'X'] 2 1
          = .ok ([tileXY 0 0, tileXY 1 0], [tileXY 0 0, tileXY 1 0]))
      ∧ (MapTileArea.compose { m_width := 1, m_height := 1, m_depth := 2 }
          [{ m_x := 0, m_y := 0, m_z := 1 }] [] [] false false = .ok ['O']
        ∧ MapTileArea.decompose { m_width := 1, m_height := 1, m_depth := 2 } [] [] ['O'] 1 1
          = .ok ([tileXY 0 0], [])) := by
  exact ⟨⟨rfl, rfl⟩, ⟨rfl, rfl⟩, ⟨rfl, rfl⟩⟩

/-! ### Flood-fill split -/

theorem unvisited_insert_lt (inner visited : MapTileRegion) (cell : FHPos)
    (hin : cell ∈ inner) (hnv : cell ∉ visited) :
    (inner.filter (fun k => !MapTileRegion.contains (MapTileRegion.insert visited cell) k)).length
      < (inner.filter (fun k => !MapTileRegion.contains visited k)).length := by
  apply filter_length_lt_of_witness _ _ _ _ cell hin
  · simp only [Bool.not_eq_true', MapTileRegion.contains_false_iff]
    exact hnv
  · simp only [Bool.not_eq_false', MapTileRegion.contains_iff]
    exact (MapTileRegion.mem_insert _ _ _).2 (Or.inr rfl)
  · intro k hk
    simp only [Bool.not_eq_true', MapTileRegion.contains_false_iff,
      MapTileRegion.mem_insert] at hk ⊢
    exact fun h => hk (Or.inl h)

/-- Potential of the inner loop: the number of unvisited tiles of the area, plus
one while the edge is not empty. It never grows in `addToCurrent`. -/
theorem addToCurrent_potential (inner : MapTileRegion) (s : FloodState) (cell : FHPos) :
    (inner.filter (fun k => !MapTileRegion.contains (addToCurrent inner s cell).visited k)).length
        + (if (addToCurrent inner s cell).currentEdge.isEmpty then 0 else 1)
      ≤ (inner.filter (fun k => !MapTileRegion.contains s.visited k)).length
        + (if s.currentEdge.isEmpty then 0 else 1) := by
  unfold addToCurrent
  by_cases hv : cell ∈ s.visited
  · simp only [(MapTileRegion.contains_iff _ _).2 hv, if_true, le_refl]
  · by_cases hi : cell ∈ inner
    · simp only [(MapTileRegion.contains_false_iff _ _).2 hv, (MapTileRegion.contains_iff _ _).2 hi,
        Bool.false_eq_true, if_false, Bool.not_true]
      have := unvisited_insert_lt inner s.visited cell hi hv
      have h2 : (s.currentEdge ++ [cell]).isEmpty = false := by
        cases s.currentEdge <;> rfl
      rw [h2]
      simp only [Bool.false_eq_true, if_false]
      split_ifs <;> omega
    · simp only [(MapTileRegion.contains_false_iff _ _).2 hv,
        (MapTileRegion.contains_false_iff _ _).2 hi, Bool.false_eq_true, if_false,
        Bool.not_false, if_true, le_refl]

theorem addToCurrent_fold_potential (inner : MapTileRegion) (cells : List FHPos)
    (s : FloodState) :
    (inner.filter (fun k =>
        !MapTileRegion.contains (cells.foldl (addToCurrent inner) s).visited k)).length
        + (if (cells.foldl (addToCurrent inner) s).currentEdge.isEmpty then 0 else 1)
      ≤ (inner.filter (fun k => !MapTileRegion.contains s.visited k)).length
        + (if s.currentEdge.isEmpty then 0 else 1) := by
  induction cells generalizing s with
  | nil => exact le_refl _
  | cons x xs ih =>
    simp only [List.foldl_cons]
    exact le_trans (ih _) (addToCurrent_potential inner s x)

theorem floodRound_potential (c : MapTileContainer) (inner : MapTileRegion) (useDiag : Bool)
    (s : FloodState) :
    (inner.filter (fun k =>
        !MapTileRegion.contains (floodRound c inner useDiag s).visited k)).length
        + (if (floodRound c inner useDiag s).currentEdge.isEmpty then 0 else 1)
      ≤ (inner.filter (fun k => !MapTileRegion.contains s.visited k)).length := by
  unfold floodRound
  have key : ∀ (edge : List FHPos) (st : FloodState),
      (inner.filter (fun k => !MapTileRegion.contains
          (edge.foldl (fun st edgeCell =>
            (c.neighboursList useDiag edgeCell).foldl (addToCurrent inner) st) st).visited
          k)).length
        + (if (edge.foldl (fun st edgeCell =>
            (c.neighboursList useDiag edgeCell).foldl (addToCurrent inner) st)
            st).currentEdge.isEmpty then 0 else 1)
      ≤ (inner.filter (fun k => !MapTileRegion.contains st.visited k)).length
        + (if st.currentEdge.isEmpty then 0 else 1) := by
    intro edge
    induction edge with
    | nil => intro st; exact le_refl _
    | cons e es ih =>
      intro st
      simp only [List.foldl_cons]
      exact le_trans (ih _) (addToCurrent_fold_potential inner _ st)
  have := key s.currentEdge { s with currentEdge := [] }
  simpa using this

theorem floodGrow_terminates (c : MapTileContainer) (inner : MapTileRegion) (useDiag : Bool)
    (fuel : Nat) (s : FloodState)
    (h : (inner.filter (fun k => !MapTileRegion.contains s.visited k)).length
      + (if s.currentEdge.isEmpty then 0 else 1) ≤ fuel) :
    ∃ s2, floodGrow c inner useDiag fuel s = some s2 := by
  induction fuel generalizing s with
  | zero =>
    unfold floodGrow
    by_cases he : s.currentEdge.isEmpty = true
    · exact ⟨s, by simp [he]⟩
    · simp only [he, Bool.false_eq_true, if_false] at h
      omega
  | succ n ih =>
    unfold floodGrow
    by_cases he : s.currentEdge.isEmpty = true
    · exact ⟨s, by simp [he]⟩
    · simp only [he, Bool.false_eq_true, if_false] at h ⊢
      apply ih
      have := floodRound_potential c inner useDiag s
      omega

theorem addToCurrent_grown (inner visited0 : MapTileRegion) (s : FloodState) (cell : FHPos)
    (h : s.Grown inner visited0) :
    (addToCurrent inner s cell).Grown inner visited0
      ∧ ∀ t ∈ s.currentBuffer, t ∈ (addToCurrent inner s cell).currentBuffer := by
  unfold addToCurrent
  by_cases hv : cell ∈ s.visited
  · simp only [(MapTileRegion.contains_iff _ _).2 hv, if_true]
    exact ⟨h, fun _ ht => ht⟩
  · by_cases hi : cell ∈ inner
    · simp only [(MapTileRegion.contains_false_iff _ _).2 hv, (MapTileRegion.contains_iff _ _).2 hi,
        Bool.false_eq_true, if_false, Bool.not_true]
      obtain ⟨h1, h2, h3⟩ := h
      have hnb : cell ∉ s.currentBuffer := fun hb => hv ((h3 cell).2 (Or.inr hb))
      have hn0 : cell ∉ visited0 := fun hb => hv ((h3 cell).2 (Or.inl hb))
      refine ⟨⟨?_, ?_, ?_⟩, fun t ht => by simp [ht]⟩
      · rw [List.nodup_append]
        refine ⟨h1, List.nodup_singleton _, ?_⟩
        intro a ha hb
        have : a = cell := by simpa using hb
        exact hnb (this ▸ ha)
      · intro t ht
        rcases List.mem_append.1 ht with ht | ht
        · exact h2 t ht
        · have : t = cell := by simpa using ht
          rw [this]
          exact ⟨hi, hn0⟩
      · intro t
        simp only [MapTileRegion.mem_insert, h3 t, List.mem_append, List.mem_singleton]
        tauto
    · simp only [(MapTileRegion.contains_false_iff _ _).2 hv,
        (MapTileRegion.contains_false_iff _ _).2 hi, Bool.false_eq_true, if_false,
        Bool.not_false, if_true]
      exact ⟨h, fun _ ht => ht⟩

theorem addToCurrent_fold_grown (inner visited0 : MapTileRegion) (cells : List FHPos)
    (s : FloodState) (h : s.Grown inner visited0) :
    (cells.foldl (addToCurrent inner) s).Grown inner visited0
      ∧ ∀ t ∈ s.currentBuffer, t ∈ (cells.foldl (addToCurrent inner) s).currentBuffer := by
  induction cells generalizing s with
  | nil => exact ⟨h, fun _ ht => ht⟩
  | cons x xs ih =>
    simp only [List.foldl_cons]
    have h1 := addToCurrent_grown inner visited0 s x h
    have h2 := ih _ h1.1
    exact ⟨h2.1, fun t ht => h2.2 t (h1.2 t ht)⟩

theorem floodRound_grown (c : MapTileContainer) (inner visited0 : MapTileRegion)
    (useDiag : Bool) (s : FloodState) (h : s.Grown inner visited0) :
    (floodRound c inner useDiag s).Grown inner visited0
      ∧ ∀ t ∈ s.currentBuffer, t ∈ (floodRound c inner useDiag s).currentBuffer := by
  unfold floodRound
  have key : ∀ (edge : List FHPos) (st : FloodState), st.Grown inner visited0 →
      (edge.foldl (fun st edgeCell =>
          (c.neighboursList useDiag edgeCell).foldl (addToCurrent inner) st) st).Grown
          inner visited0
        ∧ ∀ t ∈ st.currentBuffer, t ∈ (edge.foldl (fun st edgeCell =>
          (c.neighboursList useDiag edgeCell).foldl (addToCurrent inner) st) st).currentBuffer := by
    intro edge
    induction edge with
    | nil => intro st hst; exact ⟨hst, fun _ ht => ht⟩
    | cons e es ih =>
      intro st hst
      simp only [List.foldl_cons]
      have h1 := addToCurrent_fold_grown inner visited0 (c.neighboursList useDiag e) st hst
      have h2 := ih _ h1.1
      exact ⟨h2.1, fun t ht => h2.2 t (h1.2 t ht)⟩
  exact key s.currentEdge { s with currentEdge := [] } h

theorem floodGrow_grown (c : MapTileContainer) (inner visited0 : MapTileRegion)
    (useDiag : Bool) (fuel : Nat) (s s2 : FloodState)
    (hrun : floodGrow c inner useDiag fuel s = some s2) (h : s.Grown inner visited0) :
    s2.Grown inner visited0 ∧ ∀ t ∈ s.currentBuffer, t ∈ s2.currentBuffer := by
  induction fuel generalizing s with
  | zero =>
    unfold floodGrow at hrun
    split_ifs at hrun
    simp only [Option.some.injEq] at hrun
    subst hrun
    exact ⟨h, fun _ ht => ht⟩
  | succ n ih =>
    unfold floodGrow at hrun
    split_ifs at hrun
    · simp only [Option.some.injEq] at hrun
      subst hrun
      exact ⟨h, fun _ ht => ht⟩
    · have h1 := floodRound_grown c inner visited0 useDiag s h
      have h2 := ih _ hrun h1.1
      exact ⟨h2.1, fun t ht => h2.2 t (h1.2 t ht)⟩

theorem splitLoop_spec (c : MapTileContainer) (inner : MapTileRegion) (useDiag : Bool)
    (fuel : Nat) (remain : MapTileRegion) (hint : Option FHPos) (visited : MapTileRegion)
    (result : List MapTileArea) (hinv : SplitInvariant inner remain visited result)
    (hfuel : remain.length ≤ fuel) (hhint : ∀ h, hint = some h → h ∈ remain) :
    ∃ res, splitLoop c inner useDiag fuel remain hint visited result = some res
      ∧ (∀ t, t ∈ inner ↔ ∃ a ∈ res, t ∈ a.m_innerArea)
      ∧ res.Pairwise (fun x y => ∀ t, t ∈ x.m_innerArea → t ∉ y.m_innerArea)
      ∧ ∀ a ∈ res, a.m_innerArea.Nodup := by
  induction fuel generalizing remain hint visited result with
  | zero =>
    have hnil : remain = [] := List.length_eq_zero.1 (by omega)
    subst hnil
    obtain ⟨h1, h2, h3, h4⟩ := hinv
    refine ⟨result, by simp [splitLoop], ?_, h3, fun a ha => (h4 a ha).1⟩
    intro t
    constructor
    · intro ht
      have hv : t ∈ visited := by
        by_contra hn
        have := (h2 t).2 ⟨ht, hn⟩
        simp at this
      exact (h1 t).1 hv
    · rintro ⟨a, ha, hta⟩
      exact (h4 a ha).2 t hta
  | succ n ih =>
    cases remain with
    | nil =>
      obtain ⟨h1, h2, h3, h4⟩ := hinv
      refine ⟨result, by simp [splitLoop], ?_, h3, fun a ha => (h4 a ha).1⟩
      intro t
      constructor
      · intro ht
        have hv : t ∈ visited := by
          by_contra hn
          have := (h2 t).2 ⟨ht, hn⟩
          simp at this
        exact (h1 t).1 hv
      · rintro ⟨a, ha, hta⟩
        exact (h4 a ha).2 t hta
    | cons first rest =>
      obtain ⟨h1, h2, h3, h4⟩ := hinv
      -- the start cell is a tile of the area that is not visited yet
      have hstart : ∃ startCell, (match hint with
          | some h => h
          | none => first) = startCell ∧ startCell ∈ first :: rest := by
        cases hint with
        | none => exact ⟨first, rfl, by simp⟩
        | some h => exact ⟨h, rfl, hhint h rfl⟩
      obtain ⟨startCell, hsc, hmem⟩ := hstart
      have hsi := (h2 startCell).1 hmem
      have hs0 : addToCurrent inner
          { currentBuffer := [], visited := visited, currentEdge := [] } startCell
          = { currentBuffer := [startCell], visited := MapTileRegion.insert visited startCell,
              currentEdge := [startCell] } := by
        unfold addToCurrent
        simp [(MapTileRegion.contains_false_iff _ _).2 hsi.2,
          (MapTileRegion.contains_iff _ _).2 hsi.1]
      have hg0 : FloodState.Grown inner visited
          { currentBuffer := [startCell], visited := MapTileRegion.insert visited startCell,
            currentEdge := [startCell] } := by
        refine ⟨List.nodup_singleton _, ?_, ?_⟩
        · intro t ht
          have : t = startCell := by simpa using ht
          rw [this]
          exact hsi
        · intro t
          simp [MapTileRegion.mem_insert]
      obtain ⟨s, hs⟩ := floodGrow_terminates c inner useDiag (inner.length + 1)
        { currentBuffer := [startCell], visited := MapTileRegion.insert visited startCell,
          currentEdge := [startCell] }
        (by
          have := List.length_filter_le
            (fun k => !MapTileRegion.contains (MapTileRegion.insert visited startCell) k) inner
          simp only [List.isEmpty_cons, Bool.false_eq_true, if_false]
          omega)
      obtain ⟨⟨g1, g2, g3⟩, g4⟩ := floodGrow_grown c inner visited useDiag _ _ s hs hg0
      have hsb : startCell ∈ s.currentBuffer := g4 startCell (by simp)
      have hcur : ∀ t, t ∈ (MapTileArea.makeEdgeFromInnerArea c
          { m_innerArea := MapTileRegion.ofList s.currentBuffer }).m_innerArea
            ↔ t ∈ s.currentBuffer := by
        intro t
        rw [MapTileArea.makeEdgeFromInnerArea_innerArea]
        exact MapTileRegion.mem_ofList _ _
      have hinv2 : SplitInvariant inner
          (MapTileRegion.eraseList (first :: rest) (MapTileArea.makeEdgeFromInnerArea c
            { m_innerArea := MapTileRegion.ofList s.currentBuffer }).m_innerArea)
          s.visited
          (result ++ [MapTileArea.makeEdgeFromInnerArea c
            { m_innerArea := MapTileRegion.ofList s.currentBuffer }]) := by
        refine ⟨?_, ?_, ?_, ?_⟩
        · intro t
          rw [g3 t, h1 t]
          constructor
          · rintro (⟨a, ha, hta⟩ | hb)
            · exact ⟨a, List.mem_append_left _ ha, hta⟩
            · exact ⟨_, List.mem_append_right _ (List.mem_singleton.2 rfl), (hcur t).2 hb⟩
          · rintro ⟨a, ha, hta⟩
            rcases List.mem_append.1 ha with ha | ha
            · exact Or.inl ⟨a, ha, hta⟩
            · rw [List.mem_singleton.1 ha] at hta
              exact Or.inr ((hcur t).1 hta)
        · intro t
          rw [MapTileRegion.mem_eraseList, h2 t, hcur t, g3 t]
          tauto
        · rw [List.pairwise_append]
          refine ⟨h3, List.pairwise_singleton _ _, ?_⟩
          intro a ha b hb t hta htb
          rw [List.mem_singleton.1 hb] at htb
          have hv : t ∈ visited := (h1 t).2 ⟨a, ha, hta⟩
          exact (g2 t ((hcur t).1 htb)).2 hv
        · intro a ha
          rcases List.mem_append.1 ha with ha | ha
          · exact h4 a ha
          · rw [List.mem_singleton.1 ha]
            refine ⟨?_, ?_⟩
            · rw [MapTileArea.makeEdgeFromInnerArea_innerArea]
              exact MapTileRegion.nodup_insertList _ _ List.nodup_nil
            · intro t ht
              exact (g2 t ((hcur t).1 ht)).1
      have hlen : (MapTileRegion.eraseList (first :: rest) (MapTileArea.makeEdgeFromInnerArea c
          { m_innerArea := MapTileRegion.ofList s.currentBuffer }).m_innerArea).length ≤ n := by
        have hlt : (MapTileRegion.eraseList (first :: rest)
            (MapTileArea.makeEdgeFromInnerArea c
              { m_innerArea := MapTileRegion.ofList s.currentBuffer }).m_innerArea).length
            < (first :: rest).length := by
          unfold MapTileRegion.eraseList
          rw [List.length_filter_lt_length_iff_exists]
          refine ⟨startCell, hmem, ?_⟩
          simp only [Bool.not_eq_true', decide_eq_false_iff_not, not_not]
          exact (hcur startCell).2 hsb
        omega
      obtain ⟨res, hres, hfin⟩ := ih _ none s.visited _ hinv2 hlen (by simp)
      refine ⟨res, ?_, hfin⟩
      cases hint with
      | none =>
        simp only at hsc
        subst hsc
        unfold splitLoop
        simp only [hs0, hs]
        exact hres
      | some h =>
        simp only at hsc
        subst hsc
        unfold splitLoop
        simp only [hs0, hs]
        exact hres

/-- C1. For every area, either connectivity and every hint that is null or a
tile of the area, `splitByFloodFill` returns (within its loop budgets) a list of
components that partition the area: a tile is in the area exactly when it is in
some component, the components are pairwise disjoint, and no component lists a
tile twice. -/
theorem splitByFloodFill_partition (c : MapTileContainer) (a : MapTileArea) (useDiag : Bool)
    (hint : Option FHPos) (hhint : ∀ h, hint = some h → h ∈ a.m_innerArea) :
    ∃ comps, MapTileArea.splitByFloodFill c a useDiag hint = .ok comps
      ∧ (∀ t, t ∈ a.m_innerArea ↔ ∃ comp ∈ comps, t ∈ comp.m_innerArea)
      ∧ comps.Pairwise (fun x y => ∀ t, t ∈ x.m_innerArea → t ∉ y.m_innerArea)
      ∧ ∀ comp ∈ comps, comp.m_innerArea.Nodup := by
  unfold MapTileArea.splitByFloodFill
  by_cases hempty : a.m_innerArea.isEmpty = true
  · have hnil : a.m_innerArea = [] := List.isEmpty_iff.1 hempty
    refine ⟨[], by simp [hempty], ?_, List.Pairwise.nil, by simp⟩
    intro t
    simp [hnil]
  · obtain ⟨res, hres, hfin⟩ := splitLoop_spec c a.m_innerArea useDiag a.m_innerArea.length
      a.m_innerArea hint [] []
      ⟨by simp, by simp, List.Pairwise.nil, by simp⟩ (le_refl _) hhint
    refine ⟨res, ?_, hfin⟩
    cases hint with
    | none => simp only [hempty, hres, Bool.false_eq_true, if_false]
    | some h =>
      have hc : MapTileRegion.contains a.m_innerArea h = true :=
        (MapTileRegion.contains_iff _ _).2 (hhint h rfl)
      simp only [hempty, hres, hc, Bool.not_true, Bool.false_eq_true, if_false]

/-- The orthogonal split of a three-tile area of the 3×2 grid, hinted at `(2,0)`. -/
theorem splitByFloodFill_partition_witness :
    (∀ h, some (tileXY 2 0) = some h →
        h ∈ ({ m_innerArea := [tileXY 0 0, tileXY 2 0, tileXY 0 1] } : MapTileArea).m_innerArea)
      ∧ ∃ comps, MapTileArea.splitByFloodFill { m_width := 3, m_height := 2, m_depth := 1 }
          { m_innerArea := [tileXY 0 0, tileXY 2 0, tileXY 0 1] } false (some (tileXY 2 0))
          = .ok comps
        ∧ (∀ t, t ∈ ({ m_innerArea := [tileXY 0 0, tileXY 2 0, tileXY 0 1] }
              : MapTileArea).m_innerArea
            ↔ ∃ comp ∈ comps, t ∈ comp.m_innerArea)
        ∧ comps.Pairwise (fun x y => ∀ t, t ∈ x.m_innerArea → t ∉ y.m_innerArea)
        ∧ ∀ comp ∈ comps, comp.m_innerArea.Nodup :=
  ⟨by
      intro h hh
      rw [← Option.some.inj hh]
      decide,
    splitByFloodFill_partition { m_width := 3, m_height := 2, m_depth := 1 }
      { m_innerArea := [tileXY 0 0, tileXY 2 0, tileXY 0 1] } false (some (tileXY 2 0))
      (by
        intro h hh
        rw [← Option.some.inj hh]
        decide)⟩

/-! ### Configuration checks of `run` -/

theorem runSetupLoop_positive (rngZones : List FHRngZone) (i : Nat) (total : Int)
    (tileZones : List TileZone) (hpos : ∀ z ∈ rngZones, 0 < z.m_relativeSize) :
    ∃ zones2, runSetupLoop rngZones i total tileZones
        = .ok (total + (rngZones.map (fun z => z.m_relativeSize)).sum, zones2)
      ∧ 0 ≤ (rngZones.map (fun z => z.m_relativeSize)).sum
      ∧ (rngZones ≠ [] → 0 < (rngZones.map (fun z => z.m_relativeSize)).sum) := by
  induction rngZones generalizing i total tileZones with
  | nil => exact ⟨tileZones, by simp [runSetupLoop], by simp, by simp⟩
  | cons z zs ih =>
    have hz : 0 < z.m_relativeSize := hpos z (by simp)
    obtain ⟨zones2, h1, h2, _⟩ := ih (i + 1) (total + z.m_relativeSize)
      (tileZones ++
        [{ m_index := i, m_startTile := z.m_center, m_relativeArea := z.m_relativeSize }])
      (fun y hy => hpos y (List.mem_cons_of_mem _ hy))
    refine ⟨zones2, ?_, ?_, ?_⟩
    · unfold runSetupLoop
      simp only [not_le.2 hz, if_false, h1, List.map_cons, List.sum_cons]
      rw [Int.add_assoc]
    · simp only [List.map_cons, List.sum_cons]
      omega
    · intro _
      simp only [List.map_cons, List.sum_cons]
      omega

theorem runSetupLoop_nonpositive (rngZones : List FHRngZone) (i : Nat) (total : Int)
    (tileZones : List TileZone) (hex : ∃ z ∈ rngZones, z.m_relativeSize ≤ 0) :
    ∃ k z, rngZones[k]? = some z ∧ z.m_relativeSize ≤ 0
      ∧ (∀ j zj, j < k → rngZones[j]? = some zj → 0 < zj.m_relativeSize)
      ∧ runSetupLoop rngZones i total tileZones = .error (.nonpositiveRelativeSize (i + k)) := by
  induction rngZones generalizing i total tileZones with
  | nil =>
    obtain ⟨z, hz, _⟩ := hex
    simp at hz
  | cons z zs ih =>
    by_cases hz : z.m_relativeSize ≤ 0
    · refine ⟨0, z, by simp, hz, ?_, ?_⟩
      · intro j zj hj
        omega
      · unfold runSetupLoop
        simp [hz]
    · have hex2 : ∃ y ∈ zs, y.m_relativeSize ≤ 0 := by
        obtain ⟨y, hy, hy2⟩ := hex
        rcases List.mem_cons.1 hy with h | h
        · rw [h] at hy2
          exact absurd hy2 hz
        · exact ⟨y, h, hy2⟩
      obtain ⟨k, y, h1, h2, h3, h4⟩ := ih (i + 1) (total + z.m_relativeSize)
        (tileZones ++
          [{ m_index := i, m_startTile := z.m_center, m_relativeArea := z.m_relativeSize }])
        hex2
      refine ⟨k + 1, y, by simpa using h1, h2, ?_, ?_⟩
      · intro j zj hj hzj
        cases j with
        | zero =>
          simp only [List.getElem?_cons_zero, Option.some.injEq] at hzj
          rw [← hzj]
          exact not_le.1 hz
        | succ j => exact h3 j zj (by omega) (by simpa using hzj)
      · unfold runSetupLoop
        simp only [hz, if_false, h4]
        congr 2
        omega

theorem runSetup_error_run (w h depth : Int) (rngZones : List FHRngZone) (e : RunError)
    (he : runSetup w h rngZones = .error e) :
    FHTemplateProcessor.run w h depth rngZones = .error e := by
  unfold FHTemplateProcessor.run
  rw [he]

/-- C12. With fewer than two zones `run` throws "need at least two zones", and
with at least two zones of which one has a relative size that is not positive
it throws the relative-size error for the first such zone; both exceptions come
from the set-up part of `run`, before any tile is tagged and any zone grown. -/
theorem run_configuration_errors (w h depth : Int) (rngZones : List FHRngZone) :
    (rngZones.length < 2 →
        runSetup w h rngZones = .error .needTwoZones
          ∧ FHTemplateProcessor.run w h depth rngZones = .error .needTwoZones)
      ∧ (2 ≤ rngZones.length → (∃ z ∈ rngZones, z.m_relativeSize ≤ 0) →
        ∃ k z, rngZones[k]? = some z ∧ z.m_relativeSize ≤ 0
          ∧ (∀ j zj, j < k → rngZones[j]? = some zj → 0 < zj.m_relativeSize)
          ∧ runSetup w h rngZones = .error (.nonpositiveRelativeSize k)
          ∧ FHTemplateProcessor.run w h depth rngZones
            = .error (.nonpositiveRelativeSize k)) := by
  constructor
  · intro hlen
    have hs : runSetup w h rngZones = .error .needTwoZones := by
      unfold runSetup
      simp only [show rngZones.length ≤ 1 by omega, if_true]
    exact ⟨hs, runSetup_error_run w h depth rngZones _ hs⟩
  · intro hlen hex
    obtain ⟨k, z, h1, h2, h3, h4⟩ := runSetupLoop_nonpositive rngZones 0 0 [] hex
    have hs : runSetup w h rngZones = .error (.nonpositiveRelativeSize k) := by
      unfold runSetup
      simp only [show ¬ rngZones.length ≤ 1 by omega, if_false, h4, Nat.zero_add]
    exact ⟨k, z, h1, h2, h3, hs, runSetup_error_run w h depth rngZones _ hs⟩

/-- One zone only, and two zones of relative sizes 3 and 0, on the 20×20 grid. -/
theorem run_configuration_errors_witness :
    ([({ m_center := tileXY 2 2, m_relativeSize := 1 } : FHRngZone)].length < 2 →
        runSetup 20 20 [{ m_center := tileXY 2 2, m_relativeSize := 1 }] = .error .needTwoZones
          ∧ FHTemplateProcessor.run 20 20 1 [{ m_center := tileXY 2 2, m_relativeSize := 1 }]
            = .error .needTwoZones)
      ∧ ((2 ≤ [({ m_center := tileXY 2 2, m_relativeSize := 3 } : FHRngZone),
            { m_center := tileXY 17 17, m_relativeSize := 0 }].length
          ∧ ∃ z ∈ [({ m_center := tileXY 2 2, m_relativeSize := 3 } : FHRngZone),
            { m_center := tileXY 17 17, m_relativeSize := 0 }], z.m_relativeSize ≤ 0)
        ∧ ∃ k z, [({ m_center := tileXY 2 2, m_relativeSize := 3 } : FHRngZone),
              { m_center := tileXY 17 17, m_relativeSize := 0 }][k]? = some z
            ∧ z.m_relativeSize ≤ 0
            ∧ (∀ j zj, j < k → [({ m_center := tileXY 2 2, m_relativeSize := 3 } : FHRngZone),
              { m_center := tileXY 17 17, m_relativeSize := 0 }][j]? = some zj
                → 0 < zj.m_relativeSize)
            ∧ runSetup 20 20 [{ m_center := tileXY 2 2, m_relativeSize := 3 },
                { m_center := tileXY 17 17, m_relativeSize := 0 }]
              = .error (.nonpositiveRelativeSize k)
            ∧ FHTemplateProcessor.run 20 20 1 [{ m_center := tileXY 2 2, m_relativeSize := 3 },
                { m_center := tileXY 17 17, m_relativeSize := 0 }]
              = .error (.nonpositiveRelativeSize k)) :=
  ⟨(run_configuration_errors 20 20 1 [{ m_center := tileXY 2 2, m_relativeSize := 1 }]).1,
    ⟨by decide, ⟨{ m_center := tileXY 17 17, m_relativeSize := 0 }, by decide, by decide⟩⟩,
    (run_configuration_errors 20 20 1 [{ m_center := tileXY 2 2, m_relativeSize := 3 },
      { m_center := tileXY 17 17, m_relativeSize := 0 }]).2 (by decide)
      ⟨{ m_center := tileXY 17 17, m_relativeSize := 0 }, by decide, by decide⟩⟩

theorem foldlM_error_of_steps {α β : Type} (f : β → α → Except RunError β)
    (P : RunError → Prop) (xs : List α) (acc : β) (e : RunError)
    (hstep : ∀ a x e2, f a x = .error e2 → P e2) (h : xs.foldlM f acc = .error e) : P e := by
  induction xs generalizing acc with
  | nil => simp [List.foldlM, pure, Except.pure] at h
  | cons x xs ih =>
    rw [List.foldlM_cons] at h
    rcases hf : f acc x with e2 | a2
    · rw [hf] at h
      have : e2 = e := by
        simpa [bind, Except.bind] using h
      exact this ▸ hstep acc x e2 hf
    · rw [hf] at h
      exact ih a2 h

theorem pointDistance_error (a b : FHPos) (e : RunError) (h : pointDistance a b = .error e) :
    e = .intOverflow := by
  unfold pointDistance at h
  simp only at h
  split_ifs at h
  simp only [Except.error.injEq] at h
  exact h.symm

theorem distanceRecords_error (tileZones : List TileZone) (pos : FHPos) (e : RunError)
    (h : distanceRecords tileZones pos = .error e) : e = .intOverflow := by
  induction tileZones generalizing e with
  | nil => simp [distanceRecords] at h
  | cons z zs ih =>
    unfold distanceRecords at h
    split at h
    · rename_i e2 he
      simp only [Except.error.injEq] at h
      rw [← h]
      exact pointDistance_error _ _ _ he
    · split at h
      · rename_i e2 he
        simp only [Except.error.injEq] at h
        rw [← h]
        exact ih _ he
      · simp at h

theorem tagTileWith_error (sort : List DistanceRecord → List DistanceRecord)
    (tileZones : List TileZone) (pos : FHPos) (e : RunError)
    (h : tagTileWith sort tileZones pos = .error e) :
    e = .divisionByZero ∨ e = .needTwoZones ∨ e = .intOverflow := by
  unfold tagTileWith at h
  split at h
  · rename_i e2 he
    simp only [Except.error.injEq] at h
    rw [← h]
    exact Or.inr (Or.inr (distanceRecords_error _ _ _ he))
  · split_ifs at h
    · simp only [Except.error.injEq] at h
      exact Or.inl h.symm
    · split at h
      · simp only at h
        split_ifs at h
        · simp only [Except.error.injEq] at h
          exact Or.inl h.symm
      · simp only [Except.error.injEq] at h
        exact Or.inr (Or.inl h.symm)

theorem tagTile_error (tileZones : List TileZone) (pos : FHPos) (e : RunError)
    (h : tagTile tileZones pos = .error e) :
    e = .divisionByZero ∨ e = .needTwoZones ∨ e = .intOverflow :=
  tagTileWith_error _ tileZones pos e h

theorem runInitialTagging_error (d : MapDraft) (tileZones : List TileZone) (e : RunError)
    (h : runInitialTagging d tileZones = .error e) :
    e = .divisionByZero ∨ e = .needTwoZones ∨ e = .intOverflow := by
  unfold runInitialTagging runInitialTaggingWith at h
  refine foldlM_error_of_steps _
    (fun e => e = .divisionByZero ∨ e = .needTwoZones ∨ e = .intOverflow) _ _ e ?_ h
  intro a x e2 he
  rcases ht : tagTileWith (stdSort (fun l r => decide (l.dbr < r.dbr))) tileZones x with e3 | r
  · rw [ht] at he
    simp only [Except.error.injEq] at he
    exact he ▸ tagTileWith_error _ tileZones x e3 ht
  · rw [ht] at he
    cases r <;> simp at he

theorem repairLoop_error (remaining i passes : Nat) (d : MapDraft) (e : RunError)
    (h : (repairLoop i remaining passes d).1 = .error e) : ∃ j, e = .exclavesNotFixed j := by
  induction remaining generalizing i passes d with
  | zero =>
    unfold repairLoop at h
    split_ifs at h
    simp only [Except.error.injEq] at h
    exact ⟨i, h.symm⟩
  | succ n ih =>
    unfold repairLoop at h
    split_ifs at h
    exact ih _ _ _ h

theorem runRepair_error (d : MapDraft) (e : RunError) (h : (runRepair d).1 = .error e) :
    e = .orphanTiles ∨ ∃ j, e = .exclavesNotFixed j := by
  unfold runRepair at h
  split_ifs at h
  · simp only [Except.error.injEq] at h
    exact Or.inl h.symm
  · exact Or.inr (repairLoop_error _ _ _ _ e h)

theorem runSetup_not_totalZero (w h : Int) (rngZones : List FHRngZone) :
    runSetup w h rngZones ≠ .error .totalRelativeAreaZero := by
  unfold runSetup
  simp only
  split_ifs with hlen
  · simp
  · by_cases hex : ∃ z ∈ rngZones, z.m_relativeSize ≤ 0
    · obtain ⟨k, z, _, _, _, h4⟩ := runSetupLoop_nonpositive rngZones 0 0 [] hex
      rw [h4]
      simp
    · push_neg at hex
      obtain ⟨zones2, h1, _, h3⟩ := runSetupLoop_positive rngZones 0 0 [] hex
      have hne : rngZones ≠ [] := by
        intro h0
        rw [h0] at hlen
        simp at hlen
      have hpos := h3 hne
      rw [h1]
      simp only
      split_ifs with h0
      · omega
      · simp

theorem run_not_totalZero (w h depth : Int) (rngZones : List FHRngZone) :
    FHTemplateProcessor.run w h depth rngZones ≠ .error .totalRelativeAreaZero := by
  intro hrun
  unfold FHTemplateProcessor.run at hrun
  split at hrun
  · rename_i e he
    simp only [Except.error.injEq] at hrun
    rw [hrun] at he
    exact runSetup_not_totalZero w h rngZones he
  · split at hrun
    · rename_i e he
      simp only [Except.error.injEq] at hrun
      rw [hrun] at he
      rcases runInitialTagging_error _ _ _ he with h1 | h1 | h1 <;> simp at h1
    · split at hrun
      · simp at hrun
      · simp only at hrun
        split at hrun
        · simp at hrun
        · split at hrun
          · rename_i e he
            simp only [Except.error.injEq] at hrun
            rw [hrun] at he
            rcases runRepair_error _ _ he with h1 | ⟨j, h1⟩ <;> simp at h1
          · split at hrun <;> simp at hrun

/-- C13, as the code has it. When at least two zones are configured and their
relative sizes sum to zero, `run` throws the relative-size error for the first
zone whose relative size is not positive; the exception "Total relative area
can't be zero" is thrown on no input. -/
theorem run_zero_total (w h depth : Int) (rngZones : List FHRngZone)
    (hlen : 2 ≤ rngZones.length)
    (hsum : (rngZones.map (fun z => z.m_relativeSize)).sum = 0) :
    (∃ k z, rngZones[k]? = some z ∧ z.m_relativeSize ≤ 0
        ∧ (∀ j zj, j < k → rngZones[j]? = some zj → 0 < zj.m_relativeSize)
        ∧ FHTemplateProcessor.run w h depth rngZones = .error (.nonpositiveRelativeSize k))
      ∧ FHTemplateProcessor.run w h depth rngZones ≠ .error .totalRelativeAreaZero := by
  refine ⟨?_, run_not_totalZero w h depth rngZones⟩
  have hex : ∃ z ∈ rngZones, z.m_relativeSize ≤ 0 := by
    by_contra hcon
    push_neg at hcon
    obtain ⟨_, _, _, h3⟩ := runSetupLoop_positive rngZones 0 0 [] hcon
    have hne : rngZones ≠ [] := by
      intro h0
      rw [h0] at hlen
      simp at hlen
    have := h3 hne
    omega
  obtain ⟨k, z, h1, h2, h3, h4⟩ := runSetupLoop_nonpositive rngZones 0 0 [] hex
  refine ⟨k, z, h1, h2, h3, ?_⟩
  apply runSetup_error_run
  unfold runSetup
  simp only [show ¬ rngZones.length ≤ 1 by omega, if_false, h4, Nat.zero_add]

/-- Two zones of relative sizes 0 and 0 on the 20×20 grid. -/
theorem run_zero_total_witness :
    (2 ≤ [({ m_center := tileXY 2 2, m_relativeSize := 0 } : FHRngZone),
          { m_center := tileXY 17 17, m_relativeSize := 0 }].length
        ∧ ([({ m_center := tileXY 2 2, m_relativeSize := 0 } : FHRngZone),
          { m_center := tileXY 17 17, m_relativeSize := 0 }].map
            (fun z => z.m_relativeSize)).sum = 0)
      ∧ (∃ k z, [({ m_center := tileXY 2 2, m_relativeSize := 0 } : FHRngZone),
            { m_center := tileXY 17 17, m_relativeSize := 0 }][k]? = some z
          ∧ z.m_relativeSize ≤ 0
          ∧ (∀ j zj, j < k → [({ m_center := tileXY 2 2, m_relativeSize := 0 } : FHRngZone),
            { m_center := tileXY 17 17, m_relativeSize := 0 }][j]? = some zj
              → 0 < zj.m_relativeSize)
          ∧ FHTemplateProcessor.run 20 20 1 [{ m_center := tileXY 2 2, m_relativeSize := 0 },
              { m_center := tileXY 17 17, m_relativeSize := 0 }]
            = .error (.nonpositiveRelativeSize k))
        ∧ FHTemplateProcessor.run 20 20 1 [{ m_center := tileXY 2 2, m_relativeSize := 0 },
            { m_center := tileXY 17 17, m_relativeSize := 0 }] ≠ .error .totalRelativeAreaZero :=
  ⟨⟨by decide, by decide⟩,
    run_zero_total 20 20 1 [{ m_center := tileXY 2 2, m_relativeSize := 0 },
      { m_center := tileXY 17 17, m_relativeSize := 0 }] (by decide) (by decide)⟩

/-- C13, counterexample. With two zones of relative sizes 1 and -1, which sum
to zero, `run` throws the relative-size error for the second zone, not "Total
relative area can't be zero". -/
theorem run_zero_total_other_error :
    ([({ m_center := tileXY 2 2, m_relativeSize := 1 } : FHRngZone),
        { m_center := tileXY 17 17, m_relativeSize := -1 }].map
          (fun z => z.m_relativeSize)).sum = 0
      ∧ FHTemplateProcessor.run 20 20 1 [{ m_center := tileXY 2 2, m_relativeSize := 1 },
          { m_center := tileXY 17 17, m_relativeSize := -1 }]
        = .error (.nonpositiveRelativeSize 1)
      ∧ FHTemplateProcessor.run 20 20 1 [{ m_center := tileXY 2 2, m_relativeSize := 1 },
          { m_center := tileXY 17 17, m_relativeSize := -1 }]
        ≠ .error .totalRelativeAreaZero := by
  have hr : FHTemplateProcessor.run 20 20 1 [{ m_center := tileXY 2 2, m_relativeSize := 1 },
      { m_center := tileXY 17 17, m_relativeSize := -1 }]
      = .error (.nonpositiveRelativeSize 1) := rfl
  refine ⟨by decide, hr, ?_⟩
  rw [hr]
  simp

/-! ### Repair loop of `run` -/

theorem MapDraft.afterPasses_fixExclaves (d : MapDraft) (k : Nat) :
    (d.fixExclaves.1).afterPasses k = d.afterPasses (k + 1) := by
  induction k with
  | zero => rfl
  | succ n ih =>
    show ((d.fixExclaves.1).afterPasses n).fixExclaves.1 = (d.afterPasses (n + 1)).fixExclaves.1
    rw [ih]

theorem repairLoop_cases (remaining i passes : Nat) (d : MapDraft) :
    ((∀ k, k ≤ remaining → (d.afterPasses k).fixExclaves.2 = false)
        ∧ repairLoop i remaining passes d
          = (.error (.exclavesNotFixed (i + remaining)), passes + remaining + 1))
      ∨ ∃ k, k ≤ remaining ∧ (∀ j, j < k → (d.afterPasses j).fixExclaves.2 = false)
          ∧ (d.afterPasses k).fixExclaves.2 = true
          ∧ repairLoop i remaining passes d = (.ok (d.afterPasses (k + 1)), passes + k + 1) := by
  induction remaining generalizing i passes d with
  | zero =>
    by_cases hfix : d.fixExclaves.2 = true
    · refine Or.inr ⟨0, le_refl _, fun j hj => absurd hj (Nat.not_lt_zero j), hfix, ?_⟩
      unfold repairLoop
      simp only [hfix, if_true]
      rfl
    · refine Or.inl ⟨?_, ?_⟩
      · intro k hk
        have : k = 0 := by omega
        subst this
        simpa using hfix
      · unfold repairLoop
        simp only [hfix, Bool.false_eq_true, if_false]
        rfl
  | succ n ih =>
    by_cases hfix : d.fixExclaves.2 = true
    · refine Or.inr ⟨0, Nat.zero_le _, fun j hj => absurd hj (Nat.not_lt_zero j), hfix, ?_⟩
      unfold repairLoop
      simp only [hfix, if_true]
      rfl
    · have hfalse : d.fixExclaves.2 = false := by simpa using hfix
      have hloop : repairLoop i (n + 1) passes d
          = repairLoop (i + 1) n (passes + 1) d.fixExclaves.1 := by
        conv_lhs => unfold repairLoop
        simp only [hfalse, Bool.false_eq_true, if_false]
      rcases ih (i + 1) (passes + 1) d.fixExclaves.1 with ⟨hall, hr⟩ | ⟨k, hk, hbefore, hk2, hr⟩
      · refine Or.inl ⟨?_, ?_⟩
        · intro k hk
          cases k with
          | zero => exact hfalse
          | succ k =>
            rw [← MapDraft.afterPasses_fixExclaves]
            exact hall k (by omega)
        · rw [hloop, hr]
          have h1 : i + 1 + n = i + (n + 1) := by omega
          have h2 : passes + 1 + n + 1 = passes + (n + 1) + 1 := by omega
          rw [h1, h2]
      · refine Or.inr ⟨k + 1, by omega, ?_, ?_, ?_⟩
        · intro j hj
          cases j with
          | zero => exact hfalse
          | succ j =>
            rw [← MapDraft.afterPasses_fixExclaves]
            exact hbefore j (by omega)
        · rw [← MapDraft.afterPasses_fixExclaves]
          exact hk2
        · rw [hloop, hr, MapDraft.afterPasses_fixExclaves]
          have h2 : passes + 1 + k + 1 = passes + (k + 1) + 1 := by omega
          rw [h2]

/-- C14, as the code has it. The repair stage of `run` makes one pass of
`fixExclaves` whose result it ignores and then at most eleven more, at most
twelve in all. With every tile zoned, it throws exactly when none of the passes
2 to 12 returns `true`, after twelve passes and at loop index 10; otherwise it
stops after the first of these passes that returns `true`. -/
theorem runRepair_passes (d : MapDraft) :
    (runRepair d).2 ≤ 12
      ∧ (d.checkOrphans = true →
        ((∃ e, (runRepair d).1 = .error e)
            ↔ ∀ k, 1 ≤ k → k ≤ 11 → (d.afterPasses k).fixExclaves.2 = false)
          ∧ ((∃ e, (runRepair d).1 = .error e) →
            runRepair d = (.error (.exclavesNotFixed 10), 12))
          ∧ ∀ d2, (runRepair d).1 = .ok d2 →
            2 ≤ (runRepair d).2 ∧ d2 = d.afterPasses (runRepair d).2
              ∧ (d.afterPasses ((runRepair d).2 - 1)).fixExclaves.2 = true
              ∧ ∀ k, 1 ≤ k → k < (runRepair d).2 - 1 →
                (d.afterPasses k).fixExclaves.2 = false) := by
  by_cases horph : d.checkOrphans = true
  · have hrun : runRepair d = repairLoop 0 10 1 d.fixExclaves.1 := by
      unfold runRepair
      simp [horph]
    rcases repairLoop_cases 10 0 1 d.fixExclaves.1 with ⟨hall, hr⟩ | ⟨k, hk, hbefore, hk2, hr⟩
    · have hall2 : ∀ k, 1 ≤ k → k ≤ 11 → (d.afterPasses k).fixExclaves.2 = false := by
        intro k h1 h2
        obtain ⟨j, rfl⟩ : ∃ j, k = j + 1 := ⟨k - 1, by omega⟩
        rw [← MapDraft.afterPasses_fixExclaves]
        exact hall j (by omega)
      rw [hrun, hr]
      refine ⟨le_refl _, fun _ => ⟨⟨fun _ => hall2, fun _ => ⟨_, rfl⟩⟩, fun _ => rfl, ?_⟩⟩
      intro d2 hd2
      simp at hd2
    · rw [hrun, hr]
      refine ⟨by simp only; omega, fun _ => ⟨⟨?_, ?_⟩, ?_, ?_⟩⟩
      · rintro ⟨e, he⟩
        simp at he
      · intro hall
        have := hall (k + 1) (by omega) (by omega)
        rw [← MapDraft.afterPasses_fixExclaves, hk2] at this
        simp at this
      · rintro ⟨e, he⟩
        simp at he
      · intro d2 hd2
        simp only [Except.ok.injEq] at hd2
        refine ⟨by omega, ?_, ?_, ?_⟩
        · rw [← hd2, MapDraft.afterPasses_fixExclaves]
          congr 1
          omega
        · have h3 : 1 + k + 1 - 1 = k + 1 := by omega
          rw [h3, ← MapDraft.afterPasses_fixExclaves]
          exact hk2
        · intro j h1 h2
          obtain ⟨i, rfl⟩ : ∃ i, j = i + 1 := ⟨j - 1, by omega⟩
          rw [← MapDraft.afterPasses_fixExclaves]
          exact hbefore i (by omega)
  · have hrun : runRepair d = (.error .orphanTiles, 0) := by
      unfold runRepair
      simp [horph]
    rw [hrun]
    exact ⟨by omega, fun h => absurd h horph⟩

set_option maxRecDepth 8192 in
/-- The uniformly zoned 3×3 grid is repaired in two passes. -/
theorem runRepair_passes_witness :
    draftUniform.checkOrphans = true
      ∧ (runRepair draftUniform).2 ≤ 12
      ∧ (draftUniform.checkOrphans = true →
        ((∃ e, (runRepair draftUniform).1 = .error e)
            ↔ ∀ k, 1 ≤ k → k ≤ 11 → (draftUniform.afterPasses k).fixExclaves.2 = false)
          ∧ ((∃ e, (runRepair draftUniform).1 = .error e) →
            runRepair draftUniform = (.error (.exclavesNotFixed 10), 12))
          ∧ ∀ d2, (runRepair draftUniform).1 = .ok d2 →
            2 ≤ (runRepair draftUniform).2 ∧ d2 = draftUniform.afterPasses (runRepair draftUniform).2
              ∧ (draftUniform.afterPasses ((runRepair draftUniform).2 - 1)).fixExclaves.2 = true
              ∧ ∀ k, 1 ≤ k → k < (runRepair draftUniform).2 - 1 →
                (draftUniform.afterPasses k).fixExclaves.2 = false) :=
  ⟨by decide, runRepair_passes draftUniform⟩

set_option maxRecDepth 8192 in
/-- C14, counterexample. On the fully zoned 3×3 grid tagged `0 0 1`, `1 0 1`,
`1 0 0` the centre tile changes zone in every pass, so no pass returns `true`:
the repair stage throws at loop index 10 after twelve passes of `fixExclaves`,
two more than the claimed cap of ten. -/
theorem runRepair_twelve_passes :
    (draftOscillating.m_tiles.map Prod.fst = (MapDraft.init {} 3 3 1).m_tiles.map Prod.fst
        ∧ draftOscillating.checkOrphans = true)
      ∧ (draftOscillating.afterPasses 10).fixExclaves.2 = false
      ∧ (draftOscillating.afterPasses 11).fixExclaves.2 = false
      ∧ runRepair draftOscillating = (.error (.exclavesNotFixed 10), 12)
      ∧ ¬ (runRepair draftOscillating).2 ≤ 10 := by
  have hr : runRepair draftOscillating = (.error (.exclavesNotFixed 10), 12) := rfl
  refine ⟨⟨by decide, by decide⟩, by decide, by decide, hr, ?_⟩
  rw [hr]
  decide

/-! ### Initial tagging pass of `run` -/

theorem intSqrtFrom_spec (n fuel r : Nat) (hr : r * r ≤ n) (hfuel : n ≤ r + fuel) :
    intSqrtFrom n fuel r * intSqrtFrom n fuel r ≤ n
      ∧ n < (intSqrtFrom n fuel r + 1) * (intSqrtFrom n fuel r + 1) := by
  induction fuel generalizing r with
  | zero =>
    unfold intSqrtFrom
    refine ⟨hr, ?_⟩
    have : r + 1 ≤ (r + 1) * (r + 1) := Nat.le_mul_self (r + 1)
    omega
  | succ f ih =>
    unfold intSqrtFrom
    split_ifs with hnext
    · exact ih (r + 1) hnext (by omega)
    · exact ⟨hr, by omega⟩

/-- The embedded integer square root is the integer part of the square root. -/
theorem intSqrt_spec (n : Nat) :
    intSqrt n * intSqrt n ≤ n ∧ n < (intSqrt n + 1) * (intSqrt n + 1) :=
  intSqrtFrom_spec n n 0 (Nat.zero_le _) (by omega)

theorem mem_insertSorted {α : Type} (lt : α → α → Bool) (x y : α) (l : List α) :
    y ∈ insertSorted lt x l ↔ y = x ∨ y ∈ l := by
  induction l with
  | nil => simp [insertSorted]
  | cons z zs ih =>
    unfold insertSorted
    split_ifs
    · simp
    · simp only [List.mem_cons, ih]
      tauto

theorem stdSort_fold_mem {α : Type} (lt : α → α → Bool) (l acc : List α) (y : α) :
    y ∈ l.foldl (fun sorted x => insertSorted lt x sorted) acc ↔ y ∈ acc ∨ y ∈ l := by
  induction l generalizing acc with
  | nil => simp
  | cons x xs ih =>
    simp only [List.foldl_cons, ih, mem_insertSorted, List.mem_cons]
    tauto

theorem insertSorted_head_min {α : Type} (key : α → Int) (x : α) (l : List α)
    (hl : ∀ h t, l = h :: t → ∀ y ∈ l, key h ≤ key y) :
    ∀ h t, insertSorted (fun a b => decide (key a < key b)) x l = h :: t →
      ∀ y ∈ insertSorted (fun a b => decide (key a < key b)) x l, key h ≤ key y := by
  intro h t heq y hy
  rw [mem_insertSorted] at hy
  cases l with
  | nil =>
    simp only [insertSorted, List.cons.injEq] at heq
    rcases hy with hy | hy
    · rw [hy, heq.1]
    · simp at hy
  | cons z zs =>
    have hz := hl z zs rfl
    unfold insertSorted at heq
    by_cases hlt : key x < key z
    · simp only [hlt, decide_True, if_true, List.cons.injEq] at heq
      rw [← heq.1]
      rcases hy with hy | hy
      · rw [hy]
      · have := hz y hy
        omega
    · simp only [hlt, decide_False, Bool.false_eq_true, if_false, List.cons.injEq] at heq
      rw [← heq.1]
      rcases hy with hy | hy
      · rw [hy]
        omega
      · exact hz y hy

theorem stdSort_head_min {α : Type} (key : α → Int) (l : List α) (h : α) (t : List α)
    (heq : stdSort (fun a b => decide (key a < key b)) l = h :: t) :
    h ∈ l ∧ ∀ y ∈ l, key h ≤ key y := by
  have hfold : ∀ (xs acc : List α),
      (∀ h t, acc = h :: t → ∀ y ∈ acc, key h ≤ key y) →
      ∀ h t, xs.foldl (fun sorted x => insertSorted (fun a b => decide (key a < key b)) x sorted)
          acc = h :: t →
        ∀ y ∈ xs.foldl (fun sorted x =>
          insertSorted (fun a b => decide (key a < key b)) x sorted) acc, key h ≤ key y := by
    intro xs
    induction xs with
    | nil => intro acc hacc; exact hacc
    | cons x xs ih =>
      intro acc hacc
      simp only [List.foldl_cons]
      exact ih _ (insertSorted_head_min key x acc hacc)
  unfold stdSort at heq
  have hmem : ∀ y, y ∈ h :: t ↔ y ∈ l := by
    intro y
    rw [← heq, stdSort_fold_mem]
    simp
  have hmin := hfold l [] (by intro h t h0; simp at h0) h t heq
  rw [heq] at hmin
  exact ⟨(hmem h).1 (by simp), fun y hy => hmin y ((hmem y).2 hy)⟩

theorem insertSorted_perm {α : Type} (lt : α → α → Bool) (x : α) (l : List α) :
    (insertSorted lt x l).Perm (x :: l) := by
  induction l with
  | nil => exact List.Perm.refl _
  | cons y ys ih =>
    unfold insertSorted
    split_ifs
    · exact List.Perm.refl _
    · exact (List.Perm.cons y ih).trans (List.Perm.swap x y ys)

theorem stdSort_perm {α : Type} (lt : α → α → Bool) (l : List α) : (stdSort lt l).Perm l := by
  have hfold : ∀ (xs acc : List α),
      (xs.foldl (fun sorted x => insertSorted lt x sorted) acc).Perm (xs.reverse ++ acc) := by
    intro xs
    induction xs with
    | nil => intro acc; exact List.Perm.refl _
    | cons x xs ih =>
      intro acc
      simp only [List.foldl_cons, List.reverse_cons, List.append_assoc, List.singleton_append]
      exact (ih _).trans (List.Perm.append_left _ (insertSorted_perm lt x acc))
  unfold stdSort
  have := hfold l []
  rw [List.append_nil] at this
  exact this.trans (List.reverse_perm l)

theorem insertSorted_pairwise {α : Type} (key : α → Int) (x : α) (l : List α)
    (hl : l.Pairwise (fun a b => key a ≤ key b)) :
    (insertSorted (fun a b => decide (key a < key b)) x l).Pairwise
      (fun a b => key a ≤ key b) := by
  induction l with
  | nil => simp [insertSorted]
  | cons y ys ih =>
    rw [List.pairwise_cons] at hl
    unfold insertSorted
    by_cases hlt : key x < key y
    · simp only [hlt, decide_True, if_true]
      refine List.Pairwise.cons ?_ (List.Pairwise.cons hl.1 hl.2)
      intro z hz
      rcases List.mem_cons.1 hz with hz | hz
      · rw [hz]
        omega
      · have := hl.1 z hz
        omega
    · simp only [hlt, decide_False, Bool.false_eq_true, if_false]
      refine List.Pairwise.cons ?_ (ih hl.2)
      intro z hz
      rcases (mem_insertSorted _ _ _ _).1 hz with hz | hz
      · rw [hz]
        omega
      · exact hl.1 z hz

theorem stdSort_pairwise {α : Type} (key : α → Int) (l : List α) :
    (stdSort (fun a b => decide (key a < key b)) l).Pairwise (fun a b => key a ≤ key b) := by
  have hfold : ∀ (xs acc : List α), acc.Pairwise (fun a b => key a ≤ key b) →
      (xs.foldl (fun sorted x => insertSorted (fun a b => decide (key a < key b)) x sorted)
        acc).Pairwise (fun a b => key a ≤ key b) := by
    intro xs
    induction xs with
    | nil => intro acc hacc; exact hacc
    | cons x xs ih =>
      intro acc hacc
      simp only [List.foldl_cons]
      exact ih _ (insertSorted_pairwise key x acc hacc)
  exact hfold l [] List.Pairwise.nil

theorem stdSort_sortsByDbr : SortsByDbr (stdSort (fun l r => decide (l.dbr < r.dbr))) :=
  fun l _ => ⟨stdSort_perm _ l, stdSort_pairwise DistanceRecord.dbr l⟩

theorem pointDistance_ok (a b : FHPos) (dist : Int) (h : pointDistance a b = .ok dist) :
    0 ≤ dist
      ∧ dist * dist
        ≤ (a.m_x - b.m_x) * (a.m_x - b.m_x) + (a.m_y - b.m_y) * (a.m_y - b.m_y)
      ∧ (a.m_x - b.m_x) * (a.m_x - b.m_x) + (a.m_y - b.m_y) * (a.m_y - b.m_y)
        < (dist + 1) * (dist + 1) := by
  have hnn : 0 ≤ (a.m_x - b.m_x) * (a.m_x - b.m_x) + (a.m_y - b.m_y) * (a.m_y - b.m_y) :=
    add_nonneg (mul_self_nonneg _) (mul_self_nonneg _)
  have hn := Int.toNat_of_nonneg hnn
  have hs := intSqrt_spec
    ((a.m_x - b.m_x) * (a.m_x - b.m_x) + (a.m_y - b.m_y) * (a.m_y - b.m_y)).toNat
  unfold pointDistance at h
  simp only at h
  split_ifs at h
  simp only [Except.ok.injEq] at h
  rw [← h]
  refine ⟨Int.ofNat_nonneg _, ?_, ?_⟩
  · rw [← hn]
    exact_mod_cast hs.1
  · rw [← hn]
    exact_mod_cast hs.2

theorem pointDistance_defined (a b : FHPos) (hx : |a.m_x - b.m_x| ≤ 32767)
    (hy : |a.m_y - b.m_y| ≤ 32767) : ∃ dist, pointDistance a b = .ok dist := by
  have h1 := abs_le.1 hx
  have h2 := abs_le.1 hy
  have h3 : (a.m_x - b.m_x) * (a.m_x - b.m_x) ≤ 32767 * 32767 := by nlinarith
  have h4 : (a.m_y - b.m_y) * (a.m_y - b.m_y) ≤ 32767 * 32767 := by nlinarith
  have h5 : 0 ≤ (a.m_x - b.m_x) * (a.m_x - b.m_x) := mul_self_nonneg _
  have h6 : 0 ≤ (a.m_y - b.m_y) * (a.m_y - b.m_y) := mul_self_nonneg _
  have hfit : (fitsInt (a.m_x - b.m_x) && fitsInt (a.m_y - b.m_y)
      && fitsInt ((a.m_x - b.m_x) * (a.m_x - b.m_x))
      && fitsInt ((a.m_y - b.m_y) * (a.m_y - b.m_y))
      && fitsInt ((a.m_x - b.m_x) * (a.m_x - b.m_x) + (a.m_y - b.m_y) * (a.m_y - b.m_y)))
      = true := by
    simp only [fitsInt, Bool.and_eq_true, decide_eq_true_eq]
    omega
  unfold pointDistance
  simp only [hfit, if_true]
  exact ⟨_, rfl⟩

theorem distanceRecords_ok (tileZones : List TileZone) (pos : FHPos)
    (records : List DistanceRecord) (h : distanceRecords tileZones pos = .ok records) :
    (∀ r ∈ records, ∃ z ∈ tileZones, r.m_zoneIndex = z.m_index
        ∧ pointDistance pos z.m_startTile = .ok r.m_distance
        ∧ r.m_zoneRadius = z.m_absoluteRadius)
      ∧ ∀ z ∈ tileZones, ∃ r ∈ records, r.m_zoneIndex = z.m_index
        ∧ pointDistance pos z.m_startTile = .ok r.m_distance
        ∧ r.m_zoneRadius = z.m_absoluteRadius := by
  induction tileZones generalizing records with
  | nil =>
    simp only [distanceRecords, Except.ok.injEq] at h
    subst h
    simp
  | cons z zs ih =>
    unfold distanceRecords at h
    split at h
    · simp at h
    · rename_i dist hd
      split at h
      · simp at h
      · rename_i recs hrecs
        simp only [Except.ok.injEq] at h
        subst h
        obtain ⟨h1, h2⟩ := ih recs hrecs
        constructor
        · intro r hr
          rcases List.mem_cons.1 hr with hr | hr
          · subst hr
            exact ⟨z, List.mem_cons_self _ _, rfl, hd, rfl⟩
          · obtain ⟨z2, hz2, hrest⟩ := h1 r hr
            exact ⟨z2, List.mem_cons_of_mem _ hz2, hrest⟩
        · intro z2 hz2
          rcases List.mem_cons.1 hz2 with hz2 | hz2
          · subst hz2
            exact ⟨_, List.mem_cons_self _ _, rfl, hd, rfl⟩
          · obtain ⟨r, hr, hrest⟩ := h2 z2 hz2
            exact ⟨r, List.mem_cons_of_mem _ hr, hrest⟩

theorem tagTileWith_ok (sort : List DistanceRecord → List DistanceRecord)
    (tileZones : List TileZone) (pos : FHPos) (r : Option Int)
    (h : tagTileWith sort tileZones pos = .ok r) :
    ∃ records first second rest, distanceRecords tileZones pos = .ok records
      ∧ (∀ x ∈ records, x.m_zoneRadius ≠ 0)
      ∧ sort records = first :: second :: rest
      ∧ first.m_zoneRadius + second.m_zoneRadius ≠ 0
      ∧ r = if distanceDiff first second < 2 then none else some first.m_zoneIndex := by
  unfold tagTileWith at h
  split at h
  · simp at h
  · rename_i records hrec
    split_ifs at h with hzero
    have hrad : ∀ x ∈ records, x.m_zoneRadius ≠ 0 := by
      intro x hx h0
      apply hzero
      rw [List.any_eq_true]
      exact ⟨x, hx, by simp [h0]⟩
    split at h
    · rename_i first second rest hs
      simp only at h
      split_ifs at h with hsum hdiff
      · simp only [Except.ok.injEq] at h
        refine ⟨records, first, second, rest, hrec, hrad, hs, hsum, ?_⟩
        have hd : distanceDiff first second < 2 := hdiff
        rw [if_pos hd, ← h]
      · simp only [Except.ok.injEq] at h
        refine ⟨records, first, second, rest, hrec, hrad, hs, hsum, ?_⟩
        have hd : ¬ distanceDiff first second < 2 := hdiff
        rw [if_neg hd, ← h]
    · simp at h

theorem sorted_head_min (sort : List DistanceRecord → List DistanceRecord)
    (hsort : SortsByDbr sort) (records : List DistanceRecord)
    (hrad : ∀ x ∈ records, x.m_zoneRadius ≠ 0) (first second : DistanceRecord)
    (rest : List DistanceRecord) (hs : sort records = first :: second :: rest) :
    first ∈ records ∧ second ∈ records
      ∧ (∀ x ∈ records, first.dbr ≤ x.dbr)
      ∧ first.dbr ≤ second.dbr ∧ ∀ x ∈ rest, second.dbr ≤ x.dbr := by
  obtain ⟨hperm, hpair⟩ := hsort records hrad
  rw [hs] at hperm hpair
  rw [List.pairwise_cons, List.pairwise_cons] at hpair
  refine ⟨hperm.mem_iff.1 (by simp), hperm.mem_iff.1 (by simp), ?_, hpair.1 second (by simp),
    hpair.2.1⟩
  intro x hx
  rcases List.mem_cons.1 (hperm.mem_iff.2 hx) with h1 | h1
  · rw [h1]
  · exact hpair.1 x h1

/-- The zone that the tagging step gives to a tile: one of the zones, of
non-zero radius, whose distance by radius is minimal. -/
theorem tagTileWith_minimal (sort : List DistanceRecord → List DistanceRecord)
    (hsort : SortsByDbr sort) (tileZones : List TileZone) (pos : FHPos) (zoneIndex : Int)
    (h : tagTileWith sort tileZones pos = .ok (some zoneIndex)) :
    (∀ z ∈ tileZones, z.m_absoluteRadius ≠ 0)
      ∧ ∃ z ∈ tileZones, ∃ dz : Int, z.m_index = zoneIndex
        ∧ pointDistance pos z.m_startTile = .ok dz
        ∧ ∀ z2 ∈ tileZones, ∃ dz2 : Int, pointDistance pos z2.m_startTile = .ok dz2
          ∧ (dz * 1000).tdiv z.m_absoluteRadius ≤ (dz2 * 1000).tdiv z2.m_absoluteRadius := by
  obtain ⟨records, first, second, rest, hrec, hrad, hs, _, hr⟩ :=
    tagTileWith_ok sort tileZones pos _ h
  obtain ⟨hback, hforth⟩ := distanceRecords_ok tileZones pos records hrec
  obtain ⟨hfirst, _, hmin, _, _⟩ := sorted_head_min sort hsort records hrad first second rest hs
  have hzi : first.m_zoneIndex = zoneIndex := by
    split_ifs at hr
    simp only [Option.some.injEq] at hr
    exact hr.symm
  constructor
  · intro z hz
    obtain ⟨r, hr2, _, _, hrr⟩ := hforth z hz
    rw [← hrr]
    exact hrad r hr2
  · obtain ⟨z, hz, hidx, hdist, hradz⟩ := hback first hfirst
    refine ⟨z, hz, first.m_distance, by rw [← hidx, hzi], hdist, ?_⟩
    intro z2 hz2
    obtain ⟨r2, hr2, _, hdist2, hrad2⟩ := hforth z2 hz2
    refine ⟨r2.m_distance, hdist2, ?_⟩
    have := hmin r2 hr2
    unfold DistanceRecord.dbr at this
    rw [hradz, hrad2] at this
    exact this

theorem tilesFind_tilesAssign (l : List (FHPos × MapDraft.Tile)) (p q : FHPos)
    (v : MapDraft.Tile) :
    tilesFind (tilesAssign l p v) q = if p = q then some v else tilesFind l q := by
  induction l with
  | nil =>
    unfold tilesAssign
    simp only [tilesFind]
  | cons e es ih =>
    obtain ⟨k, t⟩ := e
    unfold tilesAssign
    by_cases hk : k = p <;> by_cases hpq : p = q <;> by_cases hkq : k = q
      <;> by_cases hlt : FHPos.lt p k = true
      <;> simp_all [tilesFind]

theorem foldlM_ok_invariant {ε α β : Type} (f : β → α → Except ε β) (I : β → Prop)
    (xs : List α) (acc r : β) (h0 : I acc)
    (hstep : ∀ a x a2, I a → f a x = .ok a2 → I a2) (h : xs.foldlM f acc = .ok r) : I r := by
  induction xs generalizing acc with
  | nil =>
    have : acc = r := by simpa [List.foldlM, pure, Except.pure] using h
    exact this ▸ h0
  | cons x xs ih =>
    rw [List.foldlM_cons] at h
    rcases hf : f acc x with e2 | a2
    · rw [hf] at h
      simp [bind, Except.bind] at h
    · rw [hf] at h
      exact ih a2 (hstep acc x a2 h0 hf) h

theorem runSetup_radius_nonneg (w h : Int) (rngZones : List FHRngZone)
    (tileZones : List TileZone) (hs : runSetup w h rngZones = .ok tileZones) :
    ∀ z ∈ tileZones, 0 ≤ z.m_absoluteRadius := by
  unfold runSetup at hs
  simp only at hs
  split_ifs at hs
  split at hs
  · simp at hs
  · split_ifs at hs
    simp only [Except.ok.injEq] at hs
    intro z hz
    rw [← hs] at hz
    obtain ⟨z0, _, hz0⟩ := List.mem_map.1 hz
    rw [← hz0]
    exact Int.ofNat_nonneg _

/-- C19. In the initial tagging pass of `run`, for the zones set up by `run`
and whatever order `std::sort` leaves records of equal distance by radius in,
every tile whose entry the pass changes is zoned with the index of a zone whose
distance by radius `distance * 1000 / radius` (floor division, all radii being
positive) is minimal over all zones; `distance` is the value of `pointDistance`
for the tile and the seed of the zone, which is defined for every zone on a
completed pass and is the integer part of the Euclidean distance. The `int`
arithmetic of `pointDistance` is defined whenever the two coordinate
differences are at most 32767 in absolute value. -/
theorem initialTagging_minimal (sort : List DistanceRecord → List DistanceRecord)
    (w h : Int) (rngZones : List FHRngZone) (tileZones : List TileZone) (d d2 : MapDraft)
    (hsort : SortsByDbr sort)
    (hsetup : runSetup w h rngZones = .ok tileZones)
    (htag : runInitialTaggingWith sort d tileZones = .ok d2) :
    (∀ pos cell0 cell, tilesFind d.m_tiles pos = some cell0 →
        tilesFind d2.m_tiles pos = some cell →
        cell = cell0
          ∨ (cell.m_zoned = true
            ∧ ∃ z ∈ tileZones, ∃ dz : Int, z.m_index = cell.m_zoneIndex
              ∧ pointDistance pos z.m_startTile = .ok dz
              ∧ ∀ z2 ∈ tileZones, 0 < z2.m_absoluteRadius
                ∧ ∃ dz2 : Int, pointDistance pos z2.m_startTile = .ok dz2
                  ∧ dz * 1000 / z.m_absoluteRadius ≤ dz2 * 1000 / z2.m_absoluteRadius))
      ∧ (∀ (a b : FHPos) (dist : Int), pointDistance a b = .ok dist →
        0 ≤ dist
          ∧ dist * dist
            ≤ (a.m_x - b.m_x) * (a.m_x - b.m_x) + (a.m_y - b.m_y) * (a.m_y - b.m_y)
          ∧ (a.m_x - b.m_x) * (a.m_x - b.m_x) + (a.m_y - b.m_y) * (a.m_y - b.m_y)
            < (dist + 1) * (dist + 1))
      ∧ ∀ a b : FHPos, |a.m_x - b.m_x| ≤ 32767 → |a.m_y - b.m_y| ≤ 32767 →
        ∃ dist, pointDistance a b = .ok dist := by
  refine ⟨?_, pointDistance_ok, pointDistance_defined⟩
  have hnonneg := runSetup_radius_nonneg w h rngZones tileZones hsetup
  unfold runInitialTaggingWith at htag
  refine foldlM_ok_invariant _
    (fun cur => ∀ pos cell0 cell, tilesFind d.m_tiles pos = some cell0 →
      tilesFind cur.m_tiles pos = some cell →
      cell = cell0
        ∨ (cell.m_zoned = true
          ∧ ∃ z ∈ tileZones, ∃ dz : Int, z.m_index = cell.m_zoneIndex
            ∧ pointDistance pos z.m_startTile = .ok dz
            ∧ ∀ z2 ∈ tileZones, 0 < z2.m_absoluteRadius
              ∧ ∃ dz2 : Int, pointDistance pos z2.m_startTile = .ok dz2
                ∧ dz * 1000 / z.m_absoluteRadius ≤ dz2 * 1000 / z2.m_absoluteRadius))
    _ d d2 ?_ ?_ htag
  · intro pos cell0 cell h0 h1
    rw [h0] at h1
    exact Or.inl (Option.some.inj h1).symm
  · intro cur p cur2 hinv hstep pos cell0 cell h0 h1
    rcases ht : tagTileWith sort tileZones p with e | r
    · rw [ht] at hstep
      simp at hstep
    · rw [ht] at hstep
      cases r with
      | none =>
        simp only [Except.ok.injEq] at hstep
        rw [← hstep] at h1
        exact hinv pos cell0 cell h0 h1
      | some zoneIndex =>
        simp only [Except.ok.injEq] at hstep
        rw [← hstep] at h1
        simp only [tilesFind_tilesAssign] at h1
        by_cases hp : p = pos
        · subst hp
          simp only [if_true, Option.some.injEq] at h1
          obtain ⟨hrad, z, hz, dz, hzi, hdz, hmin⟩ :=
            tagTileWith_minimal sort hsort tileZones p zoneIndex ht
          have hposr : ∀ z2 ∈ tileZones, 0 < z2.m_absoluteRadius := by
            intro z2 hz2
            have h1 := hnonneg z2 hz2
            have h2 := hrad z2 hz2
            omega
          refine Or.inr ⟨by rw [← h1], z, hz, dz, by rw [← h1]; exact hzi, hdz, ?_⟩
          intro z2 hz2
          obtain ⟨dz2, hdz2, hle⟩ := hmin z2 hz2
          refine ⟨hposr z2 hz2, dz2, hdz2, ?_⟩
          rw [Int.tdiv_eq_ediv (mul_nonneg (pointDistance_ok _ _ _ hdz).1 (by norm_num))
              (hnonneg z hz),
            Int.tdiv_eq_ediv (mul_nonneg (pointDistance_ok _ _ _ hdz2).1 (by norm_num))
              (hnonneg z2 hz2)] at hle
          exact hle
        · simp only [hp, if_false] at h1
          exact hinv pos cell0 cell h0 h1

/-- The tagging pass on the 5×4 grid with two zones of equal size seeded at
`(0,0)` and `(4,3)`, sorted by `stdSort`; the pass zones the two seed tiles. -/
theorem initialTagging_minimal_witness :
    (SortsByDbr (stdSort (fun l r => decide (l.dbr < r.dbr)))
        ∧ runSetup 5 4 [{ m_center := tileXY 0 0, m_relativeSize := 1 },
          { m_center := tileXY 4 3, m_relativeSize := 1 }] = .ok sampleTileZones
        ∧ runInitialTaggingWith (stdSort (fun l r => decide (l.dbr < r.dbr)))
            (MapDraft.init {} 5 4 1) sampleTileZones = .ok sampleTagged)
      ∧ (∀ pos cell0 cell, tilesFind (MapDraft.init {} 5 4 1).m_tiles pos = some cell0 →
          tilesFind sampleTagged.m_tiles pos = some cell →
          cell = cell0
            ∨ (cell.m_zoned = true
              ∧ ∃ z ∈ sampleTileZones, ∃ dz : Int, z.m_index = cell.m_zoneIndex
                ∧ pointDistance pos z.m_startTile = .ok dz
                ∧ ∀ z2 ∈ sampleTileZones, 0 < z2.m_absoluteRadius
                  ∧ ∃ dz2 : Int, pointDistance pos z2.m_startTile = .ok dz2
                    ∧ dz * 1000 / z.m_absoluteRadius ≤ dz2 * 1000 / z2.m_absoluteRadius))
      ∧ tilesFind sampleTagged.m_tiles (tileXY 0 0) = some (zonedTile 0)
      ∧ tilesFind sampleTagged.m_tiles (tileXY 4 3) = some (zonedTile 1) :=
  ⟨⟨stdSort_sortsByDbr, rfl, rfl⟩,
    (initialTagging_minimal (stdSort (fun l r => decide (l.dbr < r.dbr))) 5 4
      [{ m_center := tileXY 0 0, m_relativeSize := 1 },
        { m_center := tileXY 4 3, m_relativeSize := 1 }] sampleTileZones
      (MapDraft.init {} 5 4 1) sampleTagged stdSort_sortsByDbr rfl rfl).1,
    by decide, by decide⟩

/-! ### Centroid inside the region -/

theorem minElementFrom_mem {α : Type} (comp : α → α → Bool) (xs : List α) (best : α) :
    minElementFrom comp best xs = best ∨ minElementFrom comp best xs ∈ xs := by
  induction xs generalizing best with
  | nil => exact Or.inl rfl
  | cons x xs ih =>
    unfold minElementFrom
    split_ifs
    · rcases ih x with h | h
      · rw [h]
        exact Or.inr (List.mem_cons_self _ _)
      · exact Or.inr (List.mem_cons_of_mem _ h)
    · rcases ih best with h | h
      · exact Or.inl h
      · exact Or.inr (List.mem_cons_of_mem _ h)

theorem foldl_sum_bounds (f : FHPos → Int) (lo hi : Int) (l : List FHPos)
    (h : ∀ t ∈ l, lo ≤ f t ∧ f t ≤ hi) (a : Int) :
    a + lo * l.length ≤ l.foldl (fun s cell => s + f cell) a
      ∧ l.foldl (fun s cell => s + f cell) a ≤ a + hi * l.length := by
  induction l generalizing a with
  | nil => simp
  | cons x xs ih =>
    have hx := h x (List.mem_cons_self _ _)
    have := ih (fun t ht => h t (List.mem_cons_of_mem _ ht)) (a + f x)
    simp only [List.foldl_cons, List.length_cons, Nat.cast_add, Nat.cast_one]
    constructor
    · nlinarith [this.1]
    · nlinarith [this.2]

theorem mean_bounds (f : FHPos → Int) (w : Int) (l : List FHPos) (hne : l ≠ [])
    (h : ∀ t ∈ l, 0 ≤ f t ∧ f t < w) :
    0 ≤ (l.foldl (fun s cell => s + f cell) 0).tdiv l.length
      ∧ (l.foldl (fun s cell => s + f cell) 0).tdiv l.length < w := by
  have hb := foldl_sum_bounds f 0 (w - 1) l
    (fun t ht => ⟨(h t ht).1, by have := (h t ht).2; omega⟩) 0
  have hlen : (0 : Int) < l.length := by
    have : 0 < l.length := List.length_pos.2 hne
    exact_mod_cast this
  have h0 : 0 ≤ l.foldl (fun s cell => s + f cell) 0 := by
    have := hb.1
    simpa using this
  rw [Int.tdiv_eq_ediv h0 (le_of_lt hlen)]
  constructor
  · exact Int.ediv_nonneg h0 (le_of_lt hlen)
  · apply Int.ediv_lt_of_lt_mul hlen
    have := hb.2
    nlinarith

theorem centroid_fold_mem (posDistance : FHPos → FHPos → Int → Int) (region : MapTileRegion)
    (ns : List FHPos) (acc : FHPos × Int) (h : acc.1 ∈ region) :
    (ns.foldl
      (fun (acc : FHPos × Int) tile =>
        if true && !MapTileRegion.contains region tile then acc
        else
          let altResult := estimateAvgDistance posDistance region tile
          if altResult < acc.2 then (tile, altResult) else acc) acc).1 ∈ region := by
  induction ns generalizing acc with
  | nil => exact h
  | cons n ns ih =>
    simp only [List.foldl_cons]
    apply ih
    by_cases hn : n ∈ region
    · have hc : MapTileRegion.contains region n = true := (MapTileRegion.contains_iff _ _).2 hn
      simp only [hc, Bool.not_true, Bool.and_false, Bool.false_eq_true, if_false]
      split_ifs
      · exact hn
      · exact h
    · have hc : MapTileRegion.contains region n = false :=
        (MapTileRegion.contains_false_iff _ _).2 hn
      simp only [hc, Bool.not_false, Bool.and_true, if_true]
      exact h

theorem MapTileContainer.hasTile_iff (c : MapTileContainer) (p : FHPos) :
    c.hasTile p = true ↔
      (0 ≤ p.m_x ∧ p.m_x < c.m_width) ∧ (0 ≤ p.m_y ∧ p.m_y < c.m_height)
        ∧ (0 ≤ p.m_z ∧ p.m_z < c.m_depth) := by
  simp only [MapTileContainer.hasTile, Bool.and_eq_true, decide_eq_true_eq]
  tauto

/-- C18. `makeCentroid(region, true)` returns the null pointer exactly for the
empty region; for a non-empty region whose tiles are tiles of the rectangular
grid, the lookup of the arithmetic-mean position succeeds and the tile
returned is a tile of the region. -/
theorem makeCentroid_ensureInbounds (posDistance : FHPos → FHPos → Int → Int)
    (c : MapTileContainer) (region : MapTileRegion)
    (hgrid : ∀ t ∈ region, c.hasTile t = true) :
    (MapTileArea.makeCentroid posDistance c region true = .ok none ↔ region = [])
      ∧ ∀ first rest, region = first :: rest →
        c.tileIndexAt
            { m_x := (region.foldl (fun (s : Int) (cell : FHPos) => s + cell.m_x) 0).tdiv region.length
              m_y := (region.foldl (fun (s : Int) (cell : FHPos) => s + cell.m_y) 0).tdiv region.length
              m_z := first.m_z }
          = .ok
            { m_x := (region.foldl (fun (s : Int) (cell : FHPos) => s + cell.m_x) 0).tdiv region.length
              m_y := (region.foldl (fun (s : Int) (cell : FHPos) => s + cell.m_y) 0).tdiv region.length
              m_z := first.m_z }
        ∧ ∃ t ∈ region, MapTileArea.makeCentroid posDistance c region true = .ok (some t) := by
  constructor
  · constructor
    · intro h
      by_contra hne
      exact MapTileArea.makeCentroid_ne_none posDistance c region true hne h
    · intro h
      subst h
      rfl
  · intro first rest hreg
    have hne : region ≠ [] := by
      rw [hreg]
      exact List.cons_ne_nil _ _
    have hfirst : first ∈ region := by
      rw [hreg]
      exact List.mem_cons_self _ _
    have hx := mean_bounds (fun t => t.m_x) c.m_width region hne
      (fun t ht => ((MapTileContainer.hasTile_iff c t).1 (hgrid t ht)).1)
    have hy := mean_bounds (fun t => t.m_y) c.m_height region hne
      (fun t ht => ((MapTileContainer.hasTile_iff c t).1 (hgrid t ht)).2.1)
    have hz := ((MapTileContainer.hasTile_iff c first).1 (hgrid first hfirst)).2.2
    have hpos : c.hasTile
        { m_x := (region.foldl (fun (s : Int) (cell : FHPos) => s + cell.m_x) 0).tdiv region.length
          m_y := (region.foldl (fun (s : Int) (cell : FHPos) => s + cell.m_y) 0).tdiv region.length
          m_z := first.m_z } = true :=
      (MapTileContainer.hasTile_iff c _).2 ⟨hx, hy, hz⟩
    have hat : c.tileIndexAt
        { m_x := (region.foldl (fun (s : Int) (cell : FHPos) => s + cell.m_x) 0).tdiv region.length
          m_y := (region.foldl (fun (s : Int) (cell : FHPos) => s + cell.m_y) 0).tdiv region.length
          m_z := first.m_z }
        = .ok
          { m_x := (region.foldl (fun (s : Int) (cell : FHPos) => s + cell.m_x) 0).tdiv region.length
            m_y := (region.foldl (fun (s : Int) (cell : FHPos) => s + cell.m_y) 0).tdiv region.length
            m_z := first.m_z } := by
      unfold MapTileContainer.tileIndexAt
      rw [if_pos hpos]
    refine ⟨hat, ?_⟩
    subst hreg
    unfold MapTileArea.makeCentroid
    simp only [hat]
    refine ⟨_, ?_, rfl⟩
    apply centroid_fold_mem
    simp only
    split_ifs with hm
    · rcases minElementFrom_mem
        (fun l r => decide (posDistance _ l 100 < posDistance _ r 100)) (first :: rest) first
        with h | h
      · rw [h]
        exact hfirst
      · exact h
    · simp only [Bool.true_and, Bool.not_eq_true, Bool.not_eq_true', 
        MapTileRegion.contains_false_iff, not_not] at hm
      exact hm

/-- The centroid of the three tiles `(0,0)`, `(2,0)`, `(2,1)` of the 3×2 grid. -/
theorem makeCentroid_ensureInbounds_witness :
    (∀ t ∈ [tileXY 0 0, tileXY 2 0, tileXY 2 1],
        MapTileContainer.hasTile { m_width := 3, m_height := 2, m_depth := 1 } t = true)
      ∧ ((MapTileArea.makeCentroid sampleDistance { m_width := 3, m_height := 2, m_depth := 1 }
            [tileXY 0 0, tileXY 2 0, tileXY 2 1] true = .ok none
          ↔ [tileXY 0 0, tileXY 2 0, tileXY 2 1] = [])
        ∧ ∀ first rest, [tileXY 0 0, tileXY 2 0, tileXY 2 1] = first :: rest →
          MapTileContainer.tileIndexAt { m_width := 3, m_height := 2, m_depth := 1 }
              { m_x := (([tileXY 0 0, tileXY 2 0, tileXY 2 1] : List FHPos).foldl
                  (fun (s : Int) (cell : FHPos) => s + cell.m_x) 0).tdiv
                    ([tileXY 0 0, tileXY 2 0, tileXY 2 1] : List FHPos).length
                m_y := (([tileXY 0 0, tileXY 2 0, tileXY 2 1] : List FHPos).foldl
                  (fun (s : Int) (cell : FHPos) => s + cell.m_y) 0).tdiv
                    ([tileXY 0 0, tileXY 2 0, tileXY 2 1] : List FHPos).length
                m_z := first.m_z }
            = .ok
              { m_x := (([tileXY 0 0, tileXY 2 0, tileXY 2 1] : List FHPos).foldl
                  (fun (s : Int) (cell : FHPos) => s + cell.m_x) 0).tdiv
                    ([tileXY 0 0, tileXY 2 0, tileXY 2 1] : List FHPos).length
                m_y := (([tileXY 0 0, tileXY 2 0, tileXY 2 1] : List FHPos).foldl
                  (fun (s : Int) (cell : FHPos) => s + cell.m_y) 0).tdiv
                    ([tileXY 0 0, tileXY 2 0, tileXY 2 1] : List FHPos).length
                m_z := first.m_z }
          ∧ ∃ t ∈ [tileXY 0 0, tileXY 2 0, tileXY 2 1],
            MapTileArea.makeCentroid sampleDistance
              { m_width := 3, m_height := 2, m_depth := 1 }
              [tileXY 0 0, tileXY 2 0, tileXY 2 1] true = .ok (some t)) :=
  ⟨by decide,
    makeCentroid_ensureInbounds sampleDistance { m_width := 3, m_height := 2, m_depth := 1 }
      [tileXY 0 0, tileXY 2 0, tileXY 2 1] (by decide)⟩

/-! ### Inner edge -/

theorem MapTileRegion.containsPtr_neighborPtr (c : MapTileContainer) (r : MapTileRegion)
    (t : FHPos) (dx dy : Int) :
    MapTileRegion.containsPtr r (c.neighborPtr t dx dy) = true
      ↔ c.hasTile (neighbour t dx dy) = true ∧ neighbour t dx dy ∈ r := by
  unfold MapTileContainer.neighborPtr MapTileContainer.tileIndexFind
  by_cases h : c.hasTile (neighbour t dx dy) = true
  · simp [h, MapTileRegion.containsPtr, MapTileRegion.contains]
  · simp [h, MapTileRegion.containsPtr]

theorem MapTileArea.isInnerCell_iff (c : MapTileContainer) (a : MapTileArea) (t : FHPos) :
    MapTileArea.isInnerCell c a t = true
      ↔ ∀ o ∈ neighbourOffsets a.m_diagonalGrowth,
        c.hasTile (neighbour t o.1 o.2) = true ∧ neighbour t o.1 o.2 ∈ a.m_innerArea := by
  unfold MapTileArea.isInnerCell neighbourOffsets
  cases a.m_diagonalGrowth
  · simp only [Bool.false_eq_true, if_false, Bool.and_eq_true, MapTileContainer.m_neighborB,
      MapTileContainer.m_neighborT, MapTileContainer.m_neighborR, MapTileContainer.m_neighborL,
      MapTileRegion.containsPtr_neighborPtr, List.mem_cons, List.mem_singleton,
      List.not_mem_nil, or_false, forall_eq_or_imp, forall_eq]
    tauto
  · simp only [if_true, Bool.and_eq_true, MapTileContainer.m_neighborB,
      MapTileContainer.m_neighborT, MapTileContainer.m_neighborR, MapTileContainer.m_neighborL,
      MapTileContainer.m_neighborTL, MapTileContainer.m_neighborTR,
      MapTileContainer.m_neighborBL, MapTileContainer.m_neighborBR,
      MapTileRegion.containsPtr_neighborPtr, List.mem_cons, List.mem_singleton,
      List.not_mem_nil, or_false, forall_eq_or_imp, forall_eq]
    tauto

theorem MapTileArea.removeNonInnerFromInnerEdge_innerEdge (c : MapTileContainer)
    (a : MapTileArea) (t : FHPos) :
    t ∈ (MapTileArea.removeNonInnerFromInnerEdge c a).m_innerEdge
      ↔ t ∈ a.m_innerEdge ∧ MapTileArea.isInnerCell c a t = false := by
  have h : (MapTileArea.removeNonInnerFromInnerEdge c a).m_innerEdge
      = MapTileRegion.eraseList a.m_innerEdge
          (a.m_innerEdge.filter (fun cell => MapTileArea.isInnerCell c a cell)) := rfl
  rw [h, MapTileRegion.mem_eraseList, List.mem_filter]
  constructor
  · rintro ⟨h1, h2⟩
    refine ⟨h1, ?_⟩
    cases hin : MapTileArea.isInnerCell c a t
    · rfl
    · exact absurd ⟨h1, hin⟩ h2
  · rintro ⟨h1, h2⟩
    refine ⟨h1, ?_⟩
    rintro ⟨_, h3⟩
    rw [h2] at h3
    cases h3

theorem TileZone.makeEdge_fold_iff (A : MapTileRegion) (l : List FHPos) (e : MapTileRegion)
    (t : FHPos) :
    t ∈ l.foldl
        (fun edge pos =>
          if MapTileRegion.contains A (neighbour pos 1 0)
              && MapTileRegion.contains A (neighbour pos (-1) 0)
              && MapTileRegion.contains A (neighbour pos 0 1)
              && MapTileRegion.contains A (neighbour pos 0 (-1)) then edge
          else MapTileRegion.insert edge pos) e
      ↔ t ∈ e ∨ (t ∈ l ∧ ¬ (neighbour t 1 0 ∈ A ∧ neighbour t (-1) 0 ∈ A
          ∧ neighbour t 0 1 ∈ A ∧ neighbour t 0 (-1) ∈ A)) := by
  induction l generalizing e with
  | nil => simp
  | cons x xs ih =>
    simp only [List.foldl_cons]
    rw [ih]
    by_cases hx : neighbour x 1 0 ∈ A ∧ neighbour x (-1) 0 ∈ A
        ∧ neighbour x 0 1 ∈ A ∧ neighbour x 0 (-1) ∈ A
    · have hc : (MapTileRegion.contains A (neighbour x 1 0)
          && MapTileRegion.contains A (neighbour x (-1) 0)
          && MapTileRegion.contains A (neighbour x 0 1)
          && MapTileRegion.contains A (neighbour x 0 (-1))) = true := by
        simp only [Bool.and_eq_true, MapTileRegion.contains_iff]
        tauto
      rw [if_pos hc]
      constructor
      · rintro (h | ⟨h1, h2⟩)
        · exact Or.inl h
        · exact Or.inr ⟨List.mem_cons_of_mem _ h1, h2⟩
      · rintro (h | ⟨h1, h2⟩)
        · exact Or.inl h
        · rcases List.mem_cons.1 h1 with h3 | h3
          · subst h3
            exact absurd hx h2
          · exact Or.inr ⟨h3, h2⟩
    · have hc : ¬ (MapTileRegion.contains A (neighbour x 1 0)
          && MapTileRegion.contains A (neighbour x (-1) 0)
          && MapTileRegion.contains A (neighbour x 0 1)
          && MapTileRegion.contains A (neighbour x 0 (-1))) = true := by
        simp only [Bool.and_eq_true, MapTileRegion.contains_iff]
        tauto
      rw [if_neg hc, MapTileRegion.mem_insert]
      constructor
      · rintro ((h | h) | ⟨h1, h2⟩)
        · exact Or.inl h
        · subst h
          exact Or.inr ⟨List.mem_cons_self _ _, hx⟩
        · exact Or.inr ⟨List.mem_cons_of_mem _ h1, h2⟩
      · rintro (h | ⟨h1, h2⟩)
        · exact Or.inl (Or.inl h)
        · rcases List.mem_cons.1 h1 with h3 | h3
          · exact Or.inl (Or.inr h3)
          · exact Or.inr ⟨h3, h2⟩

theorem TileZone.makeEdgeFromInnerArea_innerEdge (z : TileZone) (t : FHPos) :
    t ∈ (TileZone.makeEdgeFromInnerArea z).m_innerEdge
      ↔ t ∈ (TileZone.makeEdgeFromInnerArea z).m_innerArea
        ∧ ∃ o ∈ neighbourOffsets false,
          neighbour t o.1 o.2 ∉ (TileZone.makeEdgeFromInnerArea z).m_innerArea := by
  have h := TileZone.makeEdge_fold_iff z.m_innerArea z.m_innerArea [] t
  have he : (TileZone.makeEdgeFromInnerArea z).m_innerEdge
      = z.m_innerArea.foldl
        (fun edge pos =>
          if MapTileRegion.contains z.m_innerArea (neighbour pos 1 0)
              && MapTileRegion.contains z.m_innerArea (neighbour pos (-1) 0)
              && MapTileRegion.contains z.m_innerArea (neighbour pos 0 1)
              && MapTileRegion.contains z.m_innerArea (neighbour pos 0 (-1)) then edge
          else MapTileRegion.insert edge pos) [] := rfl
  have ha : (TileZone.makeEdgeFromInnerArea z).m_innerArea = z.m_innerArea := rfl
  rw [he, h, ha]
  simp only [List.not_mem_nil, false_or, neighbourOffsets, Bool.false_eq_true, if_false,
    List.mem_cons, List.mem_singleton, or_false, exists_eq_or_imp, exists_eq_left]
  constructor
  · rintro ⟨h1, h2⟩
    refine ⟨h1, ?_⟩
    by_contra hcon
    push_neg at hcon
    exact h2 ⟨hcon.2.2.1, hcon.2.2.2, hcon.1, hcon.2.1⟩
  · rintro ⟨h1, h2⟩
    refine ⟨h1, ?_⟩
    rintro ⟨h3, h4, h5, h6⟩
    rcases h2 with h | h | h | h
    · exact h h5
    · exact h h6
    · exact h h3
    · exact h h4

/-- C15, as the code has it. A tile is in the inner edge computed by
`MapTileArea::removeNonInnerFromInnerEdge` exactly when it was in the edge
before (the whole region, when called from `makeEdgeFromInnerArea`) and one of
its neighbour positions (4 orthogonal, or 8 with the diagonal-growth flag) is
off the grid or holds a tile outside the region; a tile is in the inner edge
computed by `TileZone::makeEdgeFromInnerArea` exactly when it is in the region
and one of its 4 orthogonal neighbour positions is not in the region. -/
theorem innerEdge_iff (c : MapTileContainer) (a : MapTileArea) (z : TileZone) (t : FHPos) :
    (t ∈ (MapTileArea.removeNonInnerFromInnerEdge c a).m_innerEdge
        ↔ t ∈ a.m_innerEdge ∧ ∃ o ∈ neighbourOffsets a.m_diagonalGrowth,
            ¬ (c.hasTile (neighbour t o.1 o.2) = true ∧ neighbour t o.1 o.2 ∈ a.m_innerArea))
      ∧ (t ∈ (MapTileArea.makeEdgeFromInnerArea c a).m_innerEdge
        ↔ t ∈ a.m_innerArea ∧ ∃ o ∈ neighbourOffsets a.m_diagonalGrowth,
            ¬ (c.hasTile (neighbour t o.1 o.2) = true ∧ neighbour t o.1 o.2 ∈ a.m_innerArea))
      ∧ (t ∈ (TileZone.makeEdgeFromInnerArea z).m_innerEdge
        ↔ t ∈ z.m_innerArea ∧ ∃ o ∈ neighbourOffsets false,
            neighbour t o.1 o.2 ∉ z.m_innerArea) := by
  have key : ∀ b : MapTileArea, MapTileArea.isInnerCell c b t = false
      ↔ ∃ o ∈ neighbourOffsets b.m_diagonalGrowth,
        ¬ (c.hasTile (neighbour t o.1 o.2) = true ∧ neighbour t o.1 o.2 ∈ b.m_innerArea) := by
    intro b
    rw [← Bool.not_eq_true, MapTileArea.isInnerCell_iff]
    push_neg
    rfl
  refine ⟨?_, ?_, ?_⟩
  · rw [MapTileArea.removeNonInnerFromInnerEdge_innerEdge, key]
  · have h := MapTileArea.removeNonInnerFromInnerEdge_innerEdge c
      { a with m_innerEdge := a.m_innerArea } t
    have hk := key { a with m_innerEdge := a.m_innerArea }
    unfold MapTileArea.makeEdgeFromInnerArea
    rw [h, hk]
  · exact TileZone.makeEdgeFromInnerArea_innerEdge z t

/-- C15 as stated fails on the border of the grid: for the region of all four
tiles of the 2×2 grid, with either growth flag, the corner tile `(0,0)` is in
the computed inner edge although every neighbouring tile of it is a tile of
the region. -/
theorem innerEdge_whole_grid :
    (tileXY 0 0 ∈ (MapTileArea.makeEdgeFromInnerArea { m_width := 2, m_height := 2, m_depth := 1 }
          { m_diagonalGrowth := false
            m_innerArea := [tileXY 0 0, tileXY 1 0, tileXY 0 1, tileXY 1 1] }).m_innerEdge
        ∧ ¬ ∃ n ∈ MapTileContainer.neighboursList { m_width := 2, m_height := 2, m_depth := 1 }
              false (tileXY 0 0),
            n ∉ [tileXY 0 0, tileXY 1 0, tileXY 0 1, tileXY 1 1])
      ∧ tileXY 0 0 ∈ (MapTileArea.makeEdgeFromInnerArea
          { m_width := 2, m_height := 2, m_depth := 1 }
          { m_diagonalGrowth := true
            m_innerArea := [tileXY 0 0, tileXY 1 0, tileXY 0 1, tileXY 1 1] }).m_innerEdge
        ∧ ¬ ∃ n ∈ MapTileContainer.neighboursList { m_width := 2, m_height := 2, m_depth := 1 }
              true (tileXY 0 0),
            n ∉ [tileXY 0 0, tileXY 1 0, tileXY 0 1, tileXY 1 1] := by
  decide

/-! ### Zone re-read from the map -/

theorem TileZone.mem_addIf_iff (reg : MapTileRegion) (point : FHPos) (predicate : FHPos → Bool)
    (t : FHPos) :
    t ∈ TileZone.addIf reg point predicate ↔ t ∈ reg ∨ (t = point ∧ predicate point = true) := by
  unfold TileZone.addIf
  by_cases hp : predicate point = true
  · simp only [hp, Bool.not_true, Bool.false_eq_true, if_false, MapTileRegion.mem_insert,
      and_true]
  · simp only [hp, Bool.not_false, if_true, and_false, or_false]
    simp

theorem TileZone.growOnce_fold_complete (predicate : FHPos → Bool) (l : List FHPos)
    (e : MapTileRegion) (n : FHPos) (hn : predicate n = true)
    (h : n ∈ e ∨ ∃ p ∈ l, orthogonallyAdjacent p n) :
    n ∈ l.foldl
        (fun reg pos =>
          TileZone.addIf
            (TileZone.addIf
              (TileZone.addIf
                (TileZone.addIf reg (neighbour pos 1 0) predicate)
                (neighbour pos (-1) 0) predicate)
              (neighbour pos 0 1) predicate)
            (neighbour pos 0 (-1)) predicate) e := by
  induction l generalizing e with
  | nil =>
    rcases h with h | ⟨p, hp, _⟩
    · exact h
    · simp at hp
  | cons x xs ih =>
    simp only [List.foldl_cons]
    apply ih
    rcases h with h | ⟨p, hp, hadj⟩
    · left
      simp only [TileZone.mem_addIf_iff]
      tauto
    · rcases List.mem_cons.1 hp with hpx | hpx
      · subst hpx
        left
        simp only [TileZone.mem_addIf_iff]
        rcases hadj with h1 | h1 | h1 | h1
        · have := h1 ▸ hn
          tauto
        · have := h1 ▸ hn
          tauto
        · have := h1 ▸ hn
          tauto
        · have := h1 ▸ hn
          tauto
      · exact Or.inr ⟨p, hpx, hadj⟩

theorem TileZone.growOnce_fold_adjacent (predicate : FHPos → Bool) (l : List FHPos)
    (e : MapTileRegion) (n : FHPos)
    (h : n ∈ l.foldl
        (fun reg pos =>
          TileZone.addIf
            (TileZone.addIf
              (TileZone.addIf
                (TileZone.addIf reg (neighbour pos 1 0) predicate)
                (neighbour pos (-1) 0) predicate)
              (neighbour pos 0 1) predicate)
            (neighbour pos 0 (-1)) predicate) e) :
    n ∈ e ∨ ∃ p ∈ l, orthogonallyAdjacent p n := by
  induction l generalizing e with
  | nil => exact Or.inl h
  | cons x xs ih =>
    simp only [List.foldl_cons] at h
    rcases ih _ h with h1 | ⟨p, hp, hadj⟩
    · simp only [TileZone.mem_addIf_iff] at h1
      rcases h1 with (((h2 | h2) | h2) | h2) | h2
      · exact Or.inl h2
      · exact Or.inr ⟨x, List.mem_cons_self _ _, Or.inl h2.1⟩
      · exact Or.inr ⟨x, List.mem_cons_self _ _, Or.inr (Or.inl h2.1)⟩
      · exact Or.inr ⟨x, List.mem_cons_self _ _, Or.inr (Or.inr (Or.inl h2.1))⟩
      · exact Or.inr ⟨x, List.mem_cons_self _ _, Or.inr (Or.inr (Or.inr h2.1))⟩
    · exact Or.inr ⟨p, List.mem_cons_of_mem _ hp, hadj⟩

theorem TileZone.readPredicate_of_zonedWith (d : MapDraft) (z : TileZone) (t : FHPos)
    (hz : d.zonedWith t z.m_index) (hn : t ∉ z.m_innerArea) :
    TileZone.readPredicate d z t = true := by
  obtain ⟨cell, hf, hzoned, hidx⟩ := hz
  unfold TileZone.readPredicate
  have hc : d.contains t = true := by
    unfold MapDraft.contains
    rw [hf]
    rfl
  have hna : MapTileRegion.contains z.m_innerArea t = false :=
    (MapTileRegion.contains_false_iff _ _).2 hn
  simp [hc, hna, hf, hzoned, hidx]

theorem TileZone.readStep_edge (d : MapDraft) (z : TileZone) (n : FHPos) :
    n ∈ (TileZone.readStep d z).m_innerEdge
      ↔ (∃ p ∈ z.m_innerEdge, orthogonallyAdjacent p n)
        ∧ n ∉ (TileZone.readStep d z).m_innerArea ∧ d.zonedWith n z.m_index := by
  constructor
  · intro h
    have h2 := (TileZone.readStep_spec d z).2.2.2 n h
    refine ⟨?_, h2.2.1, h2.2.2⟩
    rcases TileZone.growOnce_fold_adjacent _ _ _ _ h with h3 | h3
    · simp at h3
    · exact h3
  · rintro ⟨hadj, hnot, hz⟩
    exact TileZone.growOnce_fold_complete _ _ _ _
      (TileZone.readPredicate_of_zonedWith d
        { z with m_innerArea := z.m_innerEdge.foldl MapTileRegion.insert z.m_innerArea } n hz hnot)
      (Or.inr hadj)

theorem TileZone.readLoop_done (d : MapDraft) (idx : Int) (z : TileZone)
    (hemp : z.m_innerEdge.isEmpty = true)
    (hC : ∀ t ∈ z.m_innerArea, t ∈ z.m_innerEdge
      ∨ ∀ n, orthogonallyAdjacent t n → d.zonedWith n idx →
        n ∈ z.m_innerArea ∨ n ∈ z.m_innerEdge) :
    ∀ t ∈ z.m_innerArea, ∀ n, orthogonallyAdjacent t n → d.zonedWith n idx →
      n ∈ z.m_innerArea := by
  have he : z.m_innerEdge = [] := List.isEmpty_iff.1 hemp
  intro t ht n hadj hzn
  rcases hC t ht with h1 | h1
  · rw [he] at h1
    simp at h1
  · rcases h1 n hadj hzn with h2 | h2
    · exact h2
    · rw [he] at h2
      simp at h2

theorem TileZone.readLoop_reach (d : MapDraft) (seed : FHPos) (idx : Int) (fuel : Nat)
    (z z2 : TileZone) (h : TileZone.readLoop d fuel z = some z2) (hidx : z.m_index = idx)
    (hA : ∀ t ∈ z.m_innerArea,
      Relation.ReflTransGen (fun u v => orthogonallyAdjacent u v ∧ d.zonedWith v idx) seed t)
    (hE : ∀ t ∈ z.m_innerEdge,
      Relation.ReflTransGen (fun u v => orthogonallyAdjacent u v ∧ d.zonedWith v idx) seed t)
    (hC : ∀ t ∈ z.m_innerArea, t ∈ z.m_innerEdge
      ∨ ∀ n, orthogonallyAdjacent t n → d.zonedWith n idx →
        n ∈ z.m_innerArea ∨ n ∈ z.m_innerEdge) :
    (∀ t ∈ z.m_innerArea, t ∈ z2.m_innerArea)
      ∧ (∀ t ∈ z2.m_innerArea,
        Relation.ReflTransGen (fun u v => orthogonallyAdjacent u v ∧ d.zonedWith v idx) seed t)
      ∧ ∀ t ∈ z2.m_innerArea, ∀ n, orthogonallyAdjacent t n → d.zonedWith n idx →
        n ∈ z2.m_innerArea := by
  induction fuel generalizing z with
  | zero =>
    unfold TileZone.readLoop at h
    split_ifs at h with hemp
    simp only [Option.some.injEq] at h
    subst h
    exact ⟨fun _ ht => ht, hA, TileZone.readLoop_done d idx z hemp hC⟩
  | succ k ih =>
    unfold TileZone.readLoop at h
    split_ifs at h with hemp
    · simp only [Option.some.injEq] at h
      subst h
      exact ⟨fun _ ht => ht, hA, TileZone.readLoop_done d idx z hemp hC⟩
    · have hs := TileZone.readStep_spec d z
      have harea : ∀ t, t ∈ (TileZone.readStep d z).m_innerArea
          ↔ t ∈ z.m_innerArea ∨ t ∈ z.m_innerEdge := by
        intro t
        rw [hs.2.2.1, MapTileRegion.mem_insertList]
      have hres := ih (TileZone.readStep d z) h (by rw [hs.1]; exact hidx)
        (by
          intro t ht
          rcases (harea t).1 ht with h1 | h1
          · exact hA t h1
          · exact hE t h1)
        (by
          intro t ht
          obtain ⟨⟨p, hp, hadj⟩, _, hz⟩ := (TileZone.readStep_edge d z t).1 ht
          rw [hidx] at hz
          exact Relation.ReflTransGen.tail (hE p hp) ⟨hadj, hz⟩)
        (by
          intro t ht
          right
          intro n hadj hzn
          by_cases hin : n ∈ (TileZone.readStep d z).m_innerArea
          · exact Or.inl hin
          · rcases (harea t).1 ht with h1 | h1
            · rcases hC t h1 with h2 | h2
              · exact Or.inr ((TileZone.readStep_edge d z n).2
                  ⟨⟨t, h2, hadj⟩, hin, by rw [hidx]; exact hzn⟩)
              · exact absurd ((harea n).2 (h2 n hadj hzn)) hin
            · exact Or.inr ((TileZone.readStep_edge d z n).2
                ⟨⟨t, h1, hadj⟩, hin, by rw [hidx]; exact hzn⟩))
      exact ⟨fun t ht => hres.1 t ((harea t).2 (Or.inl ht)), hres.2⟩

theorem orthogonallyAdjacent_symm (a b : FHPos) (h : orthogonallyAdjacent a b) :
    orthogonallyAdjacent b a := by
  unfold orthogonallyAdjacent at h ⊢
  obtain ⟨ax, ay, az⟩ := a
  rcases h with h | h | h | h
  · subst h
    right; left
    simp [neighbour]
  · subst h
    left
    simp [neighbour]
  · subst h
    right; right; right
    simp [neighbour]
  · subst h
    right; right; left
    simp [neighbour]

theorem fourConnected_of_closed (s : List FHPos) (R : FHPos → FHPos → Prop) (seed : FHPos)
    (hR : ∀ u v, R u v → orthogonallyAdjacent u v)
    (hs : ∀ t, t ∈ s ↔ Relation.ReflTransGen R seed t) : fourConnected s := by
  have key : ∀ t, Relation.ReflTransGen R seed t →
      Relation.ReflTransGen (fun u v => v ∈ s ∧ orthogonallyAdjacent u v) seed t
        ∧ Relation.ReflTransGen (fun u v => v ∈ s ∧ orthogonallyAdjacent u v) t seed := by
    intro t ht
    induction ht with
    | refl => exact ⟨Relation.ReflTransGen.refl, Relation.ReflTransGen.refl⟩
    | tail hab hbc ih =>
      rename_i b c
      refine ⟨Relation.ReflTransGen.tail ih.1
        ⟨(hs c).2 (Relation.ReflTransGen.tail hab hbc), hR _ _ hbc⟩, ?_⟩
      exact Relation.ReflTransGen.head
        ⟨(hs b).2 hab, orthogonallyAdjacent_symm _ _ (hR _ _ hbc)⟩ ih.2
  intro a ha b hb
  exact Relation.ReflTransGen.trans (key a ((hs a).1 ha)).2 (key b ((hs b).1 hb)).1

/-- C20. Method `readFromMap` returns within its loop budget, and afterwards
the tile set of the zone is exactly the set of the seed and of the tiles
reachable from the seed by steps between orthogonal neighbours onto tiles of
the draft that are zoned with the index of the zone; the set contains the
seed and is a single 4-connected component, and the stored inner edge consists
of the tiles of the set with an orthogonal neighbour position outside it. -/
theorem readFromMap_reachable (d : MapDraft) (z : TileZone) :
    ∃ z2, TileZone.readFromMap d z = some z2
      ∧ (∀ t, t ∈ z2.m_innerArea
        ↔ Relation.ReflTransGen
            (fun u v => orthogonallyAdjacent u v ∧ d.zonedWith v z.m_index) z.m_startTile t)
      ∧ z.m_startTile ∈ z2.m_innerArea
      ∧ fourConnected z2.m_innerArea
      ∧ ∀ t, t ∈ z2.m_innerEdge
        ↔ t ∈ z2.m_innerArea
          ∧ ∃ o ∈ neighbourOffsets false, neighbour t o.1 o.2 ∉ z2.m_innerArea := by
  obtain ⟨z2, hz2, _, _, hseed, _⟩ := TileZone.readFromMap_spec d z
  have harea : (MapTileRegion.insert [] z.m_startTile) = [z.m_startTile] := by
    simp [MapTileRegion.insert, MapTileRegion.contains]
  have hz2b := hz2
  unfold TileZone.readFromMap at hz2b
  simp only [harea] at hz2b
  rcases hloop : TileZone.readLoop d (d.m_tiles.length + 1)
      (TileZone.makeEdgeFromInnerArea { z with m_innerArea := [z.m_startTile] }) with _ | z1
  · rw [hloop] at hz2b
    simp at hz2b
  · rw [hloop] at hz2b
    simp only [Option.some.injEq] at hz2b
    have h0 := TileZone.makeEdgeFromInnerArea_spec { z with m_innerArea := [z.m_startTile] }
    have hreach := TileZone.readLoop_reach d z.m_startTile z.m_index _ _ z1 hloop h0.1
      (by
        intro t ht
        rw [h0.2.2.1] at ht
        simp only [List.mem_singleton] at ht
        rw [ht])
      (by
        intro t ht
        have := h0.2.2.2 t ht
        simp only [List.mem_singleton] at this
        rw [this])
      (by
        intro t ht
        rw [h0.2.2.1] at ht
        simp only [List.mem_singleton] at ht
        left
        have hedge := TileZone.makeEdge_fold_iff [z.m_startTile] [z.m_startTile] [] t
        have he : (TileZone.makeEdgeFromInnerArea
            { z with m_innerArea := [z.m_startTile] }).m_innerEdge
            = ([z.m_startTile] : List FHPos).foldl
              (fun edge pos =>
                if MapTileRegion.contains [z.m_startTile] (neighbour pos 1 0)
                    && MapTileRegion.contains [z.m_startTile] (neighbour pos (-1) 0)
                    && MapTileRegion.contains [z.m_startTile] (neighbour pos 0 1)
                    && MapTileRegion.contains [z.m_startTile] (neighbour pos 0 (-1)) then edge
                else MapTileRegion.insert edge pos) [] := rfl
        rw [he, hedge, ht]
        right
        refine ⟨List.mem_singleton.2 rfl, ?_⟩
        rintro ⟨h1, _⟩
        have := congrArg FHPos.m_x (List.mem_singleton.1 h1)
        simp [neighbour] at this)
    have hz2area : z2.m_innerArea = z1.m_innerArea := by
      rw [← hz2b]
      rfl
    have hset : ∀ t, t ∈ z2.m_innerArea
        ↔ Relation.ReflTransGen
            (fun u v => orthogonallyAdjacent u v ∧ d.zonedWith v z.m_index) z.m_startTile t := by
      intro t
      rw [hz2area]
      constructor
      · exact hreach.2.1 t
      · intro ht
        induction ht with
        | refl =>
          rw [← hz2area]
          exact hseed
        | tail _ hbc ih => exact hreach.2.2 _ ih _ hbc.1 hbc.2
    refine ⟨z2, hz2, hset, hseed, ?_, ?_⟩
    · exact fourConnected_of_closed z2.m_innerArea _ z.m_startTile (fun _ _ h => h.1) hset
    · intro t
      have := (TileZone.makeEdgeFromInnerArea_innerEdge z1 t)
      rw [← hz2b]
      exact this

/-! ### Components of the flood fill -/

theorem neighbour_neg (u : FHPos) (dx dy : Int) :
    neighbour (neighbour u dx dy) (-dx) (-dy) = u := by
  obtain ⟨x, y, z⟩ := u
  simp [neighbour]

theorem neighbourOffsets_neg (diag : Bool) :
    ∀ o ∈ neighbourOffsets diag, (-o.1, -o.2) ∈ neighbourOffsets diag := by
  cases diag <;> decide

theorem mem_presentTiles_map (c : MapTileContainer) (u v : FHPos) (offs : List (Int × Int)) :
    v ∈ presentTiles (offs.map (fun o => c.neighborPtr u o.1 o.2))
      ↔ c.hasTile v = true ∧ ∃ o ∈ offs, v = neighbour u o.1 o.2 := by
  unfold presentTiles
  simp only [List.mem_filterMap, List.mem_map, id]
  constructor
  · rintro ⟨p, ⟨o, ho, hp⟩, hpv⟩
    subst hpv
    unfold MapTileContainer.neighborPtr MapTileContainer.tileIndexFind at hp
    split_ifs at hp with hh
    simp only [Option.some.injEq] at hp
    subst hp
    exact ⟨hh, o, ho, rfl⟩
  · rintro ⟨hh, o, ho, hv⟩
    subst hv
    refine ⟨_, ⟨o, ho, rfl⟩, ?_⟩
    unfold MapTileContainer.neighborPtr MapTileContainer.tileIndexFind
    rw [if_pos hh]

theorem MapTileContainer.mem_neighboursList (c : MapTileContainer) (useDiag : Bool)
    (u v : FHPos) :
    v ∈ c.neighboursList useDiag u
      ↔ c.hasTile v = true ∧ ∃ o ∈ neighbourOffsets useDiag, v = neighbour u o.1 o.2 := by
  cases useDiag
  · have h : c.neighboursList false u
        = presentTiles (([(0, -1), (-1, 0), (1, 0), (0, 1)] : List (Int × Int)).map
            (fun o => c.neighborPtr u o.1 o.2)) := rfl
    rw [h, mem_presentTiles_map]
    simp only [neighbourOffsets, Bool.false_eq_true, if_false, List.mem_cons, List.mem_singleton,
      List.not_mem_nil, or_false, exists_eq_or_imp, exists_eq_left]
    tauto
  · have h : c.neighboursList true u
        = presentTiles (([(0, -1), (-1, 0), (1, 0), (0, 1), (-1, -1), (1, -1), (-1, 1), (1, 1)]
            : List (Int × Int)).map (fun o => c.neighborPtr u o.1 o.2)) := rfl
    rw [h, mem_presentTiles_map]
    simp only [neighbourOffsets, if_true, List.mem_cons, List.mem_singleton,
      List.not_mem_nil, or_false, exists_eq_or_imp, exists_eq_left]
    tauto

theorem MapTileContainer.neighboursList_symm (c : MapTileContainer) (useDiag : Bool)
    (u v : FHPos) (hu : c.hasTile u = true) (h : v ∈ c.neighboursList useDiag u) :
    u ∈ c.neighboursList useDiag v := by
  rw [MapTileContainer.mem_neighboursList] at h ⊢
  obtain ⟨_, o, ho, hv⟩ := h
  refine ⟨hu, (-o.1, -o.2), neighbourOffsets_neg useDiag o ho, ?_⟩
  rw [hv, neighbour_neg]

theorem addToCurrent_cases (inner : MapTileRegion) (s : FloodState) (cell : FHPos) :
    (addToCurrent inner s cell = s ∧ (cell ∈ s.visited ∨ cell ∉ inner))
      ∨ (cell ∉ s.visited ∧ cell ∈ inner
        ∧ addToCurrent inner s cell
          = { currentBuffer := s.currentBuffer ++ [cell]
              visited := MapTileRegion.insert s.visited cell
              currentEdge := s.currentEdge ++ [cell] }) := by
  unfold addToCurrent
  by_cases hv : cell ∈ s.visited
  · left
    simp only [(MapTileRegion.contains_iff _ _).2 hv, if_true]
    exact ⟨trivial, Or.inl hv⟩
  · by_cases hi : cell ∈ inner
    · right
      simp only [(MapTileRegion.contains_false_iff _ _).2 hv, (MapTileRegion.contains_iff _ _).2 hi,
        Bool.false_eq_true, if_false, Bool.not_true]
      exact ⟨hv, hi, trivial⟩
    · left
      simp only [(MapTileRegion.contains_false_iff _ _).2 hv,
        (MapTileRegion.contains_false_iff _ _).2 hi, Bool.false_eq_true, if_false,
        Bool.not_false, if_true]
      exact ⟨trivial, Or.inr hi⟩

theorem addToCurrent_reached (c : MapTileContainer) (inner visited0 : MapTileRegion)
    (useDiag : Bool) (start : FHPos) (todo : List FHPos) (s : FloodState) (e cell : FHPos)
    (hg : s.Grown inner visited0) (hr : s.Reached c inner visited0 useDiag start todo)
    (he : e ∈ s.currentBuffer) (hn : cell ∈ c.neighboursList useDiag e) :
    (addToCurrent inner s cell).Reached c inner visited0 useDiag start todo
      ∧ (cell ∈ inner → cell ∈ (addToCurrent inner s cell).visited)
      ∧ ∀ t ∈ s.visited, t ∈ (addToCurrent inner s cell).visited := by
  rcases addToCurrent_cases inner s cell with ⟨heq, hcase⟩ | ⟨hv, hi, heq⟩
  · rw [heq]
    refine ⟨hr, ?_, fun _ ht => ht⟩
    intro hi
    rcases hcase with h | h
    · exact h
    · exact absurd hi h
  · rw [heq]
    obtain ⟨r1, r2, r3, r4⟩ := hr
    have hn0 : cell ∉ visited0 := fun hb => hv ((hg.2.2 cell).2 (Or.inl hb))
    refine ⟨⟨?_, ?_, ?_, ?_⟩, ?_, ?_⟩
    · intro t ht
      rcases List.mem_append.1 ht with ht | ht
      · exact r1 t ht
      · rw [List.mem_singleton.1 ht]
        exact Relation.ReflTransGen.tail (r1 e he) ⟨hn, hi, hn0⟩
    · intro t ht
      rcases List.mem_append.1 ht with ht | ht
      · exact List.mem_append_left _ (r2 t ht)
      · exact List.mem_append_right _ ht
    · intro t ht
      exact List.mem_append_left _ (r3 t ht)
    · intro t ht
      rcases List.mem_append.1 ht with ht | ht
      · rcases r4 t ht with h | h | h
        · exact Or.inl h
        · exact Or.inr (Or.inl (List.mem_append_left _ h))
        · refine Or.inr (Or.inr ?_)
          intro n hnn hni
          exact (MapTileRegion.mem_insert _ _ _).2 (Or.inl (h n hnn hni))
      · exact Or.inr (Or.inl (List.mem_append_right _ ht))
    · intro _
      exact (MapTileRegion.mem_insert _ _ _).2 (Or.inr rfl)
    · intro t ht
      exact (MapTileRegion.mem_insert _ _ _).2 (Or.inl ht)

theorem addToCurrent_fold_reached (c : MapTileContainer) (inner visited0 : MapTileRegion)
    (useDiag : Bool) (start : FHPos) (todo : List FHPos) (e : FHPos) (cells : List FHPos)
    (s : FloodState) (hg : s.Grown inner visited0)
    (hr : s.Reached c inner visited0 useDiag start todo) (he : e ∈ s.currentBuffer)
    (hcells : ∀ n ∈ cells, n ∈ c.neighboursList useDiag e) :
    (cells.foldl (addToCurrent inner) s).Reached c inner visited0 useDiag start todo
      ∧ (∀ n ∈ cells, n ∈ inner → n ∈ (cells.foldl (addToCurrent inner) s).visited)
      ∧ ∀ t ∈ s.visited, t ∈ (cells.foldl (addToCurrent inner) s).visited := by
  induction cells generalizing s with
  | nil => exact ⟨hr, by simp, fun _ ht => ht⟩
  | cons x xs ih =>
    simp only [List.foldl_cons]
    have h1 := addToCurrent_reached c inner visited0 useDiag start todo s e x hg hr he
      (hcells x (List.mem_cons_self _ _))
    have hg1 := addToCurrent_grown inner visited0 s x hg
    have h2 := ih (addToCurrent inner s x) hg1.1 h1.1 (hg1.2 e he)
      (fun n hn => hcells n (List.mem_cons_of_mem _ hn))
    refine ⟨h2.1, ?_, fun t ht => h2.2.2 t (h1.2.2 t ht)⟩
    intro n hn hi
    rcases List.mem_cons.1 hn with hnx | hnx
    · rw [hnx]
      exact h2.2.2 x (h1.2.1 (hnx ▸ hi))
    · exact h2.2.1 n hnx hi

theorem floodRound_reached (c : MapTileContainer) (inner visited0 : MapTileRegion)
    (useDiag : Bool) (start : FHPos) (s : FloodState) (hg : s.Grown inner visited0)
    (hr : s.Reached c inner visited0 useDiag start []) :
    (floodRound c inner useDiag s).Reached c inner visited0 useDiag start [] := by
  unfold floodRound
  have key : ∀ (edge : List FHPos) (st : FloodState), st.Grown inner visited0 →
      st.Reached c inner visited0 useDiag start edge →
      (edge.foldl (fun st edgeCell =>
          (c.neighboursList useDiag edgeCell).foldl (addToCurrent inner) st) st).Reached
          c inner visited0 useDiag start [] := by
    intro edge
    induction edge with
    | nil => intro st _ hst; exact hst
    | cons e es ih =>
      intro st hgst hst
      simp only [List.foldl_cons]
      have he : e ∈ st.currentBuffer := hst.2.2.1 e (List.mem_cons_self _ _)
      have h1 := addToCurrent_fold_reached c inner visited0 useDiag start (e :: es) e
        (c.neighboursList useDiag e) st hgst hst he (fun _ hn => hn)
      have hg1 := addToCurrent_fold_grown inner visited0 (c.neighboursList useDiag e) st hgst
      apply ih _ hg1.1
      obtain ⟨⟨r1, r2, r3, r4⟩, hclosed, _⟩ := h1
      refine ⟨r1, r2, fun t ht => r3 t (List.mem_cons_of_mem _ ht), ?_⟩
      intro t ht
      rcases r4 t ht with h | h | h
      · rcases List.mem_cons.1 h with h2 | h2
        · rw [h2]
          exact Or.inr (Or.inr hclosed)
        · exact Or.inl h2
      · exact Or.inr (Or.inl h)
      · exact Or.inr (Or.inr h)
  apply key s.currentEdge { s with currentEdge := [] } hg
  obtain ⟨r1, r2, _, r4⟩ := hr
  refine ⟨r1, by simp, r2, ?_⟩
  intro t ht
  rcases r4 t ht with h | h | h
  · simp at h
  · exact Or.inl h
  · exact Or.inr (Or.inr h)

theorem floodGrow_reached (c : MapTileContainer) (inner visited0 : MapTileRegion)
    (useDiag : Bool) (start : FHPos) (fuel : Nat) (s s2 : FloodState)
    (hrun : floodGrow c inner useDiag fuel s = some s2) (hg : s.Grown inner visited0)
    (hr : s.Reached c inner visited0 useDiag start []) :
    s2.Reached c inner visited0 useDiag start [] ∧ s2.currentEdge = [] := by
  induction fuel generalizing s with
  | zero =>
    unfold floodGrow at hrun
    split_ifs at hrun with hemp
    simp only [Option.some.injEq] at hrun
    subst hrun
    exact ⟨hr, List.isEmpty_iff.1 hemp⟩
  | succ n ih =>
    unfold floodGrow at hrun
    split_ifs at hrun with hemp
    · simp only [Option.some.injEq] at hrun
      subst hrun
      exact ⟨hr, List.isEmpty_iff.1 hemp⟩
    · exact ih _ hrun (floodRound_grown c inner visited0 useDiag s hg).1
        (floodRound_reached c inner visited0 useDiag start s hg hr)

theorem splitLoop_step (c : MapTileContainer) (inner : MapTileRegion) (useDiag : Bool)
    (fuel : Nat) (first : FHPos) (rest : List FHPos) (hint : Option FHPos)
    (visited : MapTileRegion) (result : List MapTileArea)
    (hinv : SplitInvariant inner (first :: rest) visited result)
    (hhint : ∀ h, hint = some h → h ∈ first :: rest) :
    ∃ (startCell : FHPos) (s : FloodState),
      ((hint = none ∧ startCell = first) ∨ hint = some startCell)
        ∧ s.Grown inner visited ∧ startCell ∈ s.currentBuffer
        ∧ s.Reached c inner visited useDiag startCell [] ∧ s.currentEdge = []
        ∧ splitLoop c inner useDiag (fuel + 1) (first :: rest) hint visited result
          = splitLoop c inner useDiag fuel
              (MapTileRegion.eraseList (first :: rest) (MapTileArea.makeEdgeFromInnerArea c
                { m_innerArea := MapTileRegion.ofList s.currentBuffer }).m_innerArea)
              none s.visited
              (result ++ [MapTileArea.makeEdgeFromInnerArea c
                { m_innerArea := MapTileRegion.ofList s.currentBuffer }])
        ∧ SplitInvariant inner
            (MapTileRegion.eraseList (first :: rest) (MapTileArea.makeEdgeFromInnerArea c
              { m_innerArea := MapTileRegion.ofList s.currentBuffer }).m_innerArea)
            s.visited
            (result ++ [MapTileArea.makeEdgeFromInnerArea c
              { m_innerArea := MapTileRegion.ofList s.currentBuffer }]) := by
  obtain ⟨h1, h2, h3, h4⟩ := hinv
  have hstart : ∃ startCell, (match hint with
      | some h => h
      | none => first) = startCell ∧ startCell ∈ first :: rest
        ∧ ((hint = none ∧ startCell = first) ∨ hint = some startCell) := by
    cases hint with
    | none => exact ⟨first, rfl, by simp, Or.inl ⟨rfl, rfl⟩⟩
    | some h => exact ⟨h, rfl, hhint h rfl, Or.inr rfl⟩
  obtain ⟨startCell, hsc, hmem, hwhich⟩ := hstart
  have hsi := (h2 startCell).1 hmem
  have hs0 : addToCurrent inner
      { currentBuffer := [], visited := visited, currentEdge := [] } startCell
      = { currentBuffer := [startCell], visited := MapTileRegion.insert visited startCell,
          currentEdge := [startCell] } := by
    unfold addToCurrent
    simp [(MapTileRegion.contains_false_iff _ _).2 hsi.2,
      (MapTileRegion.contains_iff _ _).2 hsi.1]
  have hg0 : FloodState.Grown inner visited
      { currentBuffer := [startCell], visited := MapTileRegion.insert visited startCell,
        currentEdge := [startCell] } := by
    refine ⟨List.nodup_singleton _, ?_, ?_⟩
    · intro t ht
      have : t = startCell := by simpa using ht
      rw [this]
      exact hsi
    · intro t
      simp [MapTileRegion.mem_insert]
  have hr0 : FloodState.Reached c inner visited useDiag startCell []
      { currentBuffer := [startCell], visited := MapTileRegion.insert visited startCell,
        currentEdge := [startCell] } := by
    refine ⟨?_, fun t ht => ht, by simp, ?_⟩
    · intro t ht
      rw [List.mem_singleton.1 ht]
    · intro t ht
      exact Or.inr (Or.inl ht)
  obtain ⟨s, hs⟩ := floodGrow_terminates c inner useDiag (inner.length + 1)
    { currentBuffer := [startCell], visited := MapTileRegion.insert visited startCell,
      currentEdge := [startCell] }
    (by
      have := List.length_filter_le
        (fun k => !MapTileRegion.contains (MapTileRegion.insert visited startCell) k) inner
      simp only [List.isEmpty_cons, Bool.false_eq_true, if_false]
      omega)
  have hgrown := floodGrow_grown c inner visited useDiag _ _ s hs hg0
  obtain ⟨⟨g1, g2, g3⟩, g4⟩ := hgrown
  have hreached := floodGrow_reached c inner visited useDiag startCell _ _ s hs hg0 hr0
  have hsb : startCell ∈ s.currentBuffer := g4 startCell (by simp)
  have hcur : ∀ t, t ∈ (MapTileArea.makeEdgeFromInnerArea c
      { m_innerArea := MapTileRegion.ofList s.currentBuffer }).m_innerArea
        ↔ t ∈ s.currentBuffer := by
    intro t
    rw [MapTileArea.makeEdgeFromInnerArea_innerArea]
    exact MapTileRegion.mem_ofList _ _
  refine ⟨startCell, s, hwhich, ⟨g1, g2, g3⟩, hsb, hreached.1, hreached.2, ?_, ?_, ?_, ?_, ?_⟩
  · cases hint with
    | none =>
      simp only at hsc
      subst hsc
      conv_lhs => unfold splitLoop
      simp only [hs0, hs]
    | some h =>
      simp only at hsc
      subst hsc
      conv_lhs => unfold splitLoop
      simp only [hs0, hs]
  · intro t
    rw [g3 t, h1 t]
    constructor
    · rintro (⟨a, ha, hta⟩ | hb)
      · exact ⟨a, List.mem_append_left _ ha, hta⟩
      · exact ⟨_, List.mem_append_right _ (List.mem_singleton.2 rfl), (hcur t).2 hb⟩
    · rintro ⟨a, ha, hta⟩
      rcases List.mem_append.1 ha with ha | ha
      · exact Or.inl ⟨a, ha, hta⟩
      · rw [List.mem_singleton.1 ha] at hta
        exact Or.inr ((hcur t).1 hta)
  · intro t
    rw [MapTileRegion.mem_eraseList, h2 t, hcur t, g3 t]
    tauto
  · rw [List.pairwise_append]
    refine ⟨h3, List.pairwise_singleton _ _, ?_⟩
    intro a ha b hb t hta htb
    rw [List.mem_singleton.1 hb] at htb
    have hv : t ∈ visited := (h1 t).2 ⟨a, ha, hta⟩
    exact (g2 t ((hcur t).1 htb)).2 hv
  · intro a ha
    rcases List.mem_append.1 ha with ha | ha
    · exact h4 a ha
    · rw [List.mem_singleton.1 ha]
      refine ⟨?_, ?_⟩
      · rw [MapTileArea.makeEdgeFromInnerArea_innerArea]
        exact MapTileRegion.nodup_insertList _ _ List.nodup_nil
      · intro t ht
        exact (g2 t ((hcur t).1 ht)).1

theorem splitLoop_extends (c : MapTileContainer) (inner : MapTileRegion) (useDiag : Bool)
    (fuel : Nat) (remain : MapTileRegion) (hint : Option FHPos) (visited : MapTileRegion)
    (result res : List MapTileArea)
    (hrun : splitLoop c inner useDiag fuel remain hint visited result = some res) :
    ∃ more, res = result ++ more := by
  induction fuel generalizing remain hint visited result with
  | zero =>
    cases remain with
    | nil =>
      simp only [splitLoop, Option.some.injEq] at hrun
      exact ⟨[], by simp [hrun]⟩
    | cons first rest => simp [splitLoop] at hrun
  | succ n ih =>
    cases remain with
    | nil =>
      simp only [splitLoop, Option.some.injEq] at hrun
      exact ⟨[], by simp [hrun]⟩
    | cons first rest =>
      unfold splitLoop at hrun
      simp only at hrun
      split at hrun
      · simp at hrun
      · obtain ⟨more, hmore⟩ := ih _ _ _ _ hrun
        exact ⟨_ :: more, by rw [hmore, List.append_assoc]; rfl⟩

theorem splitLoop_components (c : MapTileContainer) (inner : MapTileRegion) (useDiag : Bool)
    (fuel : Nat) (remain : MapTileRegion) (hint : Option FHPos) (visited : MapTileRegion)
    (result res : List MapTileArea)
    (hrun : splitLoop c inner useDiag fuel remain hint visited result = some res)
    (hinv : SplitInvariant inner remain visited result)
    (hhint : ∀ h, hint = some h → h ∈ remain)
    (hK1 : ∀ a ∈ result, ∀ t ∈ a.m_innerArea, ∀ n ∈ c.neighboursList useDiag t,
      n ∈ inner → n ∈ visited)
    (hK2 : ∀ a ∈ result, ∃ root ∈ a.m_innerArea, ∀ t ∈ a.m_innerArea,
      Relation.ReflTransGen
        (fun u v => v ∈ a.m_innerArea ∧ v ∈ c.neighboursList useDiag u) root t)
    (hK3 : result.Pairwise (fun x y => ∀ t ∈ x.m_innerArea,
      ∀ n ∈ c.neighboursList useDiag t, n ∉ y.m_innerArea)) :
    (∀ a ∈ res, ∃ root ∈ a.m_innerArea, ∀ t ∈ a.m_innerArea,
        Relation.ReflTransGen
          (fun u v => v ∈ a.m_innerArea ∧ v ∈ c.neighboursList useDiag u) root t)
      ∧ res.Pairwise (fun x y => ∀ t ∈ x.m_innerArea,
          ∀ n ∈ c.neighboursList useDiag t, n ∉ y.m_innerArea)
      ∧ ∀ a ∈ res, ∀ t ∈ a.m_innerArea, t ∈ inner := by
  induction fuel generalizing remain hint visited result with
  | zero =>
    cases remain with
    | nil =>
      simp only [splitLoop, Option.some.injEq] at hrun
      subst hrun
      exact ⟨hK2, hK3, fun a ha => (hinv.2.2.2 a ha).2⟩
    | cons first rest => simp [splitLoop] at hrun
  | succ k ih =>
    cases remain with
    | nil =>
      simp only [splitLoop, Option.some.injEq] at hrun
      subst hrun
      exact ⟨hK2, hK3, fun a ha => (hinv.2.2.2 a ha).2⟩
    | cons first rest =>
      obtain ⟨startCell, s, _, ⟨g1, g2, g3⟩, hsb, ⟨r1, _, _, r4⟩, hedge, hstep, hinv2⟩ :=
        splitLoop_step c inner useDiag k first rest hint visited result hinv hhint
      rw [hstep] at hrun
      have hcur : ∀ t, t ∈ (MapTileArea.makeEdgeFromInnerArea c
          { m_innerArea := MapTileRegion.ofList s.currentBuffer }).m_innerArea
            ↔ t ∈ s.currentBuffer := by
        intro t
        rw [MapTileArea.makeEdgeFromInnerArea_innerArea]
        exact MapTileRegion.mem_ofList _ _
      have hclosed : ∀ t ∈ s.currentBuffer, ∀ n ∈ c.neighboursList useDiag t,
          n ∈ inner → n ∈ s.visited := by
        intro t ht
        rcases r4 t ht with h | h | h
        · simp at h
        · rw [hedge] at h
          simp at h
        · exact h
      have hpath : ∀ t, Relation.ReflTransGen
          (fun u v => v ∈ c.neighboursList useDiag u ∧ v ∈ inner ∧ v ∉ visited) startCell t →
          t ∈ s.currentBuffer ∧ Relation.ReflTransGen
            (fun u v => v ∈ (MapTileArea.makeEdgeFromInnerArea c
                { m_innerArea := MapTileRegion.ofList s.currentBuffer }).m_innerArea
              ∧ v ∈ c.neighboursList useDiag u) startCell t := by
        intro t ht
        induction ht with
        | refl => exact ⟨hsb, Relation.ReflTransGen.refl⟩
        | @tail b d _ hbc ih2 =>
          have hd : d ∈ s.currentBuffer := by
            rcases (g3 d).1 (hclosed b ih2.1 d hbc.1 hbc.2.1) with h | h
            · exact absurd h hbc.2.2
            · exact h
          exact ⟨hd, Relation.ReflTransGen.tail ih2.2 ⟨(hcur d).2 hd, hbc.1⟩⟩
      apply ih _ _ _ _ hrun hinv2 (by simp)
      · intro a ha t ht n hn hi
        rcases List.mem_append.1 ha with ha | ha
        · exact (g3 n).2 (Or.inl (hK1 a ha t ht n hn hi))
        · rw [List.mem_singleton.1 ha] at ht
          exact hclosed t ((hcur t).1 ht) n hn hi
      · intro a ha
        rcases List.mem_append.1 ha with ha | ha
        · exact hK2 a ha
        · rw [List.mem_singleton.1 ha]
          exact ⟨startCell, (hcur startCell).2 hsb,
            fun t ht => (hpath t (r1 t ((hcur t).1 ht))).2⟩
      · rw [List.pairwise_append]
        refine ⟨hK3, List.pairwise_singleton _ _, ?_⟩
        intro a ha b hb t hta n hn hnb
        rw [List.mem_singleton.1 hb] at hnb
        have hnbuf := (hcur n).1 hnb
        exact (g2 n hnbuf).2 (hK1 a ha t hta n hn (g2 n hnbuf).1)

/-- C16. For every area whose tiles are tiles of the grid, either connectivity
and every hint that is null or a tile of the area, `splitByFloodFill` returns
components that are connected and maximal: any two tiles of a component are
joined by a chain of neighbouring tiles inside the component, and no tile of a
component has a neighbour in a different component. -/
theorem splitByFloodFill_components (c : MapTileContainer) (a : MapTileArea) (useDiag : Bool)
    (hint : Option FHPos) (hgrid : ∀ t ∈ a.m_innerArea, c.hasTile t = true)
    (hhint : ∀ h, hint = some h → h ∈ a.m_innerArea) :
    ∃ comps, MapTileArea.splitByFloodFill c a useDiag hint = .ok comps
      ∧ (∀ comp ∈ comps, ∀ x ∈ comp.m_innerArea, ∀ y ∈ comp.m_innerArea,
          Relation.ReflTransGen
            (fun u v => v ∈ comp.m_innerArea ∧ v ∈ c.neighboursList useDiag u) x y)
      ∧ comps.Pairwise (fun p q =>
          (∀ t ∈ p.m_innerArea, ∀ n ∈ c.neighboursList useDiag t, n ∉ q.m_innerArea)
            ∧ ∀ t ∈ q.m_innerArea, ∀ n ∈ c.neighboursList useDiag t, n ∉ p.m_innerArea) := by
  unfold MapTileArea.splitByFloodFill
  by_cases hempty : a.m_innerArea.isEmpty = true
  · exact ⟨[], by simp [hempty], by simp, List.Pairwise.nil⟩
  · obtain ⟨res, hres, _⟩ := splitLoop_spec c a.m_innerArea useDiag a.m_innerArea.length
      a.m_innerArea hint [] []
      ⟨by simp, by simp, List.Pairwise.nil, by simp⟩ (le_refl _) hhint
    obtain ⟨k2, k3, k4⟩ := splitLoop_components c a.m_innerArea useDiag a.m_innerArea.length
      a.m_innerArea hint [] [] res hres
      ⟨by simp, by simp, List.Pairwise.nil, by simp⟩ hhint (by simp) (by simp)
      List.Pairwise.nil
    refine ⟨res, ?_, ?_, ?_⟩
    · cases hint with
      | none => simp only [hempty, hres, Bool.false_eq_true, if_false]
      | some h =>
        have hc : MapTileRegion.contains a.m_innerArea h = true :=
          (MapTileRegion.contains_iff _ _).2 (hhint h rfl)
        simp only [hempty, hres, hc, Bool.not_true, Bool.false_eq_true, if_false]
    · intro comp hcomp x hx y hy
      obtain ⟨root, hroot, hall⟩ := k2 comp hcomp
      have hback : ∀ t, Relation.ReflTransGen
          (fun u v => v ∈ comp.m_innerArea ∧ v ∈ c.neighboursList useDiag u) root t →
          t ∈ comp.m_innerArea ∧ Relation.ReflTransGen
            (fun u v => v ∈ comp.m_innerArea ∧ v ∈ c.neighboursList useDiag u) t root := by
        intro t ht
        induction ht with
        | refl => exact ⟨hroot, Relation.ReflTransGen.refl⟩
        | @tail b d _ hbd ih =>
          refine ⟨hbd.1, Relation.ReflTransGen.head ⟨ih.1, ?_⟩ ih.2⟩
          exact MapTileContainer.neighboursList_symm c useDiag b d
            (hgrid b (k4 comp hcomp b ih.1)) hbd.2
      exact Relation.ReflTransGen.trans (hback x (hall x hx)).2 (hall y hy)
    · refine List.Pairwise.imp_of_mem ?_ k3
      intro p q _ hq hpq
      refine ⟨hpq, ?_⟩
      intro t ht n hn hnp
      have hsym := MapTileContainer.neighboursList_symm c useDiag t n
        (hgrid t (k4 q hq t ht)) hn
      exact hpq n hnp t hsym ht

/-- The orthogonal split of the tiles `(0,0)`, `(2,0)`, `(0,1)` of the 3×2
grid, hinted at `(2,0)`. -/
theorem splitByFloodFill_components_witness :
    ((∀ t ∈ ({ m_innerArea := [tileXY 0 0, tileXY 2 0, tileXY 0 1] } : MapTileArea).m_innerArea,
          MapTileContainer.hasTile { m_width := 3, m_height := 2, m_depth := 1 } t = true)
        ∧ ∀ h, some (tileXY 2 0) = some h →
          h ∈ ({ m_innerArea := [tileXY 0 0, tileXY 2 0, tileXY 0 1] } : MapTileArea).m_innerArea)
      ∧ ∃ comps, MapTileArea.splitByFloodFill { m_width := 3, m_height := 2, m_depth := 1 }
          { m_innerArea := [tileXY 0 0, tileXY 2 0, tileXY 0 1] } false (some (tileXY 2 0))
          = .ok comps
        ∧ (∀ comp ∈ comps, ∀ x ∈ comp.m_innerArea, ∀ y ∈ comp.m_innerArea,
            Relation.ReflTransGen
              (fun u v => v ∈ comp.m_innerArea
                ∧ v ∈ MapTileContainer.neighboursList
                  { m_width := 3, m_height := 2, m_depth := 1 } false u) x y)
        ∧ comps.Pairwise (fun p q =>
            (∀ t ∈ p.m_innerArea,
                ∀ n ∈ MapTileContainer.neighboursList
                  { m_width := 3, m_height := 2, m_depth := 1 } false t, n ∉ q.m_innerArea)
              ∧ ∀ t ∈ q.m_innerArea,
                ∀ n ∈ MapTileContainer.neighboursList
                  { m_width := 3, m_height := 2, m_depth := 1 } false t, n ∉ p.m_innerArea) :=
  ⟨⟨by decide,
      by
        intro h hh
        rw [← Option.some.inj hh]
        decide⟩,
    splitByFloodFill_components { m_width := 3, m_height := 2, m_depth := 1 }
      { m_innerArea := [tileXY 0 0, tileXY 2 0, tileXY 0 1] } false (some (tileXY 2 0))
      (by decide)
      (by
        intro h hh
        rw [← Option.some.inj hh]
        decide)⟩

/-- C17. For a non-empty area and a non-null hint, `splitByFloodFill` fails
exactly when the hint is not a tile of the area, and then with the invalid
hint error; when the hint is a tile of the area the call returns, and the first
component returned contains the hint. -/
theorem splitByFloodFill_hint (c : MapTileContainer) (a : MapTileArea) (useDiag : Bool)
    (h : FHPos) (hne : a.m_innerArea ≠ []) :
    ((∃ e, MapTileArea.splitByFloodFill c a useDiag (some h) = .error e) ↔ h ∉ a.m_innerArea)
      ∧ (h ∉ a.m_innerArea →
        MapTileArea.splitByFloodFill c a useDiag (some h) = .error .invalidTileHint)
      ∧ (h ∈ a.m_innerArea →
        ∃ first more, MapTileArea.splitByFloodFill c a useDiag (some h) = .ok (first :: more)
          ∧ h ∈ first.m_innerArea) := by
  have hempty : a.m_innerArea.isEmpty = false := by
    cases hl : a.m_innerArea with
    | nil => exact absurd hl hne
    | cons _ _ => rfl
  have hbad : h ∉ a.m_innerArea →
      MapTileArea.splitByFloodFill c a useDiag (some h) = .error .invalidTileHint := by
    intro hin
    unfold MapTileArea.splitByFloodFill
    simp only [hempty, (MapTileRegion.contains_false_iff _ _).2 hin, Bool.false_eq_true,
      if_false, Bool.not_false, if_true]
  have hgood : h ∈ a.m_innerArea →
      ∃ first more, MapTileArea.splitByFloodFill c a useDiag (some h) = .ok (first :: more)
        ∧ h ∈ first.m_innerArea := by
    intro hin
    obtain ⟨dg, area, ie, oe⟩ := a
    cases area with
    | nil => exact absurd rfl hne
    | cons f r =>
      simp only at hin
      obtain ⟨startCell, s, hwhich, _, hsb, _, _, hstep, _⟩ :=
        splitLoop_step c (f :: r) useDiag r.length f r (some h) [] []
          ⟨by simp, by simp, List.Pairwise.nil, by simp⟩
          (by
            intro h2 hh
            rw [← Option.some.inj hh]
            exact hin)
      have hsc : startCell = h := by
        rcases hwhich with ⟨h1, _⟩ | h1
        · cases h1
        · exact (Option.some.inj h1).symm
      subst hsc
      obtain ⟨res, hres, _⟩ := splitLoop_spec c (f :: r) useDiag (r.length + 1)
        (f :: r) (some startCell) [] []
        ⟨by simp, by simp, List.Pairwise.nil, by simp⟩ (le_refl _)
        (by
          intro h2 hh
          rw [← Option.some.inj hh]
          exact hin)
      have hres2 := hres
      rw [hstep] at hres2
      obtain ⟨more, hmore⟩ := splitLoop_extends _ _ _ _ _ _ _ _ _ hres2
      refine ⟨MapTileArea.makeEdgeFromInnerArea c
        { m_innerArea := MapTileRegion.ofList s.currentBuffer }, more, ?_, ?_⟩
      · unfold MapTileArea.splitByFloodFill
        have hc : MapTileRegion.contains (f :: r) startCell = true :=
          (MapTileRegion.contains_iff _ _).2 hin
        simp only [List.isEmpty_cons, hc, Bool.not_true, Bool.false_eq_true, if_false,
          List.length_cons, hres, hmore, List.nil_append, List.singleton_append]
      · rw [MapTileArea.makeEdgeFromInnerArea_innerArea]
        exact (MapTileRegion.mem_ofList _ _).2 hsb
  refine ⟨?_, hbad, hgood⟩
  constructor
  · rintro ⟨e, he⟩ hin
    obtain ⟨first, more, hok, _⟩ := hgood hin
    rw [hok] at he
    cases he
  · intro hin
    exact ⟨_, hbad hin⟩

/-- The orthogonal split of the tiles `(0,0)`, `(2,0)`, `(0,1)` of the 3×2
grid with the hint `(2,0)`: the first component is the one of `(2,0)`. -/
theorem splitByFloodFill_hint_witness :
    ({ m_innerArea := [tileXY 0 0, tileXY 2 0, tileXY 0 1] } : MapTileArea).m_innerArea ≠ []
      ∧ ((∃ e, MapTileArea.splitByFloodFill { m_width := 3, m_height := 2, m_depth := 1 }
              { m_innerArea := [tileXY 0 0, tileXY 2 0, tileXY 0 1] } false (some (tileXY 2 0))
              = .error e)
          ↔ tileXY 2 0
            ∉ ({ m_innerArea := [tileXY 0 0, tileXY 2 0, tileXY 0 1] } : MapTileArea).m_innerArea)
      ∧ (tileXY 2 0
            ∉ ({ m_innerArea := [tileXY 0 0, tileXY 2 0, tileXY 0 1] } : MapTileArea).m_innerArea →
          MapTileArea.splitByFloodFill { m_width := 3, m_height := 2, m_depth := 1 }
            { m_innerArea := [tileXY 0 0, tileXY 2 0, tileXY 0 1] } false (some (tileXY 2 0))
            = .error .invalidTileHint)
      ∧ (tileXY 2 0
            ∈ ({ m_innerArea := [tileXY 0 0, tileXY 2 0, tileXY 0 1] } : MapTileArea).m_innerArea →
          ∃ first more,
            MapTileArea.splitByFloodFill { m_width := 3, m_height := 2, m_depth := 1 }
              { m_innerArea := [tileXY 0 0, tileXY 2 0, tileXY 0 1] } false (some (tileXY 2 0))
              = .ok (first :: more)
            ∧ tileXY 2 0 ∈ first.m_innerArea) :=
  ⟨by decide,
    splitByFloodFill_hint { m_width := 3, m_height := 2, m_depth := 1 }
      { m_innerArea := [tileXY 0 0, tileXY 2 0, tileXY 0 1] } false (tileXY 2 0) (by decide)⟩

/-! ### One repair step -/

theorem processTile_flag_iff (zX zT zL zR zB : Int) :
    (processTile zX zT zL zR zB).1 = true
      ↔ 3 ≤ (decide (zX = zT)).toNat + (decide (zX = zL)).toNat + (decide (zX = zR)).toNat
            + (decide (zX = zB)).toNat
        ∨ ((decide (zX = zT)).toNat + (decide (zX = zL)).toNat + (decide (zX = zR)).toNat
            + (decide (zX = zB)).toNat = 2
          ∧ ((decide (zX = zT) && decide (zX = zL)) || (decide (zX = zT) && decide (zX = zR))
            || (decide (zX = zB) && decide (zX = zL)) || (decide (zX = zB) && decide (zX = zR)))
            = true) := by
  unfold processTile
  simp only
  generalize decide (zX = zT) = eT
  generalize decide (zX = zL) = eL
  generalize decide (zX = zR) = eR
  generalize decide (zX = zB) = eB
  cases eT <;> cases eL <;> cases eR <;> cases eB <;> simp
  all_goals split_ifs <;> simp

theorem processTile_changes (zX zT zL zR zB : Int)
    (h : (processTile zX zT zL zR zB).1 = false) : (processTile zX zT zL zR zB).2 ≠ zX := by
  unfold processTile at h ⊢
  simp only at h ⊢
  generalize hT : decide (zX = zT) = eT at h ⊢
  generalize hL : decide (zX = zL) = eL at h ⊢
  generalize hR : decide (zX = zR) = eR at h ⊢
  generalize hB : decide (zX = zB) = eB at h ⊢
  have fT : eT = false → zT ≠ zX := by
    intro he
    rw [he] at hT
    exact Ne.symm (of_decide_eq_false hT)
  have fL : eL = false → zL ≠ zX := by
    intro he
    rw [he] at hL
    exact Ne.symm (of_decide_eq_false hL)
  have fR : eR = false → zR ≠ zX := by
    intro he
    rw [he] at hR
    exact Ne.symm (of_decide_eq_false hR)
  have fB : eB = false → zB ≠ zX := by
    intro he
    rw [he] at hB
    exact Ne.symm (of_decide_eq_false hB)
  clear hT hL hR hB
  cases eT <;> cases eL <;> cases eR <;> cases eB <;> simp at h ⊢
  all_goals first
    | exact fT rfl
    | exact fL rfl
    | exact fR rfl
    | exact fB rfl
    | (split_ifs <;> first | exact fT rfl | exact fB rfl)

theorem processTile_top_bottom (zX zT zL zR zB : Int) (hT : decide (zX = zT) = true)
    (hL : decide (zX = zL) = false) (hR : decide (zX = zR) = false)
    (hB : decide (zX = zB) = true) : processTile zX zT zL zR zB = (false, zL) := by
  unfold processTile
  simp only
  rw [hT, hL, hR, hB]
  simp

theorem processTile_left_right (zX zT zL zR zB : Int) (hT : decide (zX = zT) = false)
    (hL : decide (zX = zL) = true) (hR : decide (zX = zR) = true)
    (hB : decide (zX = zB) = false) : processTile zX zT zL zR zB = (false, zT) := by
  unfold processTile
  simp only
  rw [hT, hL, hR, hB]
  simp

theorem processTile_only_top (zX zT zL zR zB : Int) (hT : decide (zX = zT) = true)
    (hL : decide (zX = zL) = false) (hR : decide (zX = zR) = false)
    (hB : decide (zX = zB) = false) : processTile zX zT zL zR zB = (false, zB) := by
  unfold processTile
  simp only
  rw [hT, hL, hR, hB]
  simp

theorem processTile_only_left (zX zT zL zR zB : Int) (hT : decide (zX = zT) = false)
    (hL : decide (zX = zL) = true) (hR : decide (zX = zR) = false)
    (hB : decide (zX = zB) = false) : processTile zX zT zL zR zB = (false, zR) := by
  unfold processTile
  simp only
  rw [hT, hL, hR, hB]
  simp

theorem processTile_only_right (zX zT zL zR zB : Int) (hT : decide (zX = zT) = false)
    (hL : decide (zX = zL) = false) (hR : decide (zX = zR) = true)
    (hB : decide (zX = zB) = false) : processTile zX zT zL zR zB = (false, zL) := by
  unfold processTile
  simp only
  rw [hT, hL, hR, hB]
  simp

theorem processTile_only_bottom (zX zT zL zR zB : Int) (hT : decide (zX = zT) = false)
    (hL : decide (zX = zL) = false) (hR : decide (zX = zR) = false)
    (hB : decide (zX = zB) = true) : processTile zX zT zL zR zB = (false, zT) := by
  unfold processTile
  simp only
  rw [hT, hL, hR, hB]
  simp

theorem processTile_none (zX zT zL zR zB : Int) (hT : decide (zX = zT) = false)
    (hL : decide (zX = zL) = false) (hR : decide (zX = zR) = false)
    (hB : decide (zX = zB) = false) :
    processTile zX zT zL zR zB
      = (false, if zT = zL ∨ zT = zR then zT else if zB = zR ∨ zB = zL then zB else zT) := by
  unfold processTile
  simp only
  rw [hT, hL, hR, hB]
  by_cases h1 : zT = zL <;> by_cases h2 : zT = zR <;> by_cases h3 : zB = zR
    <;> by_cases h4 : zB = zL <;> simp [h1, h2, h3, h4]

theorem MapDraft.sideMatches_false (d : MapDraft) (cell : MapDraft.Tile) (p : FHPos)
    (h : d.sideMatches cell p = false) :
    ∃ cell2, tilesFind d.m_tiles p = some cell2 ∧ d.sideTile cell p = cell2
      ∧ cell2.m_zoneIndex ≠ cell.m_zoneIndex := by
  unfold MapDraft.sideMatches MapDraft.sideTile at h
  unfold MapDraft.sideTile
  rcases hf : tilesFind d.m_tiles p with _ | cell2
  · rw [hf] at h
    simp at h
  · rw [hf] at h
    simp only [decide_eq_false_iff_not] at h
    exact ⟨cell2, rfl, rfl, fun hcon => h hcon.symm⟩

theorem MapDraft.sideTile_off_grid (d : MapDraft) (cell : MapDraft.Tile) (p : FHPos)
    (h : d.contains p = false) : d.sideTile cell p = cell ∧ d.sideMatches cell p = true := by
  unfold MapDraft.contains at h
  have hf : tilesFind d.m_tiles p = none := by
    cases hh : tilesFind d.m_tiles p with
    | none => rfl
    | some t =>
      rw [hh] at h
      simp at h
  have h1 : d.sideTile cell p = cell := by
    unfold MapDraft.sideTile
    rw [hf]
  refine ⟨h1, ?_⟩
  unfold MapDraft.sideMatches
  rw [h1]
  simp

theorem MapDraft.fixTile_at (d : MapDraft) (fixedCount : Int) (pos : FHPos)
    (cell : MapDraft.Tile) (hc : tilesFind d.m_tiles pos = some cell) :
    MapDraft.fixTile (d, fixedCount) pos
      = if (d.processAt pos cell).1 = true then (d, fixedCount)
        else
          ({ d with m_tiles := (tilesAssign d.m_tiles pos
              { cell with m_zoneIndex := (d.processAt pos cell).2, m_exFix := true }) },
            fixedCount + 1) := by
  unfold MapDraft.fixTile
  simp only [hc]

theorem MapDraft.fixTile_tile (d : MapDraft) (fixedCount : Int) (pos : FHPos)
    (cell : MapDraft.Tile) (hc : tilesFind d.m_tiles pos = some cell) :
    tilesFind (MapDraft.fixTile (d, fixedCount) pos).1.m_tiles pos
      = some (if (d.processAt pos cell).1 = true then cell
        else { cell with m_zoneIndex := (d.processAt pos cell).2, m_exFix := true }) := by
  rw [MapDraft.fixTile_at d fixedCount pos cell hc]
  split_ifs
  · exact hc
  · simp only [tilesFind_tilesAssign, if_true]

theorem MapDraft.processAt_flag_iff (d : MapDraft) (pos : FHPos) (cell : MapDraft.Tile) :
    (d.processAt pos cell).1 = true
      ↔ (3 ≤ (d.sideMatches cell (neighbour pos 0 (-1))).toNat
            + (d.sideMatches cell (neighbour pos (-1) 0)).toNat
            + (d.sideMatches cell (neighbour pos 1 0)).toNat
            + (d.sideMatches cell (neighbour pos 0 1)).toNat
          ∨ ((d.sideMatches cell (neighbour pos 0 (-1))).toNat
            + (d.sideMatches cell (neighbour pos (-1) 0)).toNat
            + (d.sideMatches cell (neighbour pos 1 0)).toNat
            + (d.sideMatches cell (neighbour pos 0 1)).toNat = 2
            ∧ ((d.sideMatches cell (neighbour pos 0 (-1))
                  && d.sideMatches cell (neighbour pos (-1) 0))
                || (d.sideMatches cell (neighbour pos 0 (-1))
                  && d.sideMatches cell (neighbour pos 1 0))
                || (d.sideMatches cell (neighbour pos 0 1)
                  && d.sideMatches cell (neighbour pos (-1) 0))
                || (d.sideMatches cell (neighbour pos 0 1)
                  && d.sideMatches cell (neighbour pos 1 0))) = true)) :=
  processTile_flag_iff _ _ _ _ _

theorem flags_two (t l r b : Bool) (h : t.toNat + l.toNat + r.toNat + b.toNat = 2) :
    (t = true → b = true → l = false ∧ r = false)
      ∧ (l = true → r = true → t = false ∧ b = false) := by
  revert h
  cases t <;> cases l <;> cases r <;> cases b <;> simp

theorem flags_one (t l r b : Bool) (h : t.toNat + l.toNat + r.toNat + b.toNat = 1) :
    (t = true → l = false ∧ r = false ∧ b = false)
      ∧ (l = true → t = false ∧ r = false ∧ b = false)
      ∧ (r = true → t = false ∧ l = false ∧ b = false)
      ∧ (b = true → t = false ∧ l = false ∧ r = false) := by
  revert h
  cases t <;> cases l <;> cases r <;> cases b <;> simp

theorem flags_zero (t l r b : Bool) (h : t.toNat + l.toNat + r.toNat + b.toNat = 0) :
    t = false ∧ l = false ∧ r = false ∧ b = false := by
  revert h
  cases t <;> cases l <;> cases r <;> cases b <;> simp

/-- C22. In one step of `fixExclaves`, the tile keeps its entry (and its zone
index) exactly when at least three of its four sides carry its zone index, or
exactly two do and they are adjacent sides; a side off the grid is the tile
itself and so counts as matching. -/
theorem processTile_unchanged_iff (d : MapDraft) (fixedCount : Int) (pos : FHPos)
    (cell : MapDraft.Tile) (hc : tilesFind d.m_tiles pos = some cell) :
    ((d.processAt pos cell).1 = true
        ↔ (3 ≤ (d.sideMatches cell (neighbour pos 0 (-1))).toNat
            + (d.sideMatches cell (neighbour pos (-1) 0)).toNat
            + (d.sideMatches cell (neighbour pos 1 0)).toNat
            + (d.sideMatches cell (neighbour pos 0 1)).toNat
          ∨ ((d.sideMatches cell (neighbour pos 0 (-1))).toNat
            + (d.sideMatches cell (neighbour pos (-1) 0)).toNat
            + (d.sideMatches cell (neighbour pos 1 0)).toNat
            + (d.sideMatches cell (neighbour pos 0 1)).toNat = 2
            ∧ ((d.sideMatches cell (neighbour pos 0 (-1))
                  && d.sideMatches cell (neighbour pos (-1) 0))
                || (d.sideMatches cell (neighbour pos 0 (-1))
                  && d.sideMatches cell (neighbour pos 1 0))
                || (d.sideMatches cell (neighbour pos 0 1)
                  && d.sideMatches cell (neighbour pos (-1) 0))
                || (d.sideMatches cell (neighbour pos 0 1)
                  && d.sideMatches cell (neighbour pos 1 0))) = true)))
      ∧ (tilesFind (MapDraft.fixTile (d, fixedCount) pos).1.m_tiles pos = some cell
        ↔ (3 ≤ (d.sideMatches cell (neighbour pos 0 (-1))).toNat
            + (d.sideMatches cell (neighbour pos (-1) 0)).toNat
            + (d.sideMatches cell (neighbour pos 1 0)).toNat
            + (d.sideMatches cell (neighbour pos 0 1)).toNat
          ∨ ((d.sideMatches cell (neighbour pos 0 (-1))).toNat
            + (d.sideMatches cell (neighbour pos (-1) 0)).toNat
            + (d.sideMatches cell (neighbour pos 1 0)).toNat
            + (d.sideMatches cell (neighbour pos 0 1)).toNat = 2
            ∧ ((d.sideMatches cell (neighbour pos 0 (-1))
                  && d.sideMatches cell (neighbour pos (-1) 0))
                || (d.sideMatches cell (neighbour pos 0 (-1))
                  && d.sideMatches cell (neighbour pos 1 0))
                || (d.sideMatches cell (neighbour pos 0 1)
                  && d.sideMatches cell (neighbour pos (-1) 0))
                || (d.sideMatches cell (neighbour pos 0 1)
                  && d.sideMatches cell (neighbour pos 1 0))) = true)))
      ∧ ((∃ cell2, tilesFind (MapDraft.fixTile (d, fixedCount) pos).1.m_tiles pos = some cell2
            ∧ cell2.m_zoneIndex = cell.m_zoneIndex)
        ↔ (3 ≤ (d.sideMatches cell (neighbour pos 0 (-1))).toNat
            + (d.sideMatches cell (neighbour pos (-1) 0)).toNat
            + (d.sideMatches cell (neighbour pos 1 0)).toNat
            + (d.sideMatches cell (neighbour pos 0 1)).toNat
          ∨ ((d.sideMatches cell (neighbour pos 0 (-1))).toNat
            + (d.sideMatches cell (neighbour pos (-1) 0)).toNat
            + (d.sideMatches cell (neighbour pos 1 0)).toNat
            + (d.sideMatches cell (neighbour pos 0 1)).toNat = 2
            ∧ ((d.sideMatches cell (neighbour pos 0 (-1))
                  && d.sideMatches cell (neighbour pos (-1) 0))
                || (d.sideMatches cell (neighbour pos 0 (-1))
                  && d.sideMatches cell (neighbour pos 1 0))
                || (d.sideMatches cell (neighbour pos 0 1)
                  && d.sideMatches cell (neighbour pos (-1) 0))
                || (d.sideMatches cell (neighbour pos 0 1)
                  && d.sideMatches cell (neighbour pos 1 0))) = true)))
      ∧ ∀ p, d.contains p = false → d.sideTile cell p = cell ∧ d.sideMatches cell p = true := by
  have hflag := MapDraft.processAt_flag_iff d pos cell
  have htile := MapDraft.fixTile_tile d fixedCount pos cell hc
  refine ⟨hflag, ?_, ?_, MapDraft.sideTile_off_grid d cell⟩
  · rw [← hflag, htile]
    by_cases hp : (d.processAt pos cell).1 = true
    · simp [hp]
    · have hne := processTile_changes _ _ _ _ _ (Bool.not_eq_true _ ▸ hp)
      simp only [hp, Bool.false_eq_true, if_false, Option.some.injEq, iff_false]
      intro hcon
      apply hne
      have := congrArg MapDraft.Tile.m_zoneIndex hcon
      exact this
  · rw [← hflag, htile]
    by_cases hp : (d.processAt pos cell).1 = true
    · simp [hp]
    · have hne := processTile_changes _ _ _ _ _ (Bool.not_eq_true _ ▸ hp)
      simp only [hp, Bool.false_eq_true, if_false, Option.some.injEq, iff_false]
      rintro ⟨cell2, h1, h2⟩
      apply hne
      rw [← h1] at h2
      exact h2

set_option maxRecDepth 8192 in
/-- The centre tile of the uniformly zoned 3×3 grid has four matching sides. -/
theorem processTile_unchanged_iff_witness :
    tilesFind draftUniform.m_tiles (tileXY 1 1) = some (zonedTile 0)
      ∧ (draftUniform.processAt (tileXY 1 1) (zonedTile 0)).1 = true
      ∧ tilesFind (MapDraft.fixTile (draftUniform, 0) (tileXY 1 1)).1.m_tiles (tileXY 1 1)
        = some (zonedTile 0) :=
  ⟨by decide,
    (processTile_unchanged_iff draftUniform 0 (tileXY 1 1) (zonedTile 0) (by decide)).1.2
      (Or.inl (by decide)),
    (processTile_unchanged_iff draftUniform 0 (tileXY 1 1) (zonedTile 0) (by decide)).2.1.2
      (Or.inl (by decide))⟩

/-- C23. In one step of `fixExclaves`, a tile with exactly two matching sides
that are opposite takes the zone index of a perpendicular neighbour, which is a
tile of the grid with another zone index: the left neighbour when top and
bottom match, the top neighbour when left and right match. -/
theorem processTile_opposite_sides (d : MapDraft) (fixedCount : Int) (pos : FHPos)
    (cell : MapDraft.Tile) (hc : tilesFind d.m_tiles pos = some cell)
    (hcount : (d.sideMatches cell (neighbour pos 0 (-1))).toNat
        + (d.sideMatches cell (neighbour pos (-1) 0)).toNat
        + (d.sideMatches cell (neighbour pos 1 0)).toNat
        + (d.sideMatches cell (neighbour pos 0 1)).toNat = 2) :
    (d.sideMatches cell (neighbour pos 0 (-1)) = true → d.sideMatches cell (neighbour pos 0 1) = true →
        ∃ cellL, tilesFind d.m_tiles (neighbour pos (-1) 0) = some cellL
            ∧ cellL.m_zoneIndex ≠ cell.m_zoneIndex
            ∧ d.processAt pos cell = (false, cellL.m_zoneIndex)
            ∧ MapDraft.fixTile (d, fixedCount) pos
              = ({ d with m_tiles := (tilesAssign d.m_tiles pos
                  { cell with m_zoneIndex := cellL.m_zoneIndex, m_exFix := true }) },
                fixedCount + 1))
      ∧ (d.sideMatches cell (neighbour pos (-1) 0) = true → d.sideMatches cell (neighbour pos 1 0) = true →
        ∃ cellT, tilesFind d.m_tiles (neighbour pos 0 (-1)) = some cellT
            ∧ cellT.m_zoneIndex ≠ cell.m_zoneIndex
            ∧ d.processAt pos cell = (false, cellT.m_zoneIndex)
            ∧ MapDraft.fixTile (d, fixedCount) pos
              = ({ d with m_tiles := (tilesAssign d.m_tiles pos
                  { cell with m_zoneIndex := cellT.m_zoneIndex, m_exFix := true }) },
                fixedCount + 1)) := by
  have hat := MapDraft.fixTile_at d fixedCount pos cell hc
  constructor
  · intro hT hB
    obtain ⟨hL, hR⟩ := (flags_two _ _ _ _ hcount).1 hT hB
    obtain ⟨cellL, hf, hside, hne⟩ := MapDraft.sideMatches_false d cell _ hL
    have hp : d.processAt pos cell = (false, cellL.m_zoneIndex) := by
      rw [← hside]
      exact processTile_top_bottom _ _ _ _ _ hT hL hR hB
    refine ⟨cellL, hf, hne, hp, ?_⟩
    rw [hat, hp]
    simp
  · intro hL hR
    obtain ⟨hT, hB⟩ := (flags_two _ _ _ _ hcount).2 hL hR
    obtain ⟨cellT, hf, hside, hne⟩ := MapDraft.sideMatches_false d cell _ hT
    have hp : d.processAt pos cell = (false, cellT.m_zoneIndex) := by
      rw [← hside]
      exact processTile_left_right _ _ _ _ _ hT hL hR hB
    refine ⟨cellT, hf, hne, hp, ?_⟩
    rw [hat, hp]
    simp

set_option maxRecDepth 8192 in
/-- The centre tile of the grid tagged `0 0 1`, `1 0 1`, `1 0 0` matches above
and below and takes zone 1 from the left; the centre tile of the grid tagged
`3 1 3`, `0 0 0`, `3 2 3` matches left and right and takes zone 1 from above. -/
theorem processTile_opposite_sides_witness :
    ((tilesFind draftOscillating.m_tiles (tileXY 1 1) = some (zonedTile 0)
          ∧ (draftOscillating.sideMatches (zonedTile 0) (neighbour (tileXY 1 1) 0 (-1))).toNat
            + (draftOscillating.sideMatches (zonedTile 0) (neighbour (tileXY 1 1) (-1) 0)).toNat
            + (draftOscillating.sideMatches (zonedTile 0) (neighbour (tileXY 1 1) 1 0)).toNat
            + (draftOscillating.sideMatches (zonedTile 0) (neighbour (tileXY 1 1) 0 1)).toNat = 2
          ∧ draftOscillating.sideMatches (zonedTile 0) (neighbour (tileXY 1 1) 0 (-1)) = true
          ∧ draftOscillating.sideMatches (zonedTile 0) (neighbour (tileXY 1 1) 0 1) = true)
        ∧ ∃ cellL, tilesFind draftOscillating.m_tiles (neighbour (tileXY 1 1) (-1) 0) = some cellL
            ∧ cellL.m_zoneIndex ≠ (zonedTile 0).m_zoneIndex
            ∧ draftOscillating.processAt (tileXY 1 1) (zonedTile 0) = (false, cellL.m_zoneIndex)
            ∧ MapDraft.fixTile (draftOscillating, 0) (tileXY 1 1)
              = ({ draftOscillating with m_tiles := (tilesAssign draftOscillating.m_tiles (tileXY 1 1)
                  { (zonedTile 0) with m_zoneIndex := cellL.m_zoneIndex, m_exFix := true }) },
                0 + 1))
      ∧ (tilesFind (draft3x3 3 0 3 1 0 2 3 0 3).m_tiles (tileXY 1 1) = some (zonedTile 0)
          ∧ ((draft3x3 3 0 3 1 0 2 3 0 3).sideMatches (zonedTile 0) (neighbour (tileXY 1 1) 0 (-1))).toNat
            + ((draft3x3 3 0 3 1 0 2 3 0 3).sideMatches (zonedTile 0) (neighbour (tileXY 1 1) (-1) 0)).toNat
            + ((draft3x3 3 0 3 1 0 2 3 0 3).sideMatches (zonedTile 0) (neighbour (tileXY 1 1) 1 0)).toNat
            + ((draft3x3 3 0 3 1 0 2 3 0 3).sideMatches (zonedTile 0) (neighbour (tileXY 1 1) 0 1)).toNat = 2
          ∧ (draft3x3 3 0 3 1 0 2 3 0 3).sideMatches (zonedTile 0) (neighbour (tileXY 1 1) (-1) 0) = true
          ∧ (draft3x3 3 0 3 1 0 2 3 0 3).sideMatches (zonedTile 0) (neighbour (tileXY 1 1) 1 0) = true)
        ∧ ∃ cellT, tilesFind (draft3x3 3 0 3 1 0 2 3 0 3).m_tiles (neighbour (tileXY 1 1) 0 (-1)) = some cellT
            ∧ cellT.m_zoneIndex ≠ (zonedTile 0).m_zoneIndex
            ∧ (draft3x3 3 0 3 1 0 2 3 0 3).processAt (tileXY 1 1) (zonedTile 0) = (false, cellT.m_zoneIndex)
            ∧ MapDraft.fixTile ((draft3x3 3 0 3 1 0 2 3 0 3), 0) (tileXY 1 1)
              = ({ (draft3x3 3 0 3 1 0 2 3 0 3) with m_tiles := (tilesAssign (draft3x3 3 0 3 1 0 2 3 0 3).m_tiles (tileXY 1 1)
                  { (zonedTile 0) with m_zoneIndex := cellT.m_zoneIndex, m_exFix := true }) },
                0 + 1) :=
  ⟨⟨⟨by decide, by decide, by decide, by decide⟩,
      (processTile_opposite_sides draftOscillating 0 (tileXY 1 1) (zonedTile 0) (by decide) (by decide)).1
        (by decide) (by decide)⟩,
    ⟨by decide, by decide, by decide, by decide⟩,
    (processTile_opposite_sides (draft3x3 3 0 3 1 0 2 3 0 3) 0 (tileXY 1 1) (zonedTile 0) (by decide) (by decide)).2
      (by decide) (by decide)⟩

/-- C24. In one step of `fixExclaves`, a tile with exactly one matching side
takes the zone index of the neighbour on the opposite side, which is a tile of
the grid with another zone index: match above, the neighbour below; match on
the left, the right neighbour; match on the right, the left neighbour; match
below, the neighbour above. -/
theorem processTile_one_side (d : MapDraft) (fixedCount : Int) (pos : FHPos)
    (cell : MapDraft.Tile) (hc : tilesFind d.m_tiles pos = some cell)
    (hcount : (d.sideMatches cell (neighbour pos 0 (-1))).toNat
        + (d.sideMatches cell (neighbour pos (-1) 0)).toNat
        + (d.sideMatches cell (neighbour pos 1 0)).toNat
        + (d.sideMatches cell (neighbour pos 0 1)).toNat = 1) :
    (d.sideMatches cell (neighbour pos 0 (-1)) = true →
        ∃ cellB, tilesFind d.m_tiles (neighbour pos 0 1) = some cellB
            ∧ cellB.m_zoneIndex ≠ cell.m_zoneIndex
            ∧ d.processAt pos cell = (false, cellB.m_zoneIndex)
            ∧ MapDraft.fixTile (d, fixedCount) pos
              = ({ d with m_tiles := (tilesAssign d.m_tiles pos
                  { cell with m_zoneIndex := cellB.m_zoneIndex, m_exFix := true }) },
                fixedCount + 1))
      ∧ (d.sideMatches cell (neighbour pos (-1) 0) = true →
        ∃ cellR, tilesFind d.m_tiles (neighbour pos 1 0) = some cellR
            ∧ cellR.m_zoneIndex ≠ cell.m_zoneIndex
            ∧ d.processAt pos cell = (false, cellR.m_zoneIndex)
            ∧ MapDraft.fixTile (d, fixedCount) pos
              = ({ d with m_tiles := (tilesAssign d.m_tiles pos
                  { cell with m_zoneIndex := cellR.m_zoneIndex, m_exFix := true }) },
                fixedCount + 1))
      ∧ (d.sideMatches cell (neighbour pos 1 0) = true →
        ∃ cellL, tilesFind d.m_tiles (neighbour pos (-1) 0) = some cellL
            ∧ cellL.m_zoneIndex ≠ cell.m_zoneIndex
            ∧ d.processAt pos cell = (false, cellL.m_zoneIndex)
            ∧ MapDraft.fixTile (d, fixedCount) pos
              = ({ d with m_tiles := (tilesAssign d.m_tiles pos
                  { cell with m_zoneIndex := cellL.m_zoneIndex, m_exFix := true }) },
                fixedCount + 1))
      ∧ (d.sideMatches cell (neighbour pos 0 1) = true →
        ∃ cellT, tilesFind d.m_tiles (neighbour pos 0 (-1)) = some cellT
            ∧ cellT.m_zoneIndex ≠ cell.m_zoneIndex
            ∧ d.processAt pos cell = (false, cellT.m_zoneIndex)
            ∧ MapDraft.fixTile (d, fixedCount) pos
              = ({ d with m_tiles := (tilesAssign d.m_tiles pos
                  { cell with m_zoneIndex := cellT.m_zoneIndex, m_exFix := true }) },
                fixedCount + 1)) := by
  have hat := MapDraft.fixTile_at d fixedCount pos cell hc
  have hfl := flags_one _ _ _ _ hcount
  refine ⟨?_, ?_, ?_, ?_⟩
  · intro hT
    obtain ⟨hL, hR, hB⟩ := hfl.1 hT
    obtain ⟨cellB, hf, hside, hne⟩ := MapDraft.sideMatches_false d cell _ hB
    have hp : d.processAt pos cell = (false, cellB.m_zoneIndex) := by
      rw [← hside]
      exact processTile_only_top _ _ _ _ _ hT hL hR hB
    refine ⟨cellB, hf, hne, hp, ?_⟩
    rw [hat, hp]
    simp
  · intro hL
    obtain ⟨hT, hR, hB⟩ := hfl.2.1 hL
    obtain ⟨cellR, hf, hside, hne⟩ := MapDraft.sideMatches_false d cell _ hR
    have hp : d.processAt pos cell = (false, cellR.m_zoneIndex) := by
      rw [← hside]
      exact processTile_only_left _ _ _ _ _ hT hL hR hB
    refine ⟨cellR, hf, hne, hp, ?_⟩
    rw [hat, hp]
    simp
  · intro hR
    obtain ⟨hT, hL, hB⟩ := hfl.2.2.1 hR
    obtain ⟨cellL, hf, hside, hne⟩ := MapDraft.sideMatches_false d cell _ hL
    have hp : d.processAt pos cell = (false, cellL.m_zoneIndex) := by
      rw [← hside]
      exact processTile_only_right _ _ _ _ _ hT hL hR hB
    refine ⟨cellL, hf, hne, hp, ?_⟩
    rw [hat, hp]
    simp
  · intro hB
    obtain ⟨hT, hL, hR⟩ := hfl.2.2.2 hB
    obtain ⟨cellT, hf, hside, hne⟩ := MapDraft.sideMatches_false d cell _ hT
    have hp : d.processAt pos cell = (false, cellT.m_zoneIndex) := by
      rw [← hside]
      exact processTile_only_bottom _ _ _ _ _ hT hL hR hB
    refine ⟨cellT, hf, hne, hp, ?_⟩
    rw [hat, hp]
    simp

set_option maxRecDepth 8192 in
/-- Four 3×3 grids whose centre tile, in zone 0, matches only above, only on the
left, only on the right and only below. -/
theorem processTile_one_side_witness :
    ((tilesFind (draft3x3 4 1 4 0 0 3 4 2 4).m_tiles (tileXY 1 1) = some (zonedTile 0)
          ∧ ((draft3x3 4 1 4 0 0 3 4 2 4).sideMatches (zonedTile 0) (neighbour (tileXY 1 1) 0 (-1))).toNat
            + ((draft3x3 4 1 4 0 0 3 4 2 4).sideMatches (zonedTile 0) (neighbour (tileXY 1 1) (-1) 0)).toNat
            + ((draft3x3 4 1 4 0 0 3 4 2 4).sideMatches (zonedTile 0) (neighbour (tileXY 1 1) 1 0)).toNat
            + ((draft3x3 4 1 4 0 0 3 4 2 4).sideMatches (zonedTile 0) (neighbour (tileXY 1 1) 0 1)).toNat = 1
          ∧ (draft3x3 4 1 4 0 0 3 4 2 4).sideMatches (zonedTile 0) (neighbour (tileXY 1 1) 0 (-1)) = true)
        ∧ ∃ cellB, tilesFind (draft3x3 4 1 4 0 0 3 4 2 4).m_tiles (neighbour (tileXY 1 1) 0 1) = some cellB
            ∧ cellB.m_zoneIndex ≠ (zonedTile 0).m_zoneIndex
            ∧ (draft3x3 4 1 4 0 0 3 4 2 4).processAt (tileXY 1 1) (zonedTile 0) = (false, cellB.m_zoneIndex)
            ∧ MapDraft.fixTile ((draft3x3 4 1 4 0 0 3 4 2 4), 0) (tileXY 1 1)
              = ({ (draft3x3 4 1 4 0 0 3 4 2 4) with m_tiles := (tilesAssign (draft3x3 4 1 4 0 0 3 4 2 4).m_tiles (tileXY 1 1)
                  { (zonedTile 0) with m_zoneIndex := cellB.m_zoneIndex, m_exFix := true }) },
                0 + 1))
      ∧ ((tilesFind (draft3x3 4 0 4 1 0 3 4 2 4).m_tiles (tileXY 1 1) = some (zonedTile 0)
          ∧ ((draft3x3 4 0 4 1 0 3 4 2 4).sideMatches (zonedTile 0) (neighbour (tileXY 1 1) 0 (-1))).toNat
            + ((draft3x3 4 0 4 1 0 3 4 2 4).sideMatches (zonedTile 0) (neighbour (tileXY 1 1) (-1) 0)).toNat
            + ((draft3x3 4 0 4 1 0 3 4 2 4).sideMatches (zonedTile 0) (neighbour (tileXY 1 1) 1 0)).toNat
            + ((draft3x3 4 0 4 1 0 3 4 2 4).sideMatches (zonedTile 0) (neighbour (tileXY 1 1) 0 1)).toNat = 1
          ∧ (draft3x3 4 0 4 1 0 3 4 2 4).sideMatches (zonedTile 0) (neighbour (tileXY 1 1) (-1) 0) = true)
        ∧ ∃ cellR, tilesFind (draft3x3 4 0 4 1 0 3 4 2 4).m_tiles (neighbour (tileXY 1 1) 1 0) = some cellR
            ∧ cellR.m_zoneIndex ≠ (zonedTile 0).m_zoneIndex
            ∧ (draft3x3 4 0 4 1 0 3 4 2 4).processAt (tileXY 1 1) (zonedTile 0) = (false, cellR.m_zoneIndex)
            ∧ MapDraft.fixTile ((draft3x3 4 0 4 1 0 3 4 2 4), 0) (tileXY 1 1)
              = ({ (draft3x3 4 0 4 1 0 3 4 2 4) with m_tiles := (tilesAssign (draft3x3 4 0 4 1 0 3 4 2 4).m_tiles (tileXY 1 1)
                  { (zonedTile 0) with m_zoneIndex := cellR.m_zoneIndex, m_exFix := true }) },
                0 + 1))
      ∧ ((tilesFind (draft3x3 4 1 4 2 0 3 4 0 4).m_tiles (tileXY 1 1) = some (zonedTile 0)
          ∧ ((draft3x3 4 1 4 2 0 3 4 0 4).sideMatches (zonedTile 0) (neighbour (tileXY 1 1) 0 (-1))).toNat
            + ((draft3x3 4 1 4 2 0 3 4 0 4).sideMatches (zonedTile 0) (neighbour (tileXY 1 1) (-1) 0)).toNat
            + ((draft3x3 4 1 4 2 0 3 4 0 4).sideMatches (zonedTile 0) (neighbour (tileXY 1 1) 1 0)).toNat
            + ((draft3x3 4 1 4 2 0 3 4 0 4).sideMatches (zonedTile 0) (neighbour (tileXY 1 1) 0 1)).toNat = 1
          ∧ (draft3x3 4 1 4 2 0 3 4 0 4).sideMatches (zonedTile 0) (neighbour (tileXY 1 1) 1 0) = true)
        ∧ ∃ cellL, tilesFind (draft3x3 4 1 4 2 0 3 4 0 4).m_tiles (neighbour (tileXY 1 1) (-1) 0) = some cellL
            ∧ cellL.m_zoneIndex ≠ (zonedTile 0).m_zoneIndex
            ∧ (draft3x3 4 1 4 2 0 3 4 0 4).processAt (tileXY 1 1) (zonedTile 0) = (false, cellL.m_zoneIndex)
            ∧ MapDraft.fixTile ((draft3x3 4 1 4 2 0 3 4 0 4), 0) (tileXY 1 1)
              = ({ (draft3x3 4 1 4 2 0 3 4 0 4) with m_tiles := (tilesAssign (draft3x3 4 1 4 2 0 3 4 0 4).m_tiles (tileXY 1 1)
                  { (zonedTile 0) with m_zoneIndex := cellL.m_zoneIndex, m_exFix := true }) },
                0 + 1))
      ∧ ((tilesFind (draft3x3 4 1 4 2 0 0 4 3 4).m_tiles (tileXY 1 1) = some (zonedTile 0)
          ∧ ((draft3x3 4 1 4 2 0 0 4 3 4).sideMatches (zonedTile 0) (neighbour (tileXY 1 1) 0 (-1))).toNat
            + ((draft3x3 4 1 4 2 0 0 4 3 4).sideMatches (zonedTile 0) (neighbour (tileXY 1 1) (-1) 0)).toNat
            + ((draft3x3 4 1 4 2 0 0 4 3 4).sideMatches (zonedTile 0) (neighbour (tileXY 1 1) 1 0)).toNat
            + ((draft3x3 4 1 4 2 0 0 4 3 4).sideMatches (zonedTile 0) (neighbour (tileXY 1 1) 0 1)).toNat = 1
          ∧ (draft3x3 4 1 4 2 0 0 4 3 4).sideMatches (zonedTile 0) (neighbour (tileXY 1 1) 0 1) = true)
        ∧ ∃ cellT, tilesFind (draft3x3 4 1 4 2 0 0 4 3 4).m_tiles (neighbour (tileXY 1 1) 0 (-1)) = some cellT
            ∧ cellT.m_zoneIndex ≠ (zonedTile 0).m_zoneIndex
            ∧ (draft3x3 4 1 4 2 0 0 4 3 4).processAt (tileXY 1 1) (zonedTile 0) = (false, cellT.m_zoneIndex)
            ∧ MapDraft.fixTile ((draft3x3 4 1 4 2 0 0 4 3 4), 0) (tileXY 1 1)
              = ({ (draft3x3 4 1 4 2 0 0 4 3 4) with m_tiles := (tilesAssign (draft3x3 4 1 4 2 0 0 4 3 4).m_tiles (tileXY 1 1)
                  { (zonedTile 0) with m_zoneIndex := cellT.m_zoneIndex, m_exFix := true }) },
                0 + 1)) :=
  ⟨⟨⟨by decide, by decide, by decide⟩,
      (processTile_one_side (draft3x3 4 1 4 0 0 3 4 2 4) 0 (tileXY 1 1) (zonedTile 0) (by decide) (by decide)).1 (by decide)⟩,
    ⟨⟨by decide, by decide, by decide⟩,
      (processTile_one_side (draft3x3 4 0 4 1 0 3 4 2 4) 0 (tileXY 1 1) (zonedTile 0) (by decide) (by decide)).2.1 (by decide)⟩,
    ⟨⟨by decide, by decide, by decide⟩,
      (processTile_one_side (draft3x3 4 1 4 2 0 3 4 0 4) 0 (tileXY 1 1) (zonedTile 0) (by decide) (by decide)).2.2.1 (by decide)⟩,
    ⟨by decide, by decide, by decide⟩,
    (processTile_one_side (draft3x3 4 1 4 2 0 0 4 3 4) 0 (tileXY 1 1) (zonedTile 0) (by decide) (by decide)).2.2.2 (by decide)⟩

/-- C25, as the code has it. In one step of `fixExclaves`, a tile with no
matching side has four neighbours on the grid, all with another zone index; it
takes the zone index of the top neighbour when the top neighbour agrees with
the left or the right one, else that of the bottom neighbour when the bottom
neighbour agrees with the right or the left one, else that of the top
neighbour. Only pairs of adjacent sides are compared. -/
theorem processTile_no_side (d : MapDraft) (fixedCount : Int) (pos : FHPos)
    (cell : MapDraft.Tile) (hc : tilesFind d.m_tiles pos = some cell)
    (hcount : (d.sideMatches cell (neighbour pos 0 (-1))).toNat
        + (d.sideMatches cell (neighbour pos (-1) 0)).toNat
        + (d.sideMatches cell (neighbour pos 1 0)).toNat
        + (d.sideMatches cell (neighbour pos 0 1)).toNat = 0) :
    ∃ cellT cellL cellR cellB zoneIndex,
      tilesFind d.m_tiles (neighbour pos 0 (-1)) = some cellT
        ∧ tilesFind d.m_tiles (neighbour pos (-1) 0) = some cellL
        ∧ tilesFind d.m_tiles (neighbour pos 1 0) = some cellR
        ∧ tilesFind d.m_tiles (neighbour pos 0 1) = some cellB
        ∧ cellT.m_zoneIndex ≠ cell.m_zoneIndex ∧ cellL.m_zoneIndex ≠ cell.m_zoneIndex
        ∧ cellR.m_zoneIndex ≠ cell.m_zoneIndex ∧ cellB.m_zoneIndex ≠ cell.m_zoneIndex
        ∧ zoneIndex
          = (if cellT.m_zoneIndex = cellL.m_zoneIndex ∨ cellT.m_zoneIndex = cellR.m_zoneIndex then
              cellT.m_zoneIndex
            else if cellB.m_zoneIndex = cellR.m_zoneIndex
                ∨ cellB.m_zoneIndex = cellL.m_zoneIndex then
              cellB.m_zoneIndex
            else cellT.m_zoneIndex)
        ∧ d.processAt pos cell = (false, zoneIndex)
        ∧ MapDraft.fixTile (d, fixedCount) pos
          = ({ d with m_tiles := (tilesAssign d.m_tiles pos
                { cell with m_zoneIndex := zoneIndex, m_exFix := true }) },
              fixedCount + 1) := by
  have hat := MapDraft.fixTile_at d fixedCount pos cell hc
  obtain ⟨hT, hL, hR, hB⟩ := flags_zero _ _ _ _ hcount
  obtain ⟨cellT, hfT, hsT, hnT⟩ := MapDraft.sideMatches_false d cell _ hT
  obtain ⟨cellL, hfL, hsL, hnL⟩ := MapDraft.sideMatches_false d cell _ hL
  obtain ⟨cellR, hfR, hsR, hnR⟩ := MapDraft.sideMatches_false d cell _ hR
  obtain ⟨cellB, hfB, hsB, hnB⟩ := MapDraft.sideMatches_false d cell _ hB
  have hp2 : d.processAt pos cell = (false,
      if (d.sideTile cell (neighbour pos 0 (-1))).m_zoneIndex
            = (d.sideTile cell (neighbour pos (-1) 0)).m_zoneIndex
          ∨ (d.sideTile cell (neighbour pos 0 (-1))).m_zoneIndex
            = (d.sideTile cell (neighbour pos 1 0)).m_zoneIndex then
        (d.sideTile cell (neighbour pos 0 (-1))).m_zoneIndex
      else if (d.sideTile cell (neighbour pos 0 1)).m_zoneIndex
            = (d.sideTile cell (neighbour pos 1 0)).m_zoneIndex
          ∨ (d.sideTile cell (neighbour pos 0 1)).m_zoneIndex
            = (d.sideTile cell (neighbour pos (-1) 0)).m_zoneIndex then
        (d.sideTile cell (neighbour pos 0 1)).m_zoneIndex
      else (d.sideTile cell (neighbour pos 0 (-1))).m_zoneIndex) :=
    processTile_none _ _ _ _ _ hT hL hR hB
  rw [hsT, hsL, hsR, hsB] at hp2
  refine ⟨cellT, cellL, cellR, cellB, _, hfT, hfL, hfR, hfB, hnT, hnL, hnR, hnB, rfl, hp2, ?_⟩
  rw [hat, hp2]
  simp

set_option maxRecDepth 8192 in
/-- The centre tile, in zone 0, of the grid tagged `4 1 6`, `1 0 2`, `5 3 7`:
the top and left neighbours agree on zone 1. -/
theorem processTile_no_side_witness :
    (tilesFind (draft3x3 4 1 5 1 0 3 6 2 7).m_tiles (tileXY 1 1) = some (zonedTile 0)
        ∧ ((draft3x3 4 1 5 1 0 3 6 2 7).sideMatches (zonedTile 0) (neighbour (tileXY 1 1) 0 (-1))).toNat
          + ((draft3x3 4 1 5 1 0 3 6 2 7).sideMatches (zonedTile 0) (neighbour (tileXY 1 1) (-1) 0)).toNat
          + ((draft3x3 4 1 5 1 0 3 6 2 7).sideMatches (zonedTile 0) (neighbour (tileXY 1 1) 1 0)).toNat
          + ((draft3x3 4 1 5 1 0 3 6 2 7).sideMatches (zonedTile 0) (neighbour (tileXY 1 1) 0 1)).toNat = 0)
      ∧ ∃ cellT cellL cellR cellB zoneIndex,
      tilesFind (draft3x3 4 1 5 1 0 3 6 2 7).m_tiles (neighbour (tileXY 1 1) 0 (-1)) = some cellT
        ∧ tilesFind (draft3x3 4 1 5 1 0 3 6 2 7).m_tiles (neighbour (tileXY 1 1) (-1) 0) = some cellL
        ∧ tilesFind (draft3x3 4 1 5 1 0 3 6 2 7).m_tiles (neighbour (tileXY 1 1) 1 0) = some cellR
        ∧ tilesFind (draft3x3 4 1 5 1 0 3 6 2 7).m_tiles (neighbour (tileXY 1 1) 0 1) = some cellB
        ∧ cellT.m_zoneIndex ≠ (zonedTile 0).m_zoneIndex ∧ cellL.m_zoneIndex ≠ (zonedTile 0).m_zoneIndex
        ∧ cellR.m_zoneIndex ≠ (zonedTile 0).m_zoneIndex ∧ cellB.m_zoneIndex ≠ (zonedTile 0).m_zoneIndex
        ∧ zoneIndex
          = (if cellT.m_zoneIndex = cellL.m_zoneIndex ∨ cellT.m_zoneIndex = cellR.m_zoneIndex then
              cellT.m_zoneIndex
            else if cellB.m_zoneIndex = cellR.m_zoneIndex
                ∨ cellB.m_zoneIndex = cellL.m_zoneIndex then
              cellB.m_zoneIndex
            else cellT.m_zoneIndex)
        ∧ (draft3x3 4 1 5 1 0 3 6 2 7).processAt (tileXY 1 1) (zonedTile 0) = (false, zoneIndex)
        ∧ MapDraft.fixTile ((draft3x3 4 1 5 1 0 3 6 2 7), 0) (tileXY 1 1)
          = ({ (draft3x3 4 1 5 1 0 3 6 2 7) with m_tiles := (tilesAssign (draft3x3 4 1 5 1 0 3 6 2 7).m_tiles (tileXY 1 1)
                { (zonedTile 0) with m_zoneIndex := zoneIndex, m_exFix := true }) },
              0 + 1) :=
  ⟨⟨by decide, by decide⟩,
    processTile_no_side (draft3x3 4 1 5 1 0 3 6 2 7) 0 (tileXY 1 1) (zonedTile 0) (by decide) (by decide)⟩

set_option maxRecDepth 8192 in
/-- C25 as stated fails when only the left and the right neighbour agree: on
the grid tagged `4 1 6`, `2 0 2`, `5 3 7` the centre tile, in zone 0, has no
matching side, its left and right neighbours agree on zone 2, and the step gives
it zone 1, the zone of the top neighbour, which no other neighbour has. -/
theorem processTile_left_right_agree :
    tilesFind (draft3x3 4 2 5 1 0 3 6 2 7).m_tiles (tileXY 1 1) = some (zonedTile 0)
      ∧ tilesFind (draft3x3 4 2 5 1 0 3 6 2 7).m_tiles (tileXY 1 0) = some (zonedTile 1)
      ∧ tilesFind (draft3x3 4 2 5 1 0 3 6 2 7).m_tiles (tileXY 0 1) = some (zonedTile 2)
      ∧ tilesFind (draft3x3 4 2 5 1 0 3 6 2 7).m_tiles (tileXY 2 1) = some (zonedTile 2)
      ∧ tilesFind (draft3x3 4 2 5 1 0 3 6 2 7).m_tiles (tileXY 1 2) = some (zonedTile 3)
      ∧ MapDraft.processAt (draft3x3 4 2 5 1 0 3 6 2 7) (tileXY 1 1) (zonedTile 0) = (false, 1)
      ∧ tilesFind (MapDraft.fixTile ((draft3x3 4 2 5 1 0 3 6 2 7), 0) (tileXY 1 1)).1.m_tiles (tileXY 1 1)
        = some { m_zoned := true, m_zoneIndex := 1, m_exFix := true } := by
  decide

/-! ### Fixed point of the repair pass -/

theorem MapDraft.fixTile_frame (acc : MapDraft × Int) (pos p : FHPos) (hne : pos ≠ p) :
    tilesFind (MapDraft.fixTile acc pos).1.m_tiles p = tilesFind acc.1.m_tiles p := by
  unfold MapDraft.fixTile
  split
  · rfl
  · simp only
    split
    · rfl
    · simp only [tilesFind_tilesAssign, hne, if_false]

theorem MapDraft.fixTile_fold_frame (keys : List FHPos) (acc : MapDraft × Int) (p : FHPos)
    (hp : p ∉ keys) :
    tilesFind (keys.foldl MapDraft.fixTile acc).1.m_tiles p = tilesFind acc.1.m_tiles p := by
  induction keys generalizing acc with
  | nil => rfl
  | cons k ks ih =>
    simp only [List.foldl_cons]
    rw [ih _ (fun h => hp (List.mem_cons_of_mem _ h))]
    exact MapDraft.fixTile_frame acc k p (fun h => hp (h ▸ List.mem_cons_self _ _))

theorem MapDraft.fixTile_counted (acc : MapDraft × Int) (pos : FHPos)
    (h : (MapDraft.fixTile acc pos).2 ≠ acc.2) :
    ∃ cell cell2, tilesFind acc.1.m_tiles pos = some cell
      ∧ tilesFind (MapDraft.fixTile acc pos).1.m_tiles pos = some cell2
      ∧ cell2.m_zoneIndex ≠ cell.m_zoneIndex
      ∧ (MapDraft.fixTile acc pos).2 = acc.2 + 1 := by
  obtain ⟨d, n⟩ := acc
  rcases hc : tilesFind d.m_tiles pos with _ | cell
  · exfalso
    apply h
    unfold MapDraft.fixTile
    simp only [hc]
  · have hat := MapDraft.fixTile_at d n pos cell hc
    have htile := MapDraft.fixTile_tile d n pos cell hc
    by_cases hp : (d.processAt pos cell).1 = true
    · exfalso
      apply h
      rw [hat, if_pos hp]
    · have hne := processTile_changes _ _ _ _ _ (Bool.not_eq_true _ ▸ hp)
      rw [if_neg hp] at htile hat
      refine ⟨cell, _, rfl, htile, hne, ?_⟩
      rw [hat]

theorem MapDraft.fixTile_fold_changed (keys : List FHPos) (hnd : keys.Nodup)
    (acc : MapDraft × Int) :
    (keys.foldl MapDraft.fixTile acc).2 = acc.2
      ∨ ∃ k ∈ keys, ∃ cell cell2, tilesFind acc.1.m_tiles k = some cell
        ∧ tilesFind (keys.foldl MapDraft.fixTile acc).1.m_tiles k = some cell2
        ∧ cell2.m_zoneIndex ≠ cell.m_zoneIndex := by
  induction keys generalizing acc with
  | nil => exact Or.inl rfl
  | cons k ks ih =>
    simp only [List.foldl_cons]
    have hk : k ∉ ks := (List.nodup_cons.1 hnd).1
    have hks : ks.Nodup := (List.nodup_cons.1 hnd).2
    by_cases hsame : (MapDraft.fixTile acc k).2 = acc.2
    · have heq := ((MapDraft.fixTile_count acc k).2 hsame).1
      rw [heq]
      rcases ih hks acc with h | ⟨k2, hk2, cell, cell2, h1, h2, h3⟩
      · exact Or.inl h
      · exact Or.inr ⟨k2, List.mem_cons_of_mem _ hk2, cell, cell2, h1, h2, h3⟩
    · obtain ⟨cell, cell2, h1, h2, h3, _⟩ := MapDraft.fixTile_counted acc k hsame
      refine Or.inr ⟨k, List.mem_cons_self _ _, cell, cell2, h1, ?_, h3⟩
      rw [MapDraft.fixTile_fold_frame ks _ k hk]
      exact h2

/-- C28. For a draft whose keys are distinct, `fixExclaves` returns `true`
exactly when every tile has after the pass the zone index it had before; a tile
that a step counts as fixed receives a zone index different from the one it
had; and when the pass returns `true` the draft is a fixed point: the pass
left it as it was and a further pass returns `true` and the same draft. -/
theorem fixExclaves_true_iff (d : MapDraft) (hkeys : (d.m_tiles.map Prod.fst).Nodup) :
    (d.fixExclaves.2 = true
        ↔ ∀ pos cell, tilesFind d.m_tiles pos = some cell →
          ∃ cell2, tilesFind d.fixExclaves.1.m_tiles pos = some cell2
            ∧ cell2.m_zoneIndex = cell.m_zoneIndex)
      ∧ (∀ (acc : MapDraft × Int) (pos : FHPos), (MapDraft.fixTile acc pos).2 ≠ acc.2 →
          ∃ cell cell2, tilesFind acc.1.m_tiles pos = some cell
            ∧ tilesFind (MapDraft.fixTile acc pos).1.m_tiles pos = some cell2
            ∧ cell2.m_zoneIndex ≠ cell.m_zoneIndex
            ∧ (MapDraft.fixTile acc pos).2 = acc.2 + 1)
      ∧ (d.fixExclaves.2 = true →
          d.fixExclaves = (d, true) ∧ d.fixExclaves.1.fixExclaves = (d, true)) := by
  refine ⟨⟨?_, ?_⟩, MapDraft.fixTile_counted, ?_⟩
  · intro h pos cell hc
    rw [(MapDraft.fixExclaves_true d h).1]
    exact ⟨cell, hc, rfl⟩
  · intro hall
    by_contra hflag
    have hfold := MapDraft.fixTile_fold_changed (d.m_tiles.map Prod.fst) hkeys (d, 0)
    rcases hfold with h0 | ⟨k, _, cell, cell2, h1, h2, h3⟩
    · apply hflag
      unfold MapDraft.fixExclaves
      simp only [decide_eq_true_eq]
      exact h0
    · obtain ⟨cell3, h4, h5⟩ := hall k cell h1
      have h6 : tilesFind d.fixExclaves.1.m_tiles k = some cell2 := h2
      rw [h6] at h4
      simp only [Option.some.injEq] at h4
      rw [← h4] at h5
      exact h3 h5
  · intro h
    have h1 := (MapDraft.fixExclaves_true d h).1
    have h2 : d.fixExclaves = (d, true) := Prod.ext h1 h
    refine ⟨h2, ?_⟩
    rw [h1]
    exact h2

set_option maxRecDepth 8192 in
/-- The uniformly zoned 3×3 grid is a fixed point of the pass. -/
theorem fixExclaves_true_iff_witness :
    (draftUniform.m_tiles.map Prod.fst).Nodup
      ∧ (draftUniform.fixExclaves.2 = true
        ↔ ∀ pos cell, tilesFind draftUniform.m_tiles pos = some cell →
          ∃ cell2, tilesFind draftUniform.fixExclaves.1.m_tiles pos = some cell2
            ∧ cell2.m_zoneIndex = cell.m_zoneIndex)
      ∧ (∀ (acc : MapDraft × Int) (pos : FHPos), (MapDraft.fixTile acc pos).2 ≠ acc.2 →
          ∃ cell cell2, tilesFind acc.1.m_tiles pos = some cell
            ∧ tilesFind (MapDraft.fixTile acc pos).1.m_tiles pos = some cell2
            ∧ cell2.m_zoneIndex ≠ cell.m_zoneIndex
            ∧ (MapDraft.fixTile acc pos).2 = acc.2 + 1)
      ∧ (draftUniform.fixExclaves.2 = true →
          draftUniform.fixExclaves = (draftUniform, true)
            ∧ draftUniform.fixExclaves.1.fixExclaves = (draftUniform, true)) :=
  ⟨by decide, fixExclaves_true_iff draftUniform (by decide)⟩

/-! ### Border buffer of the initial tagging pass -/

theorem distanceDiff_floor (first second : DistanceRecord) (hd1 : 0 ≤ first.m_distance)
    (hd2 : 0 ≤ second.m_distance) (hr1 : 0 < first.m_zoneRadius)
    (hr2 : 0 < second.m_zoneRadius) :
    distanceDiff first second
      = (first.m_distance + second.m_distance) * 100
          / (first.m_zoneRadius + second.m_zoneRadius) * first.m_zoneRadius / 100
        - first.m_distance := by
  unfold distanceDiff
  simp only
  have h1 : 0 ≤ (first.m_distance + second.m_distance) * 100 := by positivity
  have h2 : 0 ≤ first.m_zoneRadius + second.m_zoneRadius := by omega
  rw [Int.tdiv_eq_ediv h1 h2]
  have h3 : 0 ≤ (first.m_distance + second.m_distance) * 100
      / (first.m_zoneRadius + second.m_zoneRadius) := Int.ediv_nonneg h1 h2
  have h4 : 0 ≤ (first.m_distance + second.m_distance) * 100
      / (first.m_zoneRadius + second.m_zoneRadius) * first.m_zoneRadius :=
    mul_nonneg h3 (le_of_lt hr1)
  rw [Int.tdiv_eq_ediv h4 (by norm_num)]

theorem distanceDiff_equal_radius (first second : DistanceRecord)
    (hd1 : 0 ≤ first.m_distance) (hd2 : 0 ≤ second.m_distance)
    (hr1 : 0 < first.m_zoneRadius) (hr : first.m_zoneRadius = second.m_zoneRadius)
    (hclose : second.m_distance - first.m_distance < 4) :
    distanceDiff first second < 2 := by
  rw [distanceDiff_floor first second hd1 hd2 hr1 (hr ▸ hr1), ← hr]
  have hx := Int.ediv_mul_le ((first.m_distance + second.m_distance) * 100)
    (show first.m_zoneRadius + first.m_zoneRadius ≠ 0 by omega)
  have hy := Int.ediv_mul_le ((first.m_distance + second.m_distance) * 100
    / (first.m_zoneRadius + first.m_zoneRadius) * first.m_zoneRadius)
    (show (100 : Int) ≠ 0 by norm_num)
  generalize (first.m_distance + second.m_distance) * 100
    / (first.m_zoneRadius + first.m_zoneRadius) = x at hx hy ⊢
  generalize x * first.m_zoneRadius / 100 = y at hy ⊢
  nlinarith

theorem runInitialTagging_fold (tag : FHPos → Except RunError (Option Int)) (keys : List FHPos)
    (cur d2 : MapDraft)
    (h : keys.foldlM
        (fun (d1 : MapDraft) pos =>
          match tag pos with
          | .error e => Except.error e
          | .ok none => Except.ok d1
          | .ok (some zoneIndex) =>
            let cell : MapDraft.Tile := (tilesFind d1.m_tiles pos).getD {}
            Except.ok { d1 with
              m_tiles := tilesAssign d1.m_tiles pos
                { cell with m_zoned := true, m_zoneIndex := zoneIndex } })
        cur = .ok d2) :
    ∀ p ∈ keys, ∃ r, tag p = .ok r
      ∧ ∀ cell0, tilesFind cur.m_tiles p = some cell0 →
        tilesFind d2.m_tiles p
          = some (match r with
            | none => cell0
            | some zoneIndex => { cell0 with m_zoned := true, m_zoneIndex := zoneIndex }) := by
  induction keys generalizing cur with
  | nil => simp
  | cons k ks ih =>
    rw [List.foldlM_cons] at h
    rcases ht : tag k with e | r
    · rw [ht] at h
      simp [bind, Except.bind] at h
    · rw [ht] at h
      have hframe : ∀ (l : List FHPos) (c c2 : MapDraft),
          l.foldlM
            (fun (d1 : MapDraft) pos =>
              match tag pos with
              | .error e => Except.error e
              | .ok none => Except.ok d1
              | .ok (some zoneIndex) =>
                let cell : MapDraft.Tile := (tilesFind d1.m_tiles pos).getD {}
                Except.ok { d1 with
                  m_tiles := tilesAssign d1.m_tiles pos
                    { cell with m_zoned := true, m_zoneIndex := zoneIndex } })
            c = .ok c2 →
          ∀ p, p ∉ l → tilesFind c2.m_tiles p = tilesFind c.m_tiles p := by
        intro l
        induction l with
        | nil =>
          intro c c2 hc p _
          have : c = c2 := by simpa [List.foldlM, pure, Except.pure] using hc
          rw [this]
        | cons x xs ihx =>
          intro c c2 hc p hp
          rw [List.foldlM_cons] at hc
          rcases hx : tag x with e | rx
          · rw [hx] at hc
            simp [bind, Except.bind] at hc
          · rw [hx] at hc
            have hpx : x ≠ p := fun hh => hp (hh ▸ List.mem_cons_self _ _)
            have hpxs : p ∉ xs := fun hh => hp (List.mem_cons_of_mem _ hh)
            cases rx with
            | none =>
              simp only [bind, Except.bind] at hc
              exact ihx c c2 hc p hpxs
            | some zi =>
              simp only [bind, Except.bind] at hc
              rw [ihx _ c2 hc p hpxs]
              simp only [tilesFind_tilesAssign, hpx, if_false]
      intro p hp
      cases r with
      | none =>
        simp only [bind, Except.bind] at h
        by_cases hpk : p = k
        · subst hpk
          refine ⟨none, ht, ?_⟩
          intro cell0 hc0
          by_cases hin : p ∈ ks
          · obtain ⟨r2, hr2, hfin⟩ := ih cur h p hin
            rw [ht] at hr2
            simp only [Except.ok.injEq] at hr2
            subst hr2
            exact hfin cell0 hc0
          · rw [hframe ks cur d2 h p hin]
            exact hc0
        · have hin : p ∈ ks := by
            rcases List.mem_cons.1 hp with h1 | h1
            · exact absurd h1 hpk
            · exact h1
          exact ih cur h p hin
      | some zi =>
        simp only [bind, Except.bind] at h
        by_cases hpk : p = k
        · subst hpk
          refine ⟨some zi, ht, ?_⟩
          intro cell0 hc0
          by_cases hin : p ∈ ks
          · obtain ⟨r2, hr2, hfin⟩ := ih _ h p hin
            rw [ht] at hr2
            simp only [Except.ok.injEq] at hr2
            subst hr2
            have := hfin { cell0 with m_zoned := true, m_zoneIndex := zi }
              (by simp only [tilesFind_tilesAssign, if_true, hc0, Option.getD_some])
            rw [this]
          · rw [hframe ks _ d2 h p hin]
            simp only [tilesFind_tilesAssign, if_true, hc0, Option.getD_some]
        · have hin : p ∈ ks := by
            rcases List.mem_cons.1 hp with h1 | h1
            · exact absurd h1 hpk
            · exact h1
          obtain ⟨r2, hr2, hfin⟩ := ih _ h p hin
          refine ⟨r2, hr2, ?_⟩
          intro cell0 hc0
          apply hfin
          simp only [tilesFind_tilesAssign, Ne.symm hpk, if_false]
          exact hc0

/-- C26. In the initial tagging pass of `run`, for the zones set up by `run`,
whatever order `std::sort` leaves records of equal distance by radius in, and
every tile of the draft: the records of all zones are defined, the two records
`first` and `second` that the sort ranks best are records of two zones, with
the distances `pointDistance` computes, no record has a smaller distance by
radius than `first`, and none but `first` a smaller one than `second`; their
distances are non-negative and their radii positive; `distanceDiff` is
`floor(floor((d1 + d2) * 100 / (r1 + r2)) * r1 / 100) - d1`; the tile keeps its
entry when `distanceDiff < 2` and is zoned with the index of `first`
otherwise; when the two radii are equal and the distances differ by less than
4 the tile keeps its entry. -/
theorem initialTagging_border (sort : List DistanceRecord → List DistanceRecord)
    (w h : Int) (rngZones : List FHRngZone) (tileZones : List TileZone) (d d2 : MapDraft)
    (hsort : SortsByDbr sort)
    (hsetup : runSetup w h rngZones = .ok tileZones)
    (htag : runInitialTaggingWith sort d tileZones = .ok d2) (pos : FHPos)
    (cell0 : MapDraft.Tile) (hfind : tilesFind d.m_tiles pos = some cell0) :
    ∃ records first second rest, distanceRecords tileZones pos = .ok records
      ∧ sort records = first :: second :: rest
      ∧ (∃ z1 ∈ tileZones, first.m_zoneIndex = z1.m_index
          ∧ pointDistance pos z1.m_startTile = .ok first.m_distance
          ∧ first.m_zoneRadius = z1.m_absoluteRadius)
      ∧ (∃ z2 ∈ tileZones, second.m_zoneIndex = z2.m_index
          ∧ pointDistance pos z2.m_startTile = .ok second.m_distance
          ∧ second.m_zoneRadius = z2.m_absoluteRadius)
      ∧ ((∀ x ∈ records, first.dbr ≤ x.dbr) ∧ ∀ x ∈ rest, second.dbr ≤ x.dbr)
      ∧ (0 ≤ first.m_distance ∧ 0 ≤ second.m_distance
        ∧ 0 < first.m_zoneRadius ∧ 0 < second.m_zoneRadius)
      ∧ distanceDiff first second
        = (first.m_distance + second.m_distance) * 100
            / (first.m_zoneRadius + second.m_zoneRadius) * first.m_zoneRadius / 100
          - first.m_distance
      ∧ tilesFind d2.m_tiles pos
        = some (if distanceDiff first second < 2 then cell0
          else { cell0 with m_zoned := true, m_zoneIndex := first.m_zoneIndex })
      ∧ (first.m_zoneRadius = second.m_zoneRadius →
        |first.m_distance - second.m_distance| < 4 →
        distanceDiff first second < 2 ∧ tilesFind d2.m_tiles pos = some cell0) := by
  have hnonneg := runSetup_radius_nonneg w h rngZones tileZones hsetup
  unfold runInitialTaggingWith at htag
  obtain ⟨r, hr, hfin⟩ := runInitialTagging_fold (tagTileWith sort tileZones) _ d d2 htag pos
    (tilesFind_mem_keys _ _ _ hfind)
  obtain ⟨records, first, second, rest, hrec, hrad, hs, _, hres⟩ :=
    tagTileWith_ok sort tileZones pos r hr
  obtain ⟨hback, _⟩ := distanceRecords_ok tileZones pos records hrec
  obtain ⟨hfirst, hsecond, hmin, _, hmin2⟩ :=
    sorted_head_min sort hsort records hrad first second rest hs
  have hrecs : ∀ x ∈ records, 0 ≤ x.m_distance ∧ 0 < x.m_zoneRadius := by
    intro x hx
    obtain ⟨z, hz, _, hd, hrz⟩ := hback x hx
    refine ⟨(pointDistance_ok _ _ _ hd).1, ?_⟩
    have h1 := hnonneg z hz
    have h2 := hrad x hx
    rw [hrz] at h2 ⊢
    omega
  have hf := hrecs first hfirst
  have hsnd := hrecs second hsecond
  have htile : tilesFind d2.m_tiles pos
      = some (if distanceDiff first second < 2 then cell0
        else { cell0 with m_zoned := true, m_zoneIndex := first.m_zoneIndex }) := by
    rw [hfin cell0 hfind, hres]
    split_ifs <;> rfl
  refine ⟨records, first, second, rest, hrec, hs, hback first hfirst, hback second hsecond,
    ⟨hmin, hmin2⟩, ⟨hf.1, hsnd.1, hf.2, hsnd.2⟩,
    distanceDiff_floor first second hf.1 hsnd.1 hf.2 hsnd.2, htile, ?_⟩
  intro hreq hclose
  have hlt := distanceDiff_equal_radius first second hf.1 hsnd.1 hf.2 hreq
    (by
      have := (abs_lt.1 hclose).1
      omega)
  refine ⟨hlt, ?_⟩
  rw [htile, if_pos hlt]

/-- The tagging pass on the 5×4 grid with two zones of equal size seeded at
`(0,0)` and `(4,3)`, sorted by `stdSort`, at the tile `(2,1)`: the distances
are 2 and 2, `distanceDiff` is 0 and the tile stays unzoned. -/
theorem initialTagging_border_witness :
    (SortsByDbr (stdSort (fun l r => decide (l.dbr < r.dbr)))
        ∧ runSetup 5 4 [{ m_center := tileXY 0 0, m_relativeSize := 1 },
          { m_center := tileXY 4 3, m_relativeSize := 1 }] = .ok sampleTileZones
        ∧ runInitialTaggingWith (stdSort (fun l r => decide (l.dbr < r.dbr)))
            (MapDraft.init {} 5 4 1) sampleTileZones = .ok sampleTagged
        ∧ tilesFind (MapDraft.init {} 5 4 1).m_tiles (tileXY 2 1) = some {})
      ∧ (∃ records first second rest,
          distanceRecords sampleTileZones (tileXY 2 1) = .ok records
          ∧ stdSort (fun l r => decide (l.dbr < r.dbr)) records = first :: second :: rest
          ∧ (0 ≤ first.m_distance ∧ 0 ≤ second.m_distance
            ∧ 0 < first.m_zoneRadius ∧ 0 < second.m_zoneRadius)
          ∧ tilesFind sampleTagged.m_tiles (tileXY 2 1)
            = some (if distanceDiff first second < 2 then {}
              else { ({} : MapDraft.Tile) with
                m_zoned := true, m_zoneIndex := first.m_zoneIndex })
          ∧ (first.m_zoneRadius = second.m_zoneRadius →
            |first.m_distance - second.m_distance| < 4 →
            distanceDiff first second < 2
              ∧ tilesFind sampleTagged.m_tiles (tileXY 2 1) = some {}))
      ∧ distanceRecords sampleTileZones (tileXY 2 1)
        = .ok [{ m_zoneIndex := 0, m_distance := 2, m_zoneRadius := 1 },
            { m_zoneIndex := 1, m_distance := 2, m_zoneRadius := 1 }]
      ∧ distanceDiff { m_zoneIndex := 0, m_distance := 2, m_zoneRadius := 1 }
          { m_zoneIndex := 1, m_distance := 2, m_zoneRadius := 1 } = 0
      ∧ tilesFind sampleTagged.m_tiles (tileXY 2 1) = some {} :=
  ⟨⟨stdSort_sortsByDbr, rfl, rfl, by decide⟩,
    (initialTagging_border (stdSort (fun l r => decide (l.dbr < r.dbr))) 5 4
      [{ m_center := tileXY 0 0, m_relativeSize := 1 },
        { m_center := tileXY 4 3, m_relativeSize := 1 }] sampleTileZones
      (MapDraft.init {} 5 4 1) sampleTagged stdSort_sortsByDbr rfl rfl (tileXY 2 1) {}
      (by decide)).imp (fun _ h1 => h1.imp (fun _ h2 => h2.imp (fun _ h3 => h3.imp
        (fun _ h4 => ⟨h4.1, h4.2.1, h4.2.2.2.2.2.1, h4.2.2.2.2.2.2.2.1,
          h4.2.2.2.2.2.2.2.2⟩)))),
    rfl, by decide, by decide⟩

/-! ### Hill-climbing step of the centroid -/

theorem minElementFrom_min {α : Type} (key : α → Int) (xs : List α) (best : α) :
    key (minElementFrom (fun l r => decide (key l < key r)) best xs) ≤ key best
      ∧ ∀ x ∈ xs, key (minElementFrom (fun l r => decide (key l < key r)) best xs) ≤ key x := by
  induction xs generalizing best with
  | nil => exact ⟨le_refl _, by simp⟩
  | cons y ys ih =>
    unfold minElementFrom
    by_cases hlt : key y < key best
    · simp only [hlt, decide_True, if_true]
      have h := ih y
      refine ⟨by omega, ?_⟩
      intro x hx
      rcases List.mem_cons.1 hx with hxy | hxy
      · rw [hxy]
        exact h.1
      · exact h.2 x hxy
    · simp only [hlt, decide_False, Bool.false_eq_true, if_false]
      have h := ih best
      refine ⟨h.1, ?_⟩
      intro x hx
      rcases List.mem_cons.1 hx with hxy | hxy
      · rw [hxy]
        omega
      · exact h.2 x hxy

theorem centroid_fold_min (posDistance : FHPos → FHPos → Int → Int) (region : MapTileRegion)
    (b : Bool) (ns : List FHPos) (acc : FHPos × Int)
    (hacc : acc.2 = estimateAvgDistance posDistance region acc.1) :
    (ns.foldl
        (fun (acc : FHPos × Int) tile =>
          if (b && !MapTileRegion.contains region tile) = true then acc
          else
            let altResult := estimateAvgDistance posDistance region tile
            if altResult < acc.2 then (tile, altResult) else acc) acc).2
        = estimateAvgDistance posDistance region
          (ns.foldl
            (fun (acc : FHPos × Int) tile =>
              if (b && !MapTileRegion.contains region tile) = true then acc
              else
                let altResult := estimateAvgDistance posDistance region tile
                if altResult < acc.2 then (tile, altResult) else acc) acc).1
      ∧ (ns.foldl
        (fun (acc : FHPos × Int) tile =>
          if (b && !MapTileRegion.contains region tile) = true then acc
          else
            let altResult := estimateAvgDistance posDistance region tile
            if altResult < acc.2 then (tile, altResult) else acc) acc).2 ≤ acc.2
      ∧ ((ns.foldl
          (fun (acc : FHPos × Int) tile =>
            if (b && !MapTileRegion.contains region tile) = true then acc
            else
              let altResult := estimateAvgDistance posDistance region tile
              if altResult < acc.2 then (tile, altResult) else acc) acc).1 = acc.1
        ∨ ((ns.foldl
            (fun (acc : FHPos × Int) tile =>
              if (b && !MapTileRegion.contains region tile) = true then acc
              else
                let altResult := estimateAvgDistance posDistance region tile
                if altResult < acc.2 then (tile, altResult) else acc) acc).1 ∈ ns
          ∧ (b = true → (ns.foldl
            (fun (acc : FHPos × Int) tile =>
              if (b && !MapTileRegion.contains region tile) = true then acc
              else
                let altResult := estimateAvgDistance posDistance region tile
                if altResult < acc.2 then (tile, altResult) else acc) acc).1 ∈ region)))
      ∧ ∀ n ∈ ns, (b = true → n ∈ region) →
        (ns.foldl
          (fun (acc : FHPos × Int) tile =>
            if (b && !MapTileRegion.contains region tile) = true then acc
            else
              let altResult := estimateAvgDistance posDistance region tile
              if altResult < acc.2 then (tile, altResult) else acc) acc).2
          ≤ estimateAvgDistance posDistance region n := by
  induction ns generalizing acc with
  | nil => exact ⟨hacc, le_refl _, Or.inl rfl, by simp⟩
  | cons x xs ih =>
    simp only [List.foldl_cons]
    by_cases hskip : (b && !MapTileRegion.contains region x) = true
    · simp only [hskip, if_true]
      obtain ⟨h1, h2, h3, h4⟩ := ih acc hacc
      refine ⟨h1, h2, ?_, ?_⟩
      · rcases h3 with h3 | ⟨h3, h3r⟩
        · exact Or.inl h3
        · exact Or.inr ⟨List.mem_cons_of_mem _ h3, h3r⟩
      · intro n hn helig
        rcases List.mem_cons.1 hn with hnx | hnx
        · exfalso
          rw [hnx] at helig
          simp only [Bool.and_eq_true, Bool.not_eq_true', MapTileRegion.contains_false_iff]
            at hskip
          exact hskip.2 (helig hskip.1)
        · exact h4 n hnx helig
    · have helx : b = true → x ∈ region := by
        intro hb
        by_contra hn
        apply hskip
        simp only [hb, Bool.true_and, Bool.not_eq_true', MapTileRegion.contains_false_iff]
        exact hn
      simp only [hskip, Bool.false_eq_true, if_false]
      by_cases hlt : estimateAvgDistance posDistance region x < acc.2
      · simp only [hlt, if_true]
        obtain ⟨h1, h2, h3, h4⟩ := ih (x, estimateAvgDistance posDistance region x) rfl
        simp only at h2 h3
        refine ⟨h1, le_trans h2 (le_of_lt hlt), ?_, ?_⟩
        · rcases h3 with h3 | ⟨h3, h3r⟩
          · right
            rw [h3]
            exact ⟨List.mem_cons_self _ _, helx⟩
          · exact Or.inr ⟨List.mem_cons_of_mem _ h3, h3r⟩
        · intro n hn helig
          rcases List.mem_cons.1 hn with hnx | hnx
          · rw [hnx]
            exact h2
          · exact h4 n hnx helig
      · simp only [hlt, if_false]
        obtain ⟨h1, h2, h3, h4⟩ := ih acc hacc
        refine ⟨h1, h2, ?_, ?_⟩
        · rcases h3 with h3 | ⟨h3, h3r⟩
          · exact Or.inl h3
          · exact Or.inr ⟨List.mem_cons_of_mem _ h3, h3r⟩
        · intro n hn helig
          rcases List.mem_cons.1 hn with hnx | hnx
          · rw [hnx]
            exact le_trans h2 (not_lt.1 hlt)
          · exact h4 n hnx helig

/-- C27. For a non-empty region whose mean position is a tile of the grid,
`makeCentroid` returns a tile that is the start tile or one of its eight
neighbours (in the region when `ensureInbounds`), whose distance sum to the
tiles of the region is at most that of the start tile and of every eligible
neighbour of the start tile; the start tile is the mean tile, replaced when
`ensureInbounds` and the mean tile is outside the region by a tile of the
region nearest to it. -/
theorem makeCentroid_minimal (posDistance : FHPos → FHPos → Int → Int) (c : MapTileContainer)
    (region : MapTileRegion) (ensureInbounds : Bool) (first : FHPos) (rest : List FHPos)
    (mean start : FHPos) (hregion : region = first :: rest)
    (hmean : mean
      = { m_x := (region.foldl (fun (s : Int) (cell : FHPos) => s + cell.m_x) 0).tdiv region.length
          m_y := (region.foldl (fun (s : Int) (cell : FHPos) => s + cell.m_y) 0).tdiv region.length
          m_z := first.m_z })
    (hlookup : c.hasTile mean = true)
    (hstart : start
      = (if (ensureInbounds && !MapTileRegion.contains region mean) = true then
          minElementFrom
            (fun l r => decide (posDistance mean l 100 < posDistance mean r 100)) first region
        else mean)) :
    (ensureInbounds = true → mean ∉ region →
        start ∈ region ∧ ∀ x ∈ region, posDistance mean start 100 ≤ posDistance mean x 100)
      ∧ ∃ t, MapTileArea.makeCentroid posDistance c region ensureInbounds = .ok (some t)
        ∧ (t = start
          ∨ (t ∈ c.m_allNeighboursWithDiag start ∧ (ensureInbounds = true → t ∈ region)))
        ∧ estimateAvgDistance posDistance region t
          ≤ estimateAvgDistance posDistance region start
        ∧ ∀ n ∈ c.m_allNeighboursWithDiag start, (ensureInbounds = true → n ∈ region) →
          estimateAvgDistance posDistance region t
            ≤ estimateAvgDistance posDistance region n := by
  have hat : c.tileIndexAt mean = .ok mean := by
    unfold MapTileContainer.tileIndexAt
    rw [if_pos hlookup]
  have hfirst : first ∈ region := by
    rw [hregion]
    exact List.mem_cons_self _ _
  constructor
  · intro hb hout
    have hcond : (ensureInbounds && !MapTileRegion.contains region mean) = true := by
      simp only [hb, Bool.true_and, Bool.not_eq_true', MapTileRegion.contains_false_iff]
      exact hout
    rw [if_pos hcond] at hstart
    have hmin := minElementFrom_min (fun t => posDistance mean t 100) region first
    have hmem := minElementFrom_mem
      (fun l r => decide (posDistance mean l 100 < posDistance mean r 100)) region first
    rw [← hstart] at hmin hmem
    refine ⟨?_, hmin.2⟩
    rcases hmem with h | h
    · rw [h]
      exact hfirst
    · exact h
  · have hfold := centroid_fold_min posDistance region ensureInbounds
      (c.m_allNeighboursWithDiag start) (start, estimateAvgDistance posDistance region start) rfl
    obtain ⟨h1, h2, h3, h4⟩ := hfold
    simp only at h2 h3
    refine ⟨_, ?_, h3, ?_, ?_⟩
    · subst hregion
      unfold MapTileArea.makeCentroid
      simp only [← hmean, hat, ← hstart]
    · rw [← h1]
      exact h2
    · intro n hn helig
      rw [← h1]
      exact h4 n hn helig

set_option maxRecDepth 8192 in
/-- The three tiles `(0,0)`, `(2,0)`, `(2,1)` of the 3×2 grid: the mean tile
`(1,0)` is outside the region and the start tile is `(0,0)`. -/
theorem makeCentroid_minimal_witness :
    (([tileXY 0 0, tileXY 2 0, tileXY 2 1] : MapTileRegion) = tileXY 0 0 :: [tileXY 2 0, tileXY 2 1]
        ∧ tileXY 1 0
          = { m_x := (([tileXY 0 0, tileXY 2 0, tileXY 2 1] : MapTileRegion).foldl
                (fun (s : Int) (cell : FHPos) => s + cell.m_x) 0).tdiv
                  ([tileXY 0 0, tileXY 2 0, tileXY 2 1] : MapTileRegion).length
              m_y := (([tileXY 0 0, tileXY 2 0, tileXY 2 1] : MapTileRegion).foldl
                (fun (s : Int) (cell : FHPos) => s + cell.m_y) 0).tdiv
                  ([tileXY 0 0, tileXY 2 0, tileXY 2 1] : MapTileRegion).length
              m_z := (tileXY 0 0).m_z }
        ∧ MapTileContainer.hasTile { m_width := 3, m_height := 2, m_depth := 1 } (tileXY 1 0) = true
        ∧ tileXY 0 0
          = (if (true && !MapTileRegion.contains [tileXY 0 0, tileXY 2 0, tileXY 2 1] (tileXY 1 0)) = true then
              minElementFrom
                (fun l r => decide (sampleDistance (tileXY 1 0) l 100
                  < sampleDistance (tileXY 1 0) r 100))
                (tileXY 0 0) [tileXY 0 0, tileXY 2 0, tileXY 2 1]
            else tileXY 1 0))
      ∧ (true = true → tileXY 1 0 ∉ ([tileXY 0 0, tileXY 2 0, tileXY 2 1] : MapTileRegion) →
        tileXY 0 0 ∈ ([tileXY 0 0, tileXY 2 0, tileXY 2 1] : MapTileRegion)
          ∧ ∀ x ∈ ([tileXY 0 0, tileXY 2 0, tileXY 2 1] : MapTileRegion),
            sampleDistance (tileXY 1 0) (tileXY 0 0) 100 ≤ sampleDistance (tileXY 1 0) x 100)
      ∧ ∃ t, MapTileArea.makeCentroid sampleDistance { m_width := 3, m_height := 2, m_depth := 1 }
            [tileXY 0 0, tileXY 2 0, tileXY 2 1] true = .ok (some t)
        ∧ (t = tileXY 0 0
          ∨ (t ∈ MapTileContainer.m_allNeighboursWithDiag { m_width := 3, m_height := 2, m_depth := 1 } (tileXY 0 0)
            ∧ (true = true → t ∈ ([tileXY 0 0, tileXY 2 0, tileXY 2 1] : MapTileRegion))))
        ∧ estimateAvgDistance sampleDistance [tileXY 0 0, tileXY 2 0, tileXY 2 1] t
          ≤ estimateAvgDistance sampleDistance [tileXY 0 0, tileXY 2 0, tileXY 2 1] (tileXY 0 0)
        ∧ ∀ n ∈ MapTileContainer.m_allNeighboursWithDiag { m_width := 3, m_height := 2, m_depth := 1 } (tileXY 0 0),
          (true = true → n ∈ ([tileXY 0 0, tileXY 2 0, tileXY 2 1] : MapTileRegion)) →
          estimateAvgDistance sampleDistance [tileXY 0 0, tileXY 2 0, tileXY 2 1] t
            ≤ estimateAvgDistance sampleDistance [tileXY 0 0, tileXY 2 0, tileXY 2 1] n :=
  ⟨⟨rfl, by decide, by decide, by decide⟩,
    makeCentroid_minimal sampleDistance { m_width := 3, m_height := 2, m_depth := 1 }
      [tileXY 0 0, tileXY 2 0, tileXY 2 1] true (tileXY 0 0) [tileXY 2 0, tileXY 2 1]
      (tileXY 1 0) (tileXY 0 0) rfl (by decide) (by decide) (by decide)⟩

/-! ### Order of the segments with `repulse` -/

theorem maxElementFrom_spec {α : Type} (key : α → Int) (L pre xs : List α) (best : α)
    (bestIdx i : Nat) (hL : L = pre ++ xs) (hlen : pre.length = i)
    (hbest : L[bestIdx]? = some best) (hpre : ∀ y ∈ pre, key y ≤ key best) :
    ∃ m, L[maxElementFrom (fun l r => decide (key l < key r)) best bestIdx i xs]? = some m
      ∧ ∀ x ∈ L, key x ≤ key m := by
  induction xs generalizing pre best bestIdx i with
  | nil =>
    refine ⟨best, hbest, ?_⟩
    intro x hx
    rw [hL, List.append_nil] at hx
    exact hpre x hx
  | cons x xs ih =>
    have hidx : L[i]? = some x := by
      rw [hL, List.getElem?_append_right (by omega)]
      simp [hlen]
    have hL2 : L = (pre ++ [x]) ++ xs := by
      rw [hL, List.append_assoc]
      rfl
    have hlen2 : (pre ++ [x]).length = i + 1 := by
      rw [List.length_append, hlen]
      rfl
    unfold maxElementFrom
    by_cases hlt : key best < key x
    · simp only [hlt, decide_True, if_true]
      apply ih (pre ++ [x]) x i (i + 1) hL2 hlen2 hidx
      intro y hy
      rcases List.mem_append.1 hy with hy | hy
      · have := hpre y hy
        omega
      · rw [List.mem_singleton.1 hy]
    · simp only [hlt, decide_False, Bool.false_eq_true, if_false]
      apply ih (pre ++ [x]) best bestIdx (i + 1) hL2 hlen2 hbest
      intro y hy
      rcases List.mem_append.1 hy with hy | hy
      · exact hpre y hy
      · rw [List.mem_singleton.1 hy]
        omega

theorem maxElementIndex_spec {α : Type} (key : α → Int) (l : List α) (hne : l ≠ []) :
    ∃ m, l[maxElementIndex (fun l r => decide (key l < key r)) l]? = some m
      ∧ ∀ x ∈ l, key x ≤ key m := by
  cases l with
  | nil => exact absurd rfl hne
  | cons x xs =>
    unfold maxElementIndex
    exact maxElementFrom_spec key (x :: xs) [x] xs x 0 1 rfl rfl (by simp)
      (by
        intro y hy
        rw [List.mem_singleton.1 hy])

theorem eraseIdx_perm {α : Type} (l : List α) (i : Nat) (x : α) (h : l[i]? = some x) :
    (x :: l.eraseIdx i).Perm l := by
  induction l generalizing i with
  | nil => simp at h
  | cons y ys ih =>
    cases i with
    | zero =>
      simp only [List.getElem?_cons_zero, Option.some.injEq] at h
      rw [h]
      exact List.Perm.refl _
    | succ j =>
      simp only [List.getElem?_cons_succ] at h
      simp only [List.eraseIdx_cons_succ]
      exact List.Perm.trans (List.Perm.swap y x _) (List.Perm.cons y (ih j h))

theorem repulseLoop_spec (posDistance : FHPos → FHPos → Int) (fuel : Nat)
    (curr : KMeansCluster) (clusters clustersSorted : List KMeansCluster)
    (hfuel : clusters.length ≤ fuel) :
    ∃ more, repulseLoop posDistance fuel curr clusters clustersSorted = clustersSorted ++ more
      ∧ more.Perm clusters
      ∧ ∀ pre prev next rest, curr :: more = pre ++ prev :: next :: rest →
        ∀ other ∈ rest, posDistance prev.m_centroid other.m_centroid
          ≤ posDistance prev.m_centroid next.m_centroid := by
  induction fuel generalizing curr clusters clustersSorted with
  | zero =>
    have hnil : clusters = [] := List.length_eq_zero.1 (by omega)
    subst hnil
    refine ⟨[], by simp [repulseLoop], List.Perm.refl _, ?_⟩
    intro pre prev next rest heq
    have := congrArg List.length heq
    simp at this
    omega
  | succ n ih =>
    cases hcl : clusters with
    | nil =>
      refine ⟨[], by simp [repulseLoop, maxElementIndex], List.Perm.refl _, ?_⟩
      intro pre prev next rest heq
      have := congrArg List.length heq
      simp at this
      omega
    | cons cl cls =>
      obtain ⟨m, hm, hmax⟩ := maxElementIndex_spec
        (fun x : KMeansCluster => posDistance curr.m_centroid x.m_centroid) (cl :: cls)
        (List.cons_ne_nil _ _)
      have hperm := eraseIdx_perm (cl :: cls) _ m hm
      have hlen : ((cl :: cls).eraseIdx (maxElementIndex
          (fun l r => decide (posDistance curr.m_centroid l.m_centroid
            < posDistance curr.m_centroid r.m_centroid)) (cl :: cls))).length ≤ n := by
        have h1 := hperm.length_eq
        simp only [List.length_cons] at h1
        rw [hcl] at hfuel
        simp only [List.length_cons] at hfuel
        omega
      obtain ⟨more, hrun, hmore, hgreedy⟩ := ih m _ (clustersSorted ++ [m]) hlen
      refine ⟨m :: more, ?_, ?_, ?_⟩
      · unfold repulseLoop
        simp only [hm]
        rw [hrun, List.append_assoc]
        rfl
      · exact List.Perm.trans (List.Perm.cons m hmore) hperm
      · intro pre prev next rest heq other hother
        cases pre with
        | nil =>
          simp only [List.nil_append, List.cons.injEq] at heq
          obtain ⟨h1, h2, h3⟩ := heq
          subst h1 h2 h3
          have hin : other ∈ cl :: cls :=
            hperm.subset (List.mem_cons_of_mem _ (hmore.subset hother))
          exact hmax other hin
        | cons p pre2 =>
          simp only [List.cons_append, List.cons.injEq] at heq
          exact hgreedy pre2 prev next rest heq.2 other hother

theorem MapTileRegion.insertList_ne_nil (ts : List FHPos) (h : ts ≠ []) :
    (MapTileRegion.insertList [] ts).isEmpty = false := by
  obtain ⟨t, rest, rfl⟩ := List.exists_cons_of_ne_nil h
  have hmem : t ∈ MapTileRegion.insertList [] (t :: rest) :=
    (MapTileRegion.mem_insertList _ _ _).2 (Or.inr (List.mem_cons_self _ _))
  cases hl : MapTileRegion.insertList [] (t :: rest) with
  | nil =>
    rw [hl] at hmem
    simp at hmem
  | cons _ _ => rfl

/-- C21. With `repulse = true`, for a non-empty area, `k ≠ 1` and a clustering
that returns at least one cluster and no empty cluster, `splitByK` returns the
segments of the clusters in an order that is a permutation of the clusters of
the clustering, starts with its last cluster, and in which every cluster after
the first has a centroid at maximal `posDistance` from the centroid of the
cluster just before it, among the clusters that follow that one. -/
theorem splitByK_repulse (kmeans : List FHPos → Nat → List KMeansCluster)
    (posDistance : FHPos → FHPos → Int) (c : MapTileContainer) (a : MapTileArea) (k : Nat)
    (hne : a.m_innerArea ≠ []) (hk : k ≠ 1) (hclusters : kmeans a.m_innerArea k ≠ [])
    (hpoints : ∀ cl ∈ kmeans a.m_innerArea k, cl.m_points ≠ []) :
    ∃ ordered,
      MapTileArea.splitByK kmeans posDistance c a k true
          = .ok (ordered.map (fun cluster => MapTileArea.makeEdgeFromInnerArea c
              { m_innerArea := MapTileRegion.insertList [] cluster.m_points }))
        ∧ ordered.Perm (kmeans a.m_innerArea k)
        ∧ ordered.head? = (kmeans a.m_innerArea k).getLast?
        ∧ ∀ pre prev next rest, ordered = pre ++ prev :: next :: rest →
          ∀ other ∈ next :: rest, posDistance prev.m_centroid other.m_centroid
            ≤ posDistance prev.m_centroid next.m_centroid := by
  have hlen : a.m_innerArea.length ≠ 0 := fun h0 => hne (List.length_eq_zero.1 h0)
  obtain ⟨curr, hcurr⟩ : ∃ curr, (kmeans a.m_innerArea k).getLast? = some curr := by
    cases hl : (kmeans a.m_innerArea k).getLast? with
    | none => exact absurd (List.getLast?_eq_none_iff.1 hl) hclusters
    | some x => exact ⟨x, rfl⟩
  have hsplit : (kmeans a.m_innerArea k).dropLast ++ [curr] = kmeans a.m_innerArea k :=
    List.dropLast_append_getLast? curr hcurr
  obtain ⟨more, hrun, hmore, hgreedy⟩ := repulseLoop_spec posDistance
    (kmeans a.m_innerArea k).length curr (kmeans a.m_innerArea k).dropLast [curr]
    (by simp)
  have hperm : (curr :: more).Perm (kmeans a.m_innerArea k) := by
    have h1 : (curr :: more).Perm (curr :: (kmeans a.m_innerArea k).dropLast) :=
      List.Perm.cons curr hmore
    have h2 : (curr :: (kmeans a.m_innerArea k).dropLast).Perm
        ((kmeans a.m_innerArea k).dropLast ++ [curr]) :=
      (List.perm_append_singleton curr _).symm
    rw [hsplit] at h2
    exact h1.trans h2
  refine ⟨curr :: more, ?_, hperm, by rw [hcurr]; rfl, ?_⟩
  · have hany : ((curr :: more).map
        (fun cluster => MapTileRegion.insertList [] cluster.m_points)).any
          (fun zoneSeg => zoneSeg.isEmpty) = false := by
      rw [Bool.eq_false_iff]
      intro hcon
      rw [List.any_eq_true] at hcon
      obtain ⟨seg, hseg, hemp⟩ := hcon
      obtain ⟨cl, hcl, rfl⟩ := List.mem_map.1 hseg
      rw [MapTileRegion.insertList_ne_nil _ (hpoints cl (hperm.subset hcl))] at hemp
      cases hemp
    have hrun2 : repulseLoop posDistance (kmeans a.m_innerArea k).length curr
        (kmeans a.m_innerArea k).dropLast [curr] = curr :: more := hrun
    unfold MapTileArea.splitByK
    simp only [hlen, hk, if_false, if_true, hcurr, hrun2, hany, Bool.false_eq_true,
      List.map_map]
    rfl
  · intro pre prev next rest heq other hother
    rcases List.mem_cons.1 hother with h | h
    · rw [h]
    · exact hgreedy pre prev next rest heq other h

set_option maxRecDepth 8192 in
/-- The split of the tiles `(0,0)`, `(1,0)`, `(3,0)` of the 4×1 grid into three
one-tile clusters. -/
theorem splitByK_repulse_witness :
    (({ m_innerArea := [tileXY 0 0, tileXY 1 0, tileXY 3 0] } : MapTileArea).m_innerArea ≠ []
        ∧ 3 ≠ 1
        ∧ singletonClusters [tileXY 0 0, tileXY 1 0, tileXY 3 0] 3 ≠ []
        ∧ ∀ cl ∈ singletonClusters [tileXY 0 0, tileXY 1 0, tileXY 3 0] 3, cl.m_points ≠ [])
      ∧ ∃ ordered,
        MapTileArea.splitByK singletonClusters samplePosDistance
            { m_width := 4, m_height := 1, m_depth := 1 }
            { m_innerArea := [tileXY 0 0, tileXY 1 0, tileXY 3 0] } 3 true
          = .ok (ordered.map
            (fun cluster => MapTileArea.makeEdgeFromInnerArea
              { m_width := 4, m_height := 1, m_depth := 1 }
              { m_innerArea := MapTileRegion.insertList [] cluster.m_points }))
        ∧ ordered.Perm (singletonClusters [tileXY 0 0, tileXY 1 0, tileXY 3 0] 3)
        ∧ ordered.head? = (singletonClusters [tileXY 0 0, tileXY 1 0, tileXY 3 0] 3).getLast?
        ∧ ∀ pre prev next rest, ordered = pre ++ prev :: next :: rest →
          ∀ other ∈ next :: rest, samplePosDistance prev.m_centroid other.m_centroid
            ≤ samplePosDistance prev.m_centroid next.m_centroid :=
  ⟨⟨by decide, by decide, by decide, by decide⟩,
    splitByK_repulse singletonClusters samplePosDistance
      { m_width := 4, m_height := 1, m_depth := 1 }
      { m_innerArea := [tileXY 0 0, tileXY 1 0, tileXY 3 0] } 3
      (by decide) (by decide) (by decide) (by decide)⟩

/-! ### Growth into unzoned tiles -/

theorem growAssign_fold (idx : Int) (l : List FHPos) (acc : MapDraft × TileZone) :
    (∀ p, tilesFind (l.foldl
          (fun (acc : MapDraft × TileZone) pos =>
            let cell : MapDraft.Tile := (tilesFind acc.1.m_tiles pos).getD {}
            ({ acc.1 with
                m_tiles := tilesAssign acc.1.m_tiles pos
                  { cell with m_zoned := true, m_zoneIndex := idx } },
              { acc.2 with m_innerArea := MapTileRegion.insert acc.2.m_innerArea pos }))
          acc).1.m_tiles p
        = if p ∈ l then
            some { ((tilesFind acc.1.m_tiles p).getD {}) with
              m_zoned := true, m_zoneIndex := idx }
          else tilesFind acc.1.m_tiles p)
      ∧ (l.foldl
          (fun (acc : MapDraft × TileZone) pos =>
            let cell : MapDraft.Tile := (tilesFind acc.1.m_tiles pos).getD {}
            ({ acc.1 with
                m_tiles := tilesAssign acc.1.m_tiles pos
                  { cell with m_zoned := true, m_zoneIndex := idx } },
              { acc.2 with m_innerArea := MapTileRegion.insert acc.2.m_innerArea pos }))
          acc).2
        = { acc.2 with m_innerArea := MapTileRegion.insertList acc.2.m_innerArea l } := by
  induction l generalizing acc with
  | nil =>
    refine ⟨fun p => by simp, rfl⟩
  | cons x xs ih =>
    simp only [List.foldl_cons]
    obtain ⟨h1, h2⟩ := ih
      ({ acc.1 with
          m_tiles := tilesAssign acc.1.m_tiles x
            { ((tilesFind acc.1.m_tiles x).getD {}) with m_zoned := true, m_zoneIndex := idx } },
        { acc.2 with m_innerArea := MapTileRegion.insert acc.2.m_innerArea x })
    refine ⟨?_, ?_⟩
    · intro p
      rw [h1 p]
      simp only [tilesFind_tilesAssign, List.mem_cons]
      by_cases hpx : x = p
      · subst hpx
        by_cases hin : x ∈ xs
        · simp [hin]
        · simp [hin]
      · have hpx2 : ¬ p = x := fun h => hpx h.symm
        by_cases hin : p ∈ xs
        · simp [hin, hpx]
        · simp [hin, hpx, hpx2]
    · rw [h2]
      rfl

theorem TileZone.growOnceToUnzoned_spec (allow : Bool) (s : MapDraft × TileZone) :
    (TileZone.growOnceToUnzoned allow s).2.m_index = s.2.m_index
      ∧ (TileZone.growOnceToUnzoned allow s).2.m_innerEdge = TileZone.unzonedEdge allow s
      ∧ (∀ t, t ∈ (TileZone.growOnceToUnzoned allow s).2.m_innerArea
          ↔ t ∈ s.2.m_innerArea ∨ t ∈ TileZone.unzonedEdge allow s)
      ∧ ∀ p, tilesFind (TileZone.growOnceToUnzoned allow s).1.m_tiles p
          = if p ∈ TileZone.unzonedEdge allow s then
              some { ((tilesFind s.1.m_tiles p).getD {}) with
                m_zoned := true, m_zoneIndex := s.2.m_index }
            else tilesFind s.1.m_tiles p := by
  have hfold := growAssign_fold s.2.m_index (TileZone.unzonedEdge allow s)
    (s.1, { (TileZone.growOnce s.2 (TileZone.unzonedPredicate s.1 s.2 allow)) with
      m_innerEdge := TileZone.unzonedEdge allow s })
  have hdef : TileZone.growOnceToUnzoned allow s
      = (TileZone.unzonedEdge allow s).foldl
          (fun (acc : MapDraft × TileZone) pos =>
            let cell : MapDraft.Tile := (tilesFind acc.1.m_tiles pos).getD {}
            ({ acc.1 with
                m_tiles := tilesAssign acc.1.m_tiles pos
                  { cell with m_zoned := true, m_zoneIndex := s.2.m_index } },
              { acc.2 with m_innerArea := MapTileRegion.insert acc.2.m_innerArea pos }))
          (s.1, { (TileZone.growOnce s.2 (TileZone.unzonedPredicate s.1 s.2 allow)) with
            m_innerEdge := TileZone.unzonedEdge allow s }) := rfl
  rw [hdef]
  obtain ⟨h1, h2⟩ := hfold
  refine ⟨by rw [h2]; rfl, by rw [h2], ?_, h1⟩
  intro t
  rw [h2]
  simp only [MapTileRegion.mem_insertList]
  rfl

theorem TileZone.mem_unzonedEdge (allow : Bool) (s : MapDraft × TileZone) (n : FHPos) :
    n ∈ TileZone.unzonedEdge allow s
      ↔ (∃ p ∈ s.2.m_innerEdge, orthogonallyAdjacent p n)
        ∧ TileZone.unzonedPredicate s.1 s.2 allow n = true := by
  unfold TileZone.unzonedEdge TileZone.growOnce
  simp only
  constructor
  · intro h
    refine ⟨?_, ?_⟩
    · rcases TileZone.growOnce_fold_adjacent _ _ _ _ h with h1 | h1
      · simp at h1
      · exact h1
    · rcases TileZone.growOnce_fold _ _ _ _ h with h1 | h1
      · simp at h1
      · exact h1
  · rintro ⟨hadj, hp⟩
    exact TileZone.growOnce_fold_complete _ _ _ _ hp (Or.inr hadj)

theorem TileZone.unzonedPredicate_false_iff (d : MapDraft) (z : TileZone) (n : FHPos) :
    TileZone.unzonedPredicate d z false n = true
      ↔ ∃ cell, tilesFind d.m_tiles n = some cell ∧ cell.m_zoned = false := by
  unfold TileZone.unzonedPredicate
  rcases hf : tilesFind d.m_tiles n with _ | cell
  · simp
  · simp

theorem TileZone.growOnceToUnzoned_potential (K0 : List FHPos) (s : MapDraft × TileZone)
    (hkeys : ∀ p cell, tilesFind s.1.m_tiles p = some cell → p ∈ K0) :
    (∀ p cell, tilesFind (TileZone.growOnceToUnzoned false s).1.m_tiles p = some cell → p ∈ K0)
      ∧ (K0.filter (fun k => (tilesFind (TileZone.growOnceToUnzoned false s).1.m_tiles k).any
            (fun cell => !cell.m_zoned))).length
          + (if (TileZone.growOnceToUnzoned false s).2.m_innerEdge.isEmpty then 0 else 1)
        ≤ (K0.filter (fun k => (tilesFind s.1.m_tiles k).any
            (fun cell => !cell.m_zoned))).length := by
  obtain ⟨_, hedge, _, hfind⟩ := TileZone.growOnceToUnzoned_spec false s
  have hE : ∀ n, n ∈ TileZone.unzonedEdge false s →
      ∃ cell, tilesFind s.1.m_tiles n = some cell ∧ cell.m_zoned = false := by
    intro n hn
    exact (TileZone.unzonedPredicate_false_iff _ _ _).1
      ((TileZone.mem_unzonedEdge false s n).1 hn).2
  have himp : ∀ k, (tilesFind (TileZone.growOnceToUnzoned false s).1.m_tiles k).any
      (fun cell => !cell.m_zoned) = true →
      (tilesFind s.1.m_tiles k).any (fun cell => !cell.m_zoned) = true := by
    intro k hk
    rw [hfind k] at hk
    by_cases hin : k ∈ TileZone.unzonedEdge false s
    · simp [hin] at hk
    · simpa [hin] using hk
  constructor
  · intro p cell hp
    rw [hfind p] at hp
    by_cases hin : p ∈ TileZone.unzonedEdge false s
    · obtain ⟨c0, hc0, _⟩ := hE p hin
      exact hkeys p c0 hc0
    · simp only [hin, if_false] at hp
      exact hkeys p cell hp
  · rw [hedge]
    cases hl : TileZone.unzonedEdge false s with
    | nil =>
      simp only [List.isEmpty_nil, if_true, Nat.add_zero]
      rw [← List.countP_eq_length_filter, ← List.countP_eq_length_filter]
      exact List.countP_mono_left (fun x _ hx => himp x hx)
    | cons e es =>
      simp only [List.isEmpty_cons, Bool.false_eq_true, if_false]
      have hin : e ∈ TileZone.unzonedEdge false s := by
        rw [hl]
        exact List.mem_cons_self _ _
      obtain ⟨c0, hc0, hz0⟩ := hE e hin
      have hlt := filter_length_lt_of_witness K0
        (fun k => (tilesFind (TileZone.growOnceToUnzoned false s).1.m_tiles k).any
          (fun cell => !cell.m_zoned))
        (fun k => (tilesFind s.1.m_tiles k).any (fun cell => !cell.m_zoned))
        himp e (hkeys e c0 hc0)
        (by simp [hc0, hz0])
        (by
          simp only [hfind e, hin, if_true]
          rfl)
      omega

theorem TileZone.fillTheRestLoop_terminates (K0 : List FHPos) (fuel : Nat)
    (s : MapDraft × TileZone)
    (hkeys : ∀ p cell, tilesFind s.1.m_tiles p = some cell → p ∈ K0)
    (hfuel : (K0.filter (fun k => (tilesFind s.1.m_tiles k).any
          (fun cell => !cell.m_zoned))).length
        + (if s.2.m_innerEdge.isEmpty then 0 else 1) ≤ fuel) :
    ∃ r, TileZone.fillTheRestLoop fuel s = some r := by
  induction fuel generalizing s with
  | zero =>
    unfold TileZone.fillTheRestLoop
    by_cases he : s.2.m_innerEdge.isEmpty = true
    · exact ⟨s, by simp [he]⟩
    · simp only [he, Bool.false_eq_true, if_false] at hfuel
      omega
  | succ n ih =>
    unfold TileZone.fillTheRestLoop
    by_cases he : s.2.m_innerEdge.isEmpty = true
    · exact ⟨s, by simp [he]⟩
    · simp only [he, Bool.false_eq_true, if_false] at hfuel ⊢
      have hp := TileZone.growOnceToUnzoned_potential K0 s hkeys
      exact ih _ hp.1 (by omega)

theorem TileZone.fillDeficitLoop_terminates (K0 : List FHPos) (threshold : Int) (fuel : Nat)
    (s : MapDraft × TileZone)
    (hkeys : ∀ p cell, tilesFind s.1.m_tiles p = some cell → p ∈ K0)
    (hfuel : (K0.filter (fun k => (tilesFind s.1.m_tiles k).any
          (fun cell => !cell.m_zoned))).length
        + (if s.2.m_innerEdge.isEmpty then 0 else 1) ≤ fuel) :
    ∃ r, TileZone.fillDeficitLoop threshold false fuel s = some r := by
  induction fuel generalizing s with
  | zero =>
    unfold TileZone.fillDeficitLoop
    by_cases he : s.2.m_innerEdge.isEmpty = true
    · exact ⟨s, by simp [he]⟩
    · simp only [he, Bool.false_eq_true, if_false] at hfuel
      omega
  | succ n ih =>
    unfold TileZone.fillDeficitLoop
    by_cases he : s.2.m_innerEdge.isEmpty = true
    · exact ⟨s, by simp [he]⟩
    · simp only [he, Bool.false_eq_true, if_false] at hfuel ⊢
      by_cases hd : s.2.getAreaDeficit < threshold
      · exact ⟨s, by simp [hd]⟩
      · simp only [hd, if_false]
        have hp := TileZone.growOnceToUnzoned_potential K0 s hkeys
        exact ih _ hp.1 (by omega)

theorem TileZone.fillTheRestLoop_invariant (I : MapDraft × TileZone → Prop)
    (hstep : ∀ s, I s → s.2.m_innerEdge.isEmpty = false → I (TileZone.growOnceToUnzoned false s))
    (fuel : Nat) (s r : MapDraft × TileZone) (h : TileZone.fillTheRestLoop fuel s = some r)
    (h0 : I s) : I r ∧ r.2.m_innerEdge = [] := by
  induction fuel generalizing s with
  | zero =>
    unfold TileZone.fillTheRestLoop at h
    split_ifs at h with he
    simp only [Option.some.injEq] at h
    subst h
    exact ⟨h0, List.isEmpty_iff.1 he⟩
  | succ n ih =>
    unfold TileZone.fillTheRestLoop at h
    split_ifs at h with he
    · simp only [Option.some.injEq] at h
      subst h
      exact ⟨h0, List.isEmpty_iff.1 he⟩
    · exact ih _ h (hstep s h0 (by simpa using he))

theorem TileZone.fillDeficitLoop_invariant (I : MapDraft × TileZone → Prop)
    (hstep : ∀ s, I s → s.2.m_innerEdge.isEmpty = false → I (TileZone.growOnceToUnzoned false s))
    (threshold : Int) (fuel : Nat) (s r : MapDraft × TileZone)
    (h : TileZone.fillDeficitLoop threshold false fuel s = some r) (h0 : I s) : I r := by
  induction fuel generalizing s with
  | zero =>
    unfold TileZone.fillDeficitLoop at h
    split_ifs at h with he hd
    · simp only [Option.some.injEq] at h
      subst h
      exact h0
    · simp only [Option.some.injEq] at h
      subst h
      exact h0
  | succ n ih =>
    unfold TileZone.fillDeficitLoop at h
    split_ifs at h with he hd
    · simp only [Option.some.injEq] at h
      subst h
      exact h0
    · simp only [Option.some.injEq] at h
      subst h
      exact h0
    · exact ih _ h (hstep s h0 (by simpa using he))

theorem TileZone.growOnceToUnzoned_frame (d0 : MapDraft) (idx : Int) (s : MapDraft × TileZone)
    (h : s.2.m_index = idx
      ∧ ∀ pos, tilesFind s.1.m_tiles pos = tilesFind d0.m_tiles pos
        ∨ ∃ cell, tilesFind d0.m_tiles pos = some cell ∧ cell.m_zoned = false
          ∧ tilesFind s.1.m_tiles pos
            = some { cell with m_zoned := true, m_zoneIndex := idx }) :
    (TileZone.growOnceToUnzoned false s).2.m_index = idx
      ∧ ∀ pos, tilesFind (TileZone.growOnceToUnzoned false s).1.m_tiles pos
          = tilesFind d0.m_tiles pos
        ∨ ∃ cell, tilesFind d0.m_tiles pos = some cell ∧ cell.m_zoned = false
          ∧ tilesFind (TileZone.growOnceToUnzoned false s).1.m_tiles pos
            = some { cell with m_zoned := true, m_zoneIndex := idx } := by
  obtain ⟨hidx, _, _, hfind⟩ := TileZone.growOnceToUnzoned_spec false s
  refine ⟨by rw [hidx]; exact h.1, ?_⟩
  intro pos
  rw [hfind pos]
  by_cases hin : pos ∈ TileZone.unzonedEdge false s
  · simp only [hin, if_true]
    obtain ⟨cell, hc, hz⟩ := (TileZone.unzonedPredicate_false_iff _ _ _).1
      ((TileZone.mem_unzonedEdge false s pos).1 hin).2
    right
    rcases h.2 pos with h1 | ⟨c0, _, _, h3⟩
    · refine ⟨cell, by rw [← h1]; exact hc, hz, ?_⟩
      rw [hc, h.1]
      rfl
    · rw [h3] at hc
      simp only [Option.some.injEq] at hc
      rw [← hc] at hz
      simp at hz
  · simp only [hin, if_false]
    exact h.2 pos

theorem frame_zoned_unchanged (d d2 : MapDraft) (idx : Int)
    (h : ∀ pos, tilesFind d2.m_tiles pos = tilesFind d.m_tiles pos
      ∨ ∃ cell, tilesFind d.m_tiles pos = some cell ∧ cell.m_zoned = false
        ∧ tilesFind d2.m_tiles pos = some { cell with m_zoned := true, m_zoneIndex := idx }) :
    ∀ pos cell, tilesFind d.m_tiles pos = some cell → cell.m_zoned = true →
      tilesFind d2.m_tiles pos = some cell := by
  intro pos cell hc hz
  rcases h pos with h1 | ⟨c0, h2, h3, _⟩
  · rw [h1]
    exact hc
  · rw [hc] at h2
    simp only [Option.some.injEq] at h2
    rw [← h2, hz] at h3
    cases h3

theorem fill_fuel (d : MapDraft) (z : TileZone) :
    (∀ p cell, tilesFind d.m_tiles p = some cell → p ∈ d.m_tiles.map Prod.fst)
      ∧ ((d.m_tiles.map Prod.fst).filter (fun k => (tilesFind d.m_tiles k).any
            (fun cell => !cell.m_zoned))).length
          + (if z.m_innerEdge.isEmpty then 0 else 1) ≤ d.m_tiles.length + 1 := by
  refine ⟨fun p cell hp => tilesFind_mem_keys _ _ _ hp, ?_⟩
  have h1 := List.length_filter_le (fun k => (tilesFind d.m_tiles k).any
    (fun cell => !cell.m_zoned)) (d.m_tiles.map Prod.fst)
  rw [List.length_map] at h1
  split_ifs <;> omega

/-- C29. The calls `fillDeficit(thresholdPercent, false)` and `fillTheRest`
return within their loop budgets, and leave the entry of every tile that was
zoned as it was: each tile of the map has its old entry, or was not zoned and
is now zoned with the index of the zone. -/
theorem fill_keeps_zoned (thresholdPercent : Int) (d : MapDraft) (z : TileZone) :
    (∃ r, TileZone.fillDeficit thresholdPercent false (d, z) = some r
        ∧ (∀ pos cell, tilesFind d.m_tiles pos = some cell → cell.m_zoned = true →
              tilesFind r.1.m_tiles pos = some cell)
          ∧ ∀ pos, tilesFind r.1.m_tiles pos = tilesFind d.m_tiles pos
            ∨ ∃ cell, tilesFind d.m_tiles pos = some cell ∧ cell.m_zoned = false
              ∧ tilesFind r.1.m_tiles pos
                = some { cell with m_zoned := true, m_zoneIndex := z.m_index })
      ∧ ∃ r, TileZone.fillTheRest (d, z) = some r
        ∧ (∀ pos cell, tilesFind d.m_tiles pos = some cell → cell.m_zoned = true →
              tilesFind r.1.m_tiles pos = some cell)
          ∧ ∀ pos, tilesFind r.1.m_tiles pos = tilesFind d.m_tiles pos
            ∨ ∃ cell, tilesFind d.m_tiles pos = some cell ∧ cell.m_zoned = false
              ∧ tilesFind r.1.m_tiles pos
                = some { cell with m_zoned := true, m_zoneIndex := z.m_index } := by
  have hfuel := fill_fuel d z
  have h0 : z.m_index = z.m_index
      ∧ ∀ pos, tilesFind d.m_tiles pos = tilesFind d.m_tiles pos
        ∨ ∃ cell, tilesFind d.m_tiles pos = some cell ∧ cell.m_zoned = false
          ∧ tilesFind d.m_tiles pos
            = some { cell with m_zoned := true, m_zoneIndex := z.m_index } :=
    ⟨rfl, fun _ => Or.inl rfl⟩
  constructor
  · obtain ⟨r, hr⟩ := TileZone.fillDeficitLoop_terminates (d.m_tiles.map Prod.fst)
      ((z.m_absoluteArea * thresholdPercent).tdiv 100) (d.m_tiles.length + 1) (d, z)
      hfuel.1 hfuel.2
    have hinv := TileZone.fillDeficitLoop_invariant
      (fun s => s.2.m_index = z.m_index
        ∧ ∀ pos, tilesFind s.1.m_tiles pos = tilesFind d.m_tiles pos
          ∨ ∃ cell, tilesFind d.m_tiles pos = some cell ∧ cell.m_zoned = false
            ∧ tilesFind s.1.m_tiles pos
              = some { cell with m_zoned := true, m_zoneIndex := z.m_index })
      (fun s hs _ => TileZone.growOnceToUnzoned_frame d z.m_index s hs) _ _ (d, z) r hr h0
    refine ⟨(r.1, TileZone.makeEdgeFromInnerArea r.2), ?_,
      frame_zoned_unchanged d r.1 z.m_index hinv.2, hinv.2⟩
    unfold TileZone.fillDeficit
    simp only [hr]
  · obtain ⟨r, hr⟩ := TileZone.fillTheRestLoop_terminates (d.m_tiles.map Prod.fst)
      (d.m_tiles.length + 1) (d, z) hfuel.1 hfuel.2
    have hinv := (TileZone.fillTheRestLoop_invariant
      (fun s => s.2.m_index = z.m_index
        ∧ ∀ pos, tilesFind s.1.m_tiles pos = tilesFind d.m_tiles pos
          ∨ ∃ cell, tilesFind d.m_tiles pos = some cell ∧ cell.m_zoned = false
            ∧ tilesFind s.1.m_tiles pos
              = some { cell with m_zoned := true, m_zoneIndex := z.m_index })
      (fun s hs _ => TileZone.growOnceToUnzoned_frame d z.m_index s hs) _ (d, z) r hr h0).1
    refine ⟨(r.1, TileZone.makeEdgeFromInnerArea r.2), ?_,
      frame_zoned_unchanged d r.1 z.m_index hinv.2, hinv.2⟩
    unfold TileZone.fillTheRest
    simp only [hr]

theorem getCollisionShiftForObject_noCollision (posDistance : FHPos → FHPos → Int → Int)
    (c : MapTileContainer) (object obstacle : MapTileRegion) (invertObstacle : Bool)
    (ho : object ≠ []) (hb : obstacle ≠ []) :
    (∃ p, MapTileArea.getCollisionShiftForObject posDistance c object obstacle invertObstacle
        = .ok (CollisionResult.NoCollision, p))
      ↔ (if invertObstacle then MapTileRegion.diffWith object obstacle
          else MapTileRegion.intersectWith object obstacle) = [] := by
  obtain ⟨o, os, rfl⟩ := List.exists_cons_of_ne_nil ho
  obtain ⟨b, bs, rfl⟩ := List.exists_cons_of_ne_nil hb
  generalize hI : (if invertObstacle then MapTileRegion.diffWith (o :: os) (b :: bs)
      else MapTileRegion.intersectWith (o :: os) (b :: bs)) = inter
  have hdef : MapTileArea.getCollisionShiftForObject posDistance c (o :: os) (b :: bs)
        invertObstacle
      = (if inter.isEmpty then .ok (CollisionResult.NoCollision, FHPos.zero)
        else if MapTileRegion.same inter (o :: os) then
          .ok (CollisionResult.ImpossibleShift, FHPos.zero)
        else
          match MapTileArea.makeCentroid posDistance c inter false with
          | .error e => .error e
          | .ok none => .error .nullTile
          | .ok (some collisionCentroid) =>
            match MapTileArea.makeCentroid posDistance c
                (MapTileRegion.erase (o :: os) collisionCentroid) false with
            | .error e => .error e
            | .ok none => .error .nullTile
            | .ok (some objectCentroid) =>
              if (objectCentroid.sub collisionCentroid).m_x = 0
                  ∧ (objectCentroid.sub collisionCentroid).m_y = 0 then
                .ok (CollisionResult.ImpossibleShift, FHPos.zero)
              else
                .ok (CollisionResult.HasShift,
                  { m_x := (shiftCorrection
                      ((((objectBoundary o (o :: os)).2.sub (objectBoundary o (o :: os)).1).m_x
                        + 1).tdiv 2)
                      ((((objectBoundary o (o :: os)).2.sub (objectBoundary o (o :: os)).1).m_y
                        + 1).tdiv 2)
                      (objectCentroid.sub collisionCentroid).m_x
                      (objectCentroid.sub collisionCentroid).m_y).1,
                    m_y := (shiftCorrection
                      ((((objectBoundary o (o :: os)).2.sub (objectBoundary o (o :: os)).1).m_x
                        + 1).tdiv 2)
                      ((((objectBoundary o (o :: os)).2.sub (objectBoundary o (o :: os)).1).m_y
                        + 1).tdiv 2)
                      (objectCentroid.sub collisionCentroid).m_x
                      (objectCentroid.sub collisionCentroid).m_y).2,
                    m_z := 0 })) := by
    rw [← hI]
    rfl
  rw [hdef]
  constructor
  · rintro ⟨p, hp⟩
    by_contra hne
    have he : inter.isEmpty = false := by
      cases inter with
      | nil => exact absurd rfl hne
      | cons x xs => rfl
    rw [he] at hp
    simp only [Bool.false_eq_true, if_false] at hp
    split at hp
    · simp at hp
    · split at hp
      · simp at hp
      · simp at hp
      · split at hp
        · simp at hp
        · simp at hp
        · split at hp
          · simp at hp
          · simp at hp
  · intro h
    rw [h]
    exact ⟨FHPos.zero, rfl⟩

/-- C35. For a non-empty object and a non-empty obstacle the collision check
returns `NoCollision` exactly when the collision set is empty, the collision
set being the intersection of object and obstacle without inversion and the
object minus the obstacle with inversion; so with inversion `NoCollision` means
that every tile of the object is a tile of the obstacle, and an object with no
tile in the obstacle gets `ImpossibleShift`. -/
theorem getCollisionShiftForObject_noCollision_iff (posDistance : FHPos → FHPos → Int → Int)
    (c : MapTileContainer) (object obstacle : MapTileRegion) (invertObstacle : Bool)
    (ho : object ≠ []) (hb : obstacle ≠ []) :
    ((∃ p, MapTileArea.getCollisionShiftForObject posDistance c object obstacle invertObstacle
          = .ok (CollisionResult.NoCollision, p))
        ↔ (if invertObstacle then MapTileRegion.diffWith object obstacle
            else MapTileRegion.intersectWith object obstacle) = [])
      ∧ (invertObstacle = true →
          ((∃ p, MapTileArea.getCollisionShiftForObject posDistance c object obstacle
                invertObstacle = .ok (CollisionResult.NoCollision, p))
            ↔ ∀ t ∈ object, t ∈ obstacle))
      ∧ (invertObstacle = true → (∀ t ∈ object, t ∉ obstacle) →
          MapTileArea.getCollisionShiftForObject posDistance c object obstacle invertObstacle
            = .ok (CollisionResult.ImpossibleShift, FHPos.zero)) := by
  refine ⟨getCollisionShiftForObject_noCollision posDistance c object obstacle invertObstacle
    ho hb, ?_, ?_⟩
  · intro hinv
    rw [getCollisionShiftForObject_noCollision posDistance c object obstacle invertObstacle
      ho hb, hinv]
    simp only [if_true]
    constructor
    · intro h t ht
      by_contra hn
      have : t ∈ MapTileRegion.diffWith object obstacle :=
        (MapTileRegion.mem_diffWith _ _ _).2 ⟨ht, hn⟩
      rw [h] at this
      simp at this
    · intro h
      apply List.eq_nil_iff_forall_not_mem.2
      intro t ht
      have h2 := (MapTileRegion.mem_diffWith _ _ _).1 ht
      exact h2.2 (h t h2.1)
  · intro hinv hout
    subst hinv
    obtain ⟨o, os, rfl⟩ := List.exists_cons_of_ne_nil ho
    obtain ⟨b, bs, rfl⟩ := List.exists_cons_of_ne_nil hb
    have hsame : MapTileRegion.same (MapTileRegion.diffWith (o :: os) (b :: bs)) (o :: os)
        = true := by
      apply (MapTileRegion.same_iff _ _).2
      intro t
      rw [MapTileRegion.mem_diffWith]
      exact ⟨fun h => h.1, fun h => ⟨h, hout t h⟩⟩
    have hne : (MapTileRegion.diffWith (o :: os) (b :: bs)).isEmpty = false := by
      have : o ∈ MapTileRegion.diffWith (o :: os) (b :: bs) :=
        (MapTileRegion.mem_diffWith _ _ _).2 ⟨by simp, hout o (by simp)⟩
      cases hd : MapTileRegion.diffWith (o :: os) (b :: bs) with
      | nil =>
        rw [hd] at this
        simp at this
      | cons x xs => rfl
    unfold MapTileArea.getCollisionShiftForObject
    simp [hne, hsame]

/-- With inversion, the two-tile object at the left of the 3×1 grid against the
whole row has no collision, and the conditions of the check hold. -/
theorem getCollisionShiftForObject_noCollision_iff_witness :
    [tileXY 0 0, tileXY 1 0] ≠ [] ∧ [tileXY 0 0, tileXY 1 0, tileXY 2 0] ≠ []
      ∧ ((∃ p, MapTileArea.getCollisionShiftForObject sampleDistance
              { m_width := 3, m_height := 1, m_depth := 1 }
              [tileXY 0 0, tileXY 1 0] [tileXY 0 0, tileXY 1 0, tileXY 2 0] true
            = .ok (CollisionResult.NoCollision, p))
          ↔ ∀ t ∈ [tileXY 0 0, tileXY 1 0], t ∈ [tileXY 0 0, tileXY 1 0, tileXY 2 0])
      ∧ MapTileArea.getCollisionShiftForObject sampleDistance
            { m_width := 3, m_height := 1, m_depth := 1 }
            [tileXY 0 0, tileXY 1 0] [tileXY 0 0, tileXY 1 0, tileXY 2 0] true
          = .ok (CollisionResult.NoCollision, FHPos.zero) :=
  ⟨by decide, by decide,
    (getCollisionShiftForObject_noCollision_iff sampleDistance
      { m_width := 3, m_height := 1, m_depth := 1 }
      [tileXY 0 0, tileXY 1 0] [tileXY 0 0, tileXY 1 0, tileXY 2 0] true
      (by decide) (by decide)).2.1 rfl, rfl⟩

theorem shiftCorrection_fst (horRadius vertRadius cx cy : Int) :
    (shiftCorrection horRadius vertRadius cx cy).1
      = if 0 < cx then
          (if 1 < horRadius then
            (if horRadius - cx + 1 < 0 then -horRadius - (horRadius - cx + 1) - 1
              else horRadius - cx + 1)
            else cx)
        else if cx < 0 then (if 1 < horRadius then -horRadius - cx - 1 else cx)
        else cx := by
  unfold shiftCorrection
  simp only [gt_iff_lt]
  split_ifs <;> omega

theorem shiftCorrection_snd (horRadius vertRadius cx cy : Int) :
    (shiftCorrection horRadius vertRadius cx cy).2
      = if 0 < cy then
          (if 1 < vertRadius then
            (if vertRadius - cy + 1 < 0 ∧ 1 < horRadius then
              -vertRadius - (vertRadius - cy + 1) - 1
              else vertRadius - cy + 1)
            else cy)
        else if cy < 0 then (if 1 < horRadius then -vertRadius - cy - 1 else cy)
        else cy := by
  unfold shiftCorrection
  simp only [gt_iff_lt]
  split_ifs <;> omega

/-- C31, the code at a row of four tiles whose right half is the obstacle. The
collision centroid is `(2,0)`; the object-side end that the code uses is the
centroid `(1,0)` of the object without that one tile, which gives the shift
`(-2, 0)`; the centroid of the object minus the obstacle is `(0,0)`, which
would give `(-1, 0)`. -/
theorem getCollisionShiftForObject_erases_one_tile :
    MapTileArea.getCollisionShiftForObject sampleDistance
        { m_width := 4, m_height := 1, m_depth := 1 } sampleRow [tileXY 2 0, tileXY 3 0] false
      = .ok (CollisionResult.HasShift, tileXY (-2) 0)
    ∧ MapTileArea.makeCentroid sampleDistance { m_width := 4, m_height := 1, m_depth := 1 }
        (MapTileRegion.intersectWith sampleRow [tileXY 2 0, tileXY 3 0]) false
      = .ok (some (tileXY 2 0))
    ∧ MapTileRegion.erase sampleRow (tileXY 2 0) = [tileXY 0 0, tileXY 1 0, tileXY 3 0]
    ∧ MapTileArea.makeCentroid sampleDistance { m_width := 4, m_height := 1, m_depth := 1 }
        (MapTileRegion.erase sampleRow (tileXY 2 0)) false
      = .ok (some (tileXY 1 0))
    ∧ MapTileRegion.diffWith sampleRow [tileXY 2 0, tileXY 3 0] = [tileXY 0 0, tileXY 1 0]
    ∧ MapTileArea.makeCentroid sampleDistance { m_width := 4, m_height := 1, m_depth := 1 }
        (MapTileRegion.diffWith sampleRow [tileXY 2 0, tileXY 3 0]) false
      = .ok (some (tileXY 0 0))
    ∧ shiftCorrection 2 0 (1 - 2) 0 = (-2, 0)
    ∧ shiftCorrection 2 0 (0 - 2) 0 = (-1, 0) :=
  ⟨rfl, rfl, by decide, rfl, by decide, rfl, by decide, by decide⟩

theorem getCollisionShiftForObject_hasShift_iff (posDistance : FHPos → FHPos → Int → Int)
    (c : MapTileContainer) (object obstacle : MapTileRegion) (invertObstacle : Bool)
    (p : FHPos) :
    MapTileArea.getCollisionShiftForObject posDistance c object obstacle invertObstacle
        = .ok (CollisionResult.HasShift, p)
      ↔ ∃ (first cc oc : FHPos) (rest : MapTileRegion) (width height : Int),
          object = first :: rest ∧ obstacle ≠ []
            ∧ (if invertObstacle then MapTileRegion.diffWith object obstacle
                else MapTileRegion.intersectWith object obstacle) ≠ []
            ∧ MapTileRegion.same
                (if invertObstacle then MapTileRegion.diffWith object obstacle
                  else MapTileRegion.intersectWith object obstacle) object = false
            ∧ MapTileArea.makeCentroid posDistance c
                (if invertObstacle then MapTileRegion.diffWith object obstacle
                  else MapTileRegion.intersectWith object obstacle) false
              = .ok (some cc)
            ∧ MapTileArea.makeCentroid posDistance c (MapTileRegion.erase object cc) false
              = .ok (some oc)
            ∧ width = (objectBoundary first object).2.m_x - (objectBoundary first object).1.m_x + 1
            ∧ height
              = (objectBoundary first object).2.m_y - (objectBoundary first object).1.m_y + 1
            ∧ ¬ (oc.m_x - cc.m_x = 0 ∧ oc.m_y - cc.m_y = 0)
            ∧ p = { m_x := (shiftCorrection (width.tdiv 2) (height.tdiv 2)
                      (oc.m_x - cc.m_x) (oc.m_y - cc.m_y)).1,
                    m_y := (shiftCorrection (width.tdiv 2) (height.tdiv 2)
                      (oc.m_x - cc.m_x) (oc.m_y - cc.m_y)).2,
                    m_z := 0 } := by
  cases object with
  | nil =>
    constructor
    · intro h
      unfold MapTileArea.getCollisionShiftForObject at h
      simp at h
    · rintro ⟨first, cc, oc, rest, width, height, hobj, _⟩
      cases hobj
  | cons o os =>
    cases obstacle with
    | nil =>
      constructor
      · intro h
        unfold MapTileArea.getCollisionShiftForObject at h
        simp at h
      · rintro ⟨first, cc, oc, rest, width, height, _, hobs, _⟩
        exact absurd rfl hobs
    | cons b bs =>
      have hdef : MapTileArea.getCollisionShiftForObject posDistance c (o :: os) (b :: bs)
            invertObstacle
          = (if (if invertObstacle then MapTileRegion.diffWith (o :: os) (b :: bs)
                else MapTileRegion.intersectWith (o :: os) (b :: bs)).isEmpty then
              .ok (CollisionResult.NoCollision, FHPos.zero)
            else if MapTileRegion.same
                (if invertObstacle then MapTileRegion.diffWith (o :: os) (b :: bs)
                  else MapTileRegion.intersectWith (o :: os) (b :: bs)) (o :: os) then
              .ok (CollisionResult.ImpossibleShift, FHPos.zero)
            else
              match MapTileArea.makeCentroid posDistance c
                  (if invertObstacle then MapTileRegion.diffWith (o :: os) (b :: bs)
                    else MapTileRegion.intersectWith (o :: os) (b :: bs)) false with
              | .error e => .error e
              | .ok none => .error .nullTile
              | .ok (some collisionCentroid) =>
                match MapTileArea.makeCentroid posDistance c
                    (MapTileRegion.erase (o :: os) collisionCentroid) false with
                | .error e => .error e
                | .ok none => .error .nullTile
                | .ok (some objectCentroid) =>
                  if objectCentroid.m_x - collisionCentroid.m_x = 0
                      ∧ objectCentroid.m_y - collisionCentroid.m_y = 0 then
                    .ok (CollisionResult.ImpossibleShift, FHPos.zero)
                  else
                    .ok (CollisionResult.HasShift,
                      { m_x := (shiftCorrection
                          (((objectBoundary o (o :: os)).2.m_x
                            - (objectBoundary o (o :: os)).1.m_x + 1).tdiv 2)
                          (((objectBoundary o (o :: os)).2.m_y
                            - (objectBoundary o (o :: os)).1.m_y + 1).tdiv 2)
                          (objectCentroid.m_x - collisionCentroid.m_x)
                          (objectCentroid.m_y - collisionCentroid.m_y)).1,
                        m_y := (shiftCorrection
                          (((objectBoundary o (o :: os)).2.m_x
                            - (objectBoundary o (o :: os)).1.m_x + 1).tdiv 2)
                          (((objectBoundary o (o :: os)).2.m_y
                            - (objectBoundary o (o :: os)).1.m_y + 1).tdiv 2)
                          (objectCentroid.m_x - collisionCentroid.m_x)
                          (objectCentroid.m_y - collisionCentroid.m_y)).2,
                        m_z := 0 })) := rfl
      rw [hdef]
      generalize (if invertObstacle then MapTileRegion.diffWith (o :: os) (b :: bs)
          else MapTileRegion.intersectWith (o :: os) (b :: bs)) = inter
      constructor
      · intro h
        split at h
        · simp at h
        · rename_i hne
          split at h
          · simp at h
          · rename_i hsame
            split at h
            · simp at h
            · simp at h
            · rename_i cc hcc
              split at h
              · simp at h
              · simp at h
              · rename_i oc hoc
                split at h
                · simp at h
                · rename_i hnz
                  simp only [Except.ok.injEq, Prod.mk.injEq, true_and] at h
                  refine ⟨o, cc, oc, os, _, _, rfl, by simp, ?_, by simpa using hsame, hcc, hoc,
                    rfl, rfl, hnz, h.symm⟩
                  intro h0
                  apply hne
                  rw [h0]
                  rfl
      · rintro ⟨first, cc, oc, rest, width, height, hobj, _, hne, hsame, hcc, hoc, hw, hh, hnz,
          hp⟩
        simp only [List.cons.injEq] at hobj
        obtain ⟨hfo, hro⟩ := hobj
        subst hfo hro hw hh
        have he : inter.isEmpty = false := by
          cases inter with
          | nil => exact absurd rfl hne
          | cons x xs => rfl
        rw [he, hsame]
        simp only [Bool.false_eq_true, if_false, hcc, hoc, hnz, hp]

/-- C32, as the code has it. The check returns `HasShift p` exactly when the
collision set is a non-empty proper part of the object and the offset
`(cx, cy)` from the collision centroid to the centroid of the object without
the collision-centroid tile is not zero, and then `p` is the pair that the four
corrections make of `(cx, cy)` with the radii `width / 2` and `height / 2` of
the bounding box of the object. The horizontal part of that pair depends on
the horizontal radius and `cx` only. A positive `cy` is corrected, to
`vertRadius - cy + 1`, exactly when the vertical radius exceeds 1 (and once
more when that is negative and the horizontal radius exceeds 1); a negative
`cy` is corrected exactly when the horizontal radius exceeds 1. So for an
object with a bounding box of width at most 3 and height at least 4 a returned
vertical shift is `height / 2 - cy + 1` for `cy > 0` and `cy` itself for
`cy < 0`, and the shifts for the offsets `cy` and `-cy` mirror each other only
when `2 * cy = height / 2 + 1`. -/
theorem collisionShift_axis_corrections (posDistance : FHPos → FHPos → Int → Int)
    (c : MapTileContainer) (object obstacle : MapTileRegion) (invertObstacle : Bool) :
    (∀ p, MapTileArea.getCollisionShiftForObject posDistance c object obstacle invertObstacle
          = .ok (CollisionResult.HasShift, p)
        ↔ ∃ (first cc oc : FHPos) (rest : MapTileRegion) (width height : Int),
            object = first :: rest ∧ obstacle ≠ []
              ∧ (if invertObstacle then MapTileRegion.diffWith object obstacle
                  else MapTileRegion.intersectWith object obstacle) ≠ []
              ∧ MapTileRegion.same
                  (if invertObstacle then MapTileRegion.diffWith object obstacle
                    else MapTileRegion.intersectWith object obstacle) object = false
              ∧ MapTileArea.makeCentroid posDistance c
                  (if invertObstacle then MapTileRegion.diffWith object obstacle
                    else MapTileRegion.intersectWith object obstacle) false
                = .ok (some cc)
              ∧ MapTileArea.makeCentroid posDistance c (MapTileRegion.erase object cc) false
                = .ok (some oc)
              ∧ width
                = (objectBoundary first object).2.m_x - (objectBoundary first object).1.m_x + 1
              ∧ height
                = (objectBoundary first object).2.m_y - (objectBoundary first object).1.m_y + 1
              ∧ ¬ (oc.m_x - cc.m_x = 0 ∧ oc.m_y - cc.m_y = 0)
              ∧ p = { m_x := (shiftCorrection (width.tdiv 2) (height.tdiv 2)
                        (oc.m_x - cc.m_x) (oc.m_y - cc.m_y)).1,
                      m_y := (shiftCorrection (width.tdiv 2) (height.tdiv 2)
                        (oc.m_x - cc.m_x) (oc.m_y - cc.m_y)).2,
                      m_z := 0 })
      ∧ (∀ horRadius vertRadius cx cy : Int,
          (∀ v2 cy2 : Int, (shiftCorrection horRadius vertRadius cx cy).1
              = (shiftCorrection horRadius v2 cx cy2).1)
          ∧ (0 < cy → (shiftCorrection horRadius vertRadius cx cy).2
              = if 1 < vertRadius then
                  (if vertRadius - cy + 1 < 0 ∧ 1 < horRadius then
                    -vertRadius - (vertRadius - cy + 1) - 1
                    else vertRadius - cy + 1)
                else cy)
          ∧ (cy < 0 → (shiftCorrection horRadius vertRadius cx cy).2
              = if 1 < horRadius then -vertRadius - cy - 1 else cy))
      ∧ (∀ width height cx cx2 cy : Int, width ≤ 3 → 4 ≤ height → 0 < cy →
          (shiftCorrection (width.tdiv 2) (height.tdiv 2) cx cy).2 = height.tdiv 2 - cy + 1
            ∧ (shiftCorrection (width.tdiv 2) (height.tdiv 2) cx2 (-cy)).2 = -cy
            ∧ ((shiftCorrection (width.tdiv 2) (height.tdiv 2) cx cy).2
                  = -(shiftCorrection (width.tdiv 2) (height.tdiv 2) cx2 (-cy)).2
                ↔ 2 * cy = height.tdiv 2 + 1))
      ∧ ∀ (p first cc oc : FHPos) (rest : MapTileRegion),
          MapTileArea.getCollisionShiftForObject posDistance c object obstacle invertObstacle
            = .ok (CollisionResult.HasShift, p) →
          object = first :: rest →
          MapTileArea.makeCentroid posDistance c
              (if invertObstacle then MapTileRegion.diffWith object obstacle
                else MapTileRegion.intersectWith object obstacle) false
            = .ok (some cc) →
          MapTileArea.makeCentroid posDistance c (MapTileRegion.erase object cc) false
            = .ok (some oc) →
          (objectBoundary first object).2.m_x - (objectBoundary first object).1.m_x + 1 ≤ 3 →
          4 ≤ (objectBoundary first object).2.m_y - (objectBoundary first object).1.m_y + 1 →
          (0 < oc.m_y - cc.m_y →
              p.m_y = ((objectBoundary first object).2.m_y
                  - (objectBoundary first object).1.m_y + 1).tdiv 2 - (oc.m_y - cc.m_y) + 1)
            ∧ (oc.m_y - cc.m_y < 0 → p.m_y = oc.m_y - cc.m_y) := by
  have hnarrow : ∀ width height cx cy : Int, width ≤ 3 → 4 ≤ height →
      (0 < cy → (shiftCorrection (width.tdiv 2) (height.tdiv 2) cx cy).2
          = height.tdiv 2 - cy + 1)
        ∧ (cy < 0 → (shiftCorrection (width.tdiv 2) (height.tdiv 2) cx cy).2 = cy) := by
    intro width height cx cy hw hh
    have h1 : ¬ 1 < width.tdiv 2 := by
      by_cases h0 : 0 ≤ width
      · rw [Int.tdiv_eq_ediv h0 (by norm_num)]
        omega
      · have h3 : width.tdiv 2 = -((-width).tdiv 2) := by
          rw [Int.neg_tdiv, neg_neg]
        rw [h3, Int.tdiv_eq_ediv (by omega) (by norm_num)]
        omega
    have h2 : 1 < height.tdiv 2 := by
      rw [Int.tdiv_eq_ediv (by omega) (by norm_num)]
      omega
    constructor
    · intro hcy
      rw [shiftCorrection_snd]
      simp [hcy, h2, h1]
    · intro hcy
      rw [shiftCorrection_snd]
      have h3 : ¬ 0 < cy := by omega
      simp only [h3, if_false, hcy, if_true, h1]
  refine ⟨getCollisionShiftForObject_hasShift_iff posDistance c object obstacle invertObstacle,
    ?_, ?_, ?_⟩
  · intro horRadius vertRadius cx cy
    refine ⟨?_, ?_, ?_⟩
    · intro v2 cy2
      rw [shiftCorrection_fst, shiftCorrection_fst]
    · intro hcy
      rw [shiftCorrection_snd]
      simp only [hcy, if_true]
    · intro hcy
      rw [shiftCorrection_snd]
      have : ¬ 0 < cy := by omega
      simp only [this, if_false, hcy, if_true]
  · intro width height cx cx2 cy hw hh hcy
    have h1 := (hnarrow width height cx cy hw hh).1 hcy
    have h2 := (hnarrow width height cx2 (-cy) hw hh).2 (by omega)
    refine ⟨h1, h2, ?_⟩
    rw [h1, h2]
    constructor <;> intro h <;> omega
  · intro p first cc oc rest hres hobj hcc hoc hw hh
    obtain ⟨first2, cc2, oc2, rest2, width, height, hobj2, _, _, _, hcc2, hoc2, hwd, hht, _,
      hp⟩ := (getCollisionShiftForObject_hasShift_iff posDistance c object obstacle
        invertObstacle p).1 hres
    rw [hobj] at hobj2
    simp only [List.cons.injEq] at hobj2
    obtain ⟨hf, _⟩ := hobj2
    subst hf
    rw [hcc] at hcc2
    simp only [Except.ok.injEq, Option.some.injEq] at hcc2
    subst hcc2
    rw [hoc] at hoc2
    simp only [Except.ok.injEq, Option.some.injEq] at hoc2
    subst hoc2
    subst hwd hht
    have hpy : p.m_y = (shiftCorrection
        (((objectBoundary first object).2.m_x - (objectBoundary first object).1.m_x + 1).tdiv 2)
        (((objectBoundary first object).2.m_y - (objectBoundary first object).1.m_y + 1).tdiv 2)
        (oc.m_x - cc.m_x) (oc.m_y - cc.m_y)).2 := by
      rw [hp]
    rw [hpy]
    exact hnarrow _ _ _ _ hw hh

/-- C32, counterexample. The column of six tiles has a bounding box of width 1
and height 6; with the top three tiles as the obstacle the shift is `(0, 2)`,
with the mirrored obstacle, the bottom three tiles, it is `(0, -2)`: mirrored
collisions with mirrored shifts. -/
theorem collisionShift_mirrored_column :
    objectBoundary (tileXY 0 0) sampleColumn = (tileXY 0 0, tileXY 0 5)
      ∧ [tileXY 0 5, tileXY 0 4, tileXY 0 3]
          = [tileXY 0 0, tileXY 0 1, tileXY 0 2].map (fun t => { t with m_y := 5 - t.m_y })
      ∧ MapTileArea.getCollisionShiftForObject sampleDistance
          { m_width := 1, m_height := 6, m_depth := 1 } sampleColumn
          [tileXY 0 0, tileXY 0 1, tileXY 0 2] false
        = .ok (CollisionResult.HasShift, tileXY 0 2)
      ∧ MapTileArea.getCollisionShiftForObject sampleDistance
          { m_width := 1, m_height := 6, m_depth := 1 } sampleColumn
          [tileXY 0 5, tileXY 0 4, tileXY 0 3] false
        = .ok (CollisionResult.HasShift, tileXY 0 (-2)) :=
  ⟨by decide, by decide, rfl, rfl⟩

theorem collisionShift_column_not_mirrored :
    MapTileArea.getCollisionShiftForObject sampleDistance
        { m_width := 1, m_height := 6, m_depth := 1 } sampleColumn [tileXY 0 0] false
      = .ok (CollisionResult.HasShift, tileXY 0 1)
    ∧ MapTileArea.getCollisionShiftForObject sampleDistance
        { m_width := 1, m_height := 6, m_depth := 1 } sampleColumn [tileXY 0 5] false
      = .ok (CollisionResult.HasShift, tileXY 0 (-3)) :=
  ⟨rfl, rfl⟩

/-- C33, the code at a connected object on the 5×3 grid whose left end meets a
wall: the collision centroid is `(0,1)`, the centroid of the rest of the object
is `(3,1)`, the offset `(3, 0)` passes the test for a zero offset, and with the
horizontal radius 2 the correction `horRadius - cx + 1` makes it `(0, 0)`, which
is returned as `HasShift`. -/
theorem getCollisionShiftForObject_zero_shift :
    MapTileArea.getCollisionShiftForObject sampleDistance
        { m_width := 5, m_height := 3, m_depth := 1 } sampleTee
        [tileXY 0 0, tileXY 0 1, tileXY 0 2] false
      = .ok (CollisionResult.HasShift, tileXY 0 0)
    ∧ MapTileArea.makeCentroid sampleDistance { m_width := 5, m_height := 3, m_depth := 1 }
        (MapTileRegion.intersectWith sampleTee [tileXY 0 0, tileXY 0 1, tileXY 0 2]) false
      = .ok (some (tileXY 0 1))
    ∧ MapTileArea.makeCentroid sampleDistance { m_width := 5, m_height := 3, m_depth := 1 }
        (MapTileRegion.erase sampleTee (tileXY 0 1)) false
      = .ok (some (tileXY 3 1))
    ∧ objectBoundary (tileXY 0 1) sampleTee = (tileXY 0 0, tileXY 4 2)
    ∧ shiftCorrection 2 1 3 0 = (0, 0) :=
  ⟨rfl, rfl, rfl, by decide, by decide⟩

/-! ### Segment count of the split by maximal area -/

/-- C36, as the code has it. For a non-empty area of `a` tiles and `maxArea ≥ 1`
with `a + maxArea + 1` below `2 ^ 64`, `splitByMaxArea` is `splitByK` with
`k = (a + maxArea + 1) / maxArea`; `k * maxArea > a`; `k = 1` exactly when
`a + 1 < maxArea`, and then the area is returned whole; and from `maxArea = 2`
on an area of `maxArea - 1` or `maxArea` tiles gets `k = 2`. -/
theorem splitByMaxArea_k (kmeans : List FHPos → Nat → List KMeansCluster)
    (posDistance : FHPos → FHPos → Int) (c : MapTileContainer) (a : MapTileArea) (maxArea : Nat)
    (repulse : Bool) (hne : a.m_innerArea ≠ []) (hmax : 1 ≤ maxArea)
    (hfit : a.m_innerArea.length + maxArea + 1 < 2 ^ 64) :
    MapTileArea.splitByMaxArea kmeans posDistance c a maxArea repulse
        = MapTileArea.splitByK kmeans posDistance c a
            ((a.m_innerArea.length + maxArea + 1) / maxArea) repulse
      ∧ a.m_innerArea.length < (a.m_innerArea.length + maxArea + 1) / maxArea * maxArea
      ∧ ((a.m_innerArea.length + maxArea + 1) / maxArea = 1
          ↔ a.m_innerArea.length + 1 < maxArea)
      ∧ (a.m_innerArea.length + 1 < maxArea →
          MapTileArea.splitByMaxArea kmeans posDistance c a maxArea repulse
            = .ok [MapTileArea.makeEdgeFromInnerArea c a])
      ∧ (2 ≤ maxArea →
          a.m_innerArea.length = maxArea - 1 ∨ a.m_innerArea.length = maxArea →
          (a.m_innerArea.length + maxArea + 1) / maxArea = 2) := by
  have hlen : a.m_innerArea.length ≠ 0 := fun h0 => hne (List.length_eq_zero.1 h0)
  have hm0 : maxArea ≠ 0 := by omega
  have hpos : 0 < maxArea := by omega
  have hdef : MapTileArea.splitByMaxArea kmeans posDistance c a maxArea repulse
      = MapTileArea.splitByK kmeans posDistance c a
          ((a.m_innerArea.length + maxArea + 1) / maxArea) repulse := by
    unfold MapTileArea.splitByMaxArea MapTileArea.splitByMaxAreaK
    simp only [hlen, hm0, if_false]
    rw [Nat.mod_eq_of_lt hfit]
  have hk1 : (a.m_innerArea.length + maxArea + 1) / maxArea = 1
      ↔ a.m_innerArea.length + 1 < maxArea := by
    constructor
    · intro h
      have h2 : (a.m_innerArea.length + maxArea + 1) / maxArea < 2 := by omega
      rw [Nat.div_lt_iff_lt_mul hpos] at h2
      omega
    · intro h
      have h1 : 1 ≤ (a.m_innerArea.length + maxArea + 1) / maxArea := by
        rw [Nat.le_div_iff_mul_le hpos]
        omega
      have h2 : (a.m_innerArea.length + maxArea + 1) / maxArea < 2 := by
        rw [Nat.div_lt_iff_lt_mul hpos]
        omega
      omega
  refine ⟨hdef, ?_, hk1, ?_, ?_⟩
  · have h1 := Nat.div_add_mod (a.m_innerArea.length + maxArea + 1) maxArea
    have h2 := Nat.mod_lt (a.m_innerArea.length + maxArea + 1) hpos
    rw [Nat.mul_comm]
    omega
  · intro h
    rw [hdef, hk1.2 h]
    simp [MapTileArea.splitByK, hlen]
  · intro h2 hcase
    have h1 : 2 ≤ (a.m_innerArea.length + maxArea + 1) / maxArea := by
      rw [Nat.le_div_iff_mul_le hpos]
      omega
    have h3 : (a.m_innerArea.length + maxArea + 1) / maxArea < 3 := by
      rw [Nat.div_lt_iff_lt_mul hpos]
      omega
    omega

/-- The split of a two-tile area of the 2×1 grid with `maxArea = 3`, which asks
for two segments. -/
theorem splitByMaxArea_k_witness :
    ({ m_innerArea := [tileXY 0 0, tileXY 1 0] } : MapTileArea).m_innerArea ≠ []
      ∧ 1 ≤ 3
      ∧ ({ m_innerArea := [tileXY 0 0, tileXY 1 0] } : MapTileArea).m_innerArea.length + 3 + 1
          < 2 ^ 64
      ∧ MapTileArea.splitByMaxArea repeatClusters samplePosDistance
          { m_width := 2, m_height := 1, m_depth := 1 }
          { m_innerArea := [tileXY 0 0, tileXY 1 0] } 3 false
        = MapTileArea.splitByK repeatClusters samplePosDistance
            { m_width := 2, m_height := 1, m_depth := 1 }
            { m_innerArea := [tileXY 0 0, tileXY 1 0] } 2 false :=
  ⟨by decide, by decide, by decide,
    (splitByMaxArea_k repeatClusters samplePosDistance
      { m_width := 2, m_height := 1, m_depth := 1 }
      { m_innerArea := [tileXY 0 0, tileXY 1 0] } 3 false
      (by decide) (by decide) (by decide)).1⟩

/-- C36, counterexample. With `maxArea = 1` a one-tile area, of area `maxArea`,
gets `k = 3`, not 2: the stand-in clustering is asked for three clusters. And
with `maxArea = 2 ^ 64 - 1` the `size_t` sum wraps around to 1 and `k` is 0,
while `(1 + maxArea + 1) / maxArea` is 1. -/
theorem splitByMaxArea_three_segments :
    MapTileArea.splitByMaxAreaK 1 1 = 3
      ∧ Except.map List.length (MapTileArea.splitByMaxArea repeatClusters samplePosDistance
          { m_width := 1, m_height := 1, m_depth := 1 } { m_innerArea := [tileXY 0 0] } 1 false)
        = .ok 3
      ∧ MapTileArea.splitByMaxAreaK 1 (2 ^ 64 - 1) = 0
      ∧ (1 + (2 ^ 64 - 1) + 1) / (2 ^ 64 - 1) = 1
      ∧ Except.map List.length (MapTileArea.splitByMaxArea repeatClusters samplePosDistance
          { m_width := 1, m_height := 1, m_depth := 1 } { m_innerArea := [tileXY 0 0] }
          (2 ^ 64 - 1) false)
        = .ok 0 :=
  ⟨by decide, rfl, by decide, by decide, rfl⟩

/-! ### Zone radius of `run` -/

/-- C37, the code at two configurations that pass the checks of `run`. On the
4×4 map with two zones of relative size 1 both absolute areas are 8 and both
radii 0, and `run` divides by zero in the initial pass. On the 36×36 map with
relative sizes 1 and 200 the first zone has the absolute area 6 and the radius
0, and the initial pass divides by zero at the first tile. -/
theorem run_zero_radius :
    runSetup 4 4 [{ m_center := tileXY 0 0, m_relativeSize := 1 },
        { m_center := tileXY 3 3, m_relativeSize := 1 }]
      = .ok [{ m_index := 0, m_startTile := tileXY 0 0, m_relativeArea := 1, m_absoluteArea := 8, m_absoluteRadius := 0 },
          { m_index := 1, m_startTile := tileXY 3 3, m_relativeArea := 1, m_absoluteArea := 8, m_absoluteRadius := 0 }]
    ∧ FHTemplateProcessor.run 4 4 1 [{ m_center := tileXY 0 0, m_relativeSize := 1 },
        { m_center := tileXY 3 3, m_relativeSize := 1 }]
      = .error .divisionByZero
    ∧ runSetup 36 36 [{ m_center := tileXY 5 5, m_relativeSize := 1 },
        { m_center := tileXY 20 20, m_relativeSize := 200 }]
      = .ok [{ m_index := 0, m_startTile := tileXY 5 5, m_relativeArea := 1, m_absoluteArea := 6, m_absoluteRadius := 0 },
          { m_index := 1, m_startTile := tileXY 20 20, m_relativeArea := 200, m_absoluteArea := 1289, m_absoluteRadius := 11 }]
    ∧ tagTile [{ m_index := 0, m_startTile := tileXY 5 5, m_relativeArea := 1, m_absoluteArea := 6, m_absoluteRadius := 0 },
          { m_index := 1, m_startTile := tileXY 20 20, m_relativeArea := 200, m_absoluteArea := 1289, m_absoluteRadius := 11 }] (tileXY 0 0)
      = .error .divisionByZero :=
  ⟨rfl, rfl, rfl, rfl⟩

/-! ### Bitmap written by `compose` -/

theorem MapTileContainer.hasTile_level (c : MapTileContainer) (x y : Nat) (z : Int)
    (hx : x < c.m_width.toNat) (hy : y < c.m_height.toNat) (hz0 : 0 ≤ z) (hz1 : z < c.m_depth) :
    c.hasTile { m_x := x, m_y := y, m_z := z } = true := by
  unfold MapTileContainer.hasTile
  simp only [Bool.and_eq_true, decide_eq_true_eq]
  omega

theorem compose_level (c : MapTileContainer) (object obstacle : MapTileRegion)
    (serialized : List Char) (obstacleInverted : Bool) (first : FHPos)
    (hfirst : (object ++ obstacle).head? = some first)
    (hz0 : 0 ≤ first.m_z) (hz1 : first.m_z < c.m_depth) :
    MapTileArea.compose c object obstacle serialized obstacleInverted false
      = .ok ((List.range c.m_height.toNat).foldl
          (fun (s : List Char) (y : Nat) => s ++ (List.range c.m_width.toNat).map
            (fun (x : Nat) =>
              composeChar object obstacle obstacleInverted
                { m_x := x, m_y := y, m_z := first.m_z })) []) := by
  have hrow : ∀ y ∈ List.range c.m_height.toNat, ∀ s : List Char,
      composeRow c object obstacle obstacleInverted false first.m_z s y
        = .ok (s ++ (List.range c.m_width.toNat).map
            (fun (x : Nat) =>
              composeChar object obstacle obstacleInverted
                { m_x := x, m_y := y, m_z := first.m_z })) := by
    intro y hy s
    unfold composeRow
    simp only [Bool.false_eq_true, if_false]
    rw [foldlM_ok_of_steps _
      (fun (s : List Char) (x : Nat) =>
        s ++ [composeChar object obstacle obstacleInverted
          { m_x := x, m_y := y, m_z := first.m_z }])]
    · simp only
      congr 1
      generalize List.range c.m_width.toNat = xs
      induction xs generalizing s with
      | nil => simp
      | cons x xs ih =>
        simp only [List.foldl_cons, List.map_cons]
        rw [ih]
        simp
    · intro x hx a
      unfold MapTileContainer.tileIndexAt
      rw [MapTileContainer.hasTile_level c x y first.m_z (List.mem_range.1 hx)
        (List.mem_range.1 hy) hz0 hz1]
      rfl
  unfold MapTileArea.compose
  cases object with
  | nil =>
    cases obstacle with
    | nil => simp at hfirst
    | cons b bs =>
      simp only [List.nil_append, List.head?_cons, Option.some.injEq] at hfirst
      subst hfirst
      exact foldlM_ok_of_steps _ _ _ _ hrow
  | cons o os =>
    simp only [List.cons_append, List.head?_cons, Option.some.injEq] at hfirst
    subst hfirst
    exact foldlM_ok_of_steps _ _ _ _ hrow

theorem composeChar_eq (object obstacle : MapTileRegion) (obstacleInverted : Bool)
    (tile : FHPos) :
    composeChar object obstacle obstacleInverted tile
      = if tile ∈ object ∧ (if obstacleInverted then tile ∉ obstacle else tile ∈ obstacle)
          then 'X'
        else if tile ∈ object then 'O'
        else if (if obstacleInverted then tile ∉ obstacle else tile ∈ obstacle) then '-'
        else '.' := by
  unfold composeChar
  by_cases h1 : tile ∈ object <;> by_cases h2 : tile ∈ obstacle
    <;> cases obstacleInverted
    <;> simp [(MapTileRegion.contains_iff _ _).2, h1, h2, MapTileRegion.contains_iff]

/-- C34. With `printable = false` and regions that are not both empty (their
first tile on a level of the container), `compose` writes a string of
`width * height` characters whose character at offset `x + width * y` is `X`
when the tile `(x, y)` of that level is in the object and in the possibly
inverted obstacle, `O` when in the object only, `-` when in the possibly
inverted obstacle only, and `.` otherwise; with `obstacleInverted` the obstacle
membership is negated. -/
theorem compose_bitmap (c : MapTileContainer) (object obstacle : MapTileRegion)
    (serialized : List Char) (obstacleInverted : Bool) (first : FHPos)
    (hfirst : (object ++ obstacle).head? = some first)
    (hz0 : 0 ≤ first.m_z) (hz1 : first.m_z < c.m_depth) :
    ∃ out, MapTileArea.compose c object obstacle serialized obstacleInverted false = .ok out
      ∧ out.length = c.m_width.toNat * c.m_height.toNat
      ∧ ∀ x y : Nat, x < c.m_width.toNat → y < c.m_height.toNat →
          out[x + c.m_width.toNat * y]?
            = some
              (if ({ m_x := x, m_y := y, m_z := first.m_z } : FHPos) ∈ object
                  ∧ (if obstacleInverted then
                      ({ m_x := x, m_y := y, m_z := first.m_z } : FHPos) ∉ obstacle
                    else ({ m_x := x, m_y := y, m_z := first.m_z } : FHPos) ∈ obstacle)
                then 'X'
              else if ({ m_x := x, m_y := y, m_z := first.m_z } : FHPos) ∈ object then 'O'
              else if (if obstacleInverted then
                    ({ m_x := x, m_y := y, m_z := first.m_z } : FHPos) ∉ obstacle
                  else ({ m_x := x, m_y := y, m_z := first.m_z } : FHPos) ∈ obstacle)
                then '-'
              else '.') := by
  have hr := rows_getElem c.m_width.toNat
    (fun x y => composeChar object obstacle obstacleInverted
      { m_x := x, m_y := y, m_z := first.m_z }) c.m_height.toNat
  refine ⟨_, compose_level c object obstacle serialized obstacleInverted first hfirst hz0 hz1,
    hr.1, ?_⟩
  intro x y hx hy
  rw [hr.2 y hy x hx, composeChar_eq]

/-- The bitmap of the object `(0,0)` and the obstacle `(1,0)` on the 2×1 grid
with the obstacle inverted: `X` at `(0,0)`, which is outside the obstacle, and
`.` at `(1,0)`. -/
theorem compose_bitmap_witness :
    ([tileXY 0 0] ++ [tileXY 1 0]).head? = some (tileXY 0 0)
      ∧ 0 ≤ (tileXY 0 0).m_z ∧ (tileXY 0 0).m_z < 1
      ∧ MapTileArea.compose { m_width := 2, m_height := 1, m_depth := 1 }
          [tileXY 0 0] [tileXY 1 0] ['?'] true false = .ok ['X', '.']
      ∧ ∃ out, MapTileArea.compose { m_width := 2, m_height := 1, m_depth := 1 }
            [tileXY 0 0] [tileXY 1 0] ['?'] true false = .ok out
          ∧ out.length = 2 * 1 :=
  ⟨by decide, by decide, by decide, rfl,
    (compose_bitmap { m_width := 2, m_height := 1, m_depth := 1 }
      [tileXY 0 0] [tileXY 1 0] ['?'] true (tileXY 0 0) (by decide) (by decide)
      (by decide)).imp (fun _ h => ⟨h.1, h.2.1⟩)⟩

/-! ### Termination of `fillDeficit` -/

theorem TileZone.unzonedPredicate_not_own (d : MapDraft) (z : TileZone) (allow : Bool)
    (n : FHPos) (h : TileZone.unzonedPredicate d z allow n = true) :
    (∃ cell, tilesFind d.m_tiles n = some cell) ∧ d.isZonedWith z.m_index n = false := by
  unfold TileZone.unzonedPredicate at h
  unfold MapDraft.isZonedWith
  rcases hf : tilesFind d.m_tiles n with _ | cell
  · rw [hf] at h
    simp at h
  · rw [hf] at h
    refine ⟨⟨cell, rfl⟩, ?_⟩
    simp only [Option.any_some]
    simp only [Bool.or_eq_true, Bool.not_eq_true', Bool.and_eq_true, decide_eq_false_iff_not]
      at h
    rcases h with h | h
    · simp [h]
    · simp [h.2]

theorem TileZone.growOnceToUnzoned_own (allow : Bool) (K0 : List FHPos)
    (s : MapDraft × TileZone)
    (hkeys : ∀ p cell, tilesFind s.1.m_tiles p = some cell → p ∈ K0) :
    (∀ p cell, tilesFind (TileZone.growOnceToUnzoned allow s).1.m_tiles p = some cell → p ∈ K0)
      ∧ (K0.filter (s.1.isZonedWith s.2.m_index)).length
          + (if (TileZone.growOnceToUnzoned allow s).2.m_innerEdge.isEmpty then 0 else 1)
        ≤ (K0.filter ((TileZone.growOnceToUnzoned allow s).1.isZonedWith s.2.m_index)).length := by
  obtain ⟨_, hedge, _, hfind⟩ := TileZone.growOnceToUnzoned_spec allow s
  have hE : ∀ n, n ∈ TileZone.unzonedEdge allow s →
      (∃ cell, tilesFind s.1.m_tiles n = some cell) ∧ s.1.isZonedWith s.2.m_index n = false := by
    intro n hn
    exact TileZone.unzonedPredicate_not_own _ _ _ _ ((TileZone.mem_unzonedEdge allow s n).1 hn).2
  have hafter : ∀ n, n ∈ TileZone.unzonedEdge allow s →
      (TileZone.growOnceToUnzoned allow s).1.isZonedWith s.2.m_index n = true := by
    intro n hn
    unfold MapDraft.isZonedWith
    rw [hfind n]
    simp [hn]
  have himp : ∀ k, s.1.isZonedWith s.2.m_index k = true →
      (TileZone.growOnceToUnzoned allow s).1.isZonedWith s.2.m_index k = true := by
    intro k hk
    by_cases hin : k ∈ TileZone.unzonedEdge allow s
    · exact hafter k hin
    · unfold MapDraft.isZonedWith at hk ⊢
      rw [hfind k]
      simpa [hin] using hk
  constructor
  · intro p cell hp
    rw [hfind p] at hp
    by_cases hin : p ∈ TileZone.unzonedEdge allow s
    · obtain ⟨⟨c0, hc0⟩, _⟩ := hE p hin
      exact hkeys p c0 hc0
    · simp only [hin, if_false] at hp
      exact hkeys p cell hp
  · rw [hedge]
    cases hl : TileZone.unzonedEdge allow s with
    | nil =>
      simp only [List.isEmpty_nil, if_true, Nat.add_zero]
      rw [← List.countP_eq_length_filter, ← List.countP_eq_length_filter]
      exact List.countP_mono_left (fun x _ hx => himp x hx)
    | cons e es =>
      simp only [List.isEmpty_cons, Bool.false_eq_true, if_false]
      have hin : e ∈ TileZone.unzonedEdge allow s := by
        rw [hl]
        exact List.mem_cons_self _ _
      obtain ⟨⟨c0, hc0⟩, hz0⟩ := hE e hin
      have hlt := filter_length_lt_of_witness K0 (s.1.isZonedWith s.2.m_index)
        ((TileZone.growOnceToUnzoned allow s).1.isZonedWith s.2.m_index)
        himp e (hkeys e c0 hc0) (hafter e hin) hz0
      omega

theorem TileZone.fillDeficitLoop_terminates_own (allow : Bool) (K0 : List FHPos)
    (threshold : Int) (idx : Int) (fuel : Nat) (s : MapDraft × TileZone)
    (hidx : s.2.m_index = idx)
    (hkeys : ∀ p cell, tilesFind s.1.m_tiles p = some cell → p ∈ K0)
    (hfuel : K0.length + (if s.2.m_innerEdge.isEmpty then 0 else 1)
      ≤ fuel + (K0.filter (s.1.isZonedWith idx)).length) :
    ∃ r, TileZone.fillDeficitLoop threshold allow fuel s = some r := by
  induction fuel generalizing s with
  | zero =>
    unfold TileZone.fillDeficitLoop
    by_cases he : s.2.m_innerEdge.isEmpty = true
    · exact ⟨s, by simp [he]⟩
    · simp only [he, Bool.false_eq_true, if_false] at hfuel
      have := List.length_filter_le (s.1.isZonedWith idx) K0
      omega
  | succ n ih =>
    unfold TileZone.fillDeficitLoop
    by_cases he : s.2.m_innerEdge.isEmpty = true
    · exact ⟨s, by simp [he]⟩
    · simp only [he, Bool.false_eq_true, if_false] at hfuel ⊢
      by_cases hd : s.2.getAreaDeficit < threshold
      · exact ⟨s, by simp [hd]⟩
      · simp only [hd, if_false]
        have hp := TileZone.growOnceToUnzoned_own allow K0 s hkeys
        rw [hidx] at hp
        refine ih _ ?_ hp.1 (by omega)
        rw [(TileZone.growOnceToUnzoned_spec allow s).1]
        exact hidx

/-- C38. `fillDeficit` returns for every map, zone, threshold and value of
`allowConsumingNeighbours`. A round of its loop that finds a non-empty ring
strictly increases the number of tiles of the map that are zoned with the index
of the zone (and no round decreases it); after a round with an empty ring the
loop stops. -/
theorem fillDeficit_terminates (thresholdPercent : Int) (allowConsumingNeighbours : Bool)
    (d : MapDraft) (z : TileZone) :
    (∃ r, TileZone.fillDeficit thresholdPercent allowConsumingNeighbours (d, z) = some r)
      ∧ (∀ s : MapDraft × TileZone,
          (TileZone.growOnceToUnzoned allowConsumingNeighbours s).2.m_innerEdge ≠ [] →
          ((s.1.m_tiles.map Prod.fst).filter (s.1.isZonedWith s.2.m_index)).length
            < ((s.1.m_tiles.map Prod.fst).filter
                ((TileZone.growOnceToUnzoned allowConsumingNeighbours s).1.isZonedWith
                  s.2.m_index)).length)
      ∧ (∀ s : MapDraft × TileZone,
          (∀ p cell,
            tilesFind (TileZone.growOnceToUnzoned allowConsumingNeighbours s).1.m_tiles p
              = some cell → p ∈ s.1.m_tiles.map Prod.fst)
          ∧ ((s.1.m_tiles.map Prod.fst).filter (s.1.isZonedWith s.2.m_index)).length
            ≤ ((s.1.m_tiles.map Prod.fst).filter
                ((TileZone.growOnceToUnzoned allowConsumingNeighbours s).1.isZonedWith
                  s.2.m_index)).length)
      ∧ ∀ (threshold : Int) (fuel : Nat) (s : MapDraft × TileZone),
          (TileZone.growOnceToUnzoned allowConsumingNeighbours s).2.m_innerEdge = [] →
          TileZone.fillDeficitLoop threshold allowConsumingNeighbours fuel
              (TileZone.growOnceToUnzoned allowConsumingNeighbours s)
            = some (TileZone.growOnceToUnzoned allowConsumingNeighbours s) := by
  refine ⟨?_, ?_, ?_, ?_⟩
  · obtain ⟨r, hr⟩ := TileZone.fillDeficitLoop_terminates_own allowConsumingNeighbours
      (d.m_tiles.map Prod.fst) ((z.m_absoluteArea * thresholdPercent).tdiv 100) z.m_index
      (d.m_tiles.length + 1) (d, z) rfl
      (fun p cell hp => tilesFind_mem_keys _ _ _ hp)
      (by
        rw [List.length_map]
        split_ifs <;> omega)
    refine ⟨(r.1, TileZone.makeEdgeFromInnerArea r.2), ?_⟩
    unfold TileZone.fillDeficit
    simp only
    rw [hr]
  · intro s hne
    have hp := (TileZone.growOnceToUnzoned_own allowConsumingNeighbours
      (s.1.m_tiles.map Prod.fst) s (fun p cell hp => tilesFind_mem_keys _ _ _ hp)).2
    have he : (TileZone.growOnceToUnzoned allowConsumingNeighbours s).2.m_innerEdge.isEmpty
        = false := by
      cases h : (TileZone.growOnceToUnzoned allowConsumingNeighbours s).2.m_innerEdge with
      | nil => exact absurd h hne
      | cons x xs => rfl
    rw [he] at hp
    simp only [Bool.false_eq_true, if_false] at hp
    omega
  · intro s
    have hp := TileZone.growOnceToUnzoned_own allowConsumingNeighbours
      (s.1.m_tiles.map Prod.fst) s (fun p cell hp => tilesFind_mem_keys _ _ _ hp)
    exact ⟨hp.1, by have := hp.2; omega⟩
  · intro threshold fuel s he
    cases fuel with
    | zero =>
      unfold TileZone.fillDeficitLoop
      simp [he]
    | succ n =>
      unfold TileZone.fillDeficitLoop
      simp [he]

/-! ### Spike removal of `refineEdge` -/

theorem outsideEdge_inner_fold_complete (A : MapTileRegion) (l : List FHPos)
    (e : MapTileRegion) (t : FHPos) (h : t ∈ e ∨ (t ∈ l ∧ t ∉ A)) :
    t ∈ l.foldl (fun edge2 ncell =>
      if !MapTileRegion.contains A ncell then MapTileRegion.insert edge2 ncell else edge2) e := by
  induction l generalizing e with
  | nil =>
    rcases h with h | ⟨h, _⟩
    · exact h
    · simp at h
  | cons x xs ih =>
    simp only [List.foldl_cons]
    apply ih
    rcases h with h | ⟨h, hA⟩
    · left
      split_ifs
      · exact (MapTileRegion.mem_insert _ _ _).2 (Or.inl h)
      · exact h
    · rcases List.mem_cons.1 h with hx | hx
      · left
        subst hx
        have : (!MapTileRegion.contains A t) = true := by
          simp [MapTileRegion.contains, hA]
        rw [if_pos this]
        exact (MapTileRegion.mem_insert _ _ _).2 (Or.inr rfl)
      · exact Or.inr ⟨hx, hA⟩

theorem outsideEdge_outer_fold_complete (A : MapTileRegion) (nb : FHPos → List FHPos)
    (l : List FHPos) (e : MapTileRegion) (t : FHPos)
    (h : t ∈ e ∨ ((∃ cell ∈ l, t ∈ nb cell) ∧ t ∉ A)) :
    t ∈ l.foldl (fun edge cell => (nb cell).foldl (fun edge2 ncell =>
      if !MapTileRegion.contains A ncell then MapTileRegion.insert edge2 ncell else edge2) edge)
      e := by
  induction l generalizing e with
  | nil =>
    rcases h with h | ⟨⟨cell, hc, _⟩, _⟩
    · exact h
    · simp at hc
  | cons x xs ih =>
    simp only [List.foldl_cons]
    apply ih
    rcases h with h | ⟨⟨cell, hc, hn⟩, hA⟩
    · exact Or.inl (outsideEdge_inner_fold_complete A (nb x) e t (Or.inl h))
    · rcases List.mem_cons.1 hc with hx | hx
      · subst hx
        exact Or.inl (outsideEdge_inner_fold_complete A (nb cell) e t (Or.inr ⟨hn, hA⟩))
      · exact Or.inr ⟨⟨cell, hx, hn⟩, hA⟩

theorem MapTileArea.mem_makeOutsideEdge (c : MapTileContainer) (a : MapTileArea) (t : FHPos) :
    t ∈ (MapTileArea.makeOutsideEdge c a).m_outsideEdge
      ↔ t ∉ a.m_innerArea ∧ ∃ e ∈ a.m_innerEdge, t ∈ c.neighboursList a.m_diagonalGrowth e := by
  constructor
  · intro ht
    rcases outsideEdge_outer_fold a.m_innerArea (c.neighboursList a.m_diagonalGrowth)
      a.m_innerEdge [] t ht with h | ⟨h1, h2⟩
    · simp at h
    · exact ⟨h2, h1⟩
  · rintro ⟨h1, h2⟩
    exact outsideEdge_outer_fold_complete a.m_innerArea (c.neighboursList a.m_diagonalGrowth)
      a.m_innerEdge [] t (Or.inr ⟨h2, h1⟩)

theorem MapTileArea.makeEdgeFromInnerArea_outsideEdge (c : MapTileContainer) (a : MapTileArea)
    (t : FHPos) :
    t ∈ (MapTileArea.makeEdgeFromInnerArea c a).m_outsideEdge
      ↔ t ∉ a.m_innerArea ∧ ∃ e ∈ (MapTileArea.makeEdgeFromInnerArea c a).m_innerEdge,
          t ∈ c.neighboursList a.m_diagonalGrowth e :=
  MapTileArea.mem_makeOutsideEdge c
    { a with m_innerEdge := (MapTileRegion.eraseList a.m_innerArea
        (a.m_innerArea.filter (fun cell =>
          MapTileArea.isInnerCell c { a with m_innerEdge := a.m_innerArea } cell))) } t

theorem MapTileRegion.containsPtr_neighborPtr_eq (c : MapTileContainer) (r : MapTileRegion)
    (t : FHPos) (dx dy : Int) :
    MapTileRegion.containsPtr r (c.neighborPtr t dx dy)
      = (c.hasTile (neighbour t dx dy) && decide (neighbour t dx dy ∈ r)) := by
  rw [Bool.eq_iff_iff, MapTileRegion.containsPtr_neighborPtr]
  simp

theorem MapTileArea.adjucent_eq (c : MapTileContainer) (a : MapTileArea) (t : FHPos) :
    MapTileArea.adjucent c a t
      = (neighbourOffsets false).countP
          (fun o => c.hasTile (neighbour t o.1 o.2)
            && decide (neighbour t o.1 o.2 ∈ a.m_innerArea)) := by
  unfold MapTileArea.adjucent neighbourOffsets
  simp only [MapTileContainer.m_neighborB, MapTileContainer.m_neighborT,
    MapTileContainer.m_neighborR, MapTileContainer.m_neighborL,
    MapTileRegion.containsPtr_neighborPtr_eq, Bool.false_eq_true, if_false, List.countP_cons,
    List.countP_nil]
  cases (c.hasTile (neighbour t 0 1) && decide (neighbour t 0 1 ∈ a.m_innerArea))
    <;> cases (c.hasTile (neighbour t 0 (-1)) && decide (neighbour t 0 (-1) ∈ a.m_innerArea))
    <;> cases (c.hasTile (neighbour t 1 0) && decide (neighbour t 1 0 ∈ a.m_innerArea))
    <;> cases (c.hasTile (neighbour t (-1) 0) && decide (neighbour t (-1) 0 ∈ a.m_innerArea))
    <;> rfl

theorem spikes_fold (p : FHPos → Bool) (l : List FHPos) (seg0 : FHPos → Nat)
    (rem0 : List FHPos) :
    (l.foldl
        (fun (acc : (FHPos → Nat) × List FHPos) cell =>
          if p cell = true then (Function.update acc.1 cell 0, acc.2 ++ [cell]) else acc)
        (seg0, rem0)).2 = rem0 ++ l.filter p
      ∧ ∀ t, (l.foldl
        (fun (acc : (FHPos → Nat) × List FHPos) cell =>
          if p cell = true then (Function.update acc.1 cell 0, acc.2 ++ [cell]) else acc)
        (seg0, rem0)).1 t = if t ∈ l.filter p then 0 else seg0 t := by
  induction l generalizing seg0 rem0 with
  | nil => simp
  | cons x xs ih =>
    simp only [List.foldl_cons]
    by_cases hx : p x = true
    · simp only [hx, if_true]
      obtain ⟨h1, h2⟩ := ih (Function.update seg0 x 0) (rem0 ++ [x])
      refine ⟨?_, ?_⟩
      · rw [h1]
        simp [List.filter_cons, hx]
      · intro t
        rw [h2 t]
        by_cases htx : t = x
        · subst htx
          simp [List.filter_cons, hx]
        · by_cases hin : t ∈ xs.filter p
          · simp [List.filter_cons, hx, hin]
          · simp [List.filter_cons, hx, hin, htx, Function.update_noteq htx]
    · simp only [hx, Bool.false_eq_true, if_false]
      obtain ⟨h1, h2⟩ := ih seg0 rem0
      refine ⟨?_, ?_⟩
      · rw [h1]
        simp [List.filter_cons, hx]
      · intro t
        rw [h2 t]
        simp [List.filter_cons, hx]

theorem MapTileArea.refineEdge_removeSpikes_eq (c : MapTileContainer)
    (segmentIndex : FHPos → Nat) (a : MapTileArea) (allowedArea : MapTileRegion) (index : Nat) :
    (MapTileArea.refineEdge c segmentIndex a RefineTask.RemoveSpikes allowedArea index).2
        = (MapTileArea.makeEdgeFromInnerArea c
            { a with m_innerArea := (MapTileRegion.eraseList a.m_innerArea
                (a.m_innerEdge.filter (fun cell => decide (MapTileArea.adjucent c a cell ≤ 1)))) },
          true)
      ∧ ∀ t, (MapTileArea.refineEdge c segmentIndex a RefineTask.RemoveSpikes allowedArea
            index).1 t
          = if t ∈ a.m_innerEdge.filter (fun cell => decide (MapTileArea.adjucent c a cell ≤ 1))
            then 0 else segmentIndex t := by
  have hf := spikes_fold (fun cell => decide (MapTileArea.adjucent c a cell ≤ 1)) a.m_innerEdge
    segmentIndex []
  simp only [decide_eq_true_eq, List.nil_append] at hf
  unfold MapTileArea.refineEdge
  simp only [reduceCtorEq, if_false, if_true]
  refine ⟨?_, ?_⟩
  · rw [hf.1]
  · intro t
    rw [hf.2 t]

theorem MapTileArea.makeEdgeFromInnerArea_innerEdge_iff (c : MapTileContainer)
    (a : MapTileArea) (t : FHPos) :
    t ∈ (MapTileArea.makeEdgeFromInnerArea c a).m_innerEdge
      ↔ t ∈ a.m_innerArea ∧ ∃ o ∈ neighbourOffsets a.m_diagonalGrowth,
          ¬ (c.hasTile (neighbour t o.1 o.2) = true ∧ neighbour t o.1 o.2 ∈ a.m_innerArea) := by
  have h := MapTileArea.removeNonInnerFromInnerEdge_innerEdge c
    { a with m_innerEdge := a.m_innerArea } t
  have hk : MapTileArea.isInnerCell c { a with m_innerEdge := a.m_innerArea } t = false
      ↔ ∃ o ∈ neighbourOffsets a.m_diagonalGrowth,
        ¬ (c.hasTile (neighbour t o.1 o.2) = true ∧ neighbour t o.1 o.2 ∈ a.m_innerArea) := by
    rw [← Bool.not_eq_true, MapTileArea.isInnerCell_iff]
    push_neg
    rfl
  unfold MapTileArea.makeEdgeFromInnerArea
  rw [h, hk]

theorem neighbourOffsets_orthogonal (diag : Bool) (o : Int × Int)
    (h : o ∈ neighbourOffsets false) : o ∈ neighbourOffsets diag := by
  cases diag
  · exact h
  · unfold neighbourOffsets at h ⊢
    simp only [Bool.false_eq_true, if_false, if_true, List.mem_cons, List.mem_singleton,
      List.mem_nil_iff, or_false] at h ⊢
    tauto

theorem MapTileArea.adjucent_le_one_edge (c : MapTileContainer) (a : MapTileArea) (t : FHPos)
    (h : MapTileArea.adjucent c a t ≤ 1) :
    ∃ o ∈ neighbourOffsets a.m_diagonalGrowth,
      ¬ (c.hasTile (neighbour t o.1 o.2) = true ∧ neighbour t o.1 o.2 ∈ a.m_innerArea) := by
  by_contra hcon
  push_neg at hcon
  have hall : ∀ o ∈ neighbourOffsets false,
      (c.hasTile (neighbour t o.1 o.2) && decide (neighbour t o.1 o.2 ∈ a.m_innerArea)) = true := by
    intro o ho
    have := hcon o (neighbourOffsets_orthogonal _ o ho)
    simp [this.1, this.2]
  rw [MapTileArea.adjucent_eq, List.countP_eq_length.2 hall] at h
  have : (neighbourOffsets false).length = 4 := rfl
  omega

/-- C39. `refineEdge` with the task `RemoveSpikes` returns `true` and leaves in
the area exactly the tiles of the area before the pass that are not tiles of
the stored inner edge with at most one of the four orthogonal neighbours in
that area; so it adds no tile, and when the stored inner edge is the edge of
the area, exactly the tiles with at least two such neighbours stay. Afterwards
the stored edges are those that `makeEdgeFromInnerArea` computes for the new
area: the inner edge holds the tiles of the new area with a neighbour position
(4 or 8, by the growth flag) off the grid or outside the new area, the outside
edge the neighbours of inner-edge tiles that are outside the new area. The
segment index of each removed tile is reset to 0. -/
theorem refineEdge_removeSpikes (c : MapTileContainer) (segmentIndex : FHPos → Nat)
    (a : MapTileArea) (allowedArea : MapTileRegion) (index : Nat) :
    ∃ (segmentIndex2 : FHPos → Nat) (area2 : MapTileArea),
      MapTileArea.refineEdge c segmentIndex a RefineTask.RemoveSpikes allowedArea index
          = (segmentIndex2, area2, true)
        ∧ (∀ t, t ∈ area2.m_innerArea
            ↔ t ∈ a.m_innerArea
              ∧ ¬ (t ∈ a.m_innerEdge
                ∧ (neighbourOffsets false).countP
                    (fun o => c.hasTile (neighbour t o.1 o.2)
                      && decide (neighbour t o.1 o.2 ∈ a.m_innerArea)) ≤ 1))
        ∧ area2
          = MapTileArea.makeEdgeFromInnerArea c { a with m_innerArea := area2.m_innerArea }
        ∧ (∀ t, t ∈ area2.m_innerEdge
            ↔ t ∈ area2.m_innerArea ∧ ∃ o ∈ neighbourOffsets a.m_diagonalGrowth,
                ¬ (c.hasTile (neighbour t o.1 o.2) = true
                  ∧ neighbour t o.1 o.2 ∈ area2.m_innerArea))
        ∧ (∀ t, t ∈ area2.m_outsideEdge
            ↔ t ∉ area2.m_innerArea ∧ ∃ e ∈ area2.m_innerEdge,
                t ∈ c.neighboursList a.m_diagonalGrowth e)
        ∧ (∀ t, segmentIndex2 t
            = if t ∈ a.m_innerEdge
                ∧ (neighbourOffsets false).countP
                    (fun o => c.hasTile (neighbour t o.1 o.2)
                      && decide (neighbour t o.1 o.2 ∈ a.m_innerArea)) ≤ 1
              then 0 else segmentIndex t)
        ∧ ((∀ t, t ∈ a.m_innerEdge ↔ t ∈ (MapTileArea.makeEdgeFromInnerArea c a).m_innerEdge) →
            ∀ t, t ∈ area2.m_innerArea
              ↔ t ∈ a.m_innerArea
                ∧ 2 ≤ (neighbourOffsets false).countP
                    (fun o => c.hasTile (neighbour t o.1 o.2)
                      && decide (neighbour t o.1 o.2 ∈ a.m_innerArea))) := by
  obtain ⟨h1, h2⟩ := MapTileArea.refineEdge_removeSpikes_eq c segmentIndex a allowedArea index
  have hmem : ∀ t, t ∈ MapTileRegion.eraseList a.m_innerArea
        (a.m_innerEdge.filter (fun cell => decide (MapTileArea.adjucent c a cell ≤ 1)))
      ↔ t ∈ a.m_innerArea
        ∧ ¬ (t ∈ a.m_innerEdge
          ∧ (neighbourOffsets false).countP
              (fun o => c.hasTile (neighbour t o.1 o.2)
                && decide (neighbour t o.1 o.2 ∈ a.m_innerArea)) ≤ 1) := by
    intro t
    rw [MapTileRegion.mem_eraseList, List.mem_filter, decide_eq_true_eq,
      MapTileArea.adjucent_eq]
  refine ⟨(MapTileArea.refineEdge c segmentIndex a RefineTask.RemoveSpikes allowedArea index).1,
    MapTileArea.makeEdgeFromInnerArea c
      { a with m_innerArea := (MapTileRegion.eraseList a.m_innerArea
          (a.m_innerEdge.filter (fun cell => decide (MapTileArea.adjucent c a cell ≤ 1)))) },
    ?_, hmem, rfl, ?_, ?_, ?_, ?_⟩
  · exact Prod.ext rfl h1
  · intro t
    exact MapTileArea.makeEdgeFromInnerArea_innerEdge_iff c _ t
  · intro t
    exact MapTileArea.makeEdgeFromInnerArea_outsideEdge c _ t
  · intro t
    have hiff : t ∈ a.m_innerEdge.filter (fun cell => decide (MapTileArea.adjucent c a cell ≤ 1))
        ↔ t ∈ a.m_innerEdge
          ∧ (neighbourOffsets false).countP
              (fun o => c.hasTile (neighbour t o.1 o.2)
                && decide (neighbour t o.1 o.2 ∈ a.m_innerArea)) ≤ 1 := by
      rw [List.mem_filter, decide_eq_true_eq, MapTileArea.adjucent_eq]
    rw [h2 t]
    by_cases h : t ∈ a.m_innerEdge
        ∧ (neighbourOffsets false).countP
            (fun o => c.hasTile (neighbour t o.1 o.2)
              && decide (neighbour t o.1 o.2 ∈ a.m_innerArea)) ≤ 1
    · rw [if_pos h, if_pos (hiff.2 h)]
    · rw [if_neg h, if_neg (fun h3 => h (hiff.1 h3))]
  · intro hfresh t
    have hm : t ∈ (MapTileArea.makeEdgeFromInnerArea c
        { a with m_innerArea := (MapTileRegion.eraseList a.m_innerArea
          (a.m_innerEdge.filter (fun cell =>
            decide (MapTileArea.adjucent c a cell ≤ 1)))) }).m_innerArea
        ↔ t ∈ MapTileRegion.eraseList a.m_innerArea
          (a.m_innerEdge.filter (fun cell => decide (MapTileArea.adjucent c a cell ≤ 1))) :=
      Iff.rfl
    rw [hm, hmem t]
    constructor
    · rintro ⟨hA, hn⟩
      refine ⟨hA, ?_⟩
      by_contra hlt
      have hle : MapTileArea.adjucent c a t ≤ 1 := by
        rw [MapTileArea.adjucent_eq]
        omega
      apply hn
      refine ⟨(hfresh t).2 ?_, by omega⟩
      exact (MapTileArea.makeEdgeFromInnerArea_innerEdge_iff c a t).2
        ⟨hA, MapTileArea.adjucent_le_one_edge c a t hle⟩
    · rintro ⟨hA, h2le⟩
      exact ⟨hA, fun h => by omega⟩

theorem refineEdge_removeSpikes_example :
    (MapTileArea.refineEdge { m_width := 3, m_height := 2, m_depth := 1 } (fun _ => 1)
        (MapTileArea.makeEdgeFromInnerArea { m_width := 3, m_height := 2, m_depth := 1 }
          { m_innerArea := [tileXY 0 0, tileXY 1 0, tileXY 2 0, tileXY 0 1, tileXY 1 1] })
        RefineTask.RemoveSpikes [] 1).2
      = ({ m_innerArea := [tileXY 0 0, tileXY 1 0, tileXY 0 1, tileXY 1 1]
           m_innerEdge := [tileXY 0 0, tileXY 1 0, tileXY 0 1, tileXY 1 1]
           m_outsideEdge := [tileXY 2 0, tileXY 2 1] }, true) := by
  decide

/-! ### Disabled objects of the map -/

theorem dataFind_dataAssign (l : List (Nat × Bool)) (p q : Nat) (v : Bool) :
    dataFind (dataAssign l p v) q = if p = q then some v else dataFind l q := by
  induction l with
  | nil =>
    unfold dataAssign
    simp only [dataFind]
  | cons e es ih =>
    obtain ⟨k, t⟩ := e
    unfold dataAssign
    by_cases hk : k = p
    · subst hk
      simp only [if_true, dataFind]
      split_ifs <;> rfl
    · simp only [hk, if_false]
      by_cases hlt : p < k
      · simp only [hlt, if_true, dataFind]
      · simp only [hlt, if_false, dataFind, ih]
        by_cases hkq : k = q
        · subst hkq
          have : ¬ p = k := fun h => hk h.symm
          simp [this]
        · simp [hkq]

theorem DisableConfig.setDisabled_other (library : Nat → LibraryFlags) (cfg : DisableConfig)
    (isWater isWater2 : Bool) (obj other : Nat) (state : Bool) (h : other ≠ obj) :
    (DisableConfig.setDisabled library cfg isWater (some obj) state).isDisabled library
        isWater2 other
      = cfg.isDisabled library isWater2 other := by
  have hne : ¬ obj = other := fun h2 => h h2.symm
  unfold DisableConfig.setDisabled DisableConfig.isDisabled
  simp only
  split_ifs <;> simp only [dataFind_dataAssign, hne, if_false]

theorem DisableConfig.setDisabled_fresh (library : Nat → LibraryFlags) (cfg : DisableConfig)
    (isWater : Bool) (obj : Nat) (state : Bool) (h : dataFind cfg.m_data obj = none) :
    (DisableConfig.setDisabled library cfg isWater (some obj) state).isDisabled library
        isWater obj
      = state := by
  unfold DisableConfig.setDisabled DisableConfig.isDisabled
  cases state <;> cases isWater <;> cases hw : (library obj).isWaterContent
    <;> cases he : (library obj).isEnabledByDefault
    <;> simp [dataFind_dataAssign, h, hw, he]

/-- C40, the code on a regular object that is enabled by default, on a map
without water. Disabling it in the empty configuration stores the entry
`true`; enabling it again returns early, because an entry `false` would be in
excess, and leaves the entry `true` in place: `isDisabled` still answers
`true` after `setDisabled(false, obj, false)`. Likewise for an object that is
disabled by default, enabled and then disabled again. -/
theorem setDisabled_keeps_stale_entry :
    DisableConfig.setDisabled (fun _ => { isWaterContent := false, isEnabledByDefault := true })
        {} false (some 7) true
      = { m_data := [(7, true)] }
    ∧ DisableConfig.setDisabled
        (fun _ => { isWaterContent := false, isEnabledByDefault := true })
        { m_data := [(7, true)] } false (some 7) false
      = { m_data := [(7, true)] }
    ∧ (DisableConfig.setDisabled
          (fun _ => { isWaterContent := false, isEnabledByDefault := true })
          { m_data := [(7, true)] } false (some 7) false).isDisabled
        (fun _ => { isWaterContent := false, isEnabledByDefault := true }) false 7
      = true
    ∧ DisableConfig.setDisabled
        (fun _ => { isWaterContent := false, isEnabledByDefault := false })
        {} false (some 7) false
      = { m_data := [(7, false)] }
    ∧ (DisableConfig.setDisabled
          (fun _ => { isWaterContent := false, isEnabledByDefault := false })
          { m_data := [(7, false)] } false (some 7) true).isDisabled
        (fun _ => { isWaterContent := false, isEnabledByDefault := false }) false 7
      = false := by
  decide

end FreeHeroes
